import Mathlib

/-!
# Trojita mailbox tree: a shallow embedding of `src/Imap/Model/MailboxTree.cpp`,
of `src/src/Imap/Network/MsgPartNetAccessManager.cpp`, of the tasks of
`src/src/Imap/Model/CreateMailboxTask.cpp` and `src/src/Imap/Tasks/AppendTask.cpp`,
and of the message view of `src/src/Gui/MessageView.cpp`

The C++ tree is a graph of heap objects linked by raw pointers (`_parent`,
`_children`).  It is embedded as an explicit heap: a pointer is a natural
number, the heap maps every pointer to a node record, and `next` is the
allocation frontier (`new` stores the fresh object at `next`).  Every method
takes the state and the receiver (`self`) and returns the new state together
with its result.  Calls into `Model` (`_askFor...`) are recorded in a request
log.  Exceptions and failed `Q_ASSERT`s are returned next to the state reached
when they were raised, because the C++ code does not roll anything back.

The class declarations (MailboxTree.h), the response and message types
(Response.h, Message.h), `Model` and the codecs are not among the sources.  The
fields and helpers that MailboxTree.cpp uses are reproduced from their uses
there; what had to be modelled says so in its comment.  `Q_ASSERT` is taken as
in a debug build: a failed assertion stops the method.

The network access manager of a message view works on the same heap: its
`message` field is a pointer into the tree, a URL is the record of its scheme,
host and path, and a reply is one of the three kinds of reply that
`createRequest` constructs.  Recursion along the tree (`partId`, `cidToPart`)
is bounded by fuel, and the theorems show that enough fuel gives the result.

The two tasks work on the state that the model keeps for every connection: the
active tasks and the tag map `commandMap`.  A task is the record of its members;
its methods take the model and the task and return both.  The handle that the
parser returns for a command is an argument of the method that issues the
command.  Commands, signals and the terminal transitions `_completed()` and
`_failed()` are recorded, in order, as calls.  The macros of `ImapTask.h` are
not among the sources and can leave the calling method, so the methods take them
as parameters, and a theorem says what it assumes of them.

The message view is the record of its current message, its viewer and its
manager.  What a method reads from the model, the settings and the widgets is an
argument (`ViewEnv`), and the calls it makes are recorded in order; a call of
the widget factory is recorded with the state of the manager through which the
factory loads.
-/

namespace Imap
namespace Mailbox

/-! ## Data model -/

/-- Fetch status of a node (`TreeItem::FetchingState`). -/
inductive FetchingState where
  | NONE
  | LOADING
  | DONE
  deriving DecidableEq, Repr, Inhabited

/-- Dynamic type of a heap object, as tested by `dynamic_cast`. -/
inductive Kind where
  | Mailbox
  | MsgList
  | Message
  | Part
  deriving DecidableEq, Repr, Inhabited

/-- A `TreeItem*`; the null pointer is `Option.none`. -/
abbrev Ptr := Nat

/-- A `QByteArray`, one character per byte. -/
abbrev QByteArray := List Char

/-- Mailbox metadata (`MailboxMetadata`): name, separator, flags. -/
structure MailboxMetadata where
  mailbox : String
  separator : String
  flags : List String
  deriving DecidableEq, Repr, Inhabited

/-- Message envelope (`Message::Envelope`); only the subject is inspected by the tree. -/
structure Envelope where
  date : String
  subject : String
  sender : String
  messageId : String
  deriving DecidableEq, Repr, Inhabited

/-- An untagged LIST response (`Responses::List`). -/
structure ListResponse where
  mailbox : String
  separator : String
  flags : List String
  deriving DecidableEq, Repr, Inhabited

/-- A heap object: the fields of `TreeItem` followed by those of its four subclasses. -/
structure TreeItem where
  kind : Kind
  parent : Option Ptr
  children : List Ptr
  fetchStatus : FetchingState
  metadata : MailboxMetadata
  envelope : Envelope
  size : Nat
  mimeType : String
  encoding : String
  bodyFldId : String
  data : QByteArray
  deriving DecidableEq, Repr, Inhabited

/-- A request handed to `Model` by one of the `fetch` overrides or by a rescan. -/
inductive Request where
  | askForChildrenOfMailbox (item : Ptr)
  | askForMessagesInMailbox (item : Ptr)
  | askForMsgMetadata (item : Ptr)
  | askForMsgPart (item : Ptr)
  | forgetChildMailboxes (mailbox : String)
  deriving DecidableEq, Repr

/-- What a method can raise: the two IMAP exceptions of the source, a failed `Q_ASSERT`
(or an out-of-range `QList` access, which Qt asserts), `std::bad_cast`, and a method call
through a null pointer (undefined behaviour in C++, in practice a crash). -/
inductive Exception where
  | UnexpectedResponseReceived
  | UnknownMessageIndex
  | AssertionFailed
  | BadCast
  | NullPointer
  deriving DecidableEq, Repr

deriving instance DecidableEq for Except

/-- The heap, its allocation frontier and the log of requests sent to `Model`. -/
structure State where
  heap : Ptr → TreeItem
  next : Nat
  requests : List Request

/-- The state before anything was allocated. -/
def State.empty : State :=
  { heap := fun _ => default, next := 0, requests := [] }

/-- Write through a pointer: replace the object at `p` by `f` of it. -/
def State.modify (s : State) (p : Ptr) (f : TreeItem → TreeItem) : State :=
  { s with heap := fun q => if q = p then f (s.heap q) else s.heap q }

/-- The `new` operator: store `t` at the frontier and return its address. -/
def State.alloc (s : State) (t : TreeItem) : State × Ptr :=
  ({ s with heap := fun q => if q = s.next then t else s.heap q, next := s.next + 1 }, s.next)

/-- Modelled from the spec: the `_askFor...` methods of `Model` and `forgetChildMailboxes` of
its cache, none of which is among the sources; dispatching a request is recorded by appending
it to the log. -/
def State.ask (s : State) (r : Request) : State :=
  { s with requests := s.requests ++ [r] }

/-- Modelled from the spec: `fetched()` of the header MailboxTree.h, which is not among the
sources; the status is `DONE`. -/
def TreeItem.fetched (t : TreeItem) : Bool :=
  decide (t.fetchStatus = FetchingState.DONE)

/-- Modelled from the spec: `loading()` of the header MailboxTree.h, which is not among the
sources; the status is `LOADING`. -/
def TreeItem.loading (t : TreeItem) : Bool :=
  decide (t.fetchStatus = FetchingState.LOADING)

/-- `dynamic_cast<T*>( p )` for a possibly null `p`: the pointer when the object has kind `k`. -/
def dynamicCast (s : State) (k : Kind) (p : Option Ptr) : Option Ptr :=
  match p with
  | none => none
  | some q => if (s.heap q).kind = k then some q else none

/-! ## Constructors -/

/-- `TreeItem::TreeItem( parent )`: no children, status `NONE`. -/
def TreeItem.init (kind : Kind) (parent : Option Ptr) : TreeItem :=
  { (default : TreeItem) with
    kind := kind, parent := parent, children := [], fetchStatus := FetchingState.NONE }

/-- `TreeItemMsgList::TreeItemMsgList( parent )`: born `DONE` when the parent mailbox has no
parent itself. -/
def TreeItemMsgList.create (s : State) (parent : Ptr) : State × Ptr :=
  let t := TreeItem.init Kind.MsgList (some parent)
  if ((s.heap parent).parent).isNone then
    s.alloc { t with fetchStatus := FetchingState.DONE }
  else
    s.alloc t

/-- `TreeItemMailbox::TreeItemMailbox( parent )`: the base constructor, then a fresh message
list is prepended to the children. -/
def TreeItemMailbox.create (s : State) (parent : Option Ptr) : State × Ptr :=
  let a := s.alloc (TreeItem.init Kind.Mailbox parent)
  let l := TreeItemMsgList.create a.1 a.2
  (l.1.modify a.2 (fun t => { t with children := l.2 :: t.children }), a.2)

/-- `QString::toUpper` on the characters of a flag (Qt is not among the sources; letters
outside ASCII are left as they are). -/
def toUpper (x : String) : String :=
  String.mk (x.data.map Char.toUpper)

/-- `QString::toLower` on the characters of a MIME type (Qt is not among the sources; letters
outside ASCII are left as they are). -/
def toLower (x : String) : String :=
  String.mk (x.data.map Char.toLower)

/-- `TreeItemMailbox::TreeItemMailbox( parent, response )`: name and separator are taken from
the LIST response, its flags are stored in upper case. -/
def TreeItemMailbox.createFromList (s : State) (parent : Option Ptr) (response : ListResponse) :
    State × Ptr :=
  let m : MailboxMetadata :=
    { mailbox := response.mailbox, separator := response.separator,
      flags := [] ++ response.flags.map toUpper }
  let a := s.alloc { TreeItem.init Kind.Mailbox parent with metadata := m }
  let l := TreeItemMsgList.create a.1 a.2
  (l.1.modify a.2 (fun t => { t with children := l.2 :: t.children }), a.2)

/-- `TreeItemMailbox::fromMetadata( parent, metadata )`. -/
def TreeItemMailbox.fromMetadata (s : State) (parent : Option Ptr) (metadata : MailboxMetadata) :
    State × Ptr :=
  let r := TreeItemMailbox.create s parent
  (r.1.modify r.2 (fun t => { t with metadata := metadata }), r.2)

/-- `TreeItemMessage::TreeItemMessage( parent )`. -/
def TreeItemMessage.create (s : State) (parent : Option Ptr) : State × Ptr :=
  s.alloc { TreeItem.init Kind.Message parent with size := 0 }

/-- `QString::startsWith`. -/
def startsWith (x p : String) : Bool :=
  p.data.isPrefixOf x.data

/-- `TreeItemPart::isTopLevelMultiPart`, evaluated on a node record: a multipart whose parent
is a message or a `message/*` part. -/
def isTopLevelMultiPartOf (s : State) (t : TreeItem) : Bool :=
  let msg := dynamicCast s Kind.Message t.parent
  let part := dynamicCast s Kind.Part t.parent
  startsWith t.mimeType "multipart/" &&
    (msg.isSome ||
      (match part with
       | none => false
       | some p => startsWith (s.heap p).mimeType "message/"))

/-- `TreeItemPart::isTopLevelMultiPart` on the object at `self`. -/
def TreeItemPart.isTopLevelMultiPart (s : State) (self : Ptr) : Bool :=
  isTopLevelMultiPartOf s (s.heap self)

/-- `TreeItemPart::TreeItemPart( parent, mimeType )`: the MIME type is stored in lower case
and a top-level multipart is born `DONE`. -/
def TreeItemPart.create (s : State) (parent : Option Ptr) (mimeType : String) : State × Ptr :=
  let t := { TreeItem.init Kind.Part parent with mimeType := toLower mimeType }
  if isTopLevelMultiPartOf s t then
    s.alloc { t with fetchStatus := FetchingState.DONE }
  else
    s.alloc t

/-! ## fetch -/

/-- Set `_fetchStatus` of the object at `self`. -/
def State.setStatus (s : State) (self : Ptr) (st : FetchingState) : State :=
  s.modify self (fun t => { t with fetchStatus := st })

/-- `TreeItemMailbox::fetch`. -/
def TreeItemMailbox.fetch (s : State) (self : Ptr) : State :=
  if (s.heap self).fetched then s
  else if !(s.heap self).loading then
    (s.ask (Request.askForChildrenOfMailbox self)).setStatus self FetchingState.LOADING
  else s

/-- `TreeItemMsgList::fetch`. -/
def TreeItemMsgList.fetch (s : State) (self : Ptr) : State :=
  if (s.heap self).fetched then s
  else if !(s.heap self).loading then
    (s.ask (Request.askForMessagesInMailbox self)).setStatus self FetchingState.LOADING
  else s

/-- `TreeItemMessage::fetch`. -/
def TreeItemMessage.fetch (s : State) (self : Ptr) : State :=
  if (s.heap self).fetched || (s.heap self).loading then s
  else (s.ask (Request.askForMsgMetadata self)).setStatus self FetchingState.LOADING

/-- `TreeItemPart::fetch`. -/
def TreeItemPart.fetch (s : State) (self : Ptr) : State :=
  if (s.heap self).fetched || (s.heap self).loading then s
  else (s.ask (Request.askForMsgPart self)).setStatus self FetchingState.LOADING

/-- The virtual call `item->fetch( model )`. -/
def fetch (s : State) (self : Ptr) : State :=
  match (s.heap self).kind with
  | Kind.Mailbox => TreeItemMailbox.fetch s self
  | Kind.MsgList => TreeItemMsgList.fetch s self
  | Kind.Message => TreeItemMessage.fetch s self
  | Kind.Part => TreeItemPart.fetch s self

/-! ## Children -/

/-- `QList::operator[]` guarded by the bounds test of `TreeItem::child`. -/
def childAt (l : List Ptr) (offset : Int) : Option Ptr :=
  if 0 ≤ offset ∧ offset < (l.length : Int) then l.get? offset.toNat else none

/-- `TreeItem::child`: fetch, then the bounds-checked access. -/
def TreeItem.child (s : State) (self : Ptr) (offset : Int) : State × Option Ptr :=
  let s1 := fetch s self
  (s1, childAt (s1.heap self).children offset)

/-- `TreeItemPart::child`: the bounds-checked access without a fetch. -/
def TreeItemPart.child (s : State) (self : Ptr) (offset : Int) : State × Option Ptr :=
  (s, childAt (s.heap self).children offset)

/-- `TreeItemMailbox::child`: offset 0 reads `_children[ 0 ]` directly, without a fetch. -/
def TreeItemMailbox.child (s : State) (self : Ptr) (offset : Int) :
    State × Except Exception (Option Ptr) :=
  if offset = 0 then
    match (s.heap self).children with
    | [] => (s, Except.error Exception.AssertionFailed)
    | c :: _ => (s, Except.ok (some c))
  else
    let r := TreeItem.child s self offset
    (r.1, Except.ok r.2)

/-- The virtual call `item->child( offset, model )`. -/
def child (s : State) (self : Ptr) (offset : Int) : State × Except Exception (Option Ptr) :=
  match (s.heap self).kind with
  | Kind.Mailbox => TreeItemMailbox.child s self offset
  | Kind.Part => let r := TreeItemPart.child s self offset; (r.1, Except.ok r.2)
  | _ => let r := TreeItem.child s self offset; (r.1, Except.ok r.2)

/-- `TreeItem::setChildren`: replace the children, mark `DONE`, return the old list. -/
def TreeItem.setChildren (s : State) (self : Ptr) (items : List Ptr) : State × List Ptr :=
  let res := (s.heap self).children
  (s.modify self (fun t => { t with children := items, fetchStatus := FetchingState.DONE }), res)

/-- `TreeItemPart::setChildren`: as the base method, but the status is restored. -/
def TreeItemPart.setChildren (s : State) (self : Ptr) (items : List Ptr) : State × List Ptr :=
  let fetchStatus := (s.heap self).fetchStatus
  let r := TreeItem.setChildren s self items
  (r.1.setStatus self fetchStatus, r.2)

/-- `TreeItemMailbox::setChildren`: child 0 is taken out, the rest is replaced through the
base method, child 0 is put back in front, and for a `\NOSELECT` mailbox its status is forced
to `DONE`. -/
def TreeItemMailbox.setChildren (s : State) (self : Ptr) (items : List Ptr) :
    State × Except Exception (List Ptr) :=
  match (s.heap self).children with
  | [] => (s, Except.error Exception.AssertionFailed)
  | c :: _ =>
    match dynamicCast s Kind.MsgList (some c) with
    | none => (s, Except.error Exception.AssertionFailed)
    | some msgList =>
      let s1 := s.modify self (fun t => { t with children := t.children.tail })
      let r := TreeItem.setChildren s1 self items
      let s2 := r.1.modify self (fun t => { t with children := msgList :: t.children })
      let s3 :=
        if "\\NOSELECT" ∈ (s2.heap self).metadata.flags then
          s2.setStatus msgList FetchingState.DONE
        else s2
      (s3, Except.ok r.2)

/-- The virtual call `item->setChildren( items )`. -/
def setChildren (s : State) (self : Ptr) (items : List Ptr) :
    State × Except Exception (List Ptr) :=
  match (s.heap self).kind with
  | Kind.Mailbox => TreeItemMailbox.setChildren s self items
  | Kind.Part => let r := TreeItemPart.setChildren s self items; (r.1, Except.ok r.2)
  | _ => let r := TreeItem.setChildren s self items; (r.1, Except.ok r.2)

/-- `TreeItem::childrenCount`: fetch, then the current size. -/
def TreeItem.childrenCount (s : State) (self : Ptr) : State × Nat :=
  let s1 := fetch s self
  (s1, (s1.heap self).children.length)

/-- `TreeItemPart::childrenCount`: the current size, without a fetch. -/
def TreeItemPart.childrenCount (s : State) (self : Ptr) : State × Nat :=
  (s, (s.heap self).children.length)

/-- The virtual call `item->childrenCount( model )`. -/
def childrenCount (s : State) (self : Ptr) : State × Nat :=
  match (s.heap self).kind with
  | Kind.Part => TreeItemPart.childrenCount s self
  | _ => TreeItem.childrenCount s self

/-- The virtual call `item->rowCount( model )`: the mailbox and message overrides fetch and
return the size, the message list defers to `childrenCount`, a part does not fetch. -/
def rowCount (s : State) (self : Ptr) : State × Nat :=
  match (s.heap self).kind with
  | Kind.Mailbox => let s1 := fetch s self; (s1, (s1.heap self).children.length)
  | Kind.MsgList => childrenCount s self
  | Kind.Message => let s1 := fetch s self; (s1, (s1.heap self).children.length)
  | Kind.Part => (s, (s.heap self).children.length)

/-- `TreeItemMailbox::hasChildMailboxes`. -/
def TreeItemMailbox.hasChildMailboxes (s : State) (self : Ptr) : State × Bool :=
  let flags := (s.heap self).metadata.flags
  if (s.heap self).fetched then
    (s, decide ((s.heap self).children.length > 1))
  else if "\\NOINFERIORS" ∈ flags ∨ "\\HASNOCHILDREN" ∈ flags then
    (s, false)
  else if "\\HASCHILDREN" ∈ flags then
    (s, true)
  else
    let s1 := TreeItemMailbox.fetch s self
    (s1, decide ((s1.heap self).children.length > 1))

/-- `TreeItemMailbox::rescanForChildMailboxes`. -/
def TreeItemMailbox.rescanForChildMailboxes (s : State) (self : Ptr) : State :=
  let s1 := s.ask (Request.forgetChildMailboxes (s.heap self).metadata.mailbox)
  let s2 := s1.ask (Request.askForChildrenOfMailbox self)
  TreeItemMailbox.fetch s2 self

/-- `QList::indexOf`: the first position of `x`, or -1. -/
def indexOf (l : List Ptr) (x : Ptr) : Int :=
  match l with
  | [] => -1
  | y :: ys => if y = x then 0 else
      let r := indexOf ys x
      if r < 0 then -1 else r + 1

/-- `TreeItem::row`: the position in the parent's child list, 0 without a parent. -/
def TreeItem.row (s : State) (self : Ptr) : Int :=
  match (s.heap self).parent with
  | none => 0
  | some p => indexOf (s.heap p).children self

/-- `QString::number` of an `int`. -/
def number (i : Int) : String :=
  toString i

/-- `TreeItemPart::partId`.  The C++ method recurses along the parent pointers; `fuel` bounds
the depth of that recursion.  The outer `none` is returned when the fuel runs out or when the
method would dereference a parent that is not a part; the inner `none` is `QString::null`. -/
def TreeItemPart.partId (s : State) : Nat → Ptr → Option (Option String)
  | 0, _ => none
  | fuel + 1, self =>
    if TreeItemPart.isTopLevelMultiPart s self then
      match dynamicCast s Kind.Part (s.heap self).parent with
      | some part => TreeItemPart.partId s fuel part
      | none => some none
    else if (dynamicCast s Kind.Message (s.heap self).parent).isSome then
      some (some (number (TreeItem.row s self + 1)))
    else
      match dynamicCast s Kind.Part (s.heap self).parent with
      | none => none
      | some part =>
        match TreeItemPart.partId s fuel part with
        | none => none
        | some none => some (some (number (TreeItem.row s self + 1)))
        | some (some parentId) =>
          some (some (parentId ++ "." ++ number (TreeItem.row s self + 1)))

/-- Item data roles of Qt that the tree distinguishes. -/
inductive Role where
  | DisplayRole
  | ToolTipRole
  | other
  deriving DecidableEq, Repr

/-- A `QVariant` as returned by `data`: invalid, a string, or the envelope rendered as text
(the stream operator that renders it is not among the sources). -/
inductive QVariant where
  | invalid
  | string (x : String)
  | envelopeText (e : Envelope)
  deriving DecidableEq, Repr

/-- `TreeItemMessage::data`. -/
def TreeItemMessage.data (s : State) (self : Ptr) (role : Role) : State × QVariant :=
  if ((s.heap self).parent).isNone then (s, QVariant.invalid)
  else
    let s1 := TreeItemMessage.fetch s self
    match role with
    | Role.DisplayRole =>
      if (s1.heap self).loading then (s1, QVariant.string "[loading...]")
      else (s1, QVariant.string (s1.heap self).envelope.subject)
    | Role.ToolTipRole =>
      if !(s1.heap self).loading then (s1, QVariant.envelopeText (s1.heap self).envelope)
      else (s1, QVariant.invalid)
    | Role.other => (s1, QVariant.invalid)

/-! ## Library functions used by the FETCH handler -/

/-- `QString::split( sep )` with empty parts kept. -/
def splitChars (sep : Char) : List Char → List (List Char)
  | [] => [[]]
  | c :: cs =>
    if c = sep then [] :: splitChars sep cs
    else
      match splitChars sep cs with
      | [] => [[c]]
      | w :: ws => (c :: w) :: ws

/-- Modelled from the spec: `QString::toUInt( &ok )` of Qt, which is not among the sources;
a non-empty run of decimal digits whose value fits 32 bits converts, anything else does not
(`ok` false is `none`). -/
def toUInt (x : List Char) : Option Nat :=
  if x = [] then none
  else if x.all Char.isDigit then
    let v := x.foldl (fun a c => 10 * a + (c.toNat - 48)) 0
    if v < 4294967296 then some v else none
  else none

/-- Conversion of an `unsigned int` to `int` (two's complement, 32 bits). -/
def uintToInt (u : Nat) : Int :=
  if u % 4294967296 < 2147483648 then ((u % 4294967296 : Nat) : Int)
  else ((u % 4294967296 : Nat) : Int) - 4294967296

/-- The `unsigned int` subtraction `u - 1`, wrapping at 0. -/
def uintPred (u : Nat) : Nat :=
  (4294967295 + u) % 4294967296

/-- `QString::mid( pos, n )` for `n ≥ 0`. -/
def mid (x : String) (pos n : Nat) : String :=
  String.mk ((x.data.drop pos).take n)

/-- Modelled from the spec: value of a hexadecimal digit of a quoted-printable escape (upper
case, as RFC 2045 prescribes); part of the model of `KCodecs::quotedPrintableDecode`. -/
def hexDigit (c : Char) : Option Nat :=
  if '0' ≤ c ∧ c ≤ '9' then some (c.toNat - 48)
  else if 'A' ≤ c ∧ c ≤ 'F' then some (c.toNat - 55)
  else none

/-- Modelled from the spec: the decoding loop of `KCodecs::quotedPrintableDecode`; `skip`
counts input bytes already consumed by an escape or a soft line break. -/
def quotedPrintableDecodeAux : Nat → QByteArray → QByteArray
  | _, [] => []
  | skip + 1, _ :: rest => quotedPrintableDecodeAux skip rest
  | 0, c :: rest =>
    if c = '=' then
      match rest with
      | c1 :: c2 :: _ =>
        if c1 = '\n' then quotedPrintableDecodeAux 1 rest
        else if c1 = '\r' ∧ c2 = '\n' then quotedPrintableDecodeAux 2 rest
        else
          match hexDigit c1, hexDigit c2 with
          | some a, some b => Char.ofNat (16 * a + b) :: quotedPrintableDecodeAux 2 rest
          | _, _ => quotedPrintableDecodeAux 0 rest
      | _ => quotedPrintableDecodeAux 0 rest
    else c :: quotedPrintableDecodeAux 0 rest

/-- Modelled from the spec: `KCodecs::quotedPrintableDecode`, which is not among the sources;
quoted-printable decoding after RFC 2045: `=XY` with two hexadecimal digits is the byte with
that code, `=` before a line break is a soft line break and is dropped with it, every other
byte stands for itself. -/
def quotedPrintableDecode (d : QByteArray) : QByteArray :=
  quotedPrintableDecodeAux 0 d

/-- Modelled from the spec: value of a character of the base64 alphabet; part of the model of
`QByteArray::fromBase64`. -/
def base64Digit (c : Char) : Option Nat :=
  if 'A' ≤ c ∧ c ≤ 'Z' then some (c.toNat - 65)
  else if 'a' ≤ c ∧ c ≤ 'z' then some (c.toNat - 97 + 26)
  else if '0' ≤ c ∧ c ≤ '9' then some (c.toNat - 48 + 52)
  else if c = '+' then some 62
  else if c = '/' then some 63
  else none

/-- Modelled from the spec: the decoding loop of `QByteArray::fromBase64`; `buf` holds `nbits`
pending bits; characters outside the alphabet (padding included) are skipped. -/
def fromBase64Aux : QByteArray → Nat → Nat → QByteArray
  | [], _, _ => []
  | c :: rest, buf, nbits =>
    match base64Digit c with
    | none => fromBase64Aux rest buf nbits
    | some d =>
      let buf1 := buf * 64 + d
      let nbits1 := nbits + 6
      if nbits1 ≥ 8 then
        Char.ofNat (buf1 / 2 ^ (nbits1 - 8)) :: fromBase64Aux rest (buf1 % 2 ^ (nbits1 - 8)) (nbits1 - 8)
      else fromBase64Aux rest buf1 nbits1

/-- Modelled from the spec: `QByteArray::fromBase64` of Qt, which is not among the sources;
base64 decoding after RFC 2045. -/
def fromBase64 (d : QByteArray) : QByteArray :=
  fromBase64Aux d 0 0

/-! ## The FETCH handler -/

/-- Modelled from the spec: a parsed BODYSTRUCTURE (`Message::AbstractMessage`, declared in
Message.h, which is not among the sources): the MIME type, transfer encoding and body field
id of a part, and the structures of the parts nested in it. -/
inductive AbstractMessage where
  | mk (mimeType encoding bodyFldId : String) (bodies : List AbstractMessage)

/-- Modelled from the spec: a value of a FETCH response item (`Responses::AbstractData` and
its subclasses, declared in Response.h, which is not among the sources), one constructor for
each type the handler casts to. -/
inductive AbstractData where
  | envelope (e : Envelope)
  | bodyStructure (b : AbstractMessage)
  | uint (n : Nat)
  | byteArray (d : QByteArray)
  | other

/-- Modelled from the spec: an untagged FETCH response (`Responses::Fetch`, declared in
Response.h, which is not among the sources): the sequence number, an `unsigned int`, and the
items in the order in which the handler iterates over them. -/
structure FetchResponse where
  number : Nat
  data : List (String × AbstractData)

mutual
/-- Modelled from the spec: `AbstractMessage::createTreeItems( parent )`, which is not among
the sources; it constructs the MIME tree: one part under `parent` for the structure, built
by the `TreeItemPart` constructor, with the parts of the nested structures as its children
(attached with `setChildren`) and with the encoding and body field id stored in it. -/
def createTreeItems : AbstractMessage → State → Ptr → State × List Ptr
  | AbstractMessage.mk mimeType encoding bodyFldId bodies, s, parent =>
    let p := TreeItemPart.create s (some parent) mimeType
    let c := createTreeItemsList bodies p.1 p.2
    let r := TreeItemPart.setChildren c.1 p.2 c.2
    (r.1.modify p.2 (fun t => { t with encoding := encoding, bodyFldId := bodyFldId }), [p.2])
/-- Modelled from the spec: `createTreeItems` for each structure of a list, in order, all
under the same parent. -/
def createTreeItemsList : List AbstractMessage → State → Ptr → State × List Ptr
  | [], s, _ => (s, [])
  | b :: bs, s, parent =>
    let r1 := createTreeItems b s parent
    let r2 := createTreeItemsList bs r1.1 parent
    (r2.1, r1.2 ++ r2.2)
end

/-- The step of `partIdToPtr` that looks through a top-level multipart: when child 0 of
`item` (passed as `c0`) is a part and a top-level multipart, the walk continues from it,
otherwise from `item`. -/
def throughTopLevelMultiPart (s : State) (item : Ptr) (c0 : Option Ptr) : Ptr :=
  match dynamicCast s Kind.Part c0 with
  | some part => if TreeItemPart.isTopLevelMultiPart s part then part else item
  | none => item

/-- The loop of `TreeItemMailbox::partIdToPtr` over the segments of the part id. -/
def partIdToPtrLoop : List (List Char) → State → Ptr → State × Except Exception Ptr
  | [], s, item => (s, Except.ok item)
  | seg :: segs, s, item =>
    match toUInt seg with
    | none => (s, Except.error Exception.UnknownMessageIndex)
    | some n =>
      match child s item 0 with
      | (s1, Except.error e) => (s1, Except.error e)
      | (s1, Except.ok c0) =>
        match child s1 (throughTopLevelMultiPart s1 item c0) (uintToInt (uintPred n)) with
        | (s2, Except.error e) => (s2, Except.error e)
        | (s2, Except.ok none) => (s2, Except.error Exception.UnknownMessageIndex)
        | (s2, Except.ok (some next)) => partIdToPtrLoop segs s2 next

/-- `TreeItemMailbox::partIdToPtr`.  It returns a part or throws, never a null pointer. -/
def TreeItemMailbox.partIdToPtr (s : State) (self : Ptr) (msgNumber : Int) (msgId : String) :
    State × Except Exception Ptr :=
  match (s.heap self).children with
  | [] => (s, Except.error Exception.AssertionFailed)
  | list :: _ =>
    if !(s.heap list).fetched then (s, Except.error Exception.AssertionFailed)
    else
      match Imap.Mailbox.child s list (msgNumber - 1) with
      | (s1, Except.error e) => (s1, Except.error e)
      | (s1, Except.ok none) => (s1, Except.error Exception.AssertionFailed)
      | (s1, Except.ok (some item)) =>
        match partIdToPtrLoop (splitChars '.' msgId.data) s1 item with
        | (s2, Except.error e) => (s2, Except.error e)
        | (s2, Except.ok last) =>
          match dynamicCast s2 Kind.Part (some last) with
          | none => (s2, Except.error Exception.UnknownMessageIndex)
          | some part => (s2, Except.ok part)

/-- The bytes stored for a part: decoded after the part's transfer encoding. -/
def decodeBody (encoding : String) (data : QByteArray) : QByteArray :=
  if encoding = "quoted-printable" then quotedPrintableDecode data
  else if encoding = "base64" then fromBase64 data
  else if encoding = "7bit" ∨ encoding = "8bit" ∨ encoding = "binary" then data
  else data

/-- The body of the loop of `TreeItemMailbox::handleFetchResponse`: one item of the response,
for the message found before the loop.  `changedPart` is the out-parameter. -/
def handleFetchItem (s : State) (self message : Ptr) (response : FetchResponse)
    (key : String) (value : AbstractData) (changedPart : Option Ptr) :
    State × Except Exception (Option Ptr) :=
  if key = "ENVELOPE" then
    match value with
    | AbstractData.envelope e =>
      (s.modify message (fun t => { t with envelope := e, fetchStatus := FetchingState.DONE }),
        Except.ok changedPart)
    | _ => (s, Except.error Exception.BadCast)
  else if key = "BODYSTRUCTURE" then
    if (s.heap message).fetched then (s, Except.ok changedPart)
    else
      match value with
      | AbstractData.bodyStructure b =>
        let c := createTreeItems b s message
        let r := TreeItem.setChildren c.1 message c.2
        if r.2.length = 0 then (r.1, Except.ok changedPart)
        else (r.1, Except.error Exception.AssertionFailed)
      | _ => (s, Except.error Exception.BadCast)
  else if key = "RFC822.SIZE" then
    match value with
    | AbstractData.uint n => (s.modify message (fun t => { t with size := n }), Except.ok changedPart)
    | _ => (s, Except.error Exception.BadCast)
  else if startsWith key "BODY[" then
    if key.data.getLast? ≠ some ']' then (s, Except.error Exception.UnknownMessageIndex)
    else
      match TreeItemMailbox.partIdToPtr s self (uintToInt response.number)
          (mid key 5 (key.length - 6)) with
      | (s1, Except.error e) => (s1, Except.error e)
      | (s1, Except.ok part) =>
        match value with
        | AbstractData.byteArray data =>
          (s1.modify part (fun t =>
              { t with data := decodeBody (s1.heap part).encoding data,
                       fetchStatus := FetchingState.DONE }),
            Except.ok (some part))
        | _ => (s1, Except.error Exception.BadCast)
  else (s, Except.ok changedPart)

/-- The loop of `TreeItemMailbox::handleFetchResponse` over the items of the response. -/
def handleFetchItems (self message : Ptr) (response : FetchResponse) :
    List (String × AbstractData) → State → Option Ptr → State × Except Exception (Option Ptr)
  | [], s, changedPart => (s, Except.ok changedPart)
  | kv :: rest, s, changedPart =>
    match handleFetchItem s self message response kv.1 kv.2 changedPart with
    | (s1, Except.error e) => (s1, Except.error e)
    | (s1, Except.ok cp) => handleFetchItems self message response rest s1 cp

/-- `TreeItemMailbox::handleFetchResponse`.  The result is the state reached, and either the
exception raised or the value left in `*changedPart`. -/
def TreeItemMailbox.handleFetchResponse (s : State) (self : Ptr) (response : FetchResponse) :
    State × Except Exception (Option Ptr) :=
  match (s.heap self).children with
  | [] => (s, Except.error Exception.AssertionFailed)
  | c :: _ =>
    match dynamicCast s Kind.MsgList (some c) with
    | none => (s, Except.error Exception.AssertionFailed)
    | some list =>
      if !(s.heap list).fetched then (s, Except.error Exception.UnexpectedResponseReceived)
      else
        let n := uintToInt (uintPred response.number)
        if n < 0 ∨ n ≥ ((s.heap list).children.length : Int) then
          (s, Except.error Exception.UnknownMessageIndex)
        else
          let r := TreeItem.child s list n
          match dynamicCast r.1 Kind.Message r.2 with
          | none => (r.1, Except.error Exception.AssertionFailed)
          | some message => handleFetchItems self message response response.data r.1 none

/-! ## Reachable states and the predicates used in the statements -/

/-- The tree states reachable through the tree's operations: from the empty heap, by the
constructors and by the methods called on an allocated object of the class that has them. -/
inductive Reachable : State → Prop where
  | empty : Reachable State.empty
  | mailbox (s : State) (parent : Option Ptr) :
      Reachable s → Reachable (TreeItemMailbox.create s parent).1
  | mailboxFromList (s : State) (parent : Option Ptr) (response : ListResponse) :
      Reachable s → Reachable (TreeItemMailbox.createFromList s parent response).1
  | mailboxFromMetadata (s : State) (parent : Option Ptr) (metadata : MailboxMetadata) :
      Reachable s → Reachable (TreeItemMailbox.fromMetadata s parent metadata).1
  | message (s : State) (parent : Option Ptr) :
      Reachable s → Reachable (TreeItemMessage.create s parent).1
  | part (s : State) (parent : Option Ptr) (mimeType : String) :
      Reachable s → Reachable (TreeItemPart.create s parent mimeType).1
  | setChildren (s : State) (self : Nat) (items : List Ptr) :
      Reachable s → self < s.next → Reachable (setChildren s self items).1
  | fetch (s : State) (self : Nat) :
      Reachable s → self < s.next → Reachable (fetch s self)
  | child (s : State) (self : Nat) (offset : Int) :
      Reachable s → self < s.next → Reachable (child s self offset).1
  | childrenCount (s : State) (self : Nat) :
      Reachable s → self < s.next → Reachable (childrenCount s self).1
  | rowCount (s : State) (self : Nat) :
      Reachable s → self < s.next → Reachable (rowCount s self).1
  | hasChildMailboxes (s : State) (self : Nat) :
      Reachable s → self < s.next → (s.heap self).kind = Kind.Mailbox →
      Reachable (TreeItemMailbox.hasChildMailboxes s self).1
  | rescanForChildMailboxes (s : State) (self : Nat) :
      Reachable s → self < s.next → (s.heap self).kind = Kind.Mailbox →
      Reachable (TreeItemMailbox.rescanForChildMailboxes s self)
  | messageData (s : State) (self : Nat) (role : Role) :
      Reachable s → self < s.next → (s.heap self).kind = Kind.Message →
      Reachable (TreeItemMessage.data s self role).1
  | handleFetchResponse (s : State) (self : Nat) (response : FetchResponse) :
      Reachable s → self < s.next → (s.heap self).kind = Kind.Mailbox →
      Reachable (TreeItemMailbox.handleFetchResponse s self response).1

/-- A sequence of `setChildren` calls on the object `self`, one per list of `calls`; `none`
when one of the calls fails. -/
def setChildrenSeq (self : Ptr) : List (List Ptr) → State → Option State
  | [], s => some s
  | items :: rest, s =>
    match setChildren s self items with
    | (s1, Except.ok _) => setChildrenSeq self rest s1
    | (_, Except.error _) => none

/-- For a freshly constructed mailbox `c.2` in the state `c.1`: its only child is a message
list, and after the sequence `calls` of `setChildren` calls on it, none of which fails, that
same message list is still child 0: the head of the children and what `child( 0 )` returns,
and the mailbox has at least one child and row. -/
def Child0IsMsgListAfter (c : State × Ptr) (calls : List (List Ptr)) : Prop :=
  ∃ (msgList : Ptr) (s' : State),
    (c.1.heap c.2).kind = Kind.Mailbox ∧
    (c.1.heap c.2).children = [msgList] ∧
    (c.1.heap msgList).kind = Kind.MsgList ∧
    setChildrenSeq c.2 calls c.1 = some s' ∧
    (s'.heap c.2).children.head? = some msgList ∧
    (s'.heap msgList).kind = Kind.MsgList ∧
    child s' c.2 0 = (s', Except.ok (some msgList)) ∧
    1 ≤ (s'.heap c.2).children.length ∧
    1 ≤ (rowCount s' c.2).2

/-- Every previous child is in the returned list or still a child, never both and never
neither. -/
def EachInExactlyOnePlace (previous returned now : List Ptr) : Prop :=
  ∀ c ∈ previous, (c ∈ returned ∧ c ∉ now) ∨ (c ∉ returned ∧ c ∈ now)

/-- The request that the `fetch` of each node variant dispatches. -/
def requestOf (k : Kind) (self : Ptr) : Request :=
  match k with
  | Kind.Mailbox => Request.askForChildrenOfMailbox self
  | Kind.MsgList => Request.askForMessagesInMailbox self
  | Kind.Message => Request.askForMsgMetadata self
  | Kind.Part => Request.askForMsgPart self

/-- The handler fails with `UnknownMessageIndex` exactly when the sequence number is not a
valid 1-based index into the children of `list`. -/
def FailsExactlyOnBadIndex (s : State) (self list : Ptr) (response : FetchResponse) : Prop :=
  (TreeItemMailbox.handleFetchResponse s self response).2 =
      Except.error Exception.UnknownMessageIndex ↔
    (response.number < 1 ∨ (s.heap list).children.length < response.number)

/-- The effect of fetches alone: against `s`, the state `t` has the same allocation frontier
and every node is either untouched or went from `NONE` to `LOADING`. -/
def FetchOnly (s t : State) : Prop :=
  t.next = s.next ∧
    ∀ q, t.heap q = s.heap q ∨
      ((s.heap q).fetchStatus = FetchingState.NONE ∧
        t.heap q = { s.heap q with fetchStatus := FetchingState.LOADING })

/-- Every message that has children is `DONE`. -/
def MessagesWithChildrenDone (s : State) : Prop :=
  ∀ p, (s.heap p).kind = Kind.Message → (s.heap p).children ≠ [] →
    (s.heap p).fetchStatus = FetchingState.DONE

/-- The tree is typed as the C++ classes intend: every child of an allocated node is
allocated, the children of a message list are messages, and the children of a message or of
a part are parts. -/
def WellTyped (s : State) : Prop :=
  ∀ p : Nat, p < s.next → ∀ c : Nat, c ∈ (s.heap p).children →
    c < s.next ∧
    ((s.heap p).kind = Kind.MsgList → (s.heap c).kind = Kind.Message) ∧
    ((s.heap p).kind = Kind.Message ∨ (s.heap p).kind = Kind.Part →
      (s.heap c).kind = Kind.Part)

/-- What the FETCH handler may have done when it has taken the state `s` to the state `t`
while working on `message`: the tree is still well typed, nothing was deallocated, the old
objects kept their kinds and parents, and every old object other than `message` that is not
a part is as it was. -/
def HandlerFrame (s : State) (message : Ptr) (t : State) : Prop :=
  WellTyped t ∧ s.next ≤ t.next ∧
  (∀ q : Nat, q < s.next →
    (t.heap q).kind = (s.heap q).kind ∧ (t.heap q).parent = (s.heap q).parent) ∧
  (∀ q : Nat, q < s.next → q ≠ message → (s.heap q).kind ≠ Kind.Part → t.heap q = s.heap q)

/-! ## Example states -/

namespace Example

/-- The root mailbox (object 0, message list 1), the mailbox INBOX under it (object 2,
message list 3) and three messages (objects 4, 5, 6) attached to the message list of INBOX
with `setChildren`, which marks the list `DONE`. -/
def synced : State :=
  let r := TreeItemMailbox.create State.empty none
  let m := TreeItemMailbox.createFromList r.1 (some r.2)
    { mailbox := "INBOX", separator := "/", flags := [] }
  let a := TreeItemMessage.create m.1 (some 3)
  let b := TreeItemMessage.create a.1 (some 3)
  let c := TreeItemMessage.create b.1 (some 3)
  (setChildren c.1 3 [4, 5, 6]).1

/-- An envelope with subject `Hi`. -/
def hi : Envelope :=
  { date := "", subject := "Hi", sender := "", messageId := "" }

/-- A multipart/mixed body with a quoted-printable text part and a base64 image. -/
def mixed : AbstractMessage :=
  AbstractMessage.mk "multipart/mixed" "" ""
    [AbstractMessage.mk "text/plain" "quoted-printable" "" [],
     AbstractMessage.mk "image/png" "base64" "<a@x>" []]

/-- The state `synced` after `* 1 FETCH (BODYSTRUCTURE ...)` with the body `mixed`: message 4
has the multipart 7 as its child, whose children are the parts 8 and 9. -/
def structured : State :=
  (TreeItemMailbox.handleFetchResponse synced 2
    { number := 1, data := [("BODYSTRUCTURE", AbstractData.bodyStructure mixed)] }).1

/-- The state `synced` after `* 1 FETCH (ENVELOPE ...)`: message 4 is `DONE` and has no
children. -/
def enveloped : State :=
  (TreeItemMailbox.handleFetchResponse synced 2
    { number := 1, data := [("ENVELOPE", AbstractData.envelope hi)] }).1

/-- A multipart/mixed body whose second part is a message/rfc822 part that holds a
multipart/alternative body. -/
def forwarded : AbstractMessage :=
  AbstractMessage.mk "multipart/mixed" "" ""
    [AbstractMessage.mk "text/plain" "7bit" "" [],
     AbstractMessage.mk "message/rfc822" "7bit" ""
       [AbstractMessage.mk "multipart/alternative" "" ""
         [AbstractMessage.mk "text/plain" "7bit" "" [],
          AbstractMessage.mk "text/html" "quoted-printable" "" []]]]

/-- The state `structured` after `* 2 FETCH (BODYSTRUCTURE ...)` with the body `forwarded`
and `* 3 FETCH (BODYSTRUCTURE ...)` with a single text/plain part: message 5 has the
multipart 10 as its child, whose children are the text part 11 and the message/rfc822 part
12; the only child of 12 is the multipart 13 with the parts 14 and 15; message 6 has the
text part 16 as its child. -/
def nested : State :=
  (TreeItemMailbox.handleFetchResponse
    (TreeItemMailbox.handleFetchResponse structured 2
      { number := 2, data := [("BODYSTRUCTURE", AbstractData.bodyStructure forwarded)] }).1 2
    { number := 3,
      data := [("BODYSTRUCTURE",
        AbstractData.bodyStructure (AbstractMessage.mk "text/plain" "7bit" "" []))] }).1

end Example

namespace Example

/-- The root mailbox (object 0, message list 1) and under it a mailbox that the server lists
with the flag `\Noselect` (object 2, message list 3, status `NONE`). -/
def folders : State :=
  let r := TreeItemMailbox.create State.empty none
  (TreeItemMailbox.createFromList r.1 (some r.2)
    { mailbox := "Archive", separator := "/", flags := ["\\Noselect"] }).1

end Example

/-- The node whose children the next segment of a part id indexes when the walk of
`partIdToPtr` stands at `item`: the first child of `item` when that child is a top-level
multipart, and `item` itself otherwise. -/
def indexedNode (s : State) (item : Ptr) : Ptr :=
  throughTopLevelMultiPart s item (childAt (s.heap item).children 0)

/-! ## Predicates on MIME trees and part ids -/

/-- The children of messages and parts form a MIME tree: below every allocated message or
part the children are pairwise distinct allocated parts whose parent pointer leads back, and
a child list is no longer than an `int` can index. -/
def MimeTree (s : State) : Prop :=
  ∀ p : Nat, p < s.next →
    ((s.heap p).kind = Kind.Message ∨ (s.heap p).kind = Kind.Part) →
    (s.heap p).children.Nodup ∧ (s.heap p).children.length < 2147483648 ∧
    ∀ c : Nat, c ∈ (s.heap p).children →
      c < s.next ∧ (s.heap c).kind = Kind.Part ∧ (s.heap c).parent = some p

/-- A top-level multipart occurs only as the first child of its parent. -/
def TopLevelMultiPartFirst (s : State) : Prop :=
  ∀ p : Nat, p < s.next → ∀ c : Nat, c ∈ (s.heap p).children →
    TreeItemPart.isTopLevelMultiPart s c = true → (s.heap p).children.head? = some c

/-- A top-level multipart is the only child of its parent. -/
def TopLevelMultiPartAlone (s : State) : Prop :=
  ∀ p : Nat, p < s.next → ∀ c : Nat, c ∈ (s.heap p).children →
    TreeItemPart.isTopLevelMultiPart s c = true → (s.heap p).children = [c]

/-- `QStringList::join( "." )`. -/
def joinDots : List (List Char) → List Char
  | [] => []
  | [x] => x
  | x :: y :: r => x ++ '.' :: joinDots (y :: r)

/-- A segment of a part id that converts to a number is written as `QString::number` writes
that number: in decimal, without leading zeros. -/
def canonicalSegment (seg : List Char) : Bool :=
  match toUInt seg with
  | none => true
  | some n => decide (seg = (number (n : Int)).data)

/-- Every segment of the dotted id is written as `QString::number` writes it. -/
def CanonicalId (msgId : String) : Prop :=
  ∀ seg, seg ∈ splitChars '.' msgId.data → canonicalSegment seg = true

/-- Where the walk of `partIdToPtr` stands after the segments `pre`: either it has not left
the message, or `item` is a part, not a top-level multipart, whose `partId` (with fuel `f`
or more) is `pre` joined by dots. -/
def WalkedTo (s : State) (item : Ptr) (pre : List (List Char)) (f : Nat) : Prop :=
  ((s.heap item).kind = Kind.Message ∧ pre = []) ∨
  ((s.heap item).kind = Kind.Part ∧ pre ≠ [] ∧
    TreeItemPart.isTopLevelMultiPart s item = false ∧
    ∀ f2, f ≤ f2 → TreeItemPart.partId s f2 item = some (some (String.mk (joinDots pre))))

/-- The parts of the MIME tree of `message`: its children and the children of its parts. -/
inductive InMessage (s : State) (message : Ptr) : Ptr → Prop where
  | direct (p : Ptr) : p ∈ (s.heap message).children → InMessage s message p
  | inside (q p : Ptr) : InMessage s message q → p ∈ (s.heap q).children →
      InMessage s message p

/-- The walk of `partIdToPtr` over the segments `pre`, started at `message` in the state `s`,
arrives at `item`, and has done nothing but fetches. -/
def ArrivesAt (s : State) (message item : Ptr) (pre : List (List Char)) : Prop :=
  ∃ s1, FetchOnly s s1 ∧ partIdToPtrLoop pre s message = (s1, Except.ok item)

namespace Example

/-- The state `synced` with a body attached by hand to message 4: the multipart/mixed part 7
(a top-level multipart, with the parts 8 and 9 below it) followed by a second child of the
message, the text part 10. -/
def sibling : State :=
  let q := TreeItemPart.create synced (some 4) "multipart/mixed"
  let a := TreeItemPart.create q.1 (some 7) "text/plain"
  let b := TreeItemPart.create a.1 (some 7) "text/html"
  let x := TreeItemPart.create b.1 (some 4) "text/plain"
  (setChildren (setChildren x.1 7 [8, 9]).1 4 [7, 10]).1

end Example

/-- The walk of `partIdToPtr` can stand at `item`: it is allocated, the walk over `pre`
arrives at it, `pre` is its part id (or it is the message and `pre` is empty), and no segment
of `pre` contains a dot. -/
def Anchored (s : State) (message : Ptr) (item : Nat) (pre : List (List Char)) (f : Nat) :
    Prop :=
  item < s.next ∧ WalkedTo s item pre f ∧ ArrivesAt s message item pre ∧
    ∀ seg, seg ∈ pre → '.' ∉ seg

/-- How a part `p` of the message's tree is reached: it is an allocated part, and either it
is no top-level multipart and the walk can stand at it, or it is a top-level multipart, the
only child of a node at which the walk can stand. -/
def Placed (s : State) (message : Ptr) (p : Nat) : Prop :=
  p < s.next ∧ (s.heap p).kind = Kind.Part ∧
  ((TreeItemPart.isTopLevelMultiPart s p = false ∧ ∃ pre f, Anchored s message p pre f) ∨
    (TreeItemPart.isTopLevelMultiPart s p = true ∧
      ∃ (a : Nat) (pre : List (List Char)) (f : Nat),
        Anchored s message a pre f ∧ (s.heap a).children = [p]))

/-! ## The network access manager of a message view (MsgPartNetAccessManager.cpp) -/

/-- The parts of a `QUrl` that `createRequest` looks at. -/
structure QUrl where
  scheme : String
  host : String
  path : String
  deriving DecidableEq, Repr

/-- What `createRequest` returns: a `MsgPartNetworkReply` for the part at a model index, a
`ForbiddenReply`, or what `QNetworkAccessManager::createRequest`, the underlying transport,
returns for the request (none of the three classes is among the sources). -/
inductive QNetworkReply where
  | msgPart (partIndex : Ptr)
  | forbidden
  | transport (url : QUrl)
  deriving DecidableEq, Repr

/-- The fields of `MsgPartNetAccessManager` (the class is in the namespace `Imap::Network`):
whether the `model` pointer is set, the `message` pointer, the flag `_externalsEnabled`, and
the `requestingExternal` signals emitted so far. -/
structure MsgPartNetAccessManager where
  model : Bool
  message : Option Ptr
  _externalsEnabled : Bool
  requestingExternal : List QUrl
  deriving DecidableEq, Repr

/-- `MsgPartNetAccessManager::MsgPartNetAccessManager`. -/
def MsgPartNetAccessManager.create : MsgPartNetAccessManager :=
  { model := false, message := none, _externalsEnabled := false, requestingExternal := [] }

/-- `MsgPartNetAccessManager::setModelMessage`. -/
def MsgPartNetAccessManager.setModelMessage (self : MsgPartNetAccessManager) (model : Bool)
    (message : Option Ptr) : MsgPartNetAccessManager :=
  { self with model := model, message := message }

/-- `MsgPartNetAccessManager::setExternalsEnabled`. -/
def MsgPartNetAccessManager.setExternalsEnabled (self : MsgPartNetAccessManager)
    (enabled : Bool) : MsgPartNetAccessManager :=
  { self with _externalsEnabled := enabled }

/-- The columns `OFFSET_HEADER`, `OFFSET_TEXT` and `OFFSET_MIME` of `TreeItem`. -/
inductive SpecialColumn where
  | OFFSET_HEADER
  | OFFSET_TEXT
  | OFFSET_MIME
  deriving DecidableEq, Repr

/-- The column that an item of a path names: `HEADER`, `TEXT` or `MIME`. -/
def specialColumnOf (it : List Char) : Option SpecialColumn :=
  if it = "HEADER".data then some SpecialColumn.OFFSET_HEADER
  else if it = "TEXT".data then some SpecialColumn.OFFSET_TEXT
  else if it = "MIME".data then some SpecialColumn.OFFSET_MIME
  else none

/-- The loop of `MsgPartNetAccessManager::pathToPart` over the items of the path, with the
variables `target` and `ok`.  `specialColumnPtr` stands for
`target->specialColumnPtr( 0, column )`, a method of the header MailboxTree.h that is not
among the sources.  A method call on a null `target` is the failure `NullPointer`. -/
def pathToPartLoop (specialColumnPtr : State → Ptr → SpecialColumn → Option Ptr) :
    List (List Char) → State → Option Ptr → Bool →
      State × Except Exception (Option Ptr × Bool)
  | [], s, target, ok => (s, Except.ok (target, ok))
  | it :: _, s, none, _ =>
    match toUInt it with
    | none =>
      match specialColumnOf it with
      | none => (s, Except.ok (none, false))
      | some _ => (s, Except.error Exception.NullPointer)
    | some _ => (s, Except.error Exception.NullPointer)
  | it :: rest, s, some t, _ =>
    match toUInt it with
    | none =>
      match specialColumnOf it with
      | none => (s, Except.ok (some t, false))
      | some column => (s, Except.ok (specialColumnPtr s t column, false))
    | some offset =>
      let c := childrenCount s t
      if offset ≥ c.2 then (c.1, Except.ok (some t, false))
      else
        match child c.1 t (uintToInt offset) with
        | (s2, Except.error e) => (s2, Except.error e)
        | (s2, Except.ok next) => pathToPartLoop specialColumnPtr rest s2 next true

/-- `QString::split( sep, QString::SkipEmptyParts )`. -/
def splitSkipEmptyParts (sep : Char) (x : List Char) : List (List Char) :=
  (splitChars sep x).filter (fun w => !w.isEmpty)

/-- `MsgPartNetAccessManager::pathToPart`: the walk from `message` over the items of the
slash-separated path, then the cast of `target`; `Q_ASSERT( part )` is made when `ok`. -/
def MsgPartNetAccessManager.pathToPart
    (specialColumnPtr : State → Ptr → SpecialColumn → Option Ptr)
    (self : MsgPartNetAccessManager) (s : State) (path : String) :
    State × Except Exception (Option Ptr) :=
  let items := splitSkipEmptyParts '/' path.data
  match pathToPartLoop specialColumnPtr items s self.message (!items.isEmpty) with
  | (s1, Except.error e) => (s1, Except.error e)
  | (s1, Except.ok (target, ok)) =>
    match dynamicCast s1 Kind.Part target with
    | none => if ok then (s1, Except.error Exception.AssertionFailed) else (s1, Except.ok none)
    | some part => (s1, Except.ok (some part))

/-- The loop of `MsgPartNetAccessManager::cidToPart` from the index `i` on, with the
recursive calls for the children.  `fuel` bounds the number of iterations and calls still to
be made; the outer `none` is returned when it runs out.  The body field id of a part is read
from the field that `bodyFldId()` of the header returns. -/
def cidToPartFrom (cid : QByteArray) :
    Nat → State → Ptr → Nat → Option (State × Except Exception (Option Ptr))
  | 0, _, _, _ => none
  | fuel + 1, s, root, i =>
    let c := childrenCount s root
    if i < c.2 then
      match child c.1 root (uintToInt i) with
      | (s2, Except.error e) => some (s2, Except.error e)
      | (s2, Except.ok ch) =>
        match dynamicCast s2 Kind.Part ch with
        | none => some (s2, Except.error Exception.AssertionFailed)
        | some part =>
          if (s2.heap part).bodyFldId.data = cid then some (s2, Except.ok (some part))
          else
            match cidToPartFrom cid fuel s2 part 0 with
            | none => none
            | some (s3, Except.error e) => some (s3, Except.error e)
            | some (s3, Except.ok (some found)) => some (s3, Except.ok (some found))
            | some (s3, Except.ok none) =>
              cidToPartFrom cid fuel s3 root ((i + 1) % 4294967296)
    else some (c.1, Except.ok none)

/-- `MsgPartNetAccessManager::cidToPart`. -/
def MsgPartNetAccessManager.cidToPart (cid : QByteArray) (fuel : Nat) (s : State)
    (root : Ptr) : Option (State × Except Exception (Option Ptr)) :=
  cidToPartFrom cid fuel s root 0

/-- Modelled from the spec: `item->toIndex( model )` of the header MailboxTree.h, which is
not among the sources; the model index of a tree item is represented by the item.  The call
through a null pointer is undefined behaviour and is the failure `NullPointer`. -/
def toIndex (item : Option Ptr) : Except Exception Ptr :=
  match item with
  | none => Except.error Exception.NullPointer
  | some p => Except.ok p

/-- The Content-ID that `createRequest` looks for: the path of the URL, with `<` put in
front and `>` appended when they are missing. -/
def bracketed (path : String) : QByteArray :=
  let cid := path.data
  let cid := if !("<".data.isPrefixOf cid) then "<".data ++ cid else cid
  if !(">".data.isSuffixOf cid) then cid ++ ">".data else cid

/-- `MsgPartNetAccessManager::createRequest`.  The result is the state of the tree, the
manager (with the signals it has emitted) and the reply or the failure; `fuel` is handed to
`cidToPart` and the outer `none` is returned when it runs out. -/
def MsgPartNetAccessManager.createRequest
    (specialColumnPtr : State → Ptr → SpecialColumn → Option Ptr) (fuel : Nat)
    (self : MsgPartNetAccessManager) (s : State) (req : QUrl) :
    Option (State × MsgPartNetAccessManager × Except Exception QNetworkReply) :=
  if !self.model then some (s, self, Except.error Exception.AssertionFailed)
  else
    match self.message with
    | none => some (s, self, Except.error Exception.AssertionFailed)
    | some message =>
      match MsgPartNetAccessManager.pathToPart specialColumnPtr self s req.path with
      | (s1, Except.error e) => some (s1, self, Except.error e)
      | (s1, Except.ok part) =>
        match toIndex part with
        | Except.error e => some (s1, self, Except.error e)
        | Except.ok partIndex =>
          if req.scheme = "trojita-imap" ∧ req.host = "msg" then
            if part.isSome then some (s1, self, Except.ok (QNetworkReply.msgPart partIndex))
            else some (s1, self, Except.ok QNetworkReply.forbidden)
          else if req.scheme = "cid" then
            match MsgPartNetAccessManager.cidToPart (bracketed req.path) fuel s1 message with
            | none => none
            | some (s2, Except.error e) => some (s2, self, Except.error e)
            | some (s2, Except.ok none) => some (s2, self, Except.ok QNetworkReply.forbidden)
            | some (s2, Except.ok (some target)) =>
              match toIndex (some target) with
              | Except.error e => some (s2, self, Except.error e)
              | Except.ok index => some (s2, self, Except.ok (QNetworkReply.msgPart index))
          else if req.scheme = "http" ∨ req.scheme = "ftp" then
            if self._externalsEnabled then
              some (s1, self, Except.ok (QNetworkReply.transport req))
            else
              some (s1, { self with requestingExternal := self.requestingExternal ++ [req] },
                Except.ok QNetworkReply.forbidden)
          else some (s1, self, Except.ok QNetworkReply.forbidden)

namespace Example

/-- A multipart/related body: an HTML part and two images with the Content-IDs `<a@x>` and
`<b@x>`. -/
def related : AbstractMessage :=
  AbstractMessage.mk "multipart/related" "" ""
    [AbstractMessage.mk "text/html" "7bit" "" [],
     AbstractMessage.mk "image/png" "base64" "<a@x>" [],
     AbstractMessage.mk "image/gif" "base64" "<b@x>" []]

/-- The state `synced` after `* 1 FETCH (BODYSTRUCTURE ...)` with the body `related`: message
4 has the multipart 7 as its child, whose children are the parts 8, 9 (`<a@x>`) and 10
(`<b@x>`). -/
def inlined : State :=
  (TreeItemMailbox.handleFetchResponse synced 2
    { number := 1, data := [("BODYSTRUCTURE", AbstractData.bodyStructure related)] }).1

/-- A multipart/related body in which two images carry the same Content-ID `<a@x>`. -/
def repeated : AbstractMessage :=
  AbstractMessage.mk "multipart/related" "" ""
    [AbstractMessage.mk "text/html" "7bit" "" [],
     AbstractMessage.mk "image/png" "base64" "<a@x>" [],
     AbstractMessage.mk "image/gif" "base64" "<a@x>" []]

/-- The state `synced` after `* 1 FETCH (BODYSTRUCTURE ...)` with the body `repeated`: the
parts 9 and 10 both have the body field id `<a@x>`. -/
def duplicated : State :=
  (TreeItemMailbox.handleFetchResponse synced 2
    { number := 1, data := [("BODYSTRUCTURE", AbstractData.bodyStructure repeated)] }).1

/-- A tree without special columns. -/
def noSpecial : State → Ptr → SpecialColumn → Option Ptr :=
  fun _ _ _ => none

/-- The manager of a view that shows message 4 (the first message of INBOX), as constructed:
externals disabled. -/
def viewer : MsgPartNetAccessManager :=
  MsgPartNetAccessManager.create.setModelMessage true (some 4)

end Example

/-- The nodes below `root` in depth-first pre-order, down to the depth `d`. -/
def preorder (s : State) : Nat → Ptr → List Ptr
  | 0, _ => []
  | d + 1, root => (s.heap root).children.flatMap (fun c => c :: preorder s d c)

/-- The tree below `root` has depth at most `d`: the nodes `d` levels below it have no
children. -/
def shallow (s : State) : Nat → Ptr → Bool
  | 0, root => (s.heap root).children.isEmpty
  | d + 1, root => (s.heap root).children.all (fun c => shallow s d c)

/-- The nodes that a reply of `createRequest` can serve for the current message: the message
node itself (which is no part), the parts of its MIME tree, and the special columns of
these. -/
def OfMessage (specialColumnPtr : State → Ptr → SpecialColumn → Option Ptr) (s : State)
    (message p : Ptr) : Prop :=
  p = message ∨ InMessage s message p ∨
    ∃ s0 t col, (t = message ∨ InMessage s message t) ∧ specialColumnPtr s0 t col = some p

/-- A sequence of requests of the view: each is handed to `createRequest` in the state that
the one before it has left, and the outcomes are collected. -/
def createRequests (specialColumnPtr : State → Ptr → SpecialColumn → Option Ptr) (fuel : Nat) :
    List QUrl → MsgPartNetAccessManager → State →
      Option (State × MsgPartNetAccessManager × List (Except Exception QNetworkReply))
  | [], self, s => some (s, self, [])
  | req :: rest, self, s =>
    match MsgPartNetAccessManager.createRequest specialColumnPtr fuel self s req with
    | none => none
    | some (s1, self1, reply) =>
      match createRequests specialColumnPtr fuel rest self1 s1 with
      | none => none
      | some (s2, self2, replies) => some (s2, self2, reply :: replies)

/-! ## Message counts -/

/-- `TreeItemMsgList::totalMessageCount`: fetch, then -1 while loading and the row count
otherwise. -/
def TreeItemMsgList.totalMessageCount (s : State) (self : Ptr) : State × Int :=
  let s1 := TreeItemMsgList.fetch s self
  if (s1.heap self).loading then (s1, -1)
  else
    let r := rowCount s1 self
    (r.1, (r.2 : Int))

/-- `TreeItemMailbox::totalMessageCount`: the count of `_children[ 0 ]`, taken for a message
list without a check. -/
def TreeItemMailbox.totalMessageCount (s : State) (self : Ptr) :
    State × Except Exception Int :=
  match (s.heap self).children with
  | [] => (s, Except.error Exception.AssertionFailed)
  | c :: _ =>
    let r := TreeItemMsgList.totalMessageCount s c
    (r.1, Except.ok r.2)

namespace Example

/-- The state `folders` after the children of the `\Noselect` mailbox 2 were set, to none. -/
def foldersListed : State :=
  (setChildren folders 2 []).1

/-- The root mailbox (object 0, message list 1) and under it a mailbox listed with the flag
`\HasChildren` (object 2, message list 3), whose children were then set, to none: the
mailbox is `DONE` and its only child is the message list. -/
def hinted : State :=
  let r := TreeItemMailbox.create State.empty none
  let m := TreeItemMailbox.createFromList r.1 (some r.2)
    { mailbox := "Lists", separator := "/", flags := ["\\HasChildren"] }
  (setChildren m.1 2 []).1

/-- As `hinted`, before the children of mailbox 2 were set: its status is `NONE`. -/
def unlisted : State :=
  let r := TreeItemMailbox.create State.empty none
  (TreeItemMailbox.createFromList r.1 (some r.2)
    { mailbox := "Lists", separator := "/", flags := ["\\HasChildren"] }).1

end Example

/-! ## The fetch cycle -/

/-- The position of a status in the cycle `NONE`, `LOADING`, `DONE`. -/
def FetchingState.rank : FetchingState → Nat
  | FetchingState.NONE => 0
  | FetchingState.LOADING => 1
  | FetchingState.DONE => 2

/-- Against `s`, nothing was deallocated in `t` and no node of `s` has a status that lies
before the one it had. -/
def StatusNotBackwards (s t : State) : Prop :=
  s.next ≤ t.next ∧
    ∀ q : Nat, q < s.next → (s.heap q).fetchStatus.rank ≤ (t.heap q).fetchStatus.rank

/-- A run of the operations of a fetch cycle from the state `s` to the state `t`: any
sequence of `fetch`, `child`, `childrenCount`, `rowCount` and `setChildren` on any node and
of `hasChildMailboxes` and `handleFetchResponse` on mailboxes, with any arguments, each in
the state the one before has left (also when it has thrown). -/
inductive FetchCycle : State → State → Prop where
  | done (s : State) : FetchCycle s s
  | fetch (s : State) (self : Ptr) (t : State) :
      FetchCycle (Imap.Mailbox.fetch s self) t → FetchCycle s t
  | child (s : State) (self : Ptr) (offset : Int) (t : State) :
      FetchCycle (Imap.Mailbox.child s self offset).1 t → FetchCycle s t
  | childrenCount (s : State) (self : Ptr) (t : State) :
      FetchCycle (Imap.Mailbox.childrenCount s self).1 t → FetchCycle s t
  | rowCount (s : State) (self : Ptr) (t : State) :
      FetchCycle (Imap.Mailbox.rowCount s self).1 t → FetchCycle s t
  | hasChildMailboxes (s : State) (self : Ptr) (t : State) :
      (s.heap self).kind = Kind.Mailbox →
      FetchCycle (TreeItemMailbox.hasChildMailboxes s self).1 t → FetchCycle s t
  | setChildren (s : State) (self : Ptr) (items : List Ptr) (t : State) :
      FetchCycle (Imap.Mailbox.setChildren s self items).1 t → FetchCycle s t
  | handleFetchResponse (s : State) (self : Ptr) (response : FetchResponse) (t : State) :
      (s.heap self).kind = Kind.Mailbox →
      FetchCycle (TreeItemMailbox.handleFetchResponse s self response).1 t → FetchCycle s t

/-! ## The tasks: `CreateMailboxTask.cpp` and `AppendTask.cpp` -/

/-- Modelled from the spec: the handle of a command is its tag, a string (`CommandHandle`
of the parser, which is not among the sources; the tasks compare it with `==` and test it
with `isEmpty()`). -/
abbrev CommandHandle := String

/-- Modelled from the spec: the kinds of a tagged status response (`Responses::Kind`),
"OK/NO/BAD/PREAUTH/BYE". -/
inductive Responses.Kind where
  | OK
  | NO
  | BAD
  | BYE
  | PREAUTH
  deriving DecidableEq, Repr, Inhabited

/-- The fields of `Responses::State` that the tasks read: `tag`, `kind` and `message`. -/
structure Responses.State where
  tag : CommandHandle
  kind : Responses.Kind
  message : String
  deriving DecidableEq, Repr, Inhabited

/-- Modelled from the spec: the kinds of a tagged command (`Model::Task::Kind`), "CREATE,
LIST_AFTER_CREATE, APPEND, FETCH_METADATA, FETCH_PART, LIST, SELECT, LOGIN, CAPABILITY,
LOGOUT". -/
inductive Model.Task.Kind where
  | CREATE
  | LIST_AFTER_CREATE
  | APPEND
  | FETCH_METADATA
  | FETCH_PART
  | LIST
  | SELECT
  | LOGIN
  | CAPABILITY
  | LOGOUT
  deriving DecidableEq, Repr, Inhabited

/-- The entry of the tag map (`Model::Task`): the kind of the command and its cargo, a tree
item (`Task( kind, 0 )` has none) or a string (`Task( kind, str )`). -/
structure Model.Task where
  kind : Model.Task.Kind
  what : Ptr := 0
  str : String := ""
  deriving DecidableEq, Repr, Inhabited

/-- What `model->_parsers[ parser ]` holds for one connection: the tasks that are active on
it and the tag map `commandMap`, a finite map from the tag to the entry. -/
structure ParserState where
  activeTasks : List Ptr := []
  commandMap : CommandHandle → Option Model.Task := fun _ => none

/-- A call that the tasks make into code outside the two files: a command handed to the
parser (`create`, `list`, `append`), a signal of the model, `_finalizeIncrementalList`, and
the terminal transitions `_completed()` and `_failed()` of the task `task`. -/
inductive Call where
  | create (parser : Ptr) (mailbox : String)
  | list (parser : Ptr) (reference : String) (mailbox : String)
  | append (parser : Ptr) (mailbox : String) (message : QByteArray) (flags : List String)
      (timestamp : Nat)
  | activityHappening (isHappening : Bool)
  | mailboxCreationSucceded (mailbox : String)
  | mailboxCreationFailed (mailbox : String) (message : String)
  | _finalizeIncrementalList (parser : Ptr) (mailbox : String)
  | _completed (task : Ptr)
  | _failed (task : Ptr) (message : String)
  deriving DecidableEq, Repr

/-- The part of `Model` that the tasks work on: the state of every connection, keyed by the
parser of the connection (`_parsers`; `operator[]` of the map gives an empty state for a
parser it has not seen), and the calls made so far, oldest first. -/
structure Model where
  _parsers : Ptr → ParserState := fun _ => {}
  calls : List Call := []

/-- Record a call. -/
def Model.call (m : Model) (c : Call) : Model :=
  { m with calls := m.calls ++ [c] }

/-- Assignment `model->_parsers[ parser ].commandMap[ tag ] = task`. -/
def Model.setCommand (m : Model) (parser : Ptr) (tag : CommandHandle) (task : Model.Task) :
    Model :=
  { m with
    _parsers := fun p =>
      if p = parser then
        { m._parsers p with
          commandMap := fun t => if t = tag then some task else (m._parsers p).commandMap t }
      else m._parsers p }

/-- Statement `model->_parsers[ parser ].activeTasks.append( task )`. -/
def Model.appendActiveTask (m : Model) (parser : Ptr) (task : Ptr) : Model :=
  { m with
    _parsers := fun p =>
      if p = parser then
        { m._parsers p with activeTasks := (m._parsers p).activeTasks ++ [task] }
      else m._parsers p }

/-- The task that a task depends on for its connection; `parser` is the parser of the
connection it has obtained (`conn->parser`), null as long as there is none. -/
structure ConnectionTask where
  parser : Ptr := 0
  deriving DecidableEq, Repr, Inhabited

/-- The members of `CreateMailboxTask`; `this` is the address of the task object. -/
structure CreateMailboxTask where
  this : Ptr
  conn : ConnectionTask
  parser : Ptr := 0
  mailbox : String
  tagCreate : CommandHandle := ""
  tagList : CommandHandle := ""
  deriving DecidableEq, Repr

/-- The members of `AppendTask`; `this` is the address of the task object. -/
structure AppendTask where
  this : Ptr
  conn : ConnectionTask
  parser : Ptr := 0
  targetMailbox : String
  rawMessageData : QByteArray
  flags : List String
  timestamp : Nat
  tag : CommandHandle := ""
  deriving DecidableEq, Repr

/-- What the tasks use of `ImapTask.h`, which is not among the sources.  The three macros
and `markAsActiveTask()` are parameters of the functions below.

* `IMAP_TASK_ENSURE_VALID_COMMAND( tag, kind )` either leaves the handler, with the value
  it returns and the model it leaves, or goes on and binds `command` to an entry of the tag
  map;
* `IMAP_TASK_CLEANUP_COMMAND` works on the `command` that was bound for the tag;
* `IMAP_TASK_CHECK_ABORT_DIE` either leaves `perform` or goes on;
* `markAsActiveTask()` of the task `task` whose parser is `parser`. -/
structure ImapTaskH where
  IMAP_TASK_ENSURE_VALID_COMMAND :
    Model → Ptr → CommandHandle → Model.Task.Kind → Except (Model × Bool) (Model × Model.Task)
  IMAP_TASK_CLEANUP_COMMAND : Model → Ptr → CommandHandle → Model
  IMAP_TASK_CHECK_ABORT_DIE :
    Model → AppendTask → Except (Model × AppendTask) (Model × AppendTask)
  markAsActiveTask : Model → Ptr → Ptr → Model

/-- Constructor `CreateMailboxTask( model, mailbox )`: the task depends on the connection
task `conn` that the constructor creates; both tags are empty strings. -/
def CreateMailboxTask.create (this : Ptr) (conn : ConnectionTask) (mailbox : String) :
    CreateMailboxTask :=
  { this := this, conn := conn, mailbox := mailbox }

/-- Method `CreateMailboxTask::perform()`; `tag` is the handle that `parser->create` returns. -/
def CreateMailboxTask.perform (m : Model) (self : CreateMailboxTask) (tag : CommandHandle) :
    Model × CreateMailboxTask :=
  let self := { self with parser := self.conn.parser }
  let m := m.appendActiveTask self.parser self.this
  let m := m.call (Call.create self.parser self.mailbox)
  let self := { self with tagCreate := tag }
  let m := m.setCommand self.parser self.tagCreate { kind := Model.Task.Kind.CREATE, what := 0 }
  let m := m.call (Call.activityHappening true)
  (m, self)

/-- Method `CreateMailboxTask::handleStateHelper( ptr, resp )`; `tag` is the handle that
`parser->list` returns when the handler issues the LIST. -/
def CreateMailboxTask.handleStateHelper (h : ImapTaskH) (m : Model) (self : CreateMailboxTask)
    (ptr : Ptr) (resp : Responses.State) (tag : CommandHandle) :
    Model × CreateMailboxTask × Bool :=
  if resp.tag = self.tagCreate then
    match h.IMAP_TASK_ENSURE_VALID_COMMAND m ptr self.tagCreate Model.Task.Kind.CREATE with
    | Except.error (m, r) => (m, self, r)
    | Except.ok (m, command) =>
      if resp.kind = Responses.Kind.OK then
        let m := m.call (Call.mailboxCreationSucceded self.mailbox)
        let m := m.call (Call.list self.parser "" self.mailbox)
        let self := { self with tagList := tag }
        let m := m.setCommand self.parser self.tagList
          { kind := Model.Task.Kind.LIST_AFTER_CREATE, str := command.str }
        let m := m.call (Call.activityHappening true)
        (h.IMAP_TASK_CLEANUP_COMMAND m ptr self.tagCreate, self, true)
      else
        let m := m.call (Call.mailboxCreationFailed self.mailbox resp.message)
        let m := m.call (Call._completed self.this)
        (h.IMAP_TASK_CLEANUP_COMMAND m ptr self.tagCreate, self, true)
  else if resp.tag = self.tagList then
    match h.IMAP_TASK_ENSURE_VALID_COMMAND m ptr self.tagList
        Model.Task.Kind.LIST_AFTER_CREATE with
    | Except.error (m, r) => (m, self, r)
    | Except.ok (m, _) =>
      let m :=
        if resp.kind = Responses.Kind.OK then
          m.call (Call._finalizeIncrementalList ptr self.mailbox)
        else m
      let m := m.call (Call._completed self.this)
      (h.IMAP_TASK_CLEANUP_COMMAND m ptr self.tagList, self, true)
  else (m, self, false)

/-- Constructor `AppendTask( model, targetMailbox, rawMessageData, flags, timestamp )`: the
task depends on the connection task `conn` that the factory creates; the tag is empty. -/
def AppendTask.create (this : Ptr) (conn : ConnectionTask) (targetMailbox : String)
    (rawMessageData : QByteArray) (flags : List String) (timestamp : Nat) : AppendTask :=
  { this := this, conn := conn, targetMailbox := targetMailbox,
    rawMessageData := rawMessageData, flags := flags, timestamp := timestamp }

/-- Method `AppendTask::perform()`; `tag` is the handle that `parser->append` returns. -/
def AppendTask.perform (h : ImapTaskH) (m : Model) (self : AppendTask) (tag : CommandHandle) :
    Model × AppendTask × Except Exception Unit :=
  let self := { self with parser := self.conn.parser }
  if self.parser = 0 then (m, self, Except.error Exception.AssertionFailed)
  else
    let m := h.markAsActiveTask m self.parser self.this
    match h.IMAP_TASK_CHECK_ABORT_DIE m self with
    | Except.error (m, self) => (m, self, Except.ok ())
    | Except.ok (m, self) =>
      let m := m.call (Call.append self.parser self.targetMailbox self.rawMessageData
        self.flags self.timestamp)
      (m, { self with tag := tag }, Except.ok ())

/-- Method `AppendTask::handleStateHelper( resp )`. -/
def AppendTask.handleStateHelper (m : Model) (self : AppendTask) (resp : Responses.State) :
    Model × AppendTask × Bool :=
  if resp.tag.isEmpty then (m, self, false)
  else if resp.tag = self.tag then
    if resp.kind = Responses.Kind.OK then (m.call (Call._completed self.this), self, true)
    else (m.call (Call._failed self.this resp.message), self, true)
  else (m, self, false)

namespace Example

/-- Modelled from the spec: macros that follow the response router of the spec for a
connection on which no task is aborted.  "If the response is tagged, consult the map ... if
no owner, log and drop": a tag without an entry of the expected kind is turned down with
`false`.  "Every tag submitted by a task is in the connection's tag map until its tagged
response is dispatched": the clean-up takes the entry of the command out of the map.
`markAsActiveTask()` does what `CreateMailboxTask::perform` spells out. -/
def imapTaskH : ImapTaskH where
  IMAP_TASK_ENSURE_VALID_COMMAND := fun m ptr tag kind =>
    match (m._parsers ptr).commandMap tag with
    | none => Except.error (m, false)
    | some command =>
      if command.kind = kind then Except.ok (m, command) else Except.error (m, false)
  IMAP_TASK_CLEANUP_COMMAND := fun m ptr tag =>
    { m with
      _parsers := fun p =>
        if p = ptr then
          { m._parsers p with
            commandMap := fun t => if t = tag then none else (m._parsers p).commandMap t }
        else m._parsers p }
  IMAP_TASK_CHECK_ABORT_DIE := fun m self => Except.ok (m, self)
  markAsActiveTask := fun m parser task => m.appendActiveTask parser task

/-- A task that creates the mailbox `work`, on the connection of parser 1. -/
def creating : CreateMailboxTask :=
  CreateMailboxTask.create 20 { parser := 1 } "work"

/-- The model and the task after `perform` has issued `y1 CREATE work`. -/
def created : Model × CreateMailboxTask :=
  CreateMailboxTask.perform {} creating "y1"

/-- The model and the task after the server has answered `y1 OK` and the task has issued
`y2 LIST "" work`. -/
def listing : Model × CreateMailboxTask :=
  let r := CreateMailboxTask.handleStateHelper imapTaskH created.1 created.2 1
    { tag := "y1", kind := Responses.Kind.OK, message := "created" } "y2"
  (r.1, r.2.1)

/-- A task that appends a message to the mailbox `work`, on the connection of parser 1. -/
def appending : AppendTask :=
  AppendTask.create 21 { parser := 1 } "work" "Subject: hi".toList ["\\Seen"] 0

/-- The model and the task after `perform` has issued `y3 APPEND work ...`. -/
def appended : Model × AppendTask :=
  let r := AppendTask.perform imapTaskH {} appending "y3"
  (r.1, r.2.1)

end Example

/-! ## The path of a part -/

/-- `TreeItemPart::pathToPart`.  The C++ method recurses along the parent pointers; `fuel`
bounds the depth of that recursion and the outer `none` is returned when it runs out.  A
parent that is neither a part nor a message fails `Q_ASSERT( false )`. -/
def TreeItemPart.pathToPart (s : State) : Nat → Ptr → Option (Except Exception String)
  | 0, _ => none
  | fuel + 1, self =>
    match dynamicCast s Kind.Part (s.heap self).parent with
    | some part =>
      match TreeItemPart.pathToPart s fuel part with
      | none => none
      | some (Except.error e) => some (Except.error e)
      | some (Except.ok path) =>
        some (Except.ok (path ++ "/" ++ number (TreeItem.row s self)))
    | none =>
      match dynamicCast s Kind.Message (s.heap self).parent with
      | some _ => some (Except.ok ("/" ++ number (TreeItem.row s self)))
      | none => some (Except.error Exception.AssertionFailed)

/-- The positions on the way from the message down to a part of its tree: the part `p` is
reached from `message` by taking, at each level, the child at the next position of `rows`. -/
inductive RowsTo (s : State) (message : Ptr) : Ptr → List Nat → Prop where
  | direct (p : Ptr) (i : Nat) :
      (s.heap message).children.get? i = some p → RowsTo s message p [i]
  | inside (q p : Ptr) (rows : List Nat) (i : Nat) :
      RowsTo s message q rows → (s.heap q).children.get? i = some p →
      RowsTo s message p (rows ++ [i])

/-- The path that spells the positions: each one written as a number after a slash. -/
def pathOfRows : List Nat → List Char
  | [] => []
  | i :: rows => '/' :: ((number (i : Int)).data ++ pathOfRows rows)

/-- The tree below `p` is finite: every path of child links that starts at `p` ends. -/
inductive FiniteBelow (s : State) : Ptr → Prop where
  | node (p : Ptr) : (∀ c, c ∈ (s.heap p).children → FiniteBelow s c) → FiniteBelow s p

/-! ## The message view (MessageView.cpp) -/

/-- A `QModelIndex`: the invalid index `QModelIndex()`, or the index of an item of the model,
represented by the item as in `toIndex`. -/
abbrev QModelIndex := Option Ptr

/-- The widget that `viewer` points to: `emptyView`, or a widget that the factory has built
from the root part of a message. -/
inductive Viewer where
  | emptyView
  | widget (rootPart : QModelIndex)
  deriving DecidableEq, Repr

/-- What a method of the view reads from its surroundings while it runs: the model behind
the indexes (`Imap::deproxifiedIndex`, `data( RoleIsFetched )`, `child( 0, 0 )`, `row()`,
`parent()`), the settings, the network watcher, and whether a widget is an
`AbstractPartWidget`.  None of these is among the sources. -/
structure ViewEnv where
  deproxifiedIndex : QModelIndex → QModelIndex
  isFetched : QModelIndex → Bool
  rootPart : QModelIndex → QModelIndex
  row : QModelIndex → Int
  parent : QModelIndex → QModelIndex
  preferPlaintext : Bool
  online : Bool
  autoMarkReadEnabled : Bool
  autoMarkReadSeconds : Nat
  abstractPartWidget : Viewer → Bool

/-- A call that the view makes into its surroundings.  `walk` is `factory->walk`, which
builds the widgets for the parts of a message; the factory works through the manager
`netAccess` that it was constructed with, and the call is recorded with the state of that
manager.  `reloadContents` is recorded likewise.  `widget` stands for a call that shows,
hides or lays out a widget, or stops the spinner, named by its statement. -/
inductive ViewCall where
  | data (index : QModelIndex) (role : String)
  | connectDataChanged (index : QModelIndex)
  | disconnectDataChanged (index : QModelIndex)
  | envelopeSetMessage (index : QModelIndex)
  | tagsSetTagList (index : QModelIndex)
  | walk (rootPart : QModelIndex) (netAccess : MsgPartNetAccessManager)
      (preferPlaintext : Bool)
  | reloadContents (viewer : Viewer) (netAccess : MsgPartNetAccessManager)
  | messageChanged
  | markAsReadTimerStart (msec : Nat)
  | markAsReadTimerStop
  | widget (statement : String)
  deriving DecidableEq, Repr

/-- The members of `MessageView` (the class is in the namespace `Gui`) that the methods below
work on: the current `message`, the `viewer`, the manager `netAccess`, and the calls made so
far, oldest first. -/
structure MessageView where
  message : QModelIndex
  viewer : Viewer
  netAccess : MsgPartNetAccessManager
  calls : List ViewCall
  deriving DecidableEq, Repr

/-- Record a call. -/
def MessageView.call (v : MessageView) (c : ViewCall) : MessageView :=
  { v with calls := v.calls ++ [c] }

/-- `MessageView::MessageView`, as far as the members above go: a fresh manager, the empty
view as the viewer, no message. -/
def MessageView.create : MessageView :=
  { message := none, viewer := Viewer.emptyView, netAccess := MsgPartNetAccessManager.create,
    calls := [] }

/-- `MessageView::setEmpty`. -/
def MessageView.setEmpty (v : MessageView) : MessageView :=
  let v := v.call ViewCall.markAsReadTimerStop
  let v := v.call (ViewCall.envelopeSetMessage none)
  let v := v.call (ViewCall.widget "headerSection->hide()")
  let v := if v.message.isSome then v.call (ViewCall.disconnectDataChanged v.message) else v
  let v := { v with message := none }
  let v := v.call (ViewCall.widget "tags->hide()")
  if v.viewer ≠ Viewer.emptyView then
    let v := v.call (ViewCall.widget "layout->removeWidget(viewer)")
    let v := v.call (ViewCall.widget "viewer->deleteLater()")
    let v := { v with viewer := Viewer.emptyView }
    let v := v.call (ViewCall.widget "viewer->show()")
    let v := v.call (ViewCall.widget "layout->addWidget(viewer)")
    let v := v.call ViewCall.messageChanged
    let v := v.call (ViewCall.widget "m_loadingItems.clear()")
    v.call (ViewCall.widget "m_loadingSpinner->stop()")
  else v

/-- The start of the block of `MessageView::setMessage` under `if (message != messageIndex)`:
the old viewer is taken out, the view is disconnected from the old message, and
`message = messageIndex`. -/
def MessageView.replaceMessage (v : MessageView) (messageIndex : QModelIndex) : MessageView :=
  let v := v.call (ViewCall.widget "emptyView->hide()")
  let v := v.call (ViewCall.widget "layout->removeWidget(viewer)")
  let v :=
    if v.viewer ≠ Viewer.emptyView then
      (v.call (ViewCall.widget "viewer->setParent(0)")).call
        (ViewCall.widget "viewer->deleteLater()")
    else v
  let v := if v.message.isSome then v.call (ViewCall.disconnectDataChanged v.message) else v
  { v with message := messageIndex }

/-- The middle of that block: externals are disabled, the manager is given the message, and
the factory builds the widgets for the parts, which become the viewer. -/
def MessageView.renderParts (env : ViewEnv) (v : MessageView) (rootPartIndex : QModelIndex) :
    MessageView :=
  let v := { v with netAccess := v.netAccess.setExternalsEnabled false }
  let v := v.call (ViewCall.widget "externalElements->hide()")
  let v := { v with netAccess := v.netAccess.setModelMessage v.message.isSome v.message }
  let v := v.call (ViewCall.widget "m_loadingItems.clear()")
  let v := v.call (ViewCall.widget "m_loadingSpinner->stop()")
  let v := v.call (ViewCall.walk rootPartIndex v.netAccess env.preferPlaintext)
  { v with viewer := Viewer.widget rootPartIndex }

/-- The end of that block: the viewer is laid out and shown, the envelope and the tags are
set, and the view is connected to the message. -/
def MessageView.showParts (v : MessageView) (messageIndex : QModelIndex) : MessageView :=
  let v := v.call (ViewCall.widget "viewer->setParent(this)")
  let v := v.call (ViewCall.widget "layout->addWidget(viewer)")
  let v := v.call (ViewCall.widget "layout->setAlignment(viewer)")
  let v := v.call (ViewCall.widget "viewer->show()")
  let v := v.call (ViewCall.envelopeSetMessage v.message)
  let v := v.call (ViewCall.widget "tags->show()")
  let v := v.call (ViewCall.tagsSetTagList messageIndex)
  let v := v.call (ViewCall.connectDataChanged messageIndex)
  let v := v.call ViewCall.messageChanged
  v.call (ViewCall.widget "viewer->installEventFilter(this)")

/-- The end of `MessageView::setMessage`: the timer that marks the message as read. -/
def MessageView.startMarkAsReadTimer (env : ViewEnv) (v : MessageView) : MessageView :=
  if env.online && env.autoMarkReadEnabled then
    v.call (ViewCall.markAsReadTimerStart
      (env.autoMarkReadSeconds % 4294967296 * 1000 % 4294967296))
  else v

/-- `MessageView::setMessage`. -/
def MessageView.setMessage (env : ViewEnv) (v : MessageView) (index : QModelIndex) :
    MessageView × Except Exception Unit :=
  if index.isNone then (v, Except.error Exception.AssertionFailed)
  else
    let messageIndex := env.deproxifiedIndex index
    if messageIndex.isNone then (v, Except.error Exception.AssertionFailed)
    else
      let v := v.call (ViewCall.data messageIndex "RolePartData")
      if !env.isFetched messageIndex then
        let v := v.setEmpty
        let v := v.call (ViewCall.connectDataChanged messageIndex)
        ({ v with message := messageIndex }, Except.ok ())
      else
        let rootPartIndex := env.rootPart messageIndex
        let v := v.call (ViewCall.widget "headerSection->show()")
        let v :=
          if v.message ≠ messageIndex then
            ((v.replaceMessage messageIndex).renderParts env rootPartIndex).showParts
              messageIndex
          else v
        (v.startMarkAsReadTimer env, Except.ok ())

/-- `MessageView::externalsRequested`. -/
def MessageView.externalsRequested (v : MessageView) (_url : QUrl) : MessageView :=
  v.call (ViewCall.widget "externalElements->show()")

/-- `MessageView::externalsEnabled`. -/
def MessageView.externalsEnabled (env : ViewEnv) (v : MessageView) : MessageView :=
  let v := { v with netAccess := v.netAccess.setExternalsEnabled true }
  let v := v.call (ViewCall.widget "externalElements->hide()")
  if env.abstractPartWidget v.viewer then v.call (ViewCall.reloadContents v.viewer v.netAccess)
  else v

/-- `MessageView::handleDataChanged`. -/
def MessageView.handleDataChanged (env : ViewEnv) (v : MessageView)
    (topLeft bottomRight : QModelIndex) : MessageView × Except Exception Unit :=
  if ¬ (env.row topLeft = env.row bottomRight ∧ env.parent topLeft = env.parent bottomRight)
  then (v, Except.error Exception.AssertionFailed)
  else if topLeft = v.message then
    let r :=
      if v.viewer = Viewer.emptyView ∧ env.isFetched v.message = true then
        MessageView.setMessage env v.setEmpty topLeft
      else (v, Except.ok ())
    match r with
    | (v, Except.error e) => (v, Except.error e)
    | (v, Except.ok _) => (v.call (ViewCall.tagsSetTagList v.message), Except.ok ())
  else (v, Except.ok ())

/-- What happens to a view: a call of one of its methods or slots. -/
inductive ViewOp where
  | setEmpty
  | setMessage (index : QModelIndex)
  | handleDataChanged (topLeft bottomRight : QModelIndex)
  | externalsRequested (url : QUrl)
  | externalsEnabled
  deriving DecidableEq, Repr

/-- One call, made while the surroundings are `env`. -/
def MessageView.step (env : ViewEnv) (op : ViewOp) (v : MessageView) :
    MessageView × Except Exception Unit :=
  match op with
  | ViewOp.setEmpty => (v.setEmpty, Except.ok ())
  | ViewOp.setMessage index => MessageView.setMessage env v index
  | ViewOp.handleDataChanged topLeft bottomRight =>
    MessageView.handleDataChanged env v topLeft bottomRight
  | ViewOp.externalsRequested url => (v.externalsRequested url, Except.ok ())
  | ViewOp.externalsEnabled => (MessageView.externalsEnabled env v, Except.ok ())

/-- A sequence of calls, each with the surroundings at its time; a failed assertion ends
it. -/
def MessageView.run : List (ViewEnv × ViewOp) → MessageView →
    MessageView × Except Exception Unit
  | [], v => (v, Except.ok ())
  | (env, op) :: rest, v =>
    match MessageView.step env op v with
    | (v1, Except.error e) => (v1, Except.error e)
    | (v1, Except.ok _) => MessageView.run rest v1

/-- The renderings among the calls: for every `factory->walk`, in order, the state of the
manager at the time of the call. -/
def renderings : List ViewCall → List MsgPartNetAccessManager
  | [] => []
  | ViewCall.walk _ netAccess _ :: rest => netAccess :: renderings rest
  | _ :: rest => renderings rest

/-- What calls of the view have done when they have taken it from `v` to `w`: the
renderings they have made were all made with externals disabled, after a rendering externals
are disabled, and externals are enabled in `w` only if they were in `v`. -/
def ViewEffect (v w : MessageView) : Prop :=
  ∃ made, renderings w.calls = renderings v.calls ++ made ∧
    (∀ n, n ∈ made → n._externalsEnabled = false) ∧
    (made ≠ [] → w.netAccess._externalsEnabled = false) ∧
    (w.netAccess._externalsEnabled = true → v.netAccess._externalsEnabled = true)

namespace Example

/-- Surroundings in which the messages in `fetched` have arrived; the root part of message m
has the index m + 100, and every widget of the factory is an `AbstractPartWidget`. -/
def viewEnv (fetched : List Ptr) : ViewEnv :=
  { deproxifiedIndex := fun i => i,
    isFetched := fun i => match i with
      | none => false
      | some m => decide (m ∈ fetched),
    rootPart := fun i => i.map (fun m => m + 100),
    row := fun _ => 0,
    parent := fun _ => none,
    preferPlaintext := true,
    online := false,
    autoMarkReadEnabled := true,
    autoMarkReadSeconds := 0,
    abstractPartWidget := fun w => decide (w ≠ Viewer.emptyView) }

/-- Message 4 is shown and the user allows externals for it; then message 5, which has not
arrived, is selected; finally message 5 arrives and the model reports the change. -/
def browsing : List (ViewEnv × ViewOp) :=
  [(viewEnv [4], ViewOp.setMessage (some 4)),
   (viewEnv [4], ViewOp.externalsRequested { scheme := "http", host := "x", path := "/a.png" }),
   (viewEnv [4], ViewOp.externalsEnabled),
   (viewEnv [4], ViewOp.setMessage (some 5)),
   (viewEnv [4, 5], ViewOp.handleDataChanged (some 5) (some 5))]

end Example

/-! ## Basic facts about the heap -/

@[simp] theorem State.modify_heap (s : State) (p : Ptr) (f : TreeItem → TreeItem) (q : Ptr) :
    (s.modify p f).heap q = if q = p then f (s.heap q) else s.heap q := rfl

@[simp] theorem State.modify_next (s : State) (p : Ptr) (f : TreeItem → TreeItem) :
    (s.modify p f).next = s.next := rfl

@[simp] theorem State.modify_requests (s : State) (p : Ptr) (f : TreeItem → TreeItem) :
    (s.modify p f).requests = s.requests := rfl

@[simp] theorem State.alloc_heap (s : State) (t : TreeItem) (q : Ptr) :
    (s.alloc t).1.heap q = if q = s.next then t else s.heap q := rfl

@[simp] theorem State.alloc_next (s : State) (t : TreeItem) :
    (s.alloc t).1.next = s.next + 1 := rfl

@[simp] theorem State.alloc_requests (s : State) (t : TreeItem) :
    (s.alloc t).1.requests = s.requests := rfl

@[simp] theorem State.alloc_ptr (s : State) (t : TreeItem) : (s.alloc t).2 = s.next := rfl

@[simp] theorem State.ask_heap (s : State) (r : Request) : (s.ask r).heap = s.heap := rfl

@[simp] theorem State.ask_next (s : State) (r : Request) : (s.ask r).next = s.next := rfl

@[simp] theorem State.ask_requests (s : State) (r : Request) :
    (s.ask r).requests = s.requests ++ [r] := rfl

@[simp] theorem State.setStatus_heap (s : State) (p : Ptr) (st : FetchingState) (q : Ptr) :
    (s.setStatus p st).heap q =
      if q = p then { s.heap q with fetchStatus := st } else s.heap q := rfl

@[simp] theorem State.setStatus_next (s : State) (p : Ptr) (st : FetchingState) :
    (s.setStatus p st).next = s.next := rfl

@[simp] theorem State.setStatus_requests (s : State) (p : Ptr) (st : FetchingState) :
    (s.setStatus p st).requests = s.requests := rfl

theorem State.ext_iff_fields (s t : State) :
    s = t ↔ s.heap = t.heap ∧ s.next = t.next ∧ s.requests = t.requests := by
  cases s; cases t; simp

/-! ## setChildren -/

/-- One `setChildren` call on a mailbox whose child 0 is a message list: it succeeds, returns
the children after child 0, and leaves child 0 in front of the new items. -/
theorem setChildren_mailbox_step (s : State) (self msgList : Ptr) (rest items : List Ptr)
    (hk : (s.heap self).kind = Kind.Mailbox)
    (hc : (s.heap self).children = msgList :: rest)
    (hm : (s.heap msgList).kind = Kind.MsgList) :
    (setChildren s self items).2 = Except.ok rest ∧
      ((setChildren s self items).1.heap self).kind = Kind.Mailbox ∧
      ((setChildren s self items).1.heap self).children = msgList :: items ∧
      ((setChildren s self items).1.heap msgList).kind = Kind.MsgList := by
  have hne : msgList ≠ self := by
    intro h; rw [h, hk] at hm; cases hm
  simp only [setChildren, hk, TreeItemMailbox.setChildren, hc, dynamicCast, hm, if_true,
    TreeItem.setChildren]
  split <;> simp [hne, hk, hm, hc]

/-- The shape every mailbox object keeps: its child 0 is `msgList`, a message list. -/
theorem setChildrenSeq_keeps_msgList (self msgList : Ptr) (calls : List (List Ptr)) :
    ∀ (s : State) (rest : List Ptr),
      (s.heap self).kind = Kind.Mailbox → (s.heap self).children = msgList :: rest →
      (s.heap msgList).kind = Kind.MsgList →
      ∃ s' rest', setChildrenSeq self calls s = some s' ∧
        (s'.heap self).kind = Kind.Mailbox ∧ (s'.heap self).children = msgList :: rest' ∧
        (s'.heap msgList).kind = Kind.MsgList := by
  induction calls with
  | nil =>
    intro s rest hk hc hm
    exact ⟨s, rest, rfl, hk, hc, hm⟩
  | cons items calls ih =>
    intro s rest hk hc hm
    obtain ⟨h1, h2, h3, h4⟩ := setChildren_mailbox_step s self msgList rest items hk hc hm
    obtain ⟨s', rest', h5, h6⟩ := ih (setChildren s self items).1 items h2 h3 h4
    refine ⟨s', rest', ?_, h6⟩
    rw [setChildrenSeq]
    generalize hr : setChildren s self items = r at h1 h5
    obtain ⟨r1, r2⟩ := r
    simp only at h1 h5
    subst h1
    simpa using h5

theorem create_shape (s : State) (parent : Option Ptr) :
    (TreeItemMailbox.create s parent).2 = s.next ∧
      ((TreeItemMailbox.create s parent).1.heap s.next).kind = Kind.Mailbox ∧
      ((TreeItemMailbox.create s parent).1.heap s.next).children = [s.next + 1] ∧
      ((TreeItemMailbox.create s parent).1.heap (s.next + 1)).kind = Kind.MsgList := by
  simp only [TreeItemMailbox.create, TreeItemMsgList.create]
  split <;> simp [TreeItem.init]

theorem createFromList_shape (s : State) (parent : Option Ptr) (response : ListResponse) :
    (TreeItemMailbox.createFromList s parent response).2 = s.next ∧
      ((TreeItemMailbox.createFromList s parent response).1.heap s.next).kind = Kind.Mailbox ∧
      ((TreeItemMailbox.createFromList s parent response).1.heap s.next).children
        = [s.next + 1] ∧
      ((TreeItemMailbox.createFromList s parent response).1.heap (s.next + 1)).kind
        = Kind.MsgList := by
  simp only [TreeItemMailbox.createFromList, TreeItemMsgList.create]
  split <;> simp [TreeItem.init]

theorem fromMetadata_shape (s : State) (parent : Option Ptr) (metadata : MailboxMetadata) :
    (TreeItemMailbox.fromMetadata s parent metadata).2 = s.next ∧
      ((TreeItemMailbox.fromMetadata s parent metadata).1.heap s.next).kind = Kind.Mailbox ∧
      ((TreeItemMailbox.fromMetadata s parent metadata).1.heap s.next).children
        = [s.next + 1] ∧
      ((TreeItemMailbox.fromMetadata s parent metadata).1.heap (s.next + 1)).kind
        = Kind.MsgList := by
  obtain ⟨h1, h2, h3, h4⟩ := create_shape s parent
  simp only [TreeItemMailbox.fromMetadata, h1, State.modify_heap, if_true]
  refine ⟨trivial, h2, h3, ?_⟩
  simp [h4]

theorem dynamicCast_some (s : State) (k : Kind) (q : Ptr) :
    dynamicCast s k (some q) = if (s.heap q).kind = k then some q else none := rfl

/-- The fetch of any node variant leaves every child list as it is. -/
theorem fetch_children (s : State) (self q : Ptr) :
    ((fetch s self).heap q).children = (s.heap q).children := by
  unfold fetch TreeItemMailbox.fetch TreeItemMsgList.fetch TreeItemMessage.fetch
    TreeItemPart.fetch
  split <;> (repeat' split) <;> simp <;> split <;> simp_all

/-- C1: for a mailbox built by either TreeItemMailbox constructor or by fromMetadata, after
any sequence of setChildren calls on it (none of which fails) the child at index 0 is the
message-list node created at construction, and the mailbox has at least one child. -/
theorem mailbox_child0_is_msgList (s : State) (parent : Option Ptr) (response : ListResponse)
    (metadata : MailboxMetadata) (calls : List (List Ptr)) :
    Child0IsMsgListAfter (TreeItemMailbox.create s parent) calls ∧
    Child0IsMsgListAfter (TreeItemMailbox.createFromList s parent response) calls ∧
    Child0IsMsgListAfter (TreeItemMailbox.fromMetadata s parent metadata) calls := by
  have key : ∀ c : State × Ptr,
      (c.2 = s.next ∧ (c.1.heap s.next).kind = Kind.Mailbox ∧
        (c.1.heap s.next).children = [s.next + 1] ∧
        (c.1.heap (s.next + 1)).kind = Kind.MsgList) →
      Child0IsMsgListAfter c calls := by
    rintro ⟨c1, c2⟩ ⟨h1, h2, h3, h4⟩
    simp only at h1 h2 h3 h4
    subst h1
    obtain ⟨s', rest', h5, h6, h7, h8⟩ :=
      setChildrenSeq_keeps_msgList s.next (s.next + 1) calls c1 [] h2 h3 h4
    refine ⟨s.next + 1, s', h2, h3, h4, h5, ?_, h8, ?_, ?_, ?_⟩
    · simp [h7]
    · simp [child, h6, TreeItemMailbox.child, h7]
    · simp [h7]
    · simp [rowCount, h6, fetch_children, h7]
  exact ⟨key _ (create_shape s parent), key _ (createFromList_shape s parent response),
    key _ (fromMetadata_shape s parent metadata)⟩

/-- C2: for a mailbox node (child 0 a message list) and any list of items,
`TreeItemMailbox::setChildren( items )` succeeds and leaves as the children of the mailbox
its previous child 0, the same message-list node, followed by the items in the given
order. -/
theorem mailbox_setChildren_keeps_child0 (s : State) (self msgList : Ptr)
    (rest items : List Ptr)
    (hk : (s.heap self).kind = Kind.Mailbox)
    (hc : (s.heap self).children = msgList :: rest)
    (hm : (s.heap msgList).kind = Kind.MsgList) :
    setChildren s self items = TreeItemMailbox.setChildren s self items ∧
      (∃ old, (TreeItemMailbox.setChildren s self items).2 = Except.ok old) ∧
      ((TreeItemMailbox.setChildren s self items).1.heap self).children = msgList :: items ∧
      ((TreeItemMailbox.setChildren s self items).1.heap msgList).kind = Kind.MsgList := by
  have hv : setChildren s self items = TreeItemMailbox.setChildren s self items := by
    simp [setChildren, hk]
  obtain ⟨h1, _, h3, h4⟩ := setChildren_mailbox_step s self msgList rest items hk hc hm
  rw [hv] at h1 h3 h4
  exact ⟨hv, ⟨rest, h1⟩, h3, h4⟩

theorem mailbox_setChildren_keeps_child0_witness :
    (Example.synced.heap 0).kind = Kind.Mailbox ∧
      (Example.synced.heap 0).children = 1 :: [] ∧
      (Example.synced.heap 1).kind = Kind.MsgList ∧
      (setChildren Example.synced 0 [2] = TreeItemMailbox.setChildren Example.synced 0 [2] ∧
        (∃ old, (TreeItemMailbox.setChildren Example.synced 0 [2]).2 = Except.ok old) ∧
        ((TreeItemMailbox.setChildren Example.synced 0 [2]).1.heap 0).children = 1 :: [2] ∧
        ((TreeItemMailbox.setChildren Example.synced 0 [2]).1.heap 1).kind = Kind.MsgList) :=
  ⟨by decide, by decide, by decide,
    mailbox_setChildren_keeps_child0 Example.synced 0 1 [] [2]
      (by decide) (by decide) (by decide)⟩

/-- C3, as stated, fails: message 4 of the example has the single child 7, and
`setChildren( [7] )` returns 7 while 7 is still a child, so a previous child is in both
places. -/
theorem setChildren_reused_item_in_both_places :
    ¬ EachInExactlyOnePlace (Example.structured.heap 4).children
        (TreeItem.setChildren Example.structured 4 [7]).2
        ((TreeItem.setChildren Example.structured 4 [7]).1.heap 4).children := by
  unfold EachInExactlyOnePlace
  decide

/-- C3, amended: `TreeItem::setChildren` returns the children held before the call, in the
same order, and the mailbox override returns the previous children after child 0, in order;
when none of the new items is a previous child (and, for a mailbox, the message list does not
occur again after index 0) every previous child is in the returned list or still a child,
never both and never neither. -/
theorem setChildren_returns_previous (s : State) (self : Ptr) (items : List Ptr) :
    (TreeItem.setChildren s self items).2 = (s.heap self).children ∧
    ((∀ c ∈ items, c ∉ (s.heap self).children) →
      EachInExactlyOnePlace (s.heap self).children (TreeItem.setChildren s self items).2
        ((TreeItem.setChildren s self items).1.heap self).children) ∧
    (∀ msgList rest, (s.heap self).kind = Kind.Mailbox →
      (s.heap self).children = msgList :: rest → (s.heap msgList).kind = Kind.MsgList →
      (TreeItemMailbox.setChildren s self items).2 = Except.ok rest ∧
      (msgList ∉ rest → (∀ c ∈ items, c ∉ (s.heap self).children) →
        EachInExactlyOnePlace (s.heap self).children rest
          ((TreeItemMailbox.setChildren s self items).1.heap self).children)) := by
  refine ⟨rfl, ?_, ?_⟩
  · intro hfresh c hc
    left
    refine ⟨hc, ?_⟩
    simp only [TreeItem.setChildren, State.modify_heap, if_true]
    intro hci
    exact hfresh c hci hc
  · intro msgList rest hk hc hm
    have hv : setChildren s self items = TreeItemMailbox.setChildren s self items := by
      simp [setChildren, hk]
    obtain ⟨h1, _, h3, _⟩ := setChildren_mailbox_step s self msgList rest items hk hc hm
    rw [hv] at h1 h3
    refine ⟨h1, ?_⟩
    intro hnot hfresh c hcmem
    rw [h3]
    rw [hc] at hcmem hfresh
    rcases List.mem_cons.mp hcmem with rfl | hr
    · right
      exact ⟨hnot, List.mem_cons_self _ _⟩
    · left
      refine ⟨hr, ?_⟩
      intro hmem
      rcases List.mem_cons.mp hmem with rfl | hi
      · exact hnot hr
      · exact hfresh c hi (List.mem_cons_of_mem _ hr)

theorem setChildren_returns_previous_witness :
    (TreeItem.setChildren Example.structured 4 [8]).2 = (Example.structured.heap 4).children ∧
    ((∀ c ∈ [8], c ∉ (Example.structured.heap 4).children) ∧
      EachInExactlyOnePlace (Example.structured.heap 4).children
        (TreeItem.setChildren Example.structured 4 [8]).2
        ((TreeItem.setChildren Example.structured 4 [8]).1.heap 4).children) ∧
    ((Example.synced.heap 0).kind = Kind.Mailbox ∧
      (Example.synced.heap 0).children = 1 :: [] ∧
      (Example.synced.heap 1).kind = Kind.MsgList ∧
      (TreeItemMailbox.setChildren Example.synced 0 [2]).2 = Except.ok [] ∧
      1 ∉ ([] : List Ptr) ∧ (∀ c ∈ [2], c ∉ (Example.synced.heap 0).children) ∧
      EachInExactlyOnePlace (Example.synced.heap 0).children []
        ((TreeItemMailbox.setChildren Example.synced 0 [2]).1.heap 0).children) :=
  ⟨(setChildren_returns_previous Example.structured 4 [8]).1,
    ⟨by decide, (setChildren_returns_previous Example.structured 4 [8]).2.1 (by decide)⟩,
    by decide, by decide, by decide,
    ((setChildren_returns_previous Example.synced 0 [2]).2.2 1 []
      (by decide) (by decide) (by decide)).1,
    by decide, by decide,
    ((setChildren_returns_previous Example.synced 0 [2]).2.2 1 []
      (by decide) (by decide) (by decide)).2 (by decide) (by decide)⟩

/-! ## fetch -/

/-- What `fetch` does to a node whose status is `NONE`, for every variant: one request of the
variant's kind is logged and the status becomes `LOADING`. -/
theorem fetch_of_none (s : State) (self : Ptr)
    (h : (s.heap self).fetchStatus = FetchingState.NONE) :
    fetch s self =
      (s.ask (requestOf (s.heap self).kind self)).setStatus self FetchingState.LOADING := by
  unfold fetch TreeItemMailbox.fetch TreeItemMsgList.fetch TreeItemMessage.fetch
    TreeItemPart.fetch
  split <;> rename_i hk <;> simp [TreeItem.fetched, TreeItem.loading, h, hk, requestOf]

/-- What `fetch` does to a node whose status is not `NONE`, for every variant: nothing. -/
theorem fetch_of_not_none (s : State) (self : Ptr)
    (h : (s.heap self).fetchStatus ≠ FetchingState.NONE) :
    fetch s self = s := by
  have h' : (s.heap self).fetchStatus = FetchingState.DONE ∨
      (s.heap self).fetchStatus = FetchingState.LOADING := by
    cases hs : (s.heap self).fetchStatus <;> simp_all
  unfold fetch TreeItemMailbox.fetch TreeItemMsgList.fetch TreeItemMessage.fetch
    TreeItemPart.fetch
  rcases h' with h' | h' <;> split <;> simp [TreeItem.fetched, TreeItem.loading, h']

/-- C4: for each node variant, fetch on a node whose status is DONE or LOADING changes
nothing and dispatches no request; fetch on a node whose status is NONE sets the status to
LOADING and dispatches exactly one request of the variant's kind, changing nothing else of
the node (its children included) and no other node; and fetching twice in a row is the same
as fetching once. -/
theorem fetch_idempotent (s : State) (self : Ptr) :
    (fetch s self =
      match (s.heap self).kind with
      | Kind.Mailbox => TreeItemMailbox.fetch s self
      | Kind.MsgList => TreeItemMsgList.fetch s self
      | Kind.Message => TreeItemMessage.fetch s self
      | Kind.Part => TreeItemPart.fetch s self) ∧
    ((s.heap self).fetchStatus = FetchingState.DONE ∨
        (s.heap self).fetchStatus = FetchingState.LOADING → fetch s self = s) ∧
    ((s.heap self).fetchStatus = FetchingState.NONE →
      (fetch s self).requests = s.requests ++ [requestOf (s.heap self).kind self] ∧
      (fetch s self).heap self = { s.heap self with fetchStatus := FetchingState.LOADING } ∧
      ((fetch s self).heap self).children = (s.heap self).children ∧
      (∀ q, q ≠ self → (fetch s self).heap q = s.heap q) ∧
      (fetch s self).next = s.next) ∧
    fetch (fetch s self) self = fetch s self := by
  refine ⟨rfl, ?_, ?_, ?_⟩
  · intro h
    apply fetch_of_not_none
    rcases h with h | h <;> simp [h]
  · intro h
    rw [fetch_of_none s self h]
    refine ⟨by simp, by simp, by simp, ?_, by simp⟩
    intro q hq
    simp [hq]
  · by_cases h : (s.heap self).fetchStatus = FetchingState.NONE
    · apply fetch_of_not_none
      rw [fetch_of_none s self h]
      simp
    · rw [fetch_of_not_none s self h]
      exact fetch_of_not_none s self h

theorem fetch_idempotent_witness :
    ((Example.synced.heap 3).fetchStatus = FetchingState.DONE ∨
        (Example.synced.heap 3).fetchStatus = FetchingState.LOADING) ∧
      fetch Example.synced 3 = Example.synced ∧
    (Example.synced.heap 4).fetchStatus = FetchingState.NONE ∧
      ((fetch Example.synced 4).requests =
          Example.synced.requests ++ [requestOf (Example.synced.heap 4).kind 4] ∧
        (fetch Example.synced 4).heap 4 =
          { Example.synced.heap 4 with fetchStatus := FetchingState.LOADING } ∧
        ((fetch Example.synced 4).heap 4).children = (Example.synced.heap 4).children ∧
        (∀ q, q ≠ 4 → (fetch Example.synced 4).heap q = Example.synced.heap q) ∧
        (fetch Example.synced 4).next = Example.synced.next) ∧
    fetch (fetch Example.synced 4) 4 = fetch Example.synced 4 :=
  ⟨by decide, (fetch_idempotent Example.synced 3).2.1 (by decide), by decide,
    (fetch_idempotent Example.synced 4).2.2.1 (by decide),
    (fetch_idempotent Example.synced 4).2.2.2⟩

/-! ## The FETCH handler: failures -/

/-- For a sequence number that is a valid 1-based index, the 32-bit conversions of the
handler yield the 0-based index. -/
theorem uintToInt_uintPred (n : Nat) (h1 : 1 ≤ n) (h2 : n < 2147483649) :
    uintToInt (uintPred n) = (n : Int) - 1 := by
  unfold uintToInt uintPred
  split <;> omega

/-- An item whose key does not begin with `BODY[` never raises `UnknownMessageIndex`. -/
theorem handleFetchItem_not_unknownIndex (s : State) (self message : Ptr)
    (response : FetchResponse) (key : String) (value : AbstractData) (cp : Option Ptr)
    (hkey : startsWith key "BODY[" = false) :
    (handleFetchItem s self message response key value cp).2 ≠
      Except.error Exception.UnknownMessageIndex := by
  unfold handleFetchItem
  simp only [hkey]
  split
  · split <;> simp
  · split
    · split
      · simp
      · split
        · split <;> simp
        · simp
    · split
      · split <;> simp
      · simp

theorem handleFetchItems_not_unknownIndex (self message : Ptr) (response : FetchResponse)
    (data : List (String × AbstractData)) :
    ∀ (s : State) (cp : Option Ptr),
      (∀ kv ∈ data, startsWith kv.1 "BODY[" = false) →
      (handleFetchItems self message response data s cp).2 ≠
        Except.error Exception.UnknownMessageIndex := by
  induction data with
  | nil => intro s cp _; simp [handleFetchItems]
  | cons kv rest ih =>
    intro s cp h
    have h1 := handleFetchItem_not_unknownIndex s self message response kv.1 kv.2 cp
      (h kv (List.mem_cons_self _ _))
    rw [handleFetchItems]
    generalize handleFetchItem s self message response kv.1 kv.2 cp = r at h1
    obtain ⟨r1, r2⟩ := r
    cases r2 with
    | error e => simpa using h1
    | ok v => exact ih r1 v (fun kv' hkv' => h kv' (List.mem_cons_of_mem _ hkv'))

/-- C5, as stated, fails: in the example the message list 3 is DONE and 1 is a valid
sequence number, yet `* 1 FETCH (BODY[3] ...)` fails with UnknownMessageIndex, because
message 1 has no part 3. -/
theorem unknownIndex_for_valid_sequence_number :
    (Example.structured.heap 3).fetchStatus = FetchingState.DONE ∧
      ¬ FailsExactlyOnBadIndex Example.structured 2 3
        { number := 1, data := [("BODY[3]", AbstractData.byteArray ['x'])] } := by
  unfold FailsExactlyOnBadIndex
  decide

/-- C5, amended: handleFetchResponse for a FETCH response with sequence number n fails with
UnexpectedResponseReceived when the mailbox's message-list node is not DONE, and otherwise
fails with UnknownMessageIndex whenever n-1 is not a valid index into the message list
(n < 1 or n greater than the number of messages); in both failures no node of the tree has
been modified.  For a valid index the handler raises UnknownMessageIndex only on behalf of a
`BODY[` item: a response without such an item does not fail with it. -/
theorem handleFetchResponse_failures (s : State) (self list : Ptr) (rest : List Ptr)
    (response : FetchResponse)
    (hc : (s.heap self).children = list :: rest)
    (hm : (s.heap list).kind = Kind.MsgList)
    (hn : response.number < 4294967296)
    (hl : (s.heap list).children.length < 2147483648) :
    ((s.heap list).fetchStatus ≠ FetchingState.DONE →
      TreeItemMailbox.handleFetchResponse s self response =
        (s, Except.error Exception.UnexpectedResponseReceived)) ∧
    ((s.heap list).fetchStatus = FetchingState.DONE →
      (response.number < 1 ∨ (s.heap list).children.length < response.number) →
      TreeItemMailbox.handleFetchResponse s self response =
        (s, Except.error Exception.UnknownMessageIndex)) ∧
    ((s.heap list).fetchStatus = FetchingState.DONE →
      1 ≤ response.number → response.number ≤ (s.heap list).children.length →
      (∀ kv ∈ response.data, startsWith kv.1 "BODY[" = false) →
      (TreeItemMailbox.handleFetchResponse s self response).2 ≠
        Except.error Exception.UnknownMessageIndex) := by
  refine ⟨?_, ?_, ?_⟩
  · intro hs
    simp only [TreeItemMailbox.handleFetchResponse, hc, dynamicCast, hm, TreeItem.fetched,
      if_true, decide_eq_true_eq, Bool.not_eq_true', decide_eq_false_iff_not]
    rw [if_pos hs]
  · intro hs hbad
    have hidx : uintToInt (uintPred response.number) < 0 ∨
        uintToInt (uintPred response.number) ≥ ((s.heap list).children.length : Int) := by
      unfold uintToInt uintPred
      split <;> omega
    simp only [TreeItemMailbox.handleFetchResponse, hc, dynamicCast, hm, TreeItem.fetched,
      if_true, decide_eq_true_eq, Bool.not_eq_true', decide_eq_false_iff_not]
    rw [if_neg (by simp [hs]), if_pos hidx]
  · intro hs h1 h2 hkeys
    have hidx := uintToInt_uintPred response.number h1 (by omega)
    simp only [TreeItemMailbox.handleFetchResponse, hc, dynamicCast_some, hm, TreeItem.fetched,
      hs, if_true, decide_True, Bool.not_true, hidx]
    rw [if_neg (by simp), if_neg (by omega)]
    generalize dynamicCast _ Kind.Message _ = d
    cases d with
    | none => simp
    | some message => exact handleFetchItems_not_unknownIndex _ _ _ _ _ _ hkeys

theorem handleFetchResponse_failures_witness :
    (Example.synced.heap 2).children = 3 :: [] ∧
    (Example.synced.heap 3).kind = Kind.MsgList ∧
    (4 : Nat) < 4294967296 ∧
    (Example.synced.heap 3).children.length < 2147483648 ∧
    (Example.synced.heap 3).fetchStatus = FetchingState.DONE ∧
    ((4 : Nat) < 1 ∨ (Example.synced.heap 3).children.length < 4) ∧
    TreeItemMailbox.handleFetchResponse Example.synced 2
        { number := 4, data := [("ENVELOPE", AbstractData.envelope Example.hi)] } =
      (Example.synced, Except.error Exception.UnknownMessageIndex) :=
  ⟨by decide, by decide, by decide, by decide, by decide, by decide,
    (handleFetchResponse_failures Example.synced 2 3 []
      { number := 4, data := [("ENVELOPE", AbstractData.envelope Example.hi)] }
      (by decide) (by decide) (by decide) (by decide)).2.1 (by decide) (by decide)⟩

/-! ## What fetching can change -/

theorem FetchOnly.refl (s : State) : FetchOnly s s :=
  ⟨rfl, fun _ => Or.inl rfl⟩

theorem FetchOnly.trans {s t u : State} (h1 : FetchOnly s t) (h2 : FetchOnly t u) :
    FetchOnly s u := by
  refine ⟨h2.1.trans h1.1, fun q => ?_⟩
  rcases h1.2 q with a | ⟨a1, a2⟩
  · rcases h2.2 q with b | ⟨b1, b2⟩
    · left; rw [b, a]
    · right; rw [a] at b1 b2; exact ⟨b1, b2⟩
  · rcases h2.2 q with b | ⟨b1, b2⟩
    · right; rw [b]; exact ⟨a1, a2⟩
    · rw [a2] at b1; cases b1

theorem FetchOnly.kind {s t : State} (h : FetchOnly s t) (q : Ptr) :
    (t.heap q).kind = (s.heap q).kind := by
  rcases h.2 q with a | ⟨_, a⟩ <;> rw [a]

theorem FetchOnly.children {s t : State} (h : FetchOnly s t) (q : Ptr) :
    (t.heap q).children = (s.heap q).children := by
  rcases h.2 q with a | ⟨_, a⟩ <;> rw [a]

theorem FetchOnly.parent {s t : State} (h : FetchOnly s t) (q : Ptr) :
    (t.heap q).parent = (s.heap q).parent := by
  rcases h.2 q with a | ⟨_, a⟩ <;> rw [a]

theorem FetchOnly.mimeType {s t : State} (h : FetchOnly s t) (q : Ptr) :
    (t.heap q).mimeType = (s.heap q).mimeType := by
  rcases h.2 q with a | ⟨_, a⟩ <;> rw [a]

theorem FetchOnly.envelope {s t : State} (h : FetchOnly s t) (q : Ptr) :
    (t.heap q).envelope = (s.heap q).envelope := by
  rcases h.2 q with a | ⟨_, a⟩ <;> rw [a]

/-- A node that is `DONE` is not touched by fetches. -/
theorem FetchOnly.of_done {s t : State} (h : FetchOnly s t) (q : Ptr)
    (hd : (s.heap q).fetchStatus = FetchingState.DONE) : t.heap q = s.heap q := by
  rcases h.2 q with a | ⟨a, _⟩
  · exact a
  · rw [hd] at a; cases a

theorem fetch_fetchOnly (s : State) (self : Ptr) : FetchOnly s (fetch s self) := by
  by_cases h : (s.heap self).fetchStatus = FetchingState.NONE
  · rw [fetch_of_none s self h]
    refine ⟨rfl, fun q => ?_⟩
    by_cases hq : q = self
    · subst hq; right; exact ⟨h, by simp⟩
    · left; simp [hq]
  · rw [fetch_of_not_none s self h]
    exact FetchOnly.refl s

theorem TreeItem.baseChild_fetchOnly (s : State) (self : Ptr) (offset : Int) :
    FetchOnly s (TreeItem.child s self offset).1 :=
  fetch_fetchOnly s self

theorem child_fetchOnly (s : State) (self : Ptr) (offset : Int) :
    FetchOnly s (child s self offset).1 := by
  unfold child TreeItemMailbox.child TreeItemPart.child
  split
  · split
    · split <;> exact FetchOnly.refl s
    · exact fetch_fetchOnly s self
  · exact FetchOnly.refl s
  · exact fetch_fetchOnly s self

theorem childAt_mem (l : List Ptr) (offset : Int) (c : Ptr) (h : childAt l offset = some c) :
    c ∈ l := by
  unfold childAt at h
  split at h
  · exact List.get?_mem h
  · cases h

/-- A child returned by the virtual `child` is one of the receiver's children. -/
theorem child_mem (s : State) (self : Ptr) (offset : Int) (c : Ptr)
    (h : (child s self offset).2 = Except.ok (some c)) : c ∈ (s.heap self).children := by
  unfold child TreeItemMailbox.child TreeItemPart.child TreeItem.child at h
  split at h
  · split at h
    · split at h
      · cases h
      · rename_i hc
        simp only [Except.ok.injEq, Option.some.injEq] at h
        rw [hc, ← h]
        exact List.mem_cons_self _ _
    · simp only [Except.ok.injEq] at h
      rw [← fetch_children s self self]
      exact childAt_mem _ _ _ h
  · simp only [Except.ok.injEq] at h
    exact childAt_mem _ _ _ h
  · simp only [Except.ok.injEq] at h
    rw [← fetch_children s self self]
    exact childAt_mem _ _ _ h

theorem partIdToPtrLoop_fetchOnly (segs : List (List Char)) :
    ∀ (s : State) (item : Ptr), FetchOnly s (partIdToPtrLoop segs s item).1 := by
  induction segs with
  | nil => intro s item; exact FetchOnly.refl s
  | cons seg segs ih =>
    intro s item
    rw [partIdToPtrLoop]
    cases toUInt seg with
    | none => exact FetchOnly.refl s
    | some n =>
      simp only
      have h1 := child_fetchOnly s item 0
      generalize child s item 0 = r at h1
      obtain ⟨s1, r2⟩ := r
      cases r2 with
      | error e => exact h1
      | ok c0 =>
        simp only
        have h2 := child_fetchOnly s1 (throughTopLevelMultiPart s1 item c0)
          (uintToInt (uintPred n))
        generalize child s1 (throughTopLevelMultiPart s1 item c0) (uintToInt (uintPred n)) = r'
          at h2
        obtain ⟨s2, r2'⟩ := r'
        cases r2' with
        | error e => exact h1.trans h2
        | ok nxt =>
          cases nxt with
          | none => exact h1.trans h2
          | some nxt => exact (h1.trans h2).trans (ih s2 nxt)

theorem partIdToPtr_fetchOnly (s : State) (self : Ptr) (msgNumber : Int) (msgId : String) :
    FetchOnly s (TreeItemMailbox.partIdToPtr s self msgNumber msgId).1 := by
  unfold TreeItemMailbox.partIdToPtr
  cases (s.heap self).children with
  | nil => exact FetchOnly.refl s
  | cons list rest =>
    simp only
    split
    · exact FetchOnly.refl s
    · have h1 := child_fetchOnly s list (msgNumber - 1)
      generalize child s list (msgNumber - 1) = r at h1
      obtain ⟨s1, r2⟩ := r
      cases r2 with
      | error e => exact h1
      | ok item =>
        cases item with
        | none => exact h1
        | some item =>
          simp only
          have h2 := partIdToPtrLoop_fetchOnly (splitChars '.' msgId.data) s1 item
          generalize partIdToPtrLoop (splitChars '.' msgId.data) s1 item = r' at h2
          obtain ⟨s2, r2'⟩ := r'
          cases r2' with
          | error e => exact h1.trans h2
          | ok last =>
            simp only
            split <;> exact h1.trans h2

/-- The part returned by `partIdToPtr` has dynamic type `TreeItemPart`. -/
theorem partIdToPtr_kind (s : State) (self : Ptr) (msgNumber : Int) (msgId : String) :
    ∀ part, (TreeItemMailbox.partIdToPtr s self msgNumber msgId).2 = Except.ok part →
      ((TreeItemMailbox.partIdToPtr s self msgNumber msgId).1.heap part).kind = Kind.Part := by
  unfold TreeItemMailbox.partIdToPtr
  cases (s.heap self).children with
  | nil => intro part h; cases h
  | cons list rest =>
    simp only
    split
    · intro part h; cases h
    · generalize child s list (msgNumber - 1) = r
      obtain ⟨s1, r2⟩ := r
      cases r2 with
      | error e => intro part h; cases h
      | ok item =>
        cases item with
        | none => intro part h; cases h
        | some item =>
          simp only
          generalize partIdToPtrLoop (splitChars '.' msgId.data) s1 item = r'
          obtain ⟨s2, r2'⟩ := r'
          cases r2' with
          | error e => intro part h; cases h
          | ok last =>
            simp only [dynamicCast_some]
            by_cases hk : (s2.heap last).kind = Kind.Part
            · rw [if_pos hk]
              intro part h
              simp only [Except.ok.injEq] at h
              subst h
              exact hk
            · rw [if_neg hk]
              intro part h
              cases h

/-! ## Construction of MIME trees -/

theorem TreeItemPart.create_heap (s : State) (parent : Option Ptr) (mimeType : String) :
    (TreeItemPart.create s parent mimeType).2 = s.next ∧
    (TreeItemPart.create s parent mimeType).1.next = s.next + 1 ∧
    (TreeItemPart.create s parent mimeType).1.requests = s.requests ∧
    (∀ q, q ≠ s.next → (TreeItemPart.create s parent mimeType).1.heap q = s.heap q) ∧
    ((TreeItemPart.create s parent mimeType).1.heap s.next).kind = Kind.Part ∧
    ((TreeItemPart.create s parent mimeType).1.heap s.next).children = [] := by
  simp only [TreeItemPart.create]
  split <;> simp +contextual [TreeItem.init]

mutual
/-- Building a MIME tree only allocates: old objects are untouched, the objects in the new
region are parts whose children lie in the new region, and so do the returned parts. -/
theorem createTreeItems_frame : ∀ (b : AbstractMessage) (s : State) (parent : Nat),
    s.next ≤ (createTreeItems b s parent).1.next ∧
    (∀ q : Nat, q < s.next → (createTreeItems b s parent).1.heap q = s.heap q) ∧
    (∀ q : Nat, s.next ≤ q → q < (createTreeItems b s parent).1.next →
      ((createTreeItems b s parent).1.heap q).kind = Kind.Part ∧
      ∀ c : Nat, c ∈ ((createTreeItems b s parent).1.heap q).children →
        s.next ≤ c ∧ c < (createTreeItems b s parent).1.next) ∧
    (∀ q : Nat, (createTreeItems b s parent).1.next ≤ q →
      (createTreeItems b s parent).1.heap q = s.heap q) ∧
    (∀ c : Nat, c ∈ (createTreeItems b s parent).2 →
      s.next ≤ c ∧ c < (createTreeItems b s parent).1.next)
  | AbstractMessage.mk mimeType encoding bodyFldId bodies, s, parent => by
    have hp := TreeItemPart.create_heap s (some parent) mimeType
    generalize hcr : TreeItemPart.create s (some parent) mimeType = cr at hp
    obtain ⟨s1, p⟩ := cr
    obtain ⟨hp1, hp2, _, hp4, hp5, _⟩ := hp
    simp only at hp1 hp2 hp4 hp5
    subst hp1
    obtain ⟨i1, i2, i3, i4, i5⟩ := createTreeItemsList_frame bodies s1 s.next
    simp only [createTreeItems, hcr, TreeItemPart.setChildren, TreeItem.setChildren,
      State.modify_heap, State.modify_next, State.setStatus_heap, State.setStatus_next]
    refine ⟨by omega, ?_, ?_, ?_, ?_⟩
    · intro q hq
      have hne : q ≠ s.next := by omega
      simp only [if_neg hne]
      rw [i2 q (by omega), hp4 q hne]
    · intro q hq1 hq2
      by_cases hq : q = s.next
      · subst hq
        simp only [if_true]
        refine ⟨?_, ?_⟩
        · rw [i2 s.next (by omega)]; exact hp5
        · intro c hc
          have := i5 c hc
          omega
      · simp only [if_neg hq]
        have := i3 q (by omega) hq2
        refine ⟨this.1, ?_⟩
        intro c hc
        have := this.2 c hc
        omega
    · intro q hq
      have hne : q ≠ s.next := by omega
      simp only [if_neg hne]
      rw [i4 q hq, hp4 q hne]
    · intro c hc
      simp only [List.mem_singleton] at hc
      omega
/-- The same for the parts of a list of structures. -/
theorem createTreeItemsList_frame : ∀ (bs : List AbstractMessage) (s : State) (parent : Nat),
    s.next ≤ (createTreeItemsList bs s parent).1.next ∧
    (∀ q : Nat, q < s.next → (createTreeItemsList bs s parent).1.heap q = s.heap q) ∧
    (∀ q : Nat, s.next ≤ q → q < (createTreeItemsList bs s parent).1.next →
      ((createTreeItemsList bs s parent).1.heap q).kind = Kind.Part ∧
      ∀ c : Nat, c ∈ ((createTreeItemsList bs s parent).1.heap q).children →
        s.next ≤ c ∧ c < (createTreeItemsList bs s parent).1.next) ∧
    (∀ q : Nat, (createTreeItemsList bs s parent).1.next ≤ q →
      (createTreeItemsList bs s parent).1.heap q = s.heap q) ∧
    (∀ c : Nat, c ∈ (createTreeItemsList bs s parent).2 →
      s.next ≤ c ∧ c < (createTreeItemsList bs s parent).1.next)
  | [], s, parent => by
    simp only [createTreeItemsList]
    refine ⟨le_refl _, fun _ _ => trivial, ?_, fun _ _ => trivial, ?_⟩
    · intro q h1 h2; omega
    · intro c hc; cases hc
  | b :: bs, s, parent => by
    obtain ⟨a1, a2, a3, a4, a5⟩ := createTreeItems_frame b s parent
    obtain ⟨b1, b2, b3, b4, b5⟩ := createTreeItemsList_frame bs (createTreeItems b s parent).1 parent
    simp only [createTreeItemsList]
    refine ⟨by omega, ?_, ?_, ?_, ?_⟩
    · intro q hq
      rw [b2 q (by omega), a2 q hq]
    · intro q hq1 hq2
      by_cases hq : q < (createTreeItems b s parent).1.next
      · rw [b2 q hq]
        have := a3 q hq1 hq
        refine ⟨this.1, ?_⟩
        intro c hc
        have := this.2 c hc
        omega
      · have := b3 q (by omega) hq2
        refine ⟨this.1, ?_⟩
        intro c hc
        have := this.2 c hc
        omega
    · intro q hq
      rw [b4 q hq, a4 q (by omega)]
    · intro c hc
      rcases List.mem_append.mp hc with h | h
      · have := a5 c h
        omega
      · have := b5 c h
        omega
end

/-- After `createTreeItems` every object is untouched or is a part. -/
theorem createTreeItems_same_or_part (b : AbstractMessage) (s : State) (parent q : Nat) :
    (createTreeItems b s parent).1.heap q = s.heap q ∨
      ((createTreeItems b s parent).1.heap q).kind = Kind.Part := by
  obtain ⟨_, a2, a3, a4, _⟩ := createTreeItems_frame b s parent
  by_cases h1 : q < s.next
  · left; exact a2 q h1
  · by_cases h2 : q < (createTreeItems b s parent).1.next
    · right; exact (a3 q (by omega) h2).1
    · left; exact a4 q (by omega)

/-! ## Messages with children are DONE in every reachable state -/

theorem MessagesWithChildrenDone.fetches_keep_done {s t : State} (hi : MessagesWithChildrenDone s)
    (h : FetchOnly s t) : MessagesWithChildrenDone t := by
  intro p hk hc
  rcases h.2 p with a | ⟨a1, a2⟩
  · rw [a] at hk hc ⊢
    exact hi p hk hc
  · rw [a2] at hk hc
    have := hi p hk hc
    rw [a1] at this
    cases this

theorem MessagesWithChildrenDone.alloc {s : State} (hi : MessagesWithChildrenDone s)
    (t : TreeItem)
    (ht : t.kind = Kind.Message → t.children ≠ [] → t.fetchStatus = FetchingState.DONE) :
    MessagesWithChildrenDone (s.alloc t).1 := by
  intro p
  simp only [State.alloc_heap]
  split
  · exact ht
  · exact hi p

theorem MessagesWithChildrenDone.after_modify {s : State} (hi : MessagesWithChildrenDone s)
    (q : Ptr) (f : TreeItem → TreeItem)
    (hf : (f (s.heap q)).kind = Kind.Message → (f (s.heap q)).children ≠ [] →
      (f (s.heap q)).fetchStatus = FetchingState.DONE) :
    MessagesWithChildrenDone (s.modify q f) := by
  intro p
  simp only [State.modify_heap]
  split
  · rename_i h; subst h; exact hf
  · exact hi p

theorem MessagesWithChildrenDone.msgList {s : State} (hi : MessagesWithChildrenDone s)
    (parent : Ptr) : MessagesWithChildrenDone (TreeItemMsgList.create s parent).1 := by
  unfold TreeItemMsgList.create
  simp only
  split <;> exact hi.alloc _ (by simp [TreeItem.init])

theorem TreeItemMsgList.create_heap_ne (s : State) (parent q : Ptr) (h : q ≠ s.next) :
    (TreeItemMsgList.create s parent).1.heap q = s.heap q := by
  unfold TreeItemMsgList.create
  simp only
  split <;> simp [h]

theorem MessagesWithChildrenDone.mailbox {s : State} (hi : MessagesWithChildrenDone s)
    (parent : Option Ptr) : MessagesWithChildrenDone (TreeItemMailbox.create s parent).1 := by
  unfold TreeItemMailbox.create
  simp only
  refine MessagesWithChildrenDone.after_modify
    (MessagesWithChildrenDone.msgList (hi.alloc _ (by simp [TreeItem.init])) _) _ _ ?_
  rw [TreeItemMsgList.create_heap_ne _ _ _ (by simp)]
  simp [TreeItem.init]

theorem MessagesWithChildrenDone.mailboxFromList {s : State} (hi : MessagesWithChildrenDone s)
    (parent : Option Ptr) (response : ListResponse) :
    MessagesWithChildrenDone (TreeItemMailbox.createFromList s parent response).1 := by
  unfold TreeItemMailbox.createFromList
  simp only
  refine MessagesWithChildrenDone.after_modify
    (MessagesWithChildrenDone.msgList (hi.alloc _ (by simp [TreeItem.init])) _) _ _ ?_
  rw [TreeItemMsgList.create_heap_ne _ _ _ (by simp)]
  simp [TreeItem.init]

theorem MessagesWithChildrenDone.fromMetadata {s : State} (hi : MessagesWithChildrenDone s)
    (parent : Option Ptr) (metadata : MailboxMetadata) :
    MessagesWithChildrenDone (TreeItemMailbox.fromMetadata s parent metadata).1 := by
  unfold TreeItemMailbox.fromMetadata
  simp only
  refine MessagesWithChildrenDone.after_modify (hi.mailbox parent) _ _ ?_
  have h := create_shape s parent
  rw [h.1]
  simp [h.2.1]

theorem MessagesWithChildrenDone.part {s : State} (hi : MessagesWithChildrenDone s)
    (parent : Option Ptr) (mimeType : String) :
    MessagesWithChildrenDone (TreeItemPart.create s parent mimeType).1 := by
  unfold TreeItemPart.create
  simp only
  split <;> exact hi.alloc _ (by simp [TreeItem.init])

theorem MessagesWithChildrenDone.setChildren {s : State} (hi : MessagesWithChildrenDone s)
    (self : Ptr) (items : List Ptr) :
    MessagesWithChildrenDone (Imap.Mailbox.setChildren s self items).1 := by
  unfold Imap.Mailbox.setChildren
  cases hk : (s.heap self).kind with
  | Mailbox =>
    simp only
    unfold TreeItemMailbox.setChildren
    cases hch : (s.heap self).children with
    | nil => exact hi
    | cons c rest =>
      simp only [dynamicCast_some]
      by_cases hm : (s.heap c).kind = Kind.MsgList
      · simp only [if_pos hm]
        have h3 : MessagesWithChildrenDone
            ((TreeItem.setChildren (s.modify self
                (fun t => { t with children := t.children.tail })) self items).1.modify self
              (fun t => { t with children := c :: t.children })) := by
          intro p
          simp only [TreeItem.setChildren, State.modify_heap]
          split
          · rename_i hp; subst hp; simp [hk]
          · exact hi p
        split
        · refine MessagesWithChildrenDone.after_modify h3 _ _ ?_
          intro _ _; rfl
        · exact h3
      · simp only [if_neg hm]
        exact hi
  | Part =>
    simp only [TreeItemPart.setChildren, TreeItem.setChildren]
    intro p
    simp only [State.setStatus_heap, State.modify_heap]
    split
    · rename_i hp; subst hp; simp [hk]
    · exact hi p
  | MsgList =>
    simp only [TreeItem.setChildren]
    refine MessagesWithChildrenDone.after_modify hi _ _ ?_
    intro _ _; rfl
  | Message =>
    simp only [TreeItem.setChildren]
    refine MessagesWithChildrenDone.after_modify hi _ _ ?_
    intro _ _; rfl

/-- Case rule for one item of a FETCH response: a property of the outcome holds when it holds
for each of the ways the loop body can go. -/
theorem handleFetchItem_cases (P : State × Except Exception (Option Ptr) → Prop)
    (s : State) (self message : Ptr) (response : FetchResponse) (key : String)
    (value : AbstractData) (cp : Option Ptr)
    (hfail : ∀ e, P (s, Except.error e))
    (hskip : key ≠ "ENVELOPE" → key ≠ "RFC822.SIZE" → P (s, Except.ok cp))
    (henv : key = "ENVELOPE" → ∀ e, value = AbstractData.envelope e →
      P (s.modify message
          (fun t => { t with envelope := e, fetchStatus := FetchingState.DONE }),
        Except.ok cp))
    (hbs : key = "BODYSTRUCTURE" → (s.heap message).fetched = false →
      ∀ b, value = AbstractData.bodyStructure b → ∀ r,
      P ((TreeItem.setChildren (createTreeItems b s message).1 message
          (createTreeItems b s message).2).1, r))
    (hsize : key = "RFC822.SIZE" → ∀ n, value = AbstractData.uint n →
      P (s.modify message (fun t => { t with size := n }), Except.ok cp))
    (hwalk : key ≠ "ENVELOPE" → startsWith key "BODY[" = true → ∀ e,
      P ((TreeItemMailbox.partIdToPtr s self (uintToInt response.number)
          (mid key 5 (key.length - 6))).1, Except.error e))
    (hbody : key ≠ "ENVELOPE" → startsWith key "BODY[" = true → ∀ part d,
      (TreeItemMailbox.partIdToPtr s self (uintToInt response.number)
          (mid key 5 (key.length - 6))).2 = Except.ok part →
      value = AbstractData.byteArray d →
      P ((TreeItemMailbox.partIdToPtr s self (uintToInt response.number)
            (mid key 5 (key.length - 6))).1.modify part
          (fun t =>
            { t with
              data := decodeBody ((TreeItemMailbox.partIdToPtr s self
                (uintToInt response.number) (mid key 5 (key.length - 6))).1.heap part).encoding d,
              fetchStatus := FetchingState.DONE }),
        Except.ok (some part))) :
    P (handleFetchItem s self message response key value cp) := by
  unfold Imap.Mailbox.handleFetchItem
  by_cases h1 : key = "ENVELOPE"
  · rw [if_pos h1]
    cases value with
    | envelope e => exact henv h1 e rfl
    | bodyStructure b => exact hfail _
    | uint n => exact hfail _
    | byteArray d => exact hfail _
    | other => exact hfail _
  · rw [if_neg h1]
    by_cases h2 : key = "BODYSTRUCTURE"
    · rw [if_pos h2]
      have hns : key ≠ "RFC822.SIZE" := by rw [h2]; decide
      cases hf : (s.heap message).fetched with
      | true => simp only [if_true]; exact hskip h1 hns
      | false =>
        simp only [Bool.false_eq_true, if_false]
        cases value with
        | envelope e => exact hfail _
        | bodyStructure b =>
          simp only
          split <;> exact hbs h2 hf b rfl _
        | uint n => exact hfail _
        | byteArray d => exact hfail _
        | other => exact hfail _
    · rw [if_neg h2]
      by_cases h3 : key = "RFC822.SIZE"
      · rw [if_pos h3]
        cases value with
        | envelope e => exact hfail _
        | bodyStructure b => exact hfail _
        | uint n => exact hsize h3 n rfl
        | byteArray d => exact hfail _
        | other => exact hfail _
      · rw [if_neg h3]
        cases h4 : startsWith key "BODY[" with
        | false => simp only [Bool.false_eq_true, if_false]; exact hskip h1 h3
        | true =>
          simp only [if_true]
          split
          · exact hfail _
          · have hw := hwalk h1 h4
            have hb := hbody h1 h4
            generalize TreeItemMailbox.partIdToPtr s self (uintToInt response.number)
              (mid key 5 (key.length - 6)) = r at hw hb
            obtain ⟨s1, r2⟩ := r
            cases r2 with
            | error e => exact hw e
            | ok part =>
              cases value with
              | envelope e => exact hw _
              | bodyStructure b => exact hw _
              | uint n => exact hw _
              | byteArray d => exact hb part d rfl rfl
              | other => exact hw _

/-- Rule for the loop over the items: a property of states that every item keeps, whatever
its outcome, holds for the state the loop ends in. -/
theorem handleFetchItems_invariant (I : State → Prop) (self message : Ptr)
    (response : FetchResponse)
    (hstep : ∀ s key value cp, I s → I (handleFetchItem s self message response key value cp).1)
    (data : List (String × AbstractData)) :
    ∀ (s : State) (cp : Option Ptr), I s →
      I (handleFetchItems self message response data s cp).1 := by
  induction data with
  | nil => intro s cp hi; exact hi
  | cons kv rest ih =>
    intro s cp hi
    have h1 := hstep s kv.1 kv.2 cp hi
    rw [Imap.Mailbox.handleFetchItems]
    generalize Imap.Mailbox.handleFetchItem s self message response kv.1 kv.2 cp = r at h1
    obtain ⟨s1, r2⟩ := r
    cases r2 with
    | error e => exact h1
    | ok v => exact ih s1 v h1

theorem MessagesWithChildrenDone.item_keeps_done {s : State} (hi : MessagesWithChildrenDone s)
    (self message : Ptr) (response : FetchResponse) (key : String) (value : AbstractData)
    (cp : Option Ptr) :
    MessagesWithChildrenDone (handleFetchItem s self message response key value cp).1 := by
  have hw := hi.fetches_keep_done (partIdToPtr_fetchOnly s self (uintToInt response.number)
    (mid key 5 (key.length - 6)))
  apply handleFetchItem_cases (fun r => MessagesWithChildrenDone r.1)
  · intro _; exact hi
  · intro _ _; exact hi
  · intro _ e _
    dsimp only [TreeItem.setChildren]
    refine MessagesWithChildrenDone.after_modify hi _ _ ?_
    intro _ _; rfl
  · intro _ _ b _ _
    have h1 : MessagesWithChildrenDone (createTreeItems b s message).1 := by
      intro p hk hc
      rcases createTreeItems_same_or_part b s message p with h | h
      · rw [h] at hk hc ⊢; exact hi p hk hc
      · rw [h] at hk; cases hk
    dsimp only [TreeItem.setChildren]
    refine MessagesWithChildrenDone.after_modify h1 _ _ ?_
    intro _ _; rfl
  · intro _ n _
    dsimp only [TreeItem.setChildren]
    refine MessagesWithChildrenDone.after_modify hi _ _ ?_
    intro h1 h2
    exact hi message h1 h2
  · intro _ _ _; exact hw
  · intro _ _ part d _ _
    dsimp only [TreeItem.setChildren]
    refine MessagesWithChildrenDone.after_modify hw _ _ ?_
    intro _ _; rfl

theorem MessagesWithChildrenDone.handleFetchResponse {s : State}
    (hi : MessagesWithChildrenDone s) (self : Ptr) (response : FetchResponse) :
    MessagesWithChildrenDone (TreeItemMailbox.handleFetchResponse s self response).1 := by
  unfold TreeItemMailbox.handleFetchResponse
  cases (s.heap self).children with
  | nil => exact hi
  | cons c rest =>
    simp only [dynamicCast_some]
    by_cases hm : (s.heap c).kind = Kind.MsgList
    · simp only [if_pos hm]
      split
      · exact hi
      · split
        · exact hi
        · have h1 : MessagesWithChildrenDone
              (TreeItem.child s c (uintToInt (uintPred response.number))).1 :=
            hi.fetches_keep_done (TreeItem.baseChild_fetchOnly _ _ _)
          split
          · exact h1
          · exact handleFetchItems_invariant MessagesWithChildrenDone _ _ _
              (fun s key value cp hs => hs.item_keeps_done _ _ _ key value cp) _ _ _ h1
    · simp only [if_neg hm]
      exact hi

/-- In every reachable state a message that has children is `DONE`. -/
theorem reachable_messagesWithChildrenDone {s : State} (h : Reachable s) :
    MessagesWithChildrenDone s := by
  induction h with
  | empty => intro p hk; cases hk
  | mailbox s parent _ ih => exact ih.mailbox parent
  | mailboxFromList s parent response _ ih => exact ih.mailboxFromList parent response
  | mailboxFromMetadata s parent metadata _ ih => exact ih.fromMetadata parent metadata
  | message s parent _ ih => exact ih.alloc _ (by simp [TreeItem.init])
  | part s parent mimeType _ ih => exact ih.part parent mimeType
  | setChildren s self items _ _ ih => exact ih.setChildren self items
  | fetch s self _ _ ih => exact ih.fetches_keep_done (fetch_fetchOnly s self)
  | child s self offset _ _ ih => exact ih.fetches_keep_done (child_fetchOnly s self offset)
  | childrenCount s self _ _ ih =>
    refine ih.fetches_keep_done ?_
    unfold childrenCount TreeItemPart.childrenCount TreeItem.childrenCount
    split
    · exact FetchOnly.refl s
    · exact fetch_fetchOnly s self
  | rowCount s self _ _ ih =>
    refine ih.fetches_keep_done ?_
    unfold rowCount childrenCount TreeItemPart.childrenCount TreeItem.childrenCount
    split
    · exact fetch_fetchOnly s self
    · split
      · exact FetchOnly.refl s
      · exact fetch_fetchOnly s self
    · exact fetch_fetchOnly s self
    · exact FetchOnly.refl s
  | hasChildMailboxes s self _ _ hk ih =>
    refine ih.fetches_keep_done ?_
    have hf : TreeItemMailbox.fetch s self = fetch s self := by simp [fetch, hk]
    unfold TreeItemMailbox.hasChildMailboxes
    simp only
    split
    · exact FetchOnly.refl s
    · split
      · exact FetchOnly.refl s
      · split
        · exact FetchOnly.refl s
        · rw [hf]; exact fetch_fetchOnly s self
  | rescanForChildMailboxes s self _ _ hk ih =>
    refine ih.fetches_keep_done ?_
    unfold TreeItemMailbox.rescanForChildMailboxes
    simp only
    have hf : ∀ t : State, (t.heap self).kind = Kind.Mailbox →
        TreeItemMailbox.fetch t self = fetch t self := by
      intro t ht; simp [fetch, ht]
    rw [hf _ (by simpa using hk)]
    refine FetchOnly.trans ?_ (fetch_fetchOnly _ self)
    exact ⟨rfl, fun _ => Or.inl rfl⟩
  | messageData s self role _ _ hk ih =>
    refine ih.fetches_keep_done ?_
    have hf : TreeItemMessage.fetch s self = fetch s self := by simp [fetch, hk]
    unfold TreeItemMessage.data
    split
    · exact FetchOnly.refl s
    · simp only
      rw [hf]
      split
      · split <;> exact fetch_fetchOnly s self
      · split <;> exact fetch_fetchOnly s self
      · exact fetch_fetchOnly s self
  | handleFetchResponse s self response _ _ _ ih => exact ih.handleFetchResponse self response

/-! ## BODYSTRUCTURE for a message whose structure is known -/

/-- An item of a response for a message that is `DONE` leaves that message a `DONE` message
with the same children. -/
theorem handleFetchItem_done_message (s : State) (self message : Ptr)
    (response : FetchResponse) (key : String) (value : AbstractData) (cp : Option Ptr)
    (ch : List Ptr)
    (hi : (s.heap message).kind = Kind.Message ∧
      (s.heap message).fetchStatus = FetchingState.DONE ∧ (s.heap message).children = ch) :
    ((handleFetchItem s self message response key value cp).1.heap message).kind
        = Kind.Message ∧
      ((handleFetchItem s self message response key value cp).1.heap message).fetchStatus
        = FetchingState.DONE ∧
      ((handleFetchItem s self message response key value cp).1.heap message).children = ch := by
  obtain ⟨hk, hd, hc⟩ := hi
  have hw := (partIdToPtr_fetchOnly s self (uintToInt response.number)
    (mid key 5 (key.length - 6))).of_done message hd
  have hpk := partIdToPtr_kind s self (uintToInt response.number) (mid key 5 (key.length - 6))
  apply handleFetchItem_cases (fun r => (r.1.heap message).kind = Kind.Message ∧
      (r.1.heap message).fetchStatus = FetchingState.DONE ∧ (r.1.heap message).children = ch)
  · intro _; exact ⟨hk, hd, hc⟩
  · intro _ _; exact ⟨hk, hd, hc⟩
  · intro _ e _
    simp [hk, hc]
  · intro _ hf
    simp [TreeItem.fetched, hd] at hf
  · intro _ n _
    simp [hk, hd, hc]
  · intro _ _ _
    dsimp only
    rw [hw]
    exact ⟨hk, hd, hc⟩
  · intro _ _ part d hp _
    have hne : message ≠ part := by
      intro h
      have := hpk part hp
      rw [← h, hw, hk] at this
      cases this
    dsimp only
    rw [State.modify_heap, if_neg hne, hw]
    exact ⟨hk, hd, hc⟩

/-- C7: in every tree state reachable through the tree's operations, handling a FETCH
response (in particular one with a BODYSTRUCTURE item) for a message that already has part
children leaves the children of that message as they were, whether the handler returns or
throws. -/
theorem bodystructure_ignored_when_children (s : State) (hr : Reachable s)
    (self list message : Nat) (rest : List Ptr) (response : FetchResponse)
    (hc : (s.heap self).children = list :: rest)
    (hidx : childAt (s.heap list).children (uintToInt (uintPred response.number))
      = some message)
    (hk : (s.heap message).kind = Kind.Message)
    (hch : (s.heap message).children ≠ []) :
    ((TreeItemMailbox.handleFetchResponse s self response).1.heap message).children
      = (s.heap message).children := by
  have hd : (s.heap message).fetchStatus = FetchingState.DONE :=
    reachable_messagesWithChildrenDone hr message hk hch
  unfold TreeItemMailbox.handleFetchResponse
  rw [hc]
  simp only [dynamicCast_some]
  by_cases hm : (s.heap list).kind = Kind.MsgList
  · simp only [if_pos hm]
    split
    · rfl
    · split
      · rfl
      · have hf := TreeItem.baseChild_fetchOnly s list (uintToInt (uintPred response.number))
        have h2 : (TreeItem.child s list (uintToInt (uintPred response.number))).2
            = some message := by
          simp only [TreeItem.child, fetch_children]
          exact hidx
        have h1 := hf.of_done message hd
        rw [h2, dynamicCast_some, h1, if_pos hk]
        simp only
        have := handleFetchItems_invariant
          (fun t => (t.heap message).kind = Kind.Message ∧
            (t.heap message).fetchStatus = FetchingState.DONE ∧
            (t.heap message).children = (s.heap message).children)
          self message response
          (fun t key value cp ht =>
            handleFetchItem_done_message t self message response key value cp _ ht)
          response.data (TreeItem.child s list (uintToInt (uintPred response.number))).1 none
          (by dsimp only; rw [h1]; exact ⟨hk, hd, rfl⟩)
        exact this.2.2
  · simp only [if_neg hm]

theorem Example.synced_reachable : Reachable Example.synced :=
  Reachable.setChildren _ 3 [4, 5, 6]
    (Reachable.message _ (some 3) (Reachable.message _ (some 3) (Reachable.message _ (some 3)
      (Reachable.mailboxFromList _ (some 0)
        { mailbox := "INBOX", separator := "/", flags := [] }
        (Reachable.mailbox _ none Reachable.empty)))))
    (by decide)

theorem Example.structured_reachable : Reachable Example.structured :=
  Reachable.handleFetchResponse _ 2 _ Example.synced_reachable (by decide) (by decide)

theorem bodystructure_ignored_when_children_witness :
    Reachable Example.structured ∧
    (Example.structured.heap 2).children = 3 :: [] ∧
    childAt (Example.structured.heap 3).children (uintToInt (uintPred 1)) = some 4 ∧
    (Example.structured.heap 4).kind = Kind.Message ∧
    (Example.structured.heap 4).children ≠ [] ∧
    ((TreeItemMailbox.handleFetchResponse Example.structured 2
        { number := 1,
          data := [("BODYSTRUCTURE", AbstractData.bodyStructure Example.mixed)] }).1.heap
      4).children = (Example.structured.heap 4).children :=
  ⟨Example.structured_reachable, by decide, by decide, by decide, by decide,
    bodystructure_ignored_when_children Example.structured Example.structured_reachable 2 3 4 []
      { number := 1, data := [("BODYSTRUCTURE", AbstractData.bodyStructure Example.mixed)] }
      (by decide) (by decide) (by decide) (by decide)⟩

/-- C8 at its failing input: message 1 of the example got its ENVELOPE in an earlier response,
which marked it DONE while it has no part children; the BODYSTRUCTURE item of the next
response is then dropped: the handler returns normally, allocates nothing and the message
still has no children.  The same item for the message before the ENVELOPE arrived attaches
the MIME tree. -/
theorem bodystructure_dropped_after_envelope :
    Reachable Example.enveloped ∧
    (Example.enveloped.heap 4).kind = Kind.Message ∧
    (Example.enveloped.heap 4).children = [] ∧
    (TreeItemMailbox.handleFetchResponse Example.enveloped 2
      { number := 1,
        data := [("BODYSTRUCTURE", AbstractData.bodyStructure Example.mixed)] }).2
      = Except.ok none ∧
    ((TreeItemMailbox.handleFetchResponse Example.enveloped 2
      { number := 1,
        data := [("BODYSTRUCTURE", AbstractData.bodyStructure Example.mixed)] }).1.heap
      4).children = [] ∧
    (TreeItemMailbox.handleFetchResponse Example.enveloped 2
      { number := 1,
        data := [("BODYSTRUCTURE", AbstractData.bodyStructure Example.mixed)] }).1.next
      = Example.enveloped.next ∧
    ((TreeItemMailbox.handleFetchResponse Example.synced 2
      { number := 1,
        data := [("BODYSTRUCTURE", AbstractData.bodyStructure Example.mixed)] }).1.heap
      4).children = [7] :=
  ⟨Reachable.handleFetchResponse _ 2 _ Example.synced_reachable (by decide) (by decide),
    by decide, by decide, by decide, by decide, by decide, by decide⟩

/-! ## BODY[...] items -/

theorem bodyKey_data (id : String) :
    ("BODY[" ++ id ++ "]").data = 'B' :: 'O' :: 'D' :: 'Y' :: '[' :: (id.data ++ [']']) := by
  simp [String.data_append]

theorem bodyKey_ne_envelope (id : String) : "BODY[" ++ id ++ "]" ≠ "ENVELOPE" := by
  intro h
  have := congrArg String.data h
  rw [bodyKey_data] at this
  simp at this

theorem bodyKey_ne_bodystructure (id : String) : "BODY[" ++ id ++ "]" ≠ "BODYSTRUCTURE" := by
  intro h
  have := congrArg String.data h
  rw [bodyKey_data] at this
  simp at this

theorem bodyKey_ne_size (id : String) : "BODY[" ++ id ++ "]" ≠ "RFC822.SIZE" := by
  intro h
  have := congrArg String.data h
  rw [bodyKey_data] at this
  simp at this

theorem bodyKey_startsWith (id : String) : startsWith ("BODY[" ++ id ++ "]") "BODY[" = true := by
  unfold startsWith
  rw [bodyKey_data]
  simp [List.isPrefixOf]

theorem bodyKey_last (id : String) : ("BODY[" ++ id ++ "]").data.getLast? = some ']' := by
  rw [bodyKey_data]
  have : 'B' :: 'O' :: 'D' :: 'Y' :: '[' :: (id.data ++ [']'])
      = ('B' :: 'O' :: 'D' :: 'Y' :: '[' :: id.data) ++ [']'] := rfl
  rw [this, List.getLast?_concat]

theorem bodyKey_mid (id : String) :
    mid ("BODY[" ++ id ++ "]") 5 (("BODY[" ++ id ++ "]").length - 6) = id := by
  have hl : ("BODY[" ++ id ++ "]").length = id.data.length + 6 := by
    show ("BODY[" ++ id ++ "]").data.length = _
    rw [bodyKey_data]
    simp
  unfold mid
  rw [hl, bodyKey_data]
  simp

theorem FetchOnly.encoding {s t : State} (h : FetchOnly s t) (q : Ptr) :
    (t.heap q).encoding = (s.heap q).encoding := by
  rcases h.2 q with a | ⟨_, a⟩ <;> rw [a]

/-- With a synced message list and a sequence number that addresses `message`, the handler
is the loop over the items, started in the unchanged state. -/
theorem handleFetchResponse_synced (s : State) (self list message : Ptr) (rest : List Ptr)
    (response : FetchResponse)
    (hc : (s.heap self).children = list :: rest)
    (hm : (s.heap list).kind = Kind.MsgList)
    (hd : (s.heap list).fetchStatus = FetchingState.DONE)
    (hidx : childAt (s.heap list).children (uintToInt (uintPred response.number))
      = some message)
    (hk : (s.heap message).kind = Kind.Message) :
    TreeItemMailbox.handleFetchResponse s self response =
      handleFetchItems self message response response.data s none := by
  have hf : fetch s list = s := fetch_of_not_none s list (by rw [hd]; decide)
  have hb : ¬ (uintToInt (uintPred response.number) < 0 ∨
      uintToInt (uintPred response.number) ≥ ((s.heap list).children.length : Int)) := by
    intro h
    unfold childAt at hidx
    rw [if_neg (by omega)] at hidx
    cases hidx
  unfold TreeItemMailbox.handleFetchResponse
  rw [hc]
  simp only [dynamicCast_some, if_pos hm, TreeItem.fetched, hd, decide_True, Bool.not_true,
    if_neg hb, TreeItem.child, hf, hidx, if_pos hk]
  rfl

theorem childAt_of_sequenceNumber (l : List Ptr) (n : Nat) (m : Ptr) (h1 : 1 ≤ n)
    (h2 : l.get? (n - 1) = some m) (h3 : l.length < 2147483648) :
    childAt l (uintToInt (uintPred n)) = some m := by
  have hlt : n - 1 < l.length := by
    rcases Nat.lt_or_ge (n - 1) l.length with h | h
    · exact h
    · rw [List.get?_eq_none.mpr h] at h2; cases h2
  rw [uintToInt_uintPred n h1 (by omega)]
  unfold childAt
  rw [if_pos (by omega)]
  have : ((n : Int) - 1).toNat = n - 1 := by omega
  rw [this]
  exact h2

/-- C9: an item `BODY[id]` whose id resolves to a part stores in that part the received bytes
decoded after the part's transfer encoding (quoted-printable decoded for `quoted-printable`,
so `Hello=3Dworld` is stored as `Hello=world`; base64 decoded for `base64`; unchanged for
`7bit`, `8bit`, `binary` and any other encoding) and marks the part DONE; the loop body does
so in any state, and a response with that single item for a synced list does so as a
whole. -/
theorem body_item_decoded (s : State) (self message : Ptr) (response : FetchResponse)
    (id : String) (d : QByteArray) (cp : Option Ptr) (part : Ptr)
    (hres : (TreeItemMailbox.partIdToPtr s self (uintToInt response.number) id).2
      = Except.ok part) :
    (handleFetchItem s self message response ("BODY[" ++ id ++ "]")
        (AbstractData.byteArray d) cp).2 = Except.ok (some part) ∧
    ((handleFetchItem s self message response ("BODY[" ++ id ++ "]")
        (AbstractData.byteArray d) cp).1.heap part).fetchStatus = FetchingState.DONE ∧
    ((handleFetchItem s self message response ("BODY[" ++ id ++ "]")
        (AbstractData.byteArray d) cp).1.heap part).data
      = decodeBody (s.heap part).encoding d ∧
    ((s.heap part).encoding = "quoted-printable" →
      decodeBody (s.heap part).encoding d = quotedPrintableDecode d) ∧
    ((s.heap part).encoding = "base64" →
      decodeBody (s.heap part).encoding d = fromBase64 d) ∧
    ((s.heap part).encoding ≠ "quoted-printable" → (s.heap part).encoding ≠ "base64" →
      decodeBody (s.heap part).encoding d = d) ∧
    quotedPrintableDecode "Hello=3Dworld".data = "Hello=world".data ∧
    (∀ list rest,
      (s.heap self).children = list :: rest → (s.heap list).kind = Kind.MsgList →
      (s.heap list).fetchStatus = FetchingState.DONE →
      childAt (s.heap list).children (uintToInt (uintPred response.number)) = some message →
      (s.heap message).kind = Kind.Message →
      response.data = [("BODY[" ++ id ++ "]", AbstractData.byteArray d)] →
      TreeItemMailbox.handleFetchResponse s self response =
        handleFetchItem s self message response ("BODY[" ++ id ++ "]")
          (AbstractData.byteArray d) none) := by
  have hfo := partIdToPtr_fetchOnly s self (uintToInt response.number) id
  have hitem : handleFetchItem s self message response ("BODY[" ++ id ++ "]")
      (AbstractData.byteArray d) cp =
      ((TreeItemMailbox.partIdToPtr s self (uintToInt response.number) id).1.modify part
        (fun t => { t with
          data := decodeBody ((TreeItemMailbox.partIdToPtr s self
            (uintToInt response.number) id).1.heap part).encoding d,
          fetchStatus := FetchingState.DONE }), Except.ok (some part)) := by
    unfold Imap.Mailbox.handleFetchItem
    rw [if_neg (bodyKey_ne_envelope id), if_neg (bodyKey_ne_bodystructure id),
      if_neg (bodyKey_ne_size id), if_pos (bodyKey_startsWith id),
      if_neg (by rw [bodyKey_last]; simp), bodyKey_mid]
    generalize TreeItemMailbox.partIdToPtr s self (uintToInt response.number) id = r at hres
    obtain ⟨s1, r2⟩ := r
    simp only at hres
    subst hres
    rfl
  refine ⟨?_, ?_, ?_, ?_, ?_, ?_, by decide, ?_⟩
  · rw [hitem]
  · rw [hitem]; simp
  · rw [hitem]; simp [hfo.encoding]
  · intro h; simp [decodeBody, h]
  · intro h; rw [h]; simp [decodeBody]
  · intro h1 h2; simp [decodeBody, h1, h2]
  · intro list rest hc hm hd hidx hk hdata
    rw [handleFetchResponse_synced s self list message rest response hc hm hd hidx hk, hdata]
    simp only [Imap.Mailbox.handleFetchItems]
    generalize handleFetchItem s self message response ("BODY[" ++ id ++ "]")
      (AbstractData.byteArray d) none = r
    obtain ⟨s1, r2⟩ := r
    cases r2 <;> rfl

theorem body_item_decoded_witness :
    (TreeItemMailbox.partIdToPtr Example.structured 2 (uintToInt 1) "1").2 = Except.ok 8 ∧
    (Example.structured.heap 8).encoding = "quoted-printable" ∧
    (handleFetchItem Example.structured 2 4
        { number := 1, data := [("BODY[1]", AbstractData.byteArray "Hello=3Dworld".data)] }
        ("BODY[" ++ "1" ++ "]") (AbstractData.byteArray "Hello=3Dworld".data) none).2
      = Except.ok (some 8) ∧
    ((handleFetchItem Example.structured 2 4
        { number := 1, data := [("BODY[1]", AbstractData.byteArray "Hello=3Dworld".data)] }
        ("BODY[" ++ "1" ++ "]") (AbstractData.byteArray "Hello=3Dworld".data) none).1.heap
      8).fetchStatus = FetchingState.DONE ∧
    ((handleFetchItem Example.structured 2 4
        { number := 1, data := [("BODY[1]", AbstractData.byteArray "Hello=3Dworld".data)] }
        ("BODY[" ++ "1" ++ "]") (AbstractData.byteArray "Hello=3Dworld".data) none).1.heap
      8).data = decodeBody (Example.structured.heap 8).encoding "Hello=3Dworld".data ∧
    decodeBody (Example.structured.heap 8).encoding "Hello=3Dworld".data
      = quotedPrintableDecode "Hello=3Dworld".data ∧
    ((TreeItemMailbox.handleFetchResponse Example.structured 2
        { number := 1, data := [("BODY[1]", AbstractData.byteArray "Hello=3Dworld".data)] }
      ).1.heap 8).data = "Hello=world".data :=
  ⟨by decide, by decide,
    (body_item_decoded Example.structured 2 4
      { number := 1, data := [("BODY[1]", AbstractData.byteArray "Hello=3Dworld".data)] }
      "1" "Hello=3Dworld".data none 8 (by decide)).1,
    (body_item_decoded Example.structured 2 4
      { number := 1, data := [("BODY[1]", AbstractData.byteArray "Hello=3Dworld".data)] }
      "1" "Hello=3Dworld".data none 8 (by decide)).2.1,
    (body_item_decoded Example.structured 2 4
      { number := 1, data := [("BODY[1]", AbstractData.byteArray "Hello=3Dworld".data)] }
      "1" "Hello=3Dworld".data none 8 (by decide)).2.2.1,
    (body_item_decoded Example.structured 2 4
      { number := 1, data := [("BODY[1]", AbstractData.byteArray "Hello=3Dworld".data)] }
      "1" "Hello=3Dworld".data none 8 (by decide)).2.2.2.1 (by decide),
    by decide⟩

/-! ## Part ids -/

/-- `indexOf` finds the first position at which the element occurs. -/
theorem indexOf_of_first (x : Ptr) : ∀ (l : List Ptr) (i : Nat),
    l.get? i = some x → (∀ j, j < i → l.get? j ≠ some x) → indexOf l x = (i : Int) := by
  intro l
  induction l with
  | nil => intro i h _; cases h
  | cons y ys ih =>
    intro i h hfirst
    cases i with
    | zero =>
      simp only [List.get?_cons_zero, Option.some.injEq] at h
      simp [indexOf, h]
    | succ i =>
      have hy : y ≠ x := by
        intro hyx
        exact hfirst 0 (Nat.succ_pos i) (by simp [hyx])
      have hrec := ih i (by simpa using h)
        (fun j hj => by simpa using hfirst (j + 1) (Nat.succ_lt_succ hj))
      simp only [indexOf, if_neg hy, hrec]
      rw [if_neg (by omega)]
      push_cast
      rfl

theorem number_succ (i : Nat) : number ((i : Int) + 1) = toString (i + 1) := by
  unfold number
  have : ((i : Int) + 1) = ((i + 1 : Nat) : Int) := by push_cast; rfl
  rw [this]
  rfl

/-- A MIME type that begins with `multipart/` does not begin with `message/`. -/
theorem not_message_of_multipart (x : String) (h : startsWith x "multipart/" = true) :
    startsWith x "message/" = false := by
  unfold startsWith at h ⊢
  obtain ⟨t, ht⟩ := List.isPrefixOf_iff_prefix.mp h
  rw [← ht]
  rfl

/-- C10: part ids are assigned by position.  (a) A part that is not a top-level multipart
and is child i of a message has partId i+1.  (b) A part that is not a top-level multipart and
is child i of a part whose id is P has partId P.(i+1).  (c) A top-level multipart under a
part (a `message/*` part) has the partId of that part.  (d) A top-level multipart directly
under a message has no id of its own (the null string), and its child i has partId i+1
without a prefix.  "Child i" is the position that `row()` reports: the part is at index i
of the parent's children and at no smaller index.  The fuel of the parent's id plus one is
enough for the child. -/
theorem partId_by_position (s : State) (fuel : Nat) (p parent : Ptr) (i : Nat)
    (hp : (s.heap p).parent = some parent)
    (hi : (s.heap parent).children.get? i = some p)
    (hfirst : ∀ j, j < i → (s.heap parent).children.get? j ≠ some p) :
    ((s.heap parent).kind = Kind.Message → TreeItemPart.isTopLevelMultiPart s p = false →
      TreeItemPart.partId s (fuel + 1) p = some (some (toString (i + 1)))) ∧
    (∀ P : String, (s.heap parent).kind = Kind.Part →
      TreeItemPart.isTopLevelMultiPart s p = false →
      TreeItemPart.partId s fuel parent = some (some P) →
      TreeItemPart.partId s (fuel + 1) p = some (some (P ++ "." ++ toString (i + 1)))) ∧
    ((s.heap parent).kind = Kind.Part → TreeItemPart.isTopLevelMultiPart s p = true →
      startsWith (s.heap parent).mimeType "message/" = true ∧
      TreeItemPart.partId s (fuel + 1) p = TreeItemPart.partId s fuel parent) ∧
    ((s.heap parent).kind = Kind.Message → TreeItemPart.isTopLevelMultiPart s p = true →
      TreeItemPart.partId s (fuel + 1) p = some none ∧
      ∀ (c : Ptr) (k : Nat), (s.heap c).parent = some p → (s.heap p).kind = Kind.Part →
        (s.heap p).children.get? k = some c →
        (∀ j, j < k → (s.heap p).children.get? j ≠ some c) →
        TreeItemPart.isTopLevelMultiPart s c = false ∧
        TreeItemPart.partId s (fuel + 2) c = some (some (toString (k + 1)))) := by
  have hrow : TreeItem.row s p = (i : Int) := by
    simp only [TreeItem.row, hp]
    exact indexOf_of_first p _ i hi hfirst
  refine ⟨?_, ?_, ?_, ?_⟩
  · intro hk htlm
    rw [TreeItemPart.partId, if_neg (by simp [htlm])]
    simp [hp, dynamicCast_some, hk, hrow, number_succ]
  · intro P hk htlm hP
    rw [TreeItemPart.partId, if_neg (by simp [htlm])]
    simp [hp, dynamicCast_some, hk, hrow, number_succ, hP]
  · intro hk htlm
    refine ⟨?_, ?_⟩
    · have h := htlm
      simp [TreeItemPart.isTopLevelMultiPart, isTopLevelMultiPartOf, hp, dynamicCast_some, hk]
        at h
      exact h.2
    · rw [TreeItemPart.partId, if_pos htlm]
      simp [hp, dynamicCast_some, hk]
  · intro hk htlm
    have hid : TreeItemPart.partId s (fuel + 1) p = some none := by
      rw [TreeItemPart.partId, if_pos htlm]
      simp [hp, dynamicCast_some, hk]
    refine ⟨hid, ?_⟩
    intro c k hcp hpk hck hcfirst
    have hmulti : startsWith (s.heap p).mimeType "multipart/" = true := by
      simp only [TreeItemPart.isTopLevelMultiPart, isTopLevelMultiPartOf, Bool.and_eq_true]
        at htlm
      exact htlm.1
    have hctlm : TreeItemPart.isTopLevelMultiPart s c = false := by
      simp [TreeItemPart.isTopLevelMultiPart, isTopLevelMultiPartOf, hcp, dynamicCast_some,
        hpk, not_message_of_multipart _ hmulti]
    have hcrow : TreeItem.row s c = (k : Int) := by
      simp only [TreeItem.row, hcp]
      exact indexOf_of_first c _ k hck hcfirst
    refine ⟨hctlm, ?_⟩
    rw [TreeItemPart.partId, if_neg (by simp [hctlm])]
    simp [hcp, dynamicCast_some, hpk, hcrow, number_succ, hid]

theorem partId_by_position_witness :
    ((Example.nested.heap 16).parent = some 6 ∧
      (Example.nested.heap 6).children.get? 0 = some 16 ∧
      (∀ j, j < 0 → (Example.nested.heap 6).children.get? j ≠ some 16) ∧
      (Example.nested.heap 6).kind = Kind.Message ∧
      TreeItemPart.isTopLevelMultiPart Example.nested 16 = false ∧
      TreeItemPart.partId Example.nested (0 + 1) 16 = some (some (toString (0 + 1)))) ∧
    ((Example.nested.heap 15).parent = some 13 ∧
      (Example.nested.heap 13).children.get? 1 = some 15 ∧
      (∀ j, j < 1 → (Example.nested.heap 13).children.get? j ≠ some 15) ∧
      (Example.nested.heap 13).kind = Kind.Part ∧
      TreeItemPart.isTopLevelMultiPart Example.nested 15 = false ∧
      TreeItemPart.partId Example.nested 3 13 = some (some "2") ∧
      TreeItemPart.partId Example.nested (3 + 1) 15
        = some (some ("2" ++ "." ++ toString (1 + 1)))) ∧
    ((Example.nested.heap 13).parent = some 12 ∧
      (Example.nested.heap 12).children.get? 0 = some 13 ∧
      (∀ j, j < 0 → (Example.nested.heap 12).children.get? j ≠ some 13) ∧
      (Example.nested.heap 12).kind = Kind.Part ∧
      TreeItemPart.isTopLevelMultiPart Example.nested 13 = true ∧
      startsWith (Example.nested.heap 12).mimeType "message/" = true ∧
      TreeItemPart.partId Example.nested (2 + 1) 13
        = TreeItemPart.partId Example.nested 2 12) ∧
    ((Example.nested.heap 10).parent = some 5 ∧
      (Example.nested.heap 5).children.get? 0 = some 10 ∧
      (∀ j, j < 0 → (Example.nested.heap 5).children.get? j ≠ some 10) ∧
      (Example.nested.heap 5).kind = Kind.Message ∧
      TreeItemPart.isTopLevelMultiPart Example.nested 10 = true ∧
      TreeItemPart.partId Example.nested (0 + 1) 10 = some none ∧
      (Example.nested.heap 12).parent = some 10 ∧
      (Example.nested.heap 10).kind = Kind.Part ∧
      (Example.nested.heap 10).children.get? 1 = some 12 ∧
      (∀ j, j < 1 → (Example.nested.heap 10).children.get? j ≠ some 12) ∧
      TreeItemPart.isTopLevelMultiPart Example.nested 12 = false ∧
      TreeItemPart.partId Example.nested (0 + 2) 12 = some (some (toString (1 + 1)))) :=
  ⟨⟨by decide, by decide, by decide, by decide, by decide,
      (partId_by_position Example.nested 0 16 6 0 (by decide) (by decide) (by decide)).1
        (by decide) (by decide)⟩,
    ⟨by decide, by decide, by decide, by decide, by decide, by decide,
      (partId_by_position Example.nested 3 15 13 1 (by decide) (by decide) (by decide)).2.1
        "2" (by decide) (by decide) (by decide)⟩,
    ⟨by decide, by decide, by decide, by decide, by decide,
      ((partId_by_position Example.nested 2 13 12 0 (by decide) (by decide)
        (by decide)).2.2.1 (by decide) (by decide)).1,
      ((partId_by_position Example.nested 2 13 12 0 (by decide) (by decide)
        (by decide)).2.2.1 (by decide) (by decide)).2⟩,
    ⟨by decide, by decide, by decide, by decide, by decide,
      ((partId_by_position Example.nested 0 10 5 0 (by decide) (by decide)
        (by decide)).2.2.2 (by decide) (by decide)).1,
      by decide, by decide, by decide, by decide,
      (((partId_by_position Example.nested 0 10 5 0 (by decide) (by decide)
        (by decide)).2.2.2 (by decide) (by decide)).2 12 1 (by decide) (by decide)
        (by decide) (by decide)).1,
      (((partId_by_position Example.nested 0 10 5 0 (by decide) (by decide)
        (by decide)).2.2.2 (by decide) (by decide)).2 12 1 (by decide) (by decide)
        (by decide) (by decide)).2⟩⟩

/-! ## The walk of partIdToPtr in a well-typed tree -/

/-- Well-typedness only depends on the frontier, the kinds and the child lists. -/
theorem WellTyped.of_same_shape {s t : State} (h : WellTyped s) (hn : t.next = s.next)
    (hk : ∀ q, (t.heap q).kind = (s.heap q).kind)
    (hc : ∀ q, (t.heap q).children = (s.heap q).children) : WellTyped t := by
  intro p hp c hcm
  rw [hn] at hp ⊢
  rw [hc] at hcm
  rw [hk p, hk c]
  exact h p hp c hcm

theorem WellTyped.fetches_keep_typed {s t : State} (h : WellTyped s) (hf : FetchOnly s t) :
    WellTyped t :=
  h.of_same_shape hf.1 hf.kind hf.children

theorem childAt_zero_or_mem (l : List Ptr) (offset : Int) :
    childAt l offset = none ∨ ∃ c, childAt l offset = some c ∧ c ∈ l := by
  cases h : childAt l offset with
  | none => left; rfl
  | some c => right; exact ⟨c, rfl, childAt_mem l offset c h⟩

/-- The virtual `child` on a part is the plain bounds-checked access. -/
theorem child_of_part (s : State) (self : Ptr) (offset : Int)
    (hk : (s.heap self).kind = Kind.Part) :
    child s self offset = (s, Except.ok (childAt (s.heap self).children offset)) := by
  simp [child, hk, TreeItemPart.child]

/-- The virtual `child` on a message fetches it first. -/
theorem child_of_message (s : State) (self : Ptr) (offset : Int)
    (hk : (s.heap self).kind = Kind.Message) :
    child s self offset =
      (fetch s self, Except.ok (childAt (s.heap self).children offset)) := by
  simp [child, hk, TreeItem.child, fetch_children]

/-- The virtual `child` on a message list fetches it first. -/
theorem child_of_msgList (s : State) (self : Ptr) (offset : Int)
    (hk : (s.heap self).kind = Kind.MsgList) :
    child s self offset =
      (fetch s self, Except.ok (childAt (s.heap self).children offset)) := by
  simp [child, hk, TreeItem.child, fetch_children]

/-- In a well-typed tree the step through a top-level multipart stays at the item or moves
to one of its children, which is then an allocated part. -/
theorem throughTopLevelMultiPart_cases (s : State) (hwt : WellTyped s) (item : Nat)
    (hlt : item < s.next)
    (c0 : Option Ptr) (hc0 : ∀ c, c0 = some c → c ∈ (s.heap item).children) :
    throughTopLevelMultiPart s item c0 = item ∨
      (throughTopLevelMultiPart s item c0 < s.next ∧
        (s.heap (throughTopLevelMultiPart s item c0)).kind = Kind.Part) := by
  unfold throughTopLevelMultiPart
  cases c0 with
  | none => left; rfl
  | some c =>
    rw [dynamicCast_some]
    by_cases hp : (s.heap c).kind = Kind.Part
    · rw [if_pos hp]
      simp only
      split
      · right
        exact ⟨(hwt item hlt c (hc0 c rfl)).1, hp⟩
      · left; rfl
    · rw [if_neg hp]
      left; rfl

/-- From a part of a well-typed tree the walk changes nothing. -/
theorem partIdToPtrLoop_from_part (segs : List (List Char)) :
    ∀ (s : State) (item : Nat), WellTyped s → item < s.next →
      (s.heap item).kind = Kind.Part → (partIdToPtrLoop segs s item).1 = s := by
  induction segs with
  | nil => intro s item _ _ _; rfl
  | cons seg segs ih =>
    intro s item hwt hlt hk
    rw [partIdToPtrLoop]
    cases toUInt seg with
    | none => rfl
    | some n =>
      simp only [child_of_part s item 0 hk]
      have hcases := throughTopLevelMultiPart_cases s hwt item hlt
        (childAt (s.heap item).children 0) (fun c hc => childAt_mem _ _ c hc)
      have hit : throughTopLevelMultiPart s item (childAt (s.heap item).children 0) < s.next ∧
          (s.heap (throughTopLevelMultiPart s item
            (childAt (s.heap item).children 0))).kind = Kind.Part := by
        rcases hcases with h | h
        · rw [h]; exact ⟨hlt, hk⟩
        · exact h
      generalize throughTopLevelMultiPart s item (childAt (s.heap item).children 0) = item1
        at hit
      rw [child_of_part s item1 _ hit.2]
      rcases childAt_zero_or_mem (s.heap item1).children (uintToInt (uintPred n)) with
        h | ⟨c, h, hmem⟩
      · rw [h]
      · rw [h]
        simp only
        have := hwt item1 hit.1 c hmem
        exact ih s c hwt this.1 (this.2.2 (Or.inr hit.2))

/-- From a message of a well-typed tree the walk at most fetches that message. -/
theorem partIdToPtrLoop_from_message (segs : List (List Char)) (s : State) (item : Nat)
    (hwt : WellTyped s) (hlt : item < s.next) (hk : (s.heap item).kind = Kind.Message) :
    (partIdToPtrLoop segs s item).1 = s ∨ (partIdToPtrLoop segs s item).1 = fetch s item := by
  cases segs with
  | nil => left; rfl
  | cons seg segs =>
    rw [partIdToPtrLoop]
    cases toUInt seg with
    | none => left; rfl
    | some n =>
      right
      have hfo := fetch_fetchOnly s item
      have hwt1 := hwt.fetches_keep_typed hfo
      have hk1 : ((fetch s item).heap item).kind = Kind.Message := by rw [hfo.kind]; exact hk
      have hlt1 : item < (fetch s item).next := by rw [hfo.1]; exact hlt
      simp only [child_of_message s item 0 hk]
      have hcases := throughTopLevelMultiPart_cases (fetch s item) hwt1 item hlt1
        (childAt (s.heap item).children 0)
        (fun c hc => by rw [hfo.children]; exact childAt_mem _ _ c hc)
      have hidem : fetch (fetch s item) item = fetch s item := by
        by_cases h : (s.heap item).fetchStatus = FetchingState.NONE
        · apply fetch_of_not_none
          rw [fetch_of_none s item h]
          simp
        · rw [fetch_of_not_none s item h]
          exact fetch_of_not_none s item h
      rcases hcases with h | h
      · rw [h, child_of_message _ item _ hk1, hidem]
        rcases childAt_zero_or_mem ((fetch s item).heap item).children
          (uintToInt (uintPred n)) with h2 | ⟨c, h2, hmem⟩
        · rw [h2]
        · rw [h2]
          simp only
          have := hwt1 item hlt1 c hmem
          exact partIdToPtrLoop_from_part segs _ c hwt1 this.1 (this.2.2 (Or.inl hk1))
      · generalize throughTopLevelMultiPart (fetch s item) item
          (childAt (s.heap item).children 0) = item1 at h
        rw [child_of_part _ item1 _ h.2]
        rcases childAt_zero_or_mem ((fetch s item).heap item1).children
          (uintToInt (uintPred n)) with h2 | ⟨c, h2, hmem⟩
        · rw [h2]
        · rw [h2]
          simp only
          have := hwt1 item1 h.1 c hmem
          exact partIdToPtrLoop_from_part segs _ c hwt1 this.1 (this.2.2 (Or.inr h.2))

/-- In a well-typed tree with a synced message list `partIdToPtr` touches no object other
than the message that the sequence number addresses. -/
theorem partIdToPtr_touches_message_only (s : State) (self list message : Nat)
    (rest : List Ptr) (msgNumber : Int) (msgId : String)
    (hwt : WellTyped s)
    (hc : (s.heap self).children = list :: rest)
    (hlk : (s.heap list).kind = Kind.MsgList)
    (hld : (s.heap list).fetchStatus = FetchingState.DONE)
    (hidx : childAt (s.heap list).children (msgNumber - 1) = some message)
    (hlt : message < s.next)
    (hk : (s.heap message).kind = Kind.Message) :
    ∀ q, q ≠ message →
      (TreeItemMailbox.partIdToPtr s self msgNumber msgId).1.heap q = s.heap q := by
  have hf : fetch s list = s := fetch_of_not_none s list (by rw [hld]; decide)
  have hfo := fetch_fetchOnly s message
  have hfetch : ∀ q, q ≠ message → (fetch s message).heap q = s.heap q := by
    intro q hq
    by_cases h : (s.heap message).fetchStatus = FetchingState.NONE
    · rw [fetch_of_none s message h]; simp [hq]
    · rw [fetch_of_not_none s message h]
  have hloop := partIdToPtrLoop_from_message (splitChars '.' msgId.data) s message hwt hlt hk
  intro q hq
  unfold TreeItemMailbox.partIdToPtr
  rw [hc]
  simp only [TreeItem.fetched, hld, decide_True, Bool.not_true, child_of_msgList s list _ hlk, hf,
    hidx]
  rw [if_neg (by simp)]
  generalize partIdToPtrLoop (splitChars '.' msgId.data) s message = r at hloop
  obtain ⟨s2, r2⟩ := r
  simp only at hloop
  have hs2 : s2.heap q = s.heap q := by
    rcases hloop with h | h
    · rw [h]
    · rw [h]; exact hfetch q hq
  cases r2 with
  | error e => exact hs2
  | ok last =>
    simp only
    split <;> exact hs2

/-! ## The frame of the FETCH handler -/

theorem HandlerFrame.start (s : State) (message : Ptr) (h : WellTyped s) :
    HandlerFrame s message s :=
  ⟨h, le_refl _, fun _ _ => ⟨rfl, rfl⟩, fun _ _ _ _ => rfl⟩

/-- A write that keeps kind, parent and children, to the message or to a part. -/
theorem HandlerFrame.after_write {s t : State} {message : Ptr} (hJ : HandlerFrame s message t)
    (q : Ptr) (f : TreeItem → TreeItem)
    (hshape : ∀ node, (f node).kind = node.kind ∧ (f node).parent = node.parent ∧
      (f node).children = node.children)
    (hq : q = message ∨ (t.heap q).kind = Kind.Part) :
    HandlerFrame s message (t.modify q f) := by
  obtain ⟨h1, h2, h3, h4⟩ := hJ
  have hsame : ∀ p, ((t.modify q f).heap p).kind = (t.heap p).kind ∧
      ((t.modify q f).heap p).parent = (t.heap p).parent ∧
      ((t.modify q f).heap p).children = (t.heap p).children := by
    intro p
    simp only [State.modify_heap]
    split
    · exact hshape _
    · exact ⟨rfl, rfl, rfl⟩
  refine ⟨h1.of_same_shape rfl (fun p => (hsame p).1) (fun p => (hsame p).2.2), h2, ?_, ?_⟩
  · intro p hp
    rw [(hsame p).1, (hsame p).2.1]
    exact h3 p hp
  · intro p hp hpm hpk
    simp only [State.modify_heap]
    split
    · rename_i hpq
      subst hpq
      rcases hq with hq | hq
      · exact absurd hq hpm
      · rw [(h3 p hp).1] at hq
        exact absurd hq hpk
    · exact h4 p hp hpm hpk

/-- The state after fetches that touched nothing but the message. -/
theorem HandlerFrame.fetches_keep_frame {s t w : State} {message : Ptr}
    (hJ : HandlerFrame s message t) (hf : FetchOnly t w)
    (hne : ∀ q, q ≠ message → w.heap q = t.heap q) : HandlerFrame s message w := by
  obtain ⟨h1, h2, h3, h4⟩ := hJ
  refine ⟨h1.fetches_keep_typed hf, by rw [hf.1]; exact h2, ?_, ?_⟩
  · intro p hp
    rw [hf.kind, hf.parent]
    exact h3 p hp
  · intro p hp hpm hpk
    rw [hne p hpm]
    exact h4 p hp hpm hpk

/-- The BODYSTRUCTURE branch: a MIME tree is built in fresh objects and attached to the
message. -/
theorem HandlerFrame.bodyStructure {s t : State} {message : Nat}
    (hJ : HandlerFrame s message t) (hm : message < s.next)
    (hkm : (s.heap message).kind = Kind.Message) (b : AbstractMessage) :
    HandlerFrame s message
      (TreeItem.setChildren (createTreeItems b t message).1 message
        (createTreeItems b t message).2).1 := by
  obtain ⟨h1, h2, h3, h4⟩ := hJ
  obtain ⟨a1, a2, a3, _, a5⟩ := createTreeItems_frame b t message
  have hmt : message < t.next := by omega
  have hkt : (t.heap message).kind = Kind.Message := by rw [(h3 message hm).1]; exact hkm
  simp only [TreeItem.setChildren]
  generalize (createTreeItems b t message).1 = u at a1 a2 a3 a5
  generalize (createTreeItems b t message).2 = kids at a5
  refine ⟨?_, by simp only [State.modify_next]; omega, ?_, ?_⟩
  · intro p hp c hcm
    simp only [State.modify_next] at hp ⊢
    simp only [State.modify_heap] at hcm ⊢
    by_cases hpm : p = message
    · subst hpm
      simp only [if_true] at hcm ⊢
      have hc := a5 c hcm
      have hcne : c ≠ p := by omega
      rw [if_neg hcne, a2 p hmt, hkt]
      exact ⟨hc.2, (fun h => by cases h), fun _ => (a3 c hc.1 hc.2).1⟩
    · rw [if_neg hpm] at hcm ⊢
      by_cases hpold : p < t.next
      · rw [a2 p hpold] at hcm ⊢
        have hw := h1 p hpold c hcm
        have hcu : u.heap c = t.heap c := a2 c hw.1
        by_cases hcm' : c = message
        · subst hcm'
          simp only [if_true]
          rw [hcu]
          exact ⟨by omega, hw.2.1, hw.2.2⟩
        · rw [if_neg hcm', hcu]
          exact ⟨by omega, hw.2.1, hw.2.2⟩
      · have hnew := a3 p (by omega) hp
        have hc := hnew.2 c hcm
        have hcne : c ≠ message := by omega
        rw [if_neg hcne, hnew.1]
        exact ⟨hc.2, (fun h => by cases h), fun _ => (a3 c hc.1 hc.2).1⟩
  · intro p hp
    simp only [State.modify_heap]
    have hpt : p < t.next := by omega
    split
    · rename_i hpm
      subst hpm
      simp only
      rw [a2 p hpt]
      exact h3 p hp
    · rw [a2 p hpt]
      exact h3 p hp
  · intro p hp hpm hpk
    simp only [State.modify_heap]
    rw [if_neg hpm, a2 p (by omega)]
    exact h4 p hp hpm hpk

/-- Every item of a response keeps the frame of the handler. -/
theorem HandlerFrame.item_keeps_frame {s t : State} {message : Nat}
    (hJ : HandlerFrame s message t) (self list : Nat) (rest : List Ptr)
    (response : FetchResponse)
    (hself : self < s.next) (hsk : (s.heap self).kind = Kind.Mailbox)
    (hc : (s.heap self).children = list :: rest)
    (hl : list < s.next) (hlk : (s.heap list).kind = Kind.MsgList)
    (hld : (s.heap list).fetchStatus = FetchingState.DONE)
    (hidx : childAt (s.heap list).children (uintToInt response.number - 1) = some message)
    (hm : message < s.next) (hkm : (s.heap message).kind = Kind.Message)
    (key : String) (value : AbstractData) (cp : Option Ptr) :
    HandlerFrame s message (handleFetchItem t self message response key value cp).1 := by
  have hts : t.heap self = s.heap self :=
    hJ.2.2.2 self hself (by intro h; rw [h, hkm] at hsk; cases hsk) (by rw [hsk]; decide)
  have htl : t.heap list = s.heap list :=
    hJ.2.2.2 list hl (by intro h; rw [h, hkm] at hlk; cases hlk) (by rw [hlk]; decide)
  have hkt : (t.heap message).kind = Kind.Message := by rw [(hJ.2.2.1 message hm).1]; exact hkm
  have hfo := partIdToPtr_fetchOnly t self (uintToInt response.number)
    (mid key 5 (key.length - 6))
  have hne := partIdToPtr_touches_message_only t self list message rest
    (uintToInt response.number) (mid key 5 (key.length - 6)) hJ.1 (by rw [hts]; exact hc)
    (by rw [htl]; exact hlk) (by rw [htl]; exact hld) (by rw [htl]; exact hidx)
    (by have := hJ.2.1; omega) hkt
  have hpk := partIdToPtr_kind t self (uintToInt response.number) (mid key 5 (key.length - 6))
  apply handleFetchItem_cases (fun r => HandlerFrame s message r.1)
  · intro _; exact hJ
  · intro _ _; exact hJ
  · intro _ e _
    exact hJ.after_write message _ (fun _ => ⟨rfl, rfl, rfl⟩) (Or.inl rfl)
  · intro _ _ b _ _
    exact hJ.bodyStructure hm hkm b
  · intro _ n _
    exact hJ.after_write message _ (fun _ => ⟨rfl, rfl, rfl⟩) (Or.inl rfl)
  · intro _ _ _
    exact hJ.fetches_keep_frame hfo hne
  · intro _ _ part d hp _
    exact (hJ.fetches_keep_frame hfo hne).after_write part _ (fun _ => ⟨rfl, rfl, rfl⟩)
      (Or.inr (hpk part hp))

/-! ## ENVELOPE -/

/-- An item other than ENVELOPE leaves the envelope of a `DONE` message in place. -/
theorem handleFetchItem_keeps_envelope (t : State) (self message : Ptr)
    (response : FetchResponse) (key : String) (value : AbstractData) (cp : Option Ptr)
    (e : Envelope) (hkey : key ≠ "ENVELOPE")
    (hkm : (t.heap message).kind = Kind.Message)
    (hE : (t.heap message).envelope = e ∧ (t.heap message).fetchStatus = FetchingState.DONE) :
    ((handleFetchItem t self message response key value cp).1.heap message).envelope = e ∧
      ((handleFetchItem t self message response key value cp).1.heap message).fetchStatus
        = FetchingState.DONE := by
  have hw := (partIdToPtr_fetchOnly t self (uintToInt response.number)
    (mid key 5 (key.length - 6))).of_done message hE.2
  have hpk := partIdToPtr_kind t self (uintToInt response.number) (mid key 5 (key.length - 6))
  apply handleFetchItem_cases (fun r => (r.1.heap message).envelope = e ∧
      (r.1.heap message).fetchStatus = FetchingState.DONE)
  · intro _; exact hE
  · intro _ _; exact hE
  · intro h; exact absurd h hkey
  · intro _ hf
    simp [TreeItem.fetched, hE.2] at hf
  · intro _ n _
    simpa using hE
  · intro _ _ _
    dsimp only
    rw [hw]
    exact hE
  · intro _ _ part d hp _
    have hne : message ≠ part := by
      intro h
      have := hpk part hp
      rw [← h, hw, hkm] at this
      cases this
    dsimp only
    rw [State.modify_heap, if_neg hne, hw]
    exact hE

/-- The loop over the items, for a response that carries an ENVELOPE under pairwise distinct
keys and is handled without an exception: the message ends up `DONE` with that envelope. -/
theorem handleFetchItems_envelope (s : State) (self list message : Nat) (rest : List Ptr)
    (response : FetchResponse) (e : Envelope)
    (hself : self < s.next) (hsk : (s.heap self).kind = Kind.Mailbox)
    (hc : (s.heap self).children = list :: rest)
    (hl : list < s.next) (hlk : (s.heap list).kind = Kind.MsgList)
    (hld : (s.heap list).fetchStatus = FetchingState.DONE)
    (hidx : childAt (s.heap list).children (uintToInt response.number - 1) = some message)
    (hm : message < s.next) (hkm : (s.heap message).kind = Kind.Message)
    (data : List (String × AbstractData)) :
    ∀ (t : State) (cp : Option Ptr), HandlerFrame s message t →
      (data.map Prod.fst).Nodup →
      (∃ cp', (handleFetchItems self message response data t cp).2 = Except.ok cp') →
      (("ENVELOPE", AbstractData.envelope e) ∈ data ∨
        (((t.heap message).envelope = e ∧
            (t.heap message).fetchStatus = FetchingState.DONE) ∧
          "ENVELOPE" ∉ data.map Prod.fst)) →
      ((handleFetchItems self message response data t cp).1.heap message).envelope = e ∧
        ((handleFetchItems self message response data t cp).1.heap message).fetchStatus
          = FetchingState.DONE := by
  induction data with
  | nil =>
    intro t cp _ _ _ h
    rcases h with h | h
    · cases h
    · exact h.1
  | cons kv data ih =>
    intro t cp hJ hnd hok h
    have hJ1 := hJ.item_keeps_frame self list rest response hself hsk hc hl hlk hld hidx hm hkm
      kv.1 kv.2 cp
    have hkt : (t.heap message).kind = Kind.Message := by
      rw [(hJ.2.2.1 message hm).1]; exact hkm
    have hkeep := handleFetchItem_keeps_envelope t self message response kv.1 kv.2 cp e
    have hnd' : (data.map Prod.fst).Nodup := (List.nodup_cons.mp hnd).2
    have hnot : kv.1 ∉ data.map Prod.fst := (List.nodup_cons.mp hnd).1
    have hnext : (("ENVELOPE", AbstractData.envelope e) ∈ data ∨
        ((((handleFetchItem t self message response kv.1 kv.2 cp).1.heap message).envelope = e ∧
            ((handleFetchItem t self message response kv.1 kv.2 cp).1.heap message).fetchStatus
              = FetchingState.DONE) ∧
          "ENVELOPE" ∉ data.map Prod.fst)) := by
      rcases h with h | h
      · rcases List.mem_cons.mp h with h | h
        · right
          have hk1 : kv.1 = "ENVELOPE" := by rw [← h]
          have hk2 : kv.2 = AbstractData.envelope e := by rw [← h]
          refine ⟨?_, by rw [← hk1]; exact hnot⟩
          rw [hk1, hk2]
          simp [Imap.Mailbox.handleFetchItem]
        · left; exact h
      · right
        have hne : kv.1 ≠ "ENVELOPE" := by
          intro hk
          apply h.2
          rw [← hk]
          simp
        refine ⟨hkeep hne hkt h.1, ?_⟩
        intro hmem
        exact h.2 (List.mem_cons_of_mem _ hmem)
    rw [Imap.Mailbox.handleFetchItems] at hok ⊢
    generalize Imap.Mailbox.handleFetchItem t self message response kv.1 kv.2 cp = r
      at hJ1 hnext hok ⊢
    obtain ⟨t1, r2⟩ := r
    cases r2 with
    | error err =>
      obtain ⟨cp', hcp⟩ := hok
      cases hcp
    | ok v => exact ih t1 v hJ1 hnd' hok hnext

theorem uintToInt_of_small (n : Nat) (h : n < 2147483648) : uintToInt n = (n : Int) := by
  unfold uintToInt
  split <;> omega

/-- The loop over the items of a list in two parts: the second part is handled from where
the first has arrived, unless an item of the first has raised an exception. -/
theorem handleFetchItems_append (self message : Ptr) (response : FetchResponse)
    (pre post : List (String × AbstractData)) :
    ∀ (s : State) (cp : Option Ptr),
      handleFetchItems self message response (pre ++ post) s cp =
        match handleFetchItems self message response pre s cp with
        | (s1, Except.error err) => (s1, Except.error err)
        | (s1, Except.ok cp1) => handleFetchItems self message response post s1 cp1 := by
  induction pre with
  | nil => intro s cp; rfl
  | cons kv pre ih =>
    intro s cp
    rw [List.cons_append, Imap.Mailbox.handleFetchItems, Imap.Mailbox.handleFetchItems]
    generalize Imap.Mailbox.handleFetchItem s self message response kv.1 kv.2 cp = r
    obtain ⟨s1, r2⟩ := r
    cases r2 with
    | error err => rfl
    | ok v => exact ih s1 v

/-- Once the message is `DONE` with the envelope, items other than ENVELOPE leave it so,
whether they are handled or raise an exception. -/
theorem handleFetchItems_keeps_envelope (s : State) (self list message : Nat)
    (rest : List Ptr) (response : FetchResponse) (e : Envelope)
    (hself : self < s.next) (hsk : (s.heap self).kind = Kind.Mailbox)
    (hc : (s.heap self).children = list :: rest)
    (hl : list < s.next) (hlk : (s.heap list).kind = Kind.MsgList)
    (hld : (s.heap list).fetchStatus = FetchingState.DONE)
    (hidx : childAt (s.heap list).children (uintToInt response.number - 1) = some message)
    (hm : message < s.next) (hkm : (s.heap message).kind = Kind.Message)
    (data : List (String × AbstractData)) :
    ∀ (t : State) (cp : Option Ptr), HandlerFrame s message t →
      "ENVELOPE" ∉ data.map Prod.fst →
      ((t.heap message).envelope = e ∧
        (t.heap message).fetchStatus = FetchingState.DONE) →
      ((handleFetchItems self message response data t cp).1.heap message).envelope = e ∧
        ((handleFetchItems self message response data t cp).1.heap message).fetchStatus
          = FetchingState.DONE := by
  induction data with
  | nil => intro t cp _ _ h; exact h
  | cons kv data ih =>
    intro t cp hJ hnot h
    have hJ1 := hJ.item_keeps_frame self list rest response hself hsk hc hl hlk hld hidx hm hkm
      kv.1 kv.2 cp
    have hkt : (t.heap message).kind = Kind.Message := by
      rw [(hJ.2.2.1 message hm).1]; exact hkm
    have hne : kv.1 ≠ "ENVELOPE" := by
      intro hk
      apply hnot
      rw [← hk]
      simp
    have hnot' : "ENVELOPE" ∉ data.map Prod.fst :=
      fun hmem => hnot (by simp only [List.map_cons]; exact List.mem_cons_of_mem _ hmem)
    have hkeep := handleFetchItem_keeps_envelope t self message response kv.1 kv.2 cp e hne
      hkt h
    rw [Imap.Mailbox.handleFetchItems]
    generalize Imap.Mailbox.handleFetchItem t self message response kv.1 kv.2 cp = r
      at hJ1 hkeep ⊢
    obtain ⟨t1, r2⟩ := r
    cases r2 with
    | error err => exact hkeep
    | ok v => exact ih t1 v hJ1 hnot' hkeep

/-- C6, counterexample: the message list 3 of the state `synced` is `DONE` and the sequence
number 2 addresses message 5.  The response `* 2 FETCH (BODY[9] ... ENVELOPE ...)` contains
an ENVELOPE, but the handler takes the item `BODY[9]` first, message 5 has no part 9, and
`UnknownMessageIndex` ends the handling: the envelope is not stored and the message is not
`DONE`. -/
theorem envelope_not_stored_after_failing_body :
    (Example.synced.heap 3).fetchStatus = FetchingState.DONE ∧
    (Example.synced.heap 3).children.get? (2 - 1) = some 5 ∧
    (TreeItemMailbox.handleFetchResponse Example.synced 2
      { number := 2,
        data := [("BODY[9]", AbstractData.byteArray "x".data),
          ("ENVELOPE", AbstractData.envelope Example.hi)] }).2
        = Except.error Exception.UnknownMessageIndex ∧
    ((TreeItemMailbox.handleFetchResponse Example.synced 2
      { number := 2,
        data := [("BODY[9]", AbstractData.byteArray "x".data),
          ("ENVELOPE", AbstractData.envelope Example.hi)] }).1.heap 5).envelope
        ≠ Example.hi ∧
    ((TreeItemMailbox.handleFetchResponse Example.synced 2
      { number := 2,
        data := [("BODY[9]", AbstractData.byteArray "x".data),
          ("ENVELOPE", AbstractData.envelope Example.hi)] }).1.heap 5).fetchStatus
        = FetchingState.LOADING := by
  and_intros <;> decide

/-- C6, amended: for a synced (DONE) message list and an in-range sequence number n, in a
well-typed tree, a FETCH n response that contains ENVELOPE (under pairwise distinct keys, as
in a map).  When none of the items that the handler takes before the ENVELOPE raises an
exception, the message at index n-1 holds that envelope and is DONE when the handler is
left, and its data(DisplayRole) is the envelope's subject, whatever the items after the
ENVELOPE do.  This is so in particular when the whole response is handled without an
exception, and a response that consists of the ENVELOPE alone is handled without one.  In
every case no other message of the list has been modified. -/
theorem envelope_stored (s : State) (self list message : Nat) (rest : List Ptr)
    (response : FetchResponse) (e : Envelope)
    (hwt : WellTyped s)
    (hself : self < s.next) (hsk : (s.heap self).kind = Kind.Mailbox)
    (hc : (s.heap self).children = list :: rest)
    (hlk : (s.heap list).kind = Kind.MsgList)
    (hld : (s.heap list).fetchStatus = FetchingState.DONE)
    (hn : 1 ≤ response.number)
    (hmsg : (s.heap list).children.get? (response.number - 1) = some message)
    (hlen : (s.heap list).children.length < 2147483648)
    (hpar : (s.heap message).parent ≠ none)
    (henv : ("ENVELOPE", AbstractData.envelope e) ∈ response.data)
    (hkeys : (response.data.map Prod.fst).Nodup) :
    (response.data = [("ENVELOPE", AbstractData.envelope e)] →
      (TreeItemMailbox.handleFetchResponse s self response).2 = Except.ok none) ∧
    (∀ pre post, response.data = pre ++ ("ENVELOPE", AbstractData.envelope e) :: post →
      (∃ cp, (handleFetchItems self message response pre s none).2 = Except.ok cp) →
      ((TreeItemMailbox.handleFetchResponse s self response).1.heap message).envelope = e ∧
      ((TreeItemMailbox.handleFetchResponse s self response).1.heap message).fetchStatus
        = FetchingState.DONE ∧
      (TreeItemMessage.data (TreeItemMailbox.handleFetchResponse s self response).1 message
        Role.DisplayRole).2 = QVariant.string e.subject) ∧
    ((∃ cp, (TreeItemMailbox.handleFetchResponse s self response).2 = Except.ok cp) →
      ((TreeItemMailbox.handleFetchResponse s self response).1.heap message).envelope = e ∧
      ((TreeItemMailbox.handleFetchResponse s self response).1.heap message).fetchStatus
        = FetchingState.DONE ∧
      (TreeItemMessage.data (TreeItemMailbox.handleFetchResponse s self response).1 message
        Role.DisplayRole).2 = QVariant.string e.subject) ∧
    (∀ q, q ∈ (s.heap list).children → q ≠ message →
      (TreeItemMailbox.handleFetchResponse s self response).1.heap q = s.heap q) := by
  have hl : list < s.next := (hwt self hself list (by rw [hc]; exact List.mem_cons_self _ _)).1
  have hmem : message ∈ (s.heap list).children := List.get?_mem hmsg
  have hm : message < s.next := (hwt list hl message hmem).1
  have hkm : (s.heap message).kind = Kind.Message := (hwt list hl message hmem).2.1 hlk
  have hidx1 := childAt_of_sequenceNumber _ _ _ hn hmsg hlen
  have hnlt : response.number - 1 < (s.heap list).children.length := by
    rcases Nat.lt_or_ge (response.number - 1) (s.heap list).children.length with h | h
    · exact h
    · rw [List.get?_eq_none.mpr h] at hmsg; cases hmsg
  have hidx2 : childAt (s.heap list).children (uintToInt response.number - 1)
      = some message := by
    rw [uintToInt_of_small _ (by omega), ← uintToInt_uintPred _ hn (by omega)]
    exact hidx1
  have hrun := handleFetchResponse_synced s self list message rest response hc hlk hld hidx1 hkm
  have hframe : ∀ (data : List (String × AbstractData)) (t : State) (cp : Option Ptr),
      HandlerFrame s message t →
      HandlerFrame s message (handleFetchItems self message response data t cp).1 :=
    fun data t cp ht =>
      handleFetchItems_invariant (HandlerFrame s message) self message response
        (fun t key value cp ht =>
          ht.item_keeps_frame self list rest response hself hsk hc hl hlk hld hidx2 hm hkm
            key value cp)
        data t cp ht
  have hJ := hframe response.data s none (HandlerFrame.start s message hwt)
  have hshow : ∀ t : State, HandlerFrame s message t →
      (t.heap message).envelope = e ∧ (t.heap message).fetchStatus = FetchingState.DONE →
      (TreeItemMessage.data t message Role.DisplayRole).2 = QVariant.string e.subject := by
    intro t ht hE
    have hp : (t.heap message).parent ≠ none := by
      rw [(ht.2.2.1 message hm).2]; exact hpar
    have hfetch : TreeItemMessage.fetch t message = t := by
      simp [TreeItemMessage.fetch, TreeItem.fetched, hE.2]
    unfold TreeItemMessage.data
    rw [if_neg (by simpa using hp)]
    simp [hfetch, TreeItem.loading, hE.1, hE.2]
  have hreached : ∀ pre post,
      response.data = pre ++ ("ENVELOPE", AbstractData.envelope e) :: post →
      (∃ cp, (handleFetchItems self message response pre s none).2 = Except.ok cp) →
      ((handleFetchItems self message response response.data s none).1.heap message).envelope
          = e ∧
        ((handleFetchItems self message response response.data s none).1.heap
          message).fetchStatus = FetchingState.DONE := by
    intro pre post hsplit hpre
    have hnot : "ENVELOPE" ∉ post.map Prod.fst := by
      rw [hsplit] at hkeys
      simp only [List.map_append, List.map_cons] at hkeys
      exact (List.nodup_cons.mp (List.nodup_append.mp hkeys).2.1).1
    have hJpre := hframe pre s none (HandlerFrame.start s message hwt)
    rw [hsplit, handleFetchItems_append]
    generalize handleFetchItems self message response pre s none = r at hpre hJpre
    obtain ⟨t, r2⟩ := r
    obtain ⟨cp, hcp⟩ := hpre
    simp only at hcp hJpre
    subst hcp
    simp only
    rw [Imap.Mailbox.handleFetchItems]
    have hitem : handleFetchItem t self message response "ENVELOPE"
        (AbstractData.envelope e) cp =
        (t.modify message (fun x => { x with envelope := e, fetchStatus := FetchingState.DONE }),
          Except.ok cp) := by
      simp [Imap.Mailbox.handleFetchItem]
    have hJ1 := hJpre.item_keeps_frame self list rest response hself hsk hc hl hlk hld hidx2
      hm hkm "ENVELOPE" (AbstractData.envelope e) cp
    rw [hitem] at hJ1 ⊢
    exact handleFetchItems_keeps_envelope s self list message rest response e hself hsk hc hl
      hlk hld hidx2 hm hkm post _ cp hJ1 hnot (by simp)
  rw [hrun]
  refine ⟨?_, ?_, ?_, ?_⟩
  · intro hdata
    rw [hdata]
    simp [Imap.Mailbox.handleFetchItems, Imap.Mailbox.handleFetchItem]
  · intro pre post hsplit hpre
    have hE := hreached pre post hsplit hpre
    exact ⟨hE.1, hE.2, hshow _ hJ hE⟩
  · intro hok
    obtain ⟨pre, post, hsplit⟩ := List.append_of_mem henv
    have hpre : ∃ cp, (handleFetchItems self message response pre s none).2 = Except.ok cp := by
      rw [hsplit, handleFetchItems_append] at hok
      generalize handleFetchItems self message response pre s none = r at hok ⊢
      obtain ⟨t, r2⟩ := r
      cases r2 with
      | error err =>
        obtain ⟨cp, hcp⟩ := hok
        cases hcp
      | ok v => exact ⟨v, rfl⟩
    have hE := hreached pre post hsplit hpre
    exact ⟨hE.1, hE.2, hshow _ hJ hE⟩
  · intro q hq hne
    have hq' := hwt list hl q hq
    exact hJ.2.2.2 q hq'.1 hne (by rw [hq'.2.1 hlk]; decide)

theorem Example.synced_wellTyped : WellTyped Example.synced := by
  unfold WellTyped
  decide

theorem envelope_stored_witness :
    WellTyped Example.synced ∧
    2 < Example.synced.next ∧
    (Example.synced.heap 2).kind = Kind.Mailbox ∧
    (Example.synced.heap 2).children = 3 :: [] ∧
    (Example.synced.heap 3).kind = Kind.MsgList ∧
    (Example.synced.heap 3).fetchStatus = FetchingState.DONE ∧
    (Example.synced.heap 3).children.get? (2 - 1) = some 5 ∧
    (Example.synced.heap 5).parent ≠ none ∧
    (∃ cp, (handleFetchItems 2 5
      { number := 2,
        data := [("BODYSTRUCTURE", AbstractData.bodyStructure Example.mixed),
          ("ENVELOPE", AbstractData.envelope Example.hi),
          ("RFC822.SIZE", AbstractData.uint 10)] }
      [("BODYSTRUCTURE", AbstractData.bodyStructure Example.mixed)] Example.synced none).2
        = Except.ok cp) ∧
    ((TreeItemMailbox.handleFetchResponse Example.synced 2
      { number := 2,
        data := [("BODYSTRUCTURE", AbstractData.bodyStructure Example.mixed),
          ("ENVELOPE", AbstractData.envelope Example.hi),
          ("RFC822.SIZE", AbstractData.uint 10)] }).1.heap 5).envelope = Example.hi ∧
    ((TreeItemMailbox.handleFetchResponse Example.synced 2
      { number := 2,
        data := [("BODYSTRUCTURE", AbstractData.bodyStructure Example.mixed),
          ("ENVELOPE", AbstractData.envelope Example.hi),
          ("RFC822.SIZE", AbstractData.uint 10)] }).1.heap 5).fetchStatus
        = FetchingState.DONE ∧
    (TreeItemMessage.data (TreeItemMailbox.handleFetchResponse Example.synced 2
      { number := 2,
        data := [("BODYSTRUCTURE", AbstractData.bodyStructure Example.mixed),
          ("ENVELOPE", AbstractData.envelope Example.hi),
          ("RFC822.SIZE", AbstractData.uint 10)] }).1 5 Role.DisplayRole).2
        = QVariant.string "Hi" ∧
    (TreeItemMailbox.handleFetchResponse Example.synced 2
      { number := 2, data := [("ENVELOPE", AbstractData.envelope Example.hi)] }).2
        = Except.ok none ∧
    (TreeItemMessage.data (TreeItemMailbox.handleFetchResponse Example.synced 2
      { number := 2, data := [("ENVELOPE", AbstractData.envelope Example.hi)] }).1 5
        Role.DisplayRole).2 = QVariant.string "Hi" ∧
    (∀ q, q ∈ (Example.synced.heap 3).children → q ≠ 5 →
      (TreeItemMailbox.handleFetchResponse Example.synced 2
        { number := 2, data := [("ENVELOPE", AbstractData.envelope Example.hi)] }).1.heap q
        = Example.synced.heap q) :=
  ⟨Example.synced_wellTyped, by decide, by decide, by decide, by decide, by decide, by decide,
    by decide, ⟨none, by decide⟩,
    ((envelope_stored Example.synced 2 3 5 []
      { number := 2,
        data := [("BODYSTRUCTURE", AbstractData.bodyStructure Example.mixed),
          ("ENVELOPE", AbstractData.envelope Example.hi),
          ("RFC822.SIZE", AbstractData.uint 10)] } Example.hi
      Example.synced_wellTyped (by decide) (by decide) (by decide) (by decide) (by decide)
      (by decide) (by decide) (by decide) (by decide) (by simp) (by decide)).2.1
      [("BODYSTRUCTURE", AbstractData.bodyStructure Example.mixed)]
      [("RFC822.SIZE", AbstractData.uint 10)] rfl ⟨none, by decide⟩).1,
    ((envelope_stored Example.synced 2 3 5 []
      { number := 2,
        data := [("BODYSTRUCTURE", AbstractData.bodyStructure Example.mixed),
          ("ENVELOPE", AbstractData.envelope Example.hi),
          ("RFC822.SIZE", AbstractData.uint 10)] } Example.hi
      Example.synced_wellTyped (by decide) (by decide) (by decide) (by decide) (by decide)
      (by decide) (by decide) (by decide) (by decide) (by simp) (by decide)).2.1
      [("BODYSTRUCTURE", AbstractData.bodyStructure Example.mixed)]
      [("RFC822.SIZE", AbstractData.uint 10)] rfl ⟨none, by decide⟩).2.1,
    ((envelope_stored Example.synced 2 3 5 []
      { number := 2,
        data := [("BODYSTRUCTURE", AbstractData.bodyStructure Example.mixed),
          ("ENVELOPE", AbstractData.envelope Example.hi),
          ("RFC822.SIZE", AbstractData.uint 10)] } Example.hi
      Example.synced_wellTyped (by decide) (by decide) (by decide) (by decide) (by decide)
      (by decide) (by decide) (by decide) (by decide) (by simp) (by decide)).2.1
      [("BODYSTRUCTURE", AbstractData.bodyStructure Example.mixed)]
      [("RFC822.SIZE", AbstractData.uint 10)] rfl ⟨none, by decide⟩).2.2,
    (envelope_stored Example.synced 2 3 5 []
      { number := 2, data := [("ENVELOPE", AbstractData.envelope Example.hi)] } Example.hi
      Example.synced_wellTyped (by decide) (by decide) (by decide) (by decide) (by decide)
      (by decide) (by decide) (by decide) (by decide) (by simp) (by simp)).1 rfl,
    ((envelope_stored Example.synced 2 3 5 []
      { number := 2, data := [("ENVELOPE", AbstractData.envelope Example.hi)] } Example.hi
      Example.synced_wellTyped (by decide) (by decide) (by decide) (by decide) (by decide)
      (by decide) (by decide) (by decide) (by decide) (by simp) (by simp)).2.2.1
      ⟨none, by decide⟩).2.2,
    (envelope_stored Example.synced 2 3 5 []
      { number := 2, data := [("ENVELOPE", AbstractData.envelope Example.hi)] } Example.hi
      Example.synced_wellTyped (by decide) (by decide) (by decide) (by decide) (by decide)
      (by decide) (by decide) (by decide) (by decide) (by simp) (by simp)).2.2.2⟩

/-! ## The message list of a `\NOSELECT` mailbox -/

/-- C20: `TreeItemMailbox::setChildren` on a mailbox whose child 0 is the message list keeps
that list in front of the new items; when the flags of the mailbox contain `\NOSELECT` the
list is the object it was with its status set to `DONE`, and when they do not contain it the
list object is exactly as it was before the call, so its status is unchanged. -/
theorem setChildren_noselect_marks_list_done (s : State) (self msgList : Ptr)
    (rest items : List Ptr)
    (hk : (s.heap self).kind = Kind.Mailbox)
    (hc : (s.heap self).children = msgList :: rest)
    (hm : (s.heap msgList).kind = Kind.MsgList) :
    (TreeItemMailbox.setChildren s self items).2 = Except.ok rest ∧
    ((TreeItemMailbox.setChildren s self items).1.heap self).children = msgList :: items ∧
    ("\\NOSELECT" ∈ (s.heap self).metadata.flags →
      (TreeItemMailbox.setChildren s self items).1.heap msgList =
        { s.heap msgList with fetchStatus := FetchingState.DONE } ∧
      ((TreeItemMailbox.setChildren s self items).1.heap msgList).fetchStatus =
        FetchingState.DONE) ∧
    ("\\NOSELECT" ∉ (s.heap self).metadata.flags →
      (TreeItemMailbox.setChildren s self items).1.heap msgList = s.heap msgList ∧
      ((TreeItemMailbox.setChildren s self items).1.heap msgList).fetchStatus =
        (s.heap msgList).fetchStatus) := by
  have hne : msgList ≠ self := by
    intro h; rw [h, hk] at hm; cases hm
  simp only [TreeItemMailbox.setChildren, hc, dynamicCast, hm, if_true, TreeItem.setChildren]
  by_cases hf : "\\NOSELECT" ∈ (s.heap self).metadata.flags
  · simp [hne, hf, hc, hm]
  · simp [hne, hf, hc]

theorem setChildren_noselect_marks_list_done_witness :
    ((Example.folders.heap 2).kind = Kind.Mailbox ∧
      (Example.folders.heap 2).children = 3 :: [] ∧
      (Example.folders.heap 3).kind = Kind.MsgList ∧
      "\\NOSELECT" ∈ (Example.folders.heap 2).metadata.flags ∧
      (Example.folders.heap 3).fetchStatus = FetchingState.NONE ∧
      ((TreeItemMailbox.setChildren Example.folders 2 []).1.heap 3).fetchStatus =
        FetchingState.DONE) ∧
    ((Example.synced.heap 2).kind = Kind.Mailbox ∧
      (Example.synced.heap 2).children = 3 :: [] ∧
      (Example.synced.heap 3).kind = Kind.MsgList ∧
      "\\NOSELECT" ∉ (Example.synced.heap 2).metadata.flags ∧
      ((TreeItemMailbox.setChildren Example.synced 2 []).1.heap 3).fetchStatus =
        (Example.synced.heap 3).fetchStatus) :=
  ⟨⟨by decide, by decide, by decide, by decide, by decide,
      ((setChildren_noselect_marks_list_done Example.folders 2 3 [] [] (by decide) (by decide)
        (by decide)).2.2.1 (by decide)).2⟩,
    ⟨by decide, by decide, by decide, by decide,
      ((setChildren_noselect_marks_list_done Example.synced 2 3 [] [] (by decide) (by decide)
        (by decide)).2.2.2 (by decide)).2⟩⟩

/-! ## One step of the walk of partIdToPtr -/

theorem fetch_fetch (s : State) (self : Ptr) : fetch (fetch s self) self = fetch s self := by
  by_cases h : (s.heap self).fetchStatus = FetchingState.NONE
  · apply fetch_of_not_none
    rw [fetch_of_none s self h]
    simp
  · rw [fetch_of_not_none s self h]
    exact fetch_of_not_none s self h

theorem dynamicCast_fetchOnly {s t : State} (h : FetchOnly s t) (k : Kind) (p : Option Ptr) :
    dynamicCast t k p = dynamicCast s k p := by
  cases p with
  | none => rfl
  | some q => simp only [dynamicCast_some, h.kind]

/-- Fetches do not change which parts are top-level multiparts. -/
theorem isTopLevelMultiPart_fetchOnly {s t : State} (h : FetchOnly s t) (p : Ptr) :
    TreeItemPart.isTopLevelMultiPart t p = TreeItemPart.isTopLevelMultiPart s p := by
  unfold TreeItemPart.isTopLevelMultiPart isTopLevelMultiPartOf
  simp only [h.mimeType, h.parent, dynamicCast_fetchOnly h]

theorem throughTopLevelMultiPart_fetchOnly {s t : State} (h : FetchOnly s t) (item : Ptr)
    (c0 : Option Ptr) :
    throughTopLevelMultiPart t item c0 = throughTopLevelMultiPart s item c0 := by
  unfold throughTopLevelMultiPart
  rw [dynamicCast_fetchOnly h]
  cases dynamicCast s Kind.Part c0 with
  | none => rfl
  | some q => simp only [isTopLevelMultiPart_fetchOnly h]

theorem indexedNode_fetchOnly {s t : State} (h : FetchOnly s t) (item : Ptr) :
    indexedNode t item = indexedNode s item := by
  unfold indexedNode
  rw [throughTopLevelMultiPart_fetchOnly h, h.children]

/-- The step through a top-level multipart stays at the item, or moves to its child 0, which
is then a part and a top-level multipart. -/
theorem indexedNode_cases (s : State) (item : Ptr) :
    (indexedNode s item = item ∧
      ∀ c, childAt (s.heap item).children 0 = some c → (s.heap c).kind = Kind.Part →
        TreeItemPart.isTopLevelMultiPart s c = false) ∨
    (childAt (s.heap item).children 0 = some (indexedNode s item) ∧
      (s.heap (indexedNode s item)).kind = Kind.Part ∧
      TreeItemPart.isTopLevelMultiPart s (indexedNode s item) = true) := by
  unfold indexedNode throughTopLevelMultiPart
  cases h0 : childAt (s.heap item).children 0 with
  | none => left; exact ⟨rfl, fun c hc => by cases hc⟩
  | some c =>
    rw [dynamicCast_some]
    by_cases hp : (s.heap c).kind = Kind.Part
    · rw [if_pos hp]
      simp only
      by_cases ht : TreeItemPart.isTopLevelMultiPart s c = true
      · rw [if_pos ht]
        right
        exact ⟨rfl, hp, ht⟩
      · rw [if_neg ht]
        left
        refine ⟨rfl, fun c2 hc2 _ => ?_⟩
        simp only [Option.some.injEq] at hc2
        subst hc2
        simpa using ht
    · rw [if_neg hp]
      left
      refine ⟨rfl, fun c2 hc2 hk2 => ?_⟩
      simp only [Option.some.injEq] at hc2
      subst hc2
      exact absurd hk2 hp

/-- One step of the walk from a message or a part: the segment must convert to a number n,
and child n-1 of the indexed node must exist; the walk goes on from that child, in the state
in which the item has been asked for its child 0. -/
theorem partIdToPtrLoop_cons (s : State) (item : Ptr) (seg : List Char)
    (segs : List (List Char))
    (hk : (s.heap item).kind = Kind.Message ∨ (s.heap item).kind = Kind.Part) :
    partIdToPtrLoop (seg :: segs) s item =
      match toUInt seg with
      | none => (s, Except.error Exception.UnknownMessageIndex)
      | some n =>
        match childAt (s.heap (indexedNode s item)).children (uintToInt (uintPred n)) with
        | none => ((child s item 0).1, Except.error Exception.UnknownMessageIndex)
        | some next => partIdToPtrLoop segs (child s item 0).1 next := by
  rw [partIdToPtrLoop]
  cases toUInt seg with
  | none => rfl
  | some n =>
    simp only
    rcases hk with hk | hk
    · have hfo := fetch_fetchOnly s item
      rw [child_of_message s item 0 hk]
      simp only
      have hnode : throughTopLevelMultiPart (fetch s item) item
          (childAt (s.heap item).children 0) = indexedNode s item := by
        rw [throughTopLevelMultiPart_fetchOnly hfo]; rfl
      rw [hnode]
      rcases indexedNode_cases s item with ⟨h, _⟩ | ⟨_, h, _⟩
      · rw [h, child_of_message _ item _ (by rw [hfo.kind]; exact hk), fetch_fetch,
          hfo.children]
        cases childAt (s.heap item).children (uintToInt (uintPred n)) <;> rfl
      · rw [child_of_part _ _ _ (by rw [hfo.kind]; exact h), hfo.children]
        cases childAt (s.heap (indexedNode s item)).children (uintToInt (uintPred n)) <;> rfl
    · rw [child_of_part s item 0 hk]
      simp only
      have hnode : throughTopLevelMultiPart s item
          (childAt (s.heap item).children 0) = indexedNode s item := rfl
      rw [hnode]
      have hkn : (s.heap (indexedNode s item)).kind = Kind.Part := by
        rcases indexedNode_cases s item with ⟨h, _⟩ | ⟨_, h, _⟩
        · rw [h]; exact hk
        · exact h
      rw [child_of_part _ _ _ hkn]
      cases childAt (s.heap (indexedNode s item)).children (uintToInt (uintPred n)) <;> rfl

/-! ## Failures of the walk of partIdToPtr -/

/-- The walk over a concatenation is the walk over the first list followed, from where it
arrived, by the walk over the second. -/
theorem partIdToPtrLoop_append (a b : List (List Char)) :
    ∀ (s : State) (item : Ptr),
      partIdToPtrLoop (a ++ b) s item =
        match partIdToPtrLoop a s item with
        | (s1, Except.error e) => (s1, Except.error e)
        | (s1, Except.ok mid) => partIdToPtrLoop b s1 mid := by
  induction a with
  | nil => intro s item; rfl
  | cons seg a ih =>
    intro s item
    rw [List.cons_append, partIdToPtrLoop, partIdToPtrLoop]
    cases toUInt seg with
    | none => rfl
    | some n =>
      simp only
      generalize child s item 0 = r
      obtain ⟨s1, r2⟩ := r
      cases r2 with
      | error e => rfl
      | ok c0 =>
        simp only
        generalize child s1 (throughTopLevelMultiPart s1 item c0) (uintToInt (uintPred n)) = r'
        obtain ⟨s2, r2'⟩ := r'
        cases r2' with
        | error e => rfl
        | ok nxt =>
          cases nxt with
          | none => rfl
          | some nxt => exact ih s2 nxt

/-- In a well-typed tree the node that a segment indexes is an allocated message or part. -/
theorem indexedNode_typed (s : State) (hwt : WellTyped s) (item : Nat) (hlt : item < s.next)
    (hk : (s.heap item).kind = Kind.Message ∨ (s.heap item).kind = Kind.Part) :
    indexedNode s item < s.next ∧
      ((s.heap (indexedNode s item)).kind = Kind.Message ∨
        (s.heap (indexedNode s item)).kind = Kind.Part) := by
  rcases indexedNode_cases s item with ⟨h, _⟩ | ⟨h0, h, _⟩
  · rw [h]; exact ⟨hlt, hk⟩
  · exact ⟨(hwt item hlt _ (childAt_mem _ _ _ h0)).1, Or.inr h⟩

/-- In a well-typed tree the walk from a message or a part fails with `UnknownMessageIndex`
only, and what it returns is an allocated message or part. -/
theorem partIdToPtrLoop_typed (segs : List (List Char)) :
    ∀ (s : State) (item : Nat), WellTyped s → item < s.next →
      ((s.heap item).kind = Kind.Message ∨ (s.heap item).kind = Kind.Part) →
      (partIdToPtrLoop segs s item).2 = Except.error Exception.UnknownMessageIndex ∨
      ∃ last : Nat, (partIdToPtrLoop segs s item).2 = Except.ok last ∧ last < s.next ∧
        ((s.heap last).kind = Kind.Message ∨ (s.heap last).kind = Kind.Part) := by
  induction segs with
  | nil => intro s item _ hlt hk; right; exact ⟨item, rfl, hlt, hk⟩
  | cons seg segs ih =>
    intro s item hwt hlt hk
    rw [partIdToPtrLoop_cons s item seg segs hk]
    cases toUInt seg with
    | none => left; rfl
    | some n =>
      simp only
      obtain ⟨hnl, hnk⟩ := indexedNode_typed s hwt item hlt hk
      rcases childAt_zero_or_mem (s.heap (indexedNode s item)).children
        (uintToInt (uintPred n)) with h | ⟨c, h, hmem⟩
      · rw [h]; left; rfl
      · rw [h]
        simp only
        have hfo := child_fetchOnly s item 0
        have hc := hwt _ hnl c hmem
        have := ih (child s item 0).1 c (hwt.fetches_keep_typed hfo) (by rw [hfo.1]; exact hc.1)
          (Or.inr (by rw [hfo.kind]; exact hc.2.2 hnk))
        rcases this with h1 | ⟨last, h1, h2, h3⟩
        · left; exact h1
        · right
          rw [hfo.1, hfo.kind] at *
          exact ⟨last, h1, h2, h3⟩

theorem child_minus_one (s : State) (self : Ptr) :
    (child s self (-1)).2 = Except.ok none := by
  unfold child TreeItemMailbox.child TreeItem.child TreeItemPart.child
  split <;> simp [childAt]

/-- Wherever the walk stands, a segment that does not convert to a number, or converts to 0,
makes it fail. -/
theorem partIdToPtrLoop_fails_of_bad_segment (segs : List (List Char)) :
    ∀ (s : State) (item : Ptr),
      (∃ seg, seg ∈ segs ∧ (toUInt seg = none ∨ toUInt seg = some 0)) →
      ∃ e, (partIdToPtrLoop segs s item).2 = Except.error e := by
  induction segs with
  | nil => intro s item ⟨seg, hmem, _⟩; cases hmem
  | cons seg segs ih =>
    intro s item hbad
    rw [partIdToPtrLoop]
    cases hu : toUInt seg with
    | none => exact ⟨_, rfl⟩
    | some n =>
      simp only
      generalize hr : child s item 0 = r
      obtain ⟨s1, r2⟩ := r
      cases r2 with
      | error e => exact ⟨_, rfl⟩
      | ok c0 =>
        simp only
        by_cases hn : n = 0
        · subst hn
          have hm := child_minus_one s1 (throughTopLevelMultiPart s1 item c0)
          have h1 : uintToInt (uintPred 0) = -1 := by decide
          rw [h1]
          generalize child s1 (throughTopLevelMultiPart s1 item c0) (-1) = r' at hm
          obtain ⟨s2, r2'⟩ := r'
          simp only at hm
          subst hm
          exact ⟨_, rfl⟩
        · generalize child s1 (throughTopLevelMultiPart s1 item c0) (uintToInt (uintPred n)) = r'
          obtain ⟨s2, r2'⟩ := r'
          cases r2' with
          | error e => exact ⟨_, rfl⟩
          | ok nxt =>
            cases nxt with
            | none => exact ⟨_, rfl⟩
            | some nxt =>
              apply ih
              obtain ⟨seg2, hmem, hb⟩ := hbad
              rcases List.mem_cons.mp hmem with h | h
              · subst h
                rw [hu] at hb
                rcases hb with hb | hb
                · cases hb
                · simp only [Option.some.injEq] at hb
                  exact absurd hb hn
              · exact ⟨seg2, h, hb⟩

/-- With a synced message list and a sequence number that addresses `message`, `partIdToPtr`
is the walk from `message` followed by the cast of what it arrived at. -/
theorem partIdToPtr_eq_walk (s : State) (self list message : Ptr) (rest : List Ptr)
    (msgNumber : Int) (msgId : String)
    (hc : (s.heap self).children = list :: rest)
    (hlk : (s.heap list).kind = Kind.MsgList)
    (hld : (s.heap list).fetchStatus = FetchingState.DONE)
    (hidx : childAt (s.heap list).children (msgNumber - 1) = some message) :
    TreeItemMailbox.partIdToPtr s self msgNumber msgId =
      match partIdToPtrLoop (splitChars '.' msgId.data) s message with
      | (s2, Except.error e) => (s2, Except.error e)
      | (s2, Except.ok last) =>
        match dynamicCast s2 Kind.Part (some last) with
        | none => (s2, Except.error Exception.UnknownMessageIndex)
        | some part => (s2, Except.ok part) := by
  have hf : fetch s list = s := fetch_of_not_none s list (by rw [hld]; decide)
  unfold TreeItemMailbox.partIdToPtr
  rw [hc]
  simp only [TreeItem.fetched, hld, decide_True, Bool.not_true, child_of_msgList s list _ hlk, hf,
    hidx]
  rw [if_neg (by simp)]

/-- In a well-typed tree, with a synced message list and a sequence number that addresses
`message`, `partIdToPtr` fails with `UnknownMessageIndex` only, and it does fail when a
segment of the id does not convert to a number or converts to 0. -/
theorem partIdToPtr_unknown_of_bad_segment (s : State) (self list message : Nat)
    (rest : List Ptr) (msgNumber : Int) (msgId : String)
    (hwt : WellTyped s)
    (hc : (s.heap self).children = list :: rest)
    (hlk : (s.heap list).kind = Kind.MsgList)
    (hld : (s.heap list).fetchStatus = FetchingState.DONE)
    (hidx : childAt (s.heap list).children (msgNumber - 1) = some message)
    (hlt : message < s.next)
    (hk : (s.heap message).kind = Kind.Message) :
    (∀ e, (TreeItemMailbox.partIdToPtr s self msgNumber msgId).2 = Except.error e →
      e = Exception.UnknownMessageIndex) ∧
    ((∃ seg, seg ∈ splitChars '.' msgId.data ∧ (toUInt seg = none ∨ toUInt seg = some 0)) →
      (TreeItemMailbox.partIdToPtr s self msgNumber msgId).2 =
        Except.error Exception.UnknownMessageIndex) := by
  rw [partIdToPtr_eq_walk s self list message rest msgNumber msgId hc hlk hld hidx]
  have htyped := partIdToPtrLoop_typed (splitChars '.' msgId.data) s message hwt hlt (Or.inl hk)
  have hbad := partIdToPtrLoop_fails_of_bad_segment (splitChars '.' msgId.data) s message
  generalize partIdToPtrLoop (splitChars '.' msgId.data) s message = r at htyped hbad
  obtain ⟨s2, r2⟩ := r
  cases r2 with
  | error e =>
    simp only at htyped hbad ⊢
    rcases htyped with h | ⟨last, h, _⟩
    · simp only [Except.error.injEq] at h
      subst h
      exact ⟨fun e he => by simp only [Except.error.injEq] at he; exact he.symm, fun _ => rfl⟩
    · cases h
  | ok last =>
    simp only at hbad ⊢
    refine ⟨?_, ?_⟩
    · intro e he
      rw [dynamicCast_some] at he
      by_cases hp : (s2.heap last).kind = Kind.Part
      · rw [if_pos hp] at he; cases he
      · rw [if_neg hp] at he
        simp only [Except.error.injEq] at he; exact he.symm
    · intro hb
      obtain ⟨e, he⟩ := hbad hb
      cases he

theorem toUInt_lt (x : List Char) (n : Nat) (h : toUInt x = some n) : n < 4294967296 := by
  unfold toUInt at h
  split at h
  · cases h
  · split at h
    · simp only at h
      split at h
      · simp only [Option.some.injEq] at h
        omega
      · cases h
    · cases h

/-- A number above the size of the list indexes nothing after the 32-bit conversions. -/
theorem childAt_of_too_large (l : List Ptr) (n : Nat) (hn : n < 4294967296)
    (h : l.length < n) : childAt l (uintToInt (uintPred n)) = none := by
  unfold childAt
  rw [if_neg]
  unfold uintToInt uintPred
  split <;> omega

/-- C13: in a well-typed tree, with a synced message list and a sequence number that
addresses `message`, `partIdToPtr` returns no part and fails with `UnknownMessageIndex`
(a) when some segment of the dotted id does not convert to an unsigned integer or converts
to 0, (b) for the empty id, and (c) when a segment, reached by the walk over the segments
before it, converts to a number above the number of children of the node it indexes; and
(d) it never fails with anything else. -/
theorem partIdToPtr_unknownMessageIndex (s : State) (self list message : Nat)
    (rest : List Ptr) (msgNumber : Int) (msgId : String)
    (hwt : WellTyped s)
    (hc : (s.heap self).children = list :: rest)
    (hlk : (s.heap list).kind = Kind.MsgList)
    (hld : (s.heap list).fetchStatus = FetchingState.DONE)
    (hidx : childAt (s.heap list).children (msgNumber - 1) = some message)
    (hlt : message < s.next)
    (hk : (s.heap message).kind = Kind.Message) :
    ((∃ seg, seg ∈ splitChars '.' msgId.data ∧ (toUInt seg = none ∨ toUInt seg = some 0)) →
      (TreeItemMailbox.partIdToPtr s self msgNumber msgId).2 =
        Except.error Exception.UnknownMessageIndex) ∧
    (msgId = "" →
      (TreeItemMailbox.partIdToPtr s self msgNumber msgId).2 =
        Except.error Exception.UnknownMessageIndex) ∧
    (∀ (pre : List (List Char)) (seg : List Char) (post : List (List Char))
        (item : Ptr) (n : Nat),
      splitChars '.' msgId.data = pre ++ seg :: post →
      (partIdToPtrLoop pre s message).2 = Except.ok item →
      toUInt seg = some n →
      (s.heap (indexedNode s item)).children.length < n →
      (TreeItemMailbox.partIdToPtr s self msgNumber msgId).2 =
        Except.error Exception.UnknownMessageIndex) ∧
    (∀ e, (TreeItemMailbox.partIdToPtr s self msgNumber msgId).2 = Except.error e →
      e = Exception.UnknownMessageIndex) := by
  have hbad := partIdToPtr_unknown_of_bad_segment s self list message rest msgNumber msgId
    hwt hc hlk hld hidx hlt hk
  refine ⟨hbad.2, ?_, ?_, hbad.1⟩
  · intro hempty
    subst hempty
    exact hbad.2 ⟨[], by decide, Or.inl (by decide)⟩
  · intro pre seg post item n hsplit hpre hu hlen
    rw [partIdToPtr_eq_walk s self list message rest msgNumber msgId hc hlk hld hidx, hsplit,
      partIdToPtrLoop_append]
    have htyped := partIdToPtrLoop_typed pre s message hwt hlt (Or.inl hk)
    have hfo := partIdToPtrLoop_fetchOnly pre s message
    generalize partIdToPtrLoop pre s message = r at htyped hfo hpre
    obtain ⟨s1, r2⟩ := r
    simp only at htyped hfo hpre
    subst hpre
    simp only
    rcases htyped with h | ⟨last, h, _, hkl⟩
    · cases h
    · simp only [Except.ok.injEq] at h
      subst h
      rw [partIdToPtrLoop_cons s1 item seg post (by rw [hfo.kind]; exact hkl), hu]
      simp only
      rw [indexedNode_fetchOnly hfo, hfo.children,
        childAt_of_too_large _ n (toUInt_lt seg n hu) hlen]

theorem partIdToPtr_unknownMessageIndex_witness :
    WellTyped Example.nested ∧
    (Example.nested.heap 2).children = 3 :: [] ∧
    (Example.nested.heap 3).kind = Kind.MsgList ∧
    (Example.nested.heap 3).fetchStatus = FetchingState.DONE ∧
    childAt (Example.nested.heap 3).children (2 - 1) = some 5 ∧
    5 < Example.nested.next ∧
    (Example.nested.heap 5).kind = Kind.Message ∧
    splitChars '.' "2.3".data = ["2".data] ++ "3".data :: [] ∧
    (partIdToPtrLoop ["2".data] Example.nested 5).2 = Except.ok 12 ∧
    toUInt "3".data = some 3 ∧
    indexedNode Example.nested 12 = 13 ∧
    (Example.nested.heap (indexedNode Example.nested 12)).children.length < 3 ∧
    (TreeItemMailbox.partIdToPtr Example.nested 2 2 "2.3").2 =
      Except.error Exception.UnknownMessageIndex :=
  ⟨by unfold WellTyped; decide, by decide, by decide, by decide, by decide, by decide,
    by decide, by decide, by decide, by decide, by decide, by decide,
    (partIdToPtr_unknownMessageIndex Example.nested 2 3 5 [] 2 "2.3"
      (by unfold WellTyped; decide) (by decide) (by decide) (by decide) (by decide) (by decide)
      (by decide)).2.2.1 ["2".data] "3".data [] 12 3 (by decide) (by decide)
      (by decide) (by decide)⟩

/-! ## Part ids with a keyword -/

/-- C14, counterexample: message 1 of the state `structured` has the parts 1 and 2, and
`partIdToPtr` for the id `1.HEADER` returns no special child of part 1: it fails with
`UnknownMessageIndex`, as it does for `1.TEXT` and `1.MIME`. -/
theorem partIdToPtr_header_fails :
    (TreeItemMailbox.partIdToPtr Example.structured 2 1 "1").2 = Except.ok 8 ∧
    (TreeItemMailbox.partIdToPtr Example.structured 2 1 "1.HEADER").2 =
      Except.error Exception.UnknownMessageIndex ∧
    (TreeItemMailbox.partIdToPtr Example.structured 2 1 "1.TEXT").2 =
      Except.error Exception.UnknownMessageIndex ∧
    (TreeItemMailbox.partIdToPtr Example.structured 2 1 "1.MIME").2 =
      Except.error Exception.UnknownMessageIndex := by
  decide

/-- C14, amended: `partIdToPtr` knows no special children.  In a well-typed tree, with a
synced message list and a sequence number that addresses `message`, a part id with a segment
HEADER, TEXT or MIME, after a valid numeric prefix or anywhere else, resolves to no node: the
call fails with `UnknownMessageIndex`, as for every segment that is not an unsigned
integer. -/
theorem partIdToPtr_rejects_keywords (s : State) (self list message : Nat)
    (rest : List Ptr) (msgNumber : Int) (msgId : String)
    (hwt : WellTyped s)
    (hc : (s.heap self).children = list :: rest)
    (hlk : (s.heap list).kind = Kind.MsgList)
    (hld : (s.heap list).fetchStatus = FetchingState.DONE)
    (hidx : childAt (s.heap list).children (msgNumber - 1) = some message)
    (hlt : message < s.next)
    (hk : (s.heap message).kind = Kind.Message)
    (hkey : "HEADER".data ∈ splitChars '.' msgId.data ∨
      "TEXT".data ∈ splitChars '.' msgId.data ∨ "MIME".data ∈ splitChars '.' msgId.data) :
    (TreeItemMailbox.partIdToPtr s self msgNumber msgId).2 =
      Except.error Exception.UnknownMessageIndex := by
  apply (partIdToPtr_unknown_of_bad_segment s self list message rest msgNumber msgId
    hwt hc hlk hld hidx hlt hk).2
  rcases hkey with h | h | h
  · exact ⟨_, h, Or.inl (by decide)⟩
  · exact ⟨_, h, Or.inl (by decide)⟩
  · exact ⟨_, h, Or.inl (by decide)⟩

theorem partIdToPtr_rejects_keywords_witness :
    WellTyped Example.nested ∧
    (Example.nested.heap 2).children = 3 :: [] ∧
    (Example.nested.heap 3).kind = Kind.MsgList ∧
    (Example.nested.heap 3).fetchStatus = FetchingState.DONE ∧
    childAt (Example.nested.heap 3).children (2 - 1) = some 5 ∧
    5 < Example.nested.next ∧
    (Example.nested.heap 5).kind = Kind.Message ∧
    "TEXT".data ∈ splitChars '.' "2.TEXT".data ∧
    (TreeItemMailbox.partIdToPtr Example.nested 2 2 "2").2 = Except.ok 12 ∧
    (TreeItemMailbox.partIdToPtr Example.nested 2 2 "2.TEXT").2 =
      Except.error Exception.UnknownMessageIndex :=
  ⟨by unfold WellTyped; decide, by decide, by decide, by decide, by decide, by decide,
    by decide, by decide, by decide,
    partIdToPtr_rejects_keywords Example.nested 2 3 5 [] 2 "2.TEXT"
      (by unfold WellTyped; decide) (by decide) (by decide) (by decide) (by decide) (by decide)
      (by decide) (Or.inr (Or.inl (by decide)))⟩

/-! ## Dotted ids -/

theorem splitChars_ne_nil (sep : Char) (l : List Char) : splitChars sep l ≠ [] := by
  induction l with
  | nil => simp [splitChars]
  | cons c cs ih =>
    rw [splitChars]
    split
    · simp
    · split <;> simp

/-- Joining the segments of a dotted id with dots gives the id back. -/
theorem joinDots_splitChars (l : List Char) : joinDots (splitChars '.' l) = l := by
  induction l with
  | nil => rfl
  | cons c cs ih =>
    rw [splitChars]
    by_cases hc : c = '.'
    · rw [if_pos hc]
      cases h : splitChars '.' cs with
      | nil => exact absurd h (splitChars_ne_nil _ _)
      | cons w ws =>
        rw [h] at ih
        simp only [joinDots, List.nil_append, ih, hc]
    · rw [if_neg hc]
      cases h : splitChars '.' cs with
      | nil => exact absurd h (splitChars_ne_nil _ _)
      | cons w ws =>
        rw [h] at ih
        simp only
        cases ws with
        | nil =>
          simp only [joinDots] at ih ⊢
          rw [ih]
        | cons w2 ws2 =>
          simp only [joinDots, List.cons_append] at ih ⊢
          rw [ih]

theorem joinDots_snoc (pre : List (List Char)) (seg : List Char) (h : pre ≠ []) :
    joinDots (pre ++ [seg]) = joinDots pre ++ '.' :: seg := by
  induction pre with
  | nil => exact absurd rfl h
  | cons x r ih =>
    cases r with
    | nil => rfl
    | cons y r2 =>
      have := ih (by simp)
      rw [List.cons_append] at this
      show x ++ '.' :: joinDots (y :: (r2 ++ [seg])) = (x ++ '.' :: joinDots (y :: r2)) ++ '.' :: seg
      rw [this]
      simp

/-! ## Part ids in a MIME tree -/

theorem MimeTree.fetches_keep_tree {s t : State} (h : MimeTree s) (hf : FetchOnly s t) :
    MimeTree t := by
  intro p hp hk
  rw [hf.1] at hp
  rw [hf.kind] at hk
  rw [hf.children]
  obtain ⟨h1, h2, h3⟩ := h p hp hk
  refine ⟨h1, h2, fun c hc => ?_⟩
  rw [hf.1, hf.kind, hf.parent]
  exact h3 c hc

theorem TopLevelMultiPartFirst.fetches_keep_first {s t : State} (h : TopLevelMultiPartFirst s)
    (hf : FetchOnly s t) : TopLevelMultiPartFirst t := by
  intro p hp c hc ht
  rw [hf.1] at hp
  rw [hf.children] at hc ⊢
  rw [isTopLevelMultiPart_fetchOnly hf] at ht
  exact h p hp c hc ht

theorem row_fetchOnly {s t : State} (hf : FetchOnly s t) (p : Ptr) :
    TreeItem.row t p = TreeItem.row s p := by
  unfold TreeItem.row
  rw [hf.parent]
  cases (s.heap p).parent with
  | none => rfl
  | some q => simp only [hf.children]

/-- Fetches do not change part ids. -/
theorem partId_fetchOnly {s t : State} (hf : FetchOnly s t) (fuel : Nat) :
    ∀ p, TreeItemPart.partId t fuel p = TreeItemPart.partId s fuel p := by
  induction fuel with
  | zero => intro p; rfl
  | succ fuel ih =>
    intro p
    rw [TreeItemPart.partId, TreeItemPart.partId]
    simp only [isTopLevelMultiPart_fetchOnly hf, dynamicCast_fetchOnly hf, hf.parent,
      row_fetchOnly hf]
    cases dynamicCast s Kind.Part (s.heap p).parent with
    | none => rfl
    | some q => simp only [ih]

/-- With more fuel `partId` returns what it returned. -/
theorem partId_mono (s : State) (fuel : Nat) :
    ∀ p r, TreeItemPart.partId s fuel p = some r → TreeItemPart.partId s (fuel + 1) p = some r := by
  induction fuel with
  | zero => intro p r h; cases h
  | succ fuel ih =>
    intro p r h
    rw [TreeItemPart.partId] at h ⊢
    by_cases ht : TreeItemPart.isTopLevelMultiPart s p = true
    · rw [if_pos ht] at h ⊢
      cases hd : dynamicCast s Kind.Part (s.heap p).parent with
      | none => rw [hd] at h; exact h
      | some q =>
        rw [hd] at h
        exact ih q r h
    · rw [if_neg ht] at h ⊢
      by_cases hm : (dynamicCast s Kind.Message (s.heap p).parent).isSome = true
      · rw [if_pos hm] at h ⊢
        exact h
      · rw [if_neg hm] at h ⊢
        cases hd : dynamicCast s Kind.Part (s.heap p).parent with
        | none => rw [hd] at h; cases h
        | some q =>
          rw [hd] at h
          simp only at h ⊢
          cases hq : TreeItemPart.partId s fuel q with
          | none => rw [hq] at h; cases h
          | some r2 =>
            rw [hq] at h
            rw [ih q r2 hq]
            exact h

theorem partId_mono_le (s : State) (p : Ptr) (r : Option String) (f f2 : Nat)
    (h : TreeItemPart.partId s f p = some r) (hle : f ≤ f2) :
    TreeItemPart.partId s f2 p = some r := by
  induction hle with
  | refl => exact h
  | step _ ih => exact partId_mono s _ p r ih

/-- In a list without duplicates an element is first found where it is. -/
theorem first_of_nodup (l : List Ptr) (h : l.Nodup) (i : Nat) (x : Ptr)
    (hi : l.get? i = some x) : ∀ j, j < i → l.get? j ≠ some x := by
  intro j hj hjx
  have hi' := List.get?_eq_some.mp hi
  have hj' := List.get?_eq_some.mp hjx
  obtain ⟨hil, hie⟩ := hi'
  obtain ⟨hjl, hje⟩ := hj'
  have := (List.Nodup.get_inj_iff h).mp (hie.trans hje.symm)
  simp only [Fin.mk.injEq] at this
  omega

/-- What the 32-bit conversions of the walk index: a segment n with child n-1 present is at
least 1 and the child is at position n-1. -/
theorem childAt_index (l : List Ptr) (n : Nat) (c : Ptr) (hn : n < 4294967296)
    (h : childAt l (uintToInt (uintPred n)) = some c) :
    1 ≤ n ∧ l.get? (n - 1) = some c := by
  unfold childAt at h
  split at h
  · rename_i hr
    unfold uintToInt uintPred at hr h
    split at hr
    · rename_i hs
      rw [if_pos hs] at h
      have h1 : 1 ≤ n := by omega
      refine ⟨h1, ?_⟩
      have : (((4294967295 + n) % 4294967296 % 4294967296 : Nat) : Int).toNat = n - 1 := by
        omega
      rw [this] at h
      exact h
    · omega
  · cases h

theorem WalkedTo.fetches_keep_walk {s t : State} (hf : FetchOnly s t) (item : Ptr)
    (pre : List (List Char)) (f : Nat) : WalkedTo t item pre f ↔ WalkedTo s item pre f := by
  unfold WalkedTo
  simp only [hf.kind, isTopLevelMultiPart_fetchOnly hf, partId_fetchOnly hf]

theorem childAt_zero_of_head (l : List Ptr) (c : Ptr) (h : l.head? = some c) :
    childAt l 0 = some c := by
  cases l with
  | nil => cases h
  | cons x r =>
    simp only [List.head?_cons, Option.some.injEq] at h
    subst h
    simp [childAt]

theorem mk_append_dot (a b : List Char) :
    String.mk a ++ "." ++ String.mk b = String.mk (a ++ '.' :: b) := by
  apply String.ext
  simp [String.data_append]

/-- The numeral of a canonical segment. -/
theorem number_of_canonical (seg : List Char) (n : Nat) (hu : toUInt seg = some n)
    (hcan : canonicalSegment seg = true) (h1 : 1 ≤ n) :
    number (((n - 1 : Nat) : Int) + 1) = String.mk seg := by
  unfold canonicalSegment at hcan
  rw [hu] at hcan
  simp only [decide_eq_true_eq] at hcan
  rw [number_succ, hcan]
  have : n - 1 + 1 = n := by omega
  rw [this]
  rfl

/-- One step of the walk in a MIME tree whose top-level multiparts are first children: the
child that a canonical segment selects is a part, no top-level multipart, and its partId is
the id walked so far extended by the segment. -/
theorem walkedTo_step (s : State) (hmt : MimeTree s) (hfirst : TopLevelMultiPartFirst s)
    (item : Nat) (hlt : item < s.next) (pre : List (List Char)) (f : Nat)
    (hw : WalkedTo s item pre f) (seg : List Char) (n : Nat) (hu : toUInt seg = some n)
    (hcan : canonicalSegment seg = true) (next : Nat)
    (hnext : childAt (s.heap (indexedNode s item)).children (uintToInt (uintPred n))
      = some next) :
    next < s.next ∧ WalkedTo s next (pre ++ [seg]) (f + 2) := by
  have hk : (s.heap item).kind = Kind.Message ∨ (s.heap item).kind = Kind.Part := by
    rcases hw with h | h
    · exact Or.inl h.1
    · exact Or.inr h.1
  obtain ⟨hnd, hlen, hch⟩ := hmt item hlt hk
  rcases indexedNode_cases s item with ⟨hnode, hnot⟩ | ⟨hc0, hnk, hntlm⟩
  · rw [hnode] at hnext
    obtain ⟨h1, hget⟩ := childAt_index _ n next (toUInt_lt seg n hu) hnext
    have hmem : next ∈ (s.heap item).children := List.get?_mem hget
    obtain ⟨hnl, hnkind, hnpar⟩ := hch next hmem
    have hrow : TreeItem.row s next = ((n - 1 : Nat) : Int) := by
      simp only [TreeItem.row, hnpar]
      exact indexOf_of_first next _ (n - 1) hget (first_of_nodup _ hnd _ _ hget)
    have htlm : TreeItemPart.isTopLevelMultiPart s next = false := by
      cases ht : TreeItemPart.isTopLevelMultiPart s next with
      | false => rfl
      | true =>
        have h0 := childAt_zero_of_head _ _ (hfirst item hlt next hmem ht)
        rw [hnot next h0 hnkind] at ht
        cases ht
    refine ⟨hnl, Or.inr ⟨hnkind, by simp, htlm, ?_⟩⟩
    intro f2 hf2
    obtain ⟨f3, rfl⟩ : ∃ f3, f2 = f3 + 1 := ⟨f2 - 1, by omega⟩
    rw [TreeItemPart.partId, if_neg (by simp [htlm])]
    rcases hw with ⟨hkm, hpre⟩ | ⟨hkp, hpre, _, hid⟩
    · subst hpre
      simp only [hnpar, dynamicCast_some, hkm, if_true, Option.isSome_some, hrow,
        number_of_canonical seg n hu hcan h1]
      rfl
    · have hne : (s.heap item).kind ≠ Kind.Message := by rw [hkp]; decide
      simp only [hnpar, dynamicCast_some, hkp, if_true, if_neg hne, Option.isSome_none, hrow,
        hid f3 (by omega), number_of_canonical seg n hu hcan h1, mk_append_dot,
        joinDots_snoc pre seg hpre]
      rfl
  · have hc0mem : indexedNode s item ∈ (s.heap item).children := childAt_mem _ _ _ hc0
    obtain ⟨hnodel, _, hnodepar⟩ := hch _ hc0mem
    generalize indexedNode s item = node at *
    obtain ⟨hnd2, hlen2, hch2⟩ := hmt node hnodel (Or.inr hnk)
    obtain ⟨h1, hget⟩ := childAt_index _ n next (toUInt_lt seg n hu) hnext
    have hmem : next ∈ (s.heap node).children := List.get?_mem hget
    obtain ⟨hnl, hnkind, hnpar⟩ := hch2 next hmem
    have hrow : TreeItem.row s next = ((n - 1 : Nat) : Int) := by
      simp only [TreeItem.row, hnpar]
      exact indexOf_of_first next _ (n - 1) hget (first_of_nodup _ hnd2 _ _ hget)
    have hmulti : startsWith (s.heap node).mimeType "multipart/" = true := by
      simp only [TreeItemPart.isTopLevelMultiPart, isTopLevelMultiPartOf, Bool.and_eq_true]
        at hntlm
      exact hntlm.1
    have htlm : TreeItemPart.isTopLevelMultiPart s next = false := by
      simp [TreeItemPart.isTopLevelMultiPart, isTopLevelMultiPartOf, hnpar, dynamicCast_some,
        hnk, not_message_of_multipart _ hmulti]
    refine ⟨hnl, Or.inr ⟨hnkind, by simp, htlm, ?_⟩⟩
    intro f2 hf2
    obtain ⟨f4, rfl⟩ : ∃ f4, f2 = f4 + 2 := ⟨f2 - 2, by omega⟩
    have hne : (s.heap node).kind ≠ Kind.Message := by rw [hnk]; decide
    rw [TreeItemPart.partId, if_neg (by simp [htlm])]
    rcases hw with ⟨hkm, hpre⟩ | ⟨hkp, hpre, _, hid⟩
    · subst hpre
      have hne2 : (s.heap item).kind ≠ Kind.Part := by rw [hkm]; decide
      have hnodeid : TreeItemPart.partId s (f4 + 1) node = some none := by
        rw [TreeItemPart.partId, if_pos hntlm]
        simp [hnodepar, dynamicCast_some, hne2]
      simp only [hnpar, dynamicCast_some, hnk, if_true, if_neg hne, Option.isSome_none, hrow,
        hnodeid, number_of_canonical seg n hu hcan h1]
      rfl
    · have hnodeid : TreeItemPart.partId s (f4 + 1) node
          = some (some (String.mk (joinDots pre))) := by
        rw [TreeItemPart.partId, if_pos hntlm]
        simp only [hnodepar, dynamicCast_some, hkp, if_true]
        exact hid f4 (by omega)
      simp only [hnpar, dynamicCast_some, hnk, if_true, if_neg hne, Option.isSome_none, hrow,
        hnodeid, number_of_canonical seg n hu hcan h1, mk_append_dot,
        joinDots_snoc pre seg hpre]
      rfl

/-- The walk over canonical segments arrives at the part whose partId is the id walked. -/
theorem partIdToPtrLoop_walkedTo (segs : List (List Char)) :
    ∀ (s : State) (item : Nat) (pre : List (List Char)) (f : Nat),
      MimeTree s → TopLevelMultiPartFirst s → item < s.next → WalkedTo s item pre f →
      (∀ seg, seg ∈ segs → canonicalSegment seg = true) →
      ∀ last, (partIdToPtrLoop segs s item).2 = Except.ok last →
        WalkedTo s last (pre ++ segs) (f + 2 * segs.length) := by
  induction segs with
  | nil =>
    intro s item pre f _ _ _ hw _ last hlast
    simp only [partIdToPtrLoop, Except.ok.injEq] at hlast
    subst hlast
    simpa using hw
  | cons seg segs ih =>
    intro s item pre f hmt hfirst hlt hw hcan last hlast
    have hk : (s.heap item).kind = Kind.Message ∨ (s.heap item).kind = Kind.Part := by
      rcases hw with h | h
      · exact Or.inl h.1
      · exact Or.inr h.1
    rw [partIdToPtrLoop_cons s item seg segs hk] at hlast
    cases hu : toUInt seg with
    | none => rw [hu] at hlast; cases hlast
    | some n =>
      rw [hu] at hlast
      simp only at hlast
      cases hn : childAt (s.heap (indexedNode s item)).children (uintToInt (uintPred n)) with
      | none => rw [hn] at hlast; cases hlast
      | some next =>
        rw [hn] at hlast
        simp only at hlast
        have hfo := child_fetchOnly s item 0
        obtain ⟨hnl, hw2⟩ := walkedTo_step s hmt hfirst item hlt pre f hw seg n hu
          (hcan seg (List.mem_cons_self _ _)) next hn
        have := ih (child s item 0).1 next (pre ++ [seg]) (f + 2)
          (hmt.fetches_keep_tree hfo) (hfirst.fetches_keep_first hfo) (by rw [hfo.1]; exact hnl)
          ((WalkedTo.fetches_keep_walk hfo _ _ _).mpr hw2)
          (fun sg hsg => hcan sg (List.mem_cons_of_mem _ hsg)) last hlast
        rw [WalkedTo.fetches_keep_walk hfo] at this
        have he : f + 2 + 2 * segs.length = f + 2 * (seg :: segs).length := by
          simp only [List.length_cons]; omega
        rw [← he]
        simpa using this

/-! ## From a part id to the part and back -/

/-- C11, counterexample: for message 1 of the state `structured` the id `01` resolves, to the
first part of the multipart, and the partId of that part is `1`, not `01`. -/
theorem partId_of_leading_zero :
    (TreeItemMailbox.partIdToPtr Example.structured 2 1 "01").2 = Except.ok 8 ∧
    TreeItemPart.partId (TreeItemMailbox.partIdToPtr Example.structured 2 1 "01").1 2 8
      = some (some "1") ∧
    (∀ fuel, 2 ≤ fuel →
      TreeItemPart.partId (TreeItemMailbox.partIdToPtr Example.structured 2 1 "01").1 fuel 8
        ≠ some (some "01")) := by
  refine ⟨by decide, by decide, ?_⟩
  intro fuel hfuel h
  have h2 := partId_mono_le (TreeItemMailbox.partIdToPtr Example.structured 2 1 "01").1 8
    (some "1") 2 fuel (by decide) hfuel
  rw [h2] at h
  revert h
  decide

/-- C11, amended: in a MIME tree in which a top-level multipart occurs only as the first
child of its parent, with a synced message list and a sequence number that addresses
`message`, for every part id whose segments are written as `QString::number` writes them
(decimal, no leading zeros) and for which `partIdToPtr` succeeds, `partId()` of the returned
part is that id, with any fuel of at least twice the number of segments, in the state after
the call and in the state before it. -/
theorem partId_of_partIdToPtr (s : State) (self list message : Nat) (rest : List Ptr)
    (msgNumber : Int) (msgId : String) (part : Ptr)
    (hmt : MimeTree s) (hfirst : TopLevelMultiPartFirst s)
    (hc : (s.heap self).children = list :: rest)
    (hlk : (s.heap list).kind = Kind.MsgList)
    (hld : (s.heap list).fetchStatus = FetchingState.DONE)
    (hidx : childAt (s.heap list).children (msgNumber - 1) = some message)
    (hlt : message < s.next)
    (hk : (s.heap message).kind = Kind.Message)
    (hcan : CanonicalId msgId)
    (hres : (TreeItemMailbox.partIdToPtr s self msgNumber msgId).2 = Except.ok part) :
    ∀ fuel, 2 * (splitChars '.' msgId.data).length ≤ fuel →
      TreeItemPart.partId (TreeItemMailbox.partIdToPtr s self msgNumber msgId).1 fuel part
        = some (some msgId) ∧
      TreeItemPart.partId s fuel part = some (some msgId) := by
  intro fuel hfuel
  rw [partId_fetchOnly (partIdToPtr_fetchOnly s self msgNumber msgId)]
  refine ⟨?_, ?_⟩ <;>
  · rw [partIdToPtr_eq_walk s self list message rest msgNumber msgId hc hlk hld hidx] at hres
    have hwalk := partIdToPtrLoop_walkedTo (splitChars '.' msgId.data) s message [] 0 hmt hfirst
      hlt (Or.inl ⟨hk, rfl⟩) hcan
    have hfo := partIdToPtrLoop_fetchOnly (splitChars '.' msgId.data) s message
    generalize partIdToPtrLoop (splitChars '.' msgId.data) s message = r at hres hwalk hfo
    obtain ⟨s2, r2⟩ := r
    cases r2 with
    | error e => cases hres
    | ok last =>
      simp only [dynamicCast_some] at hres
      by_cases hp : (s2.heap last).kind = Kind.Part
      · rw [if_pos hp] at hres
        simp only [Except.ok.injEq] at hres
        subst hres
        rcases hwalk last rfl with ⟨hkm, _⟩ | ⟨_, _, _, hid⟩
        · simp only at hfo
          rw [hfo.kind, hkm] at hp
          cases hp
        · have := hid fuel (by omega)
          rw [List.nil_append, joinDots_splitChars] at this
          exact this
      · rw [if_neg hp] at hres
        cases hres

theorem partId_of_partIdToPtr_witness :
    MimeTree Example.nested ∧ TopLevelMultiPartFirst Example.nested ∧
    (Example.nested.heap 2).children = 3 :: [] ∧
    (Example.nested.heap 3).kind = Kind.MsgList ∧
    (Example.nested.heap 3).fetchStatus = FetchingState.DONE ∧
    childAt (Example.nested.heap 3).children (2 - 1) = some 5 ∧
    5 < Example.nested.next ∧
    (Example.nested.heap 5).kind = Kind.Message ∧
    CanonicalId "2.2" ∧
    (TreeItemMailbox.partIdToPtr Example.nested 2 2 "2.2").2 = Except.ok 15 ∧
    2 * (splitChars '.' "2.2".data).length ≤ 4 ∧
    TreeItemPart.partId Example.nested 4 15 = some (some "2.2") :=
  ⟨by unfold MimeTree; decide, by unfold TopLevelMultiPartFirst; decide, by decide, by decide,
    by decide, by decide, by decide, by decide, by unfold CanonicalId; decide, by decide,
    by decide,
    (partId_of_partIdToPtr Example.nested 2 3 5 [] 2 "2.2" 15 (by unfold MimeTree; decide)
      (by unfold TopLevelMultiPartFirst; decide) (by decide) (by decide) (by decide)
      (by decide) (by decide) (by decide) (by unfold CanonicalId; decide) (by decide) 4
      (by decide)).2⟩

/-! ## Decimal numerals -/

theorem digitChar_facts : ∀ k, k < 10 →
    (Nat.digitChar k).isDigit = true ∧ (Nat.digitChar k).toNat - 48 = k := by
  decide

/-- The digits that `Nat.toDigitsCore` puts in front of its accumulator: a non-empty run of
decimal digits whose value is the number. -/
theorem toDigitsCore_spec (fuel : Nat) : ∀ (n : Nat) (ds : List Char), n < fuel →
    ∃ front, Nat.toDigitsCore 10 fuel n ds = front ++ ds ∧ front ≠ [] ∧
      front.all Char.isDigit = true ∧
      ∀ a, front.foldl (fun a c => 10 * a + (c.toNat - 48)) a = a * 10 ^ front.length + n := by
  induction fuel with
  | zero => intro n ds h; omega
  | succ fuel ih =>
    intro n ds hn
    have hd := digitChar_facts (n % 10) (Nat.mod_lt _ (by decide))
    rw [Nat.toDigitsCore]
    by_cases h0 : n / 10 = 0
    · simp only [h0, if_true]
      refine ⟨[Nat.digitChar (n % 10)], rfl, by simp, by simp [hd.1], ?_⟩
      intro a
      simp only [List.foldl_cons, List.foldl_nil, hd.2, List.length_singleton, pow_one]
      omega
    · simp only [h0, if_false]
      obtain ⟨front, h1, h2, h3, h4⟩ := ih (n / 10) (Nat.digitChar (n % 10) :: ds) (by omega)
      refine ⟨front ++ [Nat.digitChar (n % 10)], by rw [h1]; simp, by simp, ?_, ?_⟩
      · simp [h3, hd.1]
      · intro a
        simp only [List.foldl_append, List.foldl_cons, List.foldl_nil, h4, hd.2,
          List.length_append, List.length_singleton, pow_succ]
        have := Nat.div_add_mod n 10
        nlinarith [this]

theorem number_data (n : Nat) : (number (n : Int)).data = Nat.toDigits 10 n := rfl

/-- `toUInt` reads back what `QString::number` writes, and the numeral has no dot. -/
theorem toUInt_number (n : Nat) (hn : n < 4294967296) :
    toUInt (number (n : Int)).data = some n ∧ '.' ∉ (number (n : Int)).data := by
  rw [number_data, Nat.toDigits]
  obtain ⟨front, h1, h2, h3, h4⟩ := toDigitsCore_spec (n + 1) n [] (by omega)
  rw [List.append_nil] at h1
  rw [h1]
  refine ⟨?_, ?_⟩
  · unfold toUInt
    rw [if_neg h2, if_pos h3]
    simp only [h4 0]
    simp [hn]
  · intro hmem
    have := List.all_eq_true.mp h3 '.' hmem
    revert this
    decide

theorem canonicalSegment_number (n : Nat) (hn : n < 4294967296) :
    canonicalSegment (number (n : Int)).data = true := by
  unfold canonicalSegment
  rw [(toUInt_number n hn).1]
  simp

theorem splitChars_of_no_sep (seg : List Char) (h : '.' ∉ seg) :
    splitChars '.' seg = [seg] := by
  induction seg with
  | nil => rfl
  | cons c cs ih =>
    have hc : c ≠ '.' := fun e => h (by rw [e]; exact List.mem_cons_self _ _)
    have := ih (fun e => h (List.mem_cons_of_mem _ e))
    rw [splitChars, if_neg hc, this]

theorem splitChars_append_sep (seg rest : List Char) (h : '.' ∉ seg) :
    splitChars '.' (seg ++ '.' :: rest) = seg :: splitChars '.' rest := by
  induction seg with
  | nil => simp [splitChars]
  | cons c cs ih =>
    have hc : c ≠ '.' := fun e => h (by rw [e]; exact List.mem_cons_self _ _)
    have := ih (fun e => h (List.mem_cons_of_mem _ e))
    rw [List.cons_append, splitChars, if_neg hc, this]

/-- Splitting the join of segments without dots gives the segments back. -/
theorem splitChars_joinDots (pre : List (List Char)) (hne : pre ≠ [])
    (h : ∀ seg, seg ∈ pre → '.' ∉ seg) : splitChars '.' (joinDots pre) = pre := by
  induction pre with
  | nil => exact absurd rfl hne
  | cons x r ih =>
    cases r with
    | nil => exact splitChars_of_no_sep x (h x (List.mem_cons_self _ _))
    | cons y r2 =>
      rw [joinDots, splitChars_append_sep _ _ (h x (List.mem_cons_self _ _)),
        ih (by simp) (fun seg hs => h seg (List.mem_cons_of_mem _ hs))]

/-! ## From a part to its id and back -/

theorem TopLevelMultiPartAlone.first {s : State} (h : TopLevelMultiPartAlone s) :
    TopLevelMultiPartFirst s := by
  intro p hp c hc ht
  rw [h p hp c hc ht]
  rfl

/-- A child of a top-level multipart is no top-level multipart. -/
theorem not_topLevel_under_multipart (s : State) (p q : Ptr)
    (hpar : (s.heap p).parent = some q) (hk : (s.heap q).kind = Kind.Part)
    (hq : TreeItemPart.isTopLevelMultiPart s q = true) :
    TreeItemPart.isTopLevelMultiPart s p = false := by
  have hmulti : startsWith (s.heap q).mimeType "multipart/" = true := by
    simp only [TreeItemPart.isTopLevelMultiPart, isTopLevelMultiPartOf, Bool.and_eq_true] at hq
    exact hq.1
  simp [TreeItemPart.isTopLevelMultiPart, isTopLevelMultiPartOf, hpar, dynamicCast_some, hk,
    not_message_of_multipart _ hmulti]

/-- From a node at which the walk can stand, every child of the node that the next segment
indexes is reached by one more segment, the numeral of its position. -/
theorem anchored_child (s : State) (message : Ptr) (hmt : MimeTree s)
    (halone : TopLevelMultiPartAlone s) (a : Nat) (pre : List (List Char)) (f : Nat)
    (ha : Anchored s message a pre f) (node : Nat) (hnode : indexedNode s a = node)
    (hnl : node < s.next)
    (hnk : (s.heap node).kind = Kind.Message ∨ (s.heap node).kind = Kind.Part)
    (p : Nat) (hp : p ∈ (s.heap node).children) :
    ∃ seg, Anchored s message p (pre ++ [seg]) (f + 2) := by
  obtain ⟨hal, hw, ⟨s1, hfo, hloop⟩, hnum⟩ := ha
  obtain ⟨_, hlen, _⟩ := hmt node hnl hnk
  obtain ⟨i, hi⟩ := List.get?_of_mem hp
  have hilt : i < (s.heap node).children.length := by
    rcases Nat.lt_or_ge i (s.heap node).children.length with h | h
    · exact h
    · rw [List.get?_eq_none.mpr h] at hi; cases hi
  have hn : i + 1 < 4294967296 := by omega
  obtain ⟨hu, hdot⟩ := toUInt_number (i + 1) hn
  have hnext : childAt (s.heap (indexedNode s a)).children (uintToInt (uintPred (i + 1)))
      = some p := by
    rw [hnode]
    exact childAt_of_sequenceNumber _ (i + 1) p (by omega) (by simpa using hi) hlen
  obtain ⟨hpl, hwp⟩ := walkedTo_step s hmt halone.first a hal pre f hw
    (number ((i + 1 : Nat) : Int)).data (i + 1) hu (canonicalSegment_number (i + 1) hn) p hnext
  have hka : (s1.heap a).kind = Kind.Message ∨ (s1.heap a).kind = Kind.Part := by
    rw [hfo.kind]
    rcases hw with h | h
    · exact Or.inl h.1
    · exact Or.inr h.1
  refine ⟨(number ((i + 1 : Nat) : Int)).data, hpl, hwp, ?_, ?_⟩
  · refine ⟨(child s1 a 0).1, hfo.trans (child_fetchOnly s1 a 0), ?_⟩
    rw [partIdToPtrLoop_append, hloop]
    simp only
    rw [partIdToPtrLoop_cons s1 a _ [] hka, hu]
    simp only
    rw [indexedNode_fetchOnly hfo, hfo.children, hnext]
    rfl
  · intro seg hseg
    rcases List.mem_append.mp hseg with h | h
    · exact hnum seg h
    · simp only [List.mem_singleton] at h
      rw [h]
      exact hdot

/-- A node whose child 0 is no top-level multipart is the node that the next segment
indexes. -/
theorem indexedNode_of_no_topLevel (s : State) (halone : TopLevelMultiPartAlone s) (a : Nat)
    (hal : a < s.next) (p : Nat) (hp : p ∈ (s.heap a).children)
    (hntlm : TreeItemPart.isTopLevelMultiPart s p = false) : indexedNode s a = a := by
  rcases indexedNode_cases s a with ⟨h, _⟩ | ⟨h0, _, ht⟩
  · exact h
  · have hmem := childAt_mem _ _ _ h0
    have := halone a hal _ hmem ht
    rw [this] at hp
    simp only [List.mem_singleton] at hp
    rw [hp, ht] at hntlm
    cases hntlm

/-- The only child of a node, when it is a top-level multipart, is the node that the next
segment indexes. -/
theorem indexedNode_of_topLevel (s : State) (a q : Nat) (hc : (s.heap a).children = [q])
    (hq : TreeItemPart.isTopLevelMultiPart s q = true) (hk : (s.heap q).kind = Kind.Part) :
    indexedNode s a = q := by
  have h0 : childAt (s.heap a).children 0 = some q := by rw [hc]; simp [childAt]
  rcases indexedNode_cases s a with ⟨_, h⟩ | ⟨h, _, _⟩
  · rw [h q h0 hk] at hq
    cases hq
  · rw [h0] at h
    simp only [Option.some.injEq] at h
    exact h.symm

/-- The children of a node at which the walk can stand are placed. -/
theorem placed_of_anchored_parent (s : State) (message : Ptr) (hmt : MimeTree s)
    (halone : TopLevelMultiPartAlone s) (a : Nat) (pre : List (List Char)) (f : Nat)
    (ha : Anchored s message a pre f) (p : Nat) (hp : p ∈ (s.heap a).children) :
    Placed s message p := by
  have hka : (s.heap a).kind = Kind.Message ∨ (s.heap a).kind = Kind.Part := by
    rcases ha.2.1 with h | h
    · exact Or.inl h.1
    · exact Or.inr h.1
  obtain ⟨_, _, hch⟩ := hmt a ha.1 hka
  obtain ⟨hpl, hpk, _⟩ := hch p hp
  refine ⟨hpl, hpk, ?_⟩
  cases ht : TreeItemPart.isTopLevelMultiPart s p with
  | true => right; exact ⟨rfl, a, pre, f, ha, halone a ha.1 p hp ht⟩
  | false =>
    left
    obtain ⟨seg, h⟩ := anchored_child s message hmt halone a pre f ha a
      (indexedNode_of_no_topLevel s halone a ha.1 p hp ht) ha.1 hka p hp
    exact ⟨rfl, _, _, h⟩

/-- Every part of the message's tree is placed. -/
theorem placed_of_inMessage (s : State) (message : Nat) (hmt : MimeTree s)
    (halone : TopLevelMultiPartAlone s) (hlt : message < s.next)
    (hk : (s.heap message).kind = Kind.Message) :
    ∀ p, InMessage s message p → Placed s message p := by
  intro p hin
  induction hin with
  | direct p hp =>
    exact placed_of_anchored_parent s message hmt halone message [] 0
      ⟨hlt, Or.inl ⟨hk, rfl⟩, ⟨s, FetchOnly.refl s, rfl⟩, fun seg h => by cases h⟩ p hp
  | inside q p _ hp ih =>
    obtain ⟨hql, hqk, hq⟩ := ih
    rcases hq with ⟨_, pre, f, ha⟩ | ⟨hqt, a, pre, f, ha, hca⟩
    · exact placed_of_anchored_parent s message hmt halone q pre f ha p hp
    · obtain ⟨_, _, hch⟩ := hmt q hql (Or.inr hqk)
      obtain ⟨hpl, hpk, hpp⟩ := hch p hp
      refine ⟨hpl, hpk, Or.inl ⟨not_topLevel_under_multipart s p q hpp hqk hqt, ?_⟩⟩
      obtain ⟨seg, h⟩ := anchored_child s message hmt halone a pre f ha q
        (indexedNode_of_topLevel s a q hca hqt hqk) hql (Or.inr hqk) p hp
      exact ⟨_, _, h⟩

/-- C12, counterexample: in the state `sibling` the top-level multipart 7 is the first child
of message 1 and the text part 10 is the second.  The tree is a MIME tree in which a
top-level multipart occurs only as the first child of its parent, part 10 is no top-level
multipart and its partId is `2`, but `partIdToPtr` for the id `2` steps through the
multipart and returns part 9, the second child of the multipart. -/
theorem partIdToPtr_of_sibling :
    MimeTree Example.sibling ∧ TopLevelMultiPartFirst Example.sibling ∧
    (Example.sibling.heap 4).children = [7, 10] ∧
    TreeItemPart.isTopLevelMultiPart Example.sibling 7 = true ∧
    TreeItemPart.isTopLevelMultiPart Example.sibling 10 = false ∧
    InMessage Example.sibling 4 10 ∧
    TreeItemPart.partId Example.sibling 1 10 = some (some "2") ∧
    (TreeItemMailbox.partIdToPtr Example.sibling 2 1 "2").2 = Except.ok 9 := by
  refine ⟨by unfold MimeTree; decide, by unfold TopLevelMultiPartFirst; decide, by decide,
    by decide, by decide, InMessage.direct 10 (by decide), by decide, by decide⟩

/-- C12, amended: in a MIME tree in which a top-level multipart is the only child of its
parent, with a synced message list and a sequence number that addresses `message`, every
part p of the tree of `message` that is not itself a top-level multipart has a partId (with
enough fuel `partId` returns it, and it is not the null string), and `partIdToPtr` applied
to that message and to what `partId` returns for p, with whatever fuel, returns p. -/
theorem partIdToPtr_of_partId (s : State) (self list message : Nat) (rest : List Ptr)
    (msgNumber : Int) (p : Nat)
    (hmt : MimeTree s) (halone : TopLevelMultiPartAlone s)
    (hc : (s.heap self).children = list :: rest)
    (hlk : (s.heap list).kind = Kind.MsgList)
    (hld : (s.heap list).fetchStatus = FetchingState.DONE)
    (hidx : childAt (s.heap list).children (msgNumber - 1) = some message)
    (hlt : message < s.next)
    (hk : (s.heap message).kind = Kind.Message)
    (hin : InMessage s message p)
    (hntlm : TreeItemPart.isTopLevelMultiPart s p = false) :
    (∃ f id, ∀ f2, f ≤ f2 → TreeItemPart.partId s f2 p = some (some id)) ∧
    (∀ f id, TreeItemPart.partId s f p = some id →
      ∃ msgId, id = some msgId ∧
        (TreeItemMailbox.partIdToPtr s self msgNumber msgId).2 = Except.ok p) := by
  obtain ⟨_, hpk, hplaced⟩ := placed_of_inMessage s message hmt halone hlt hk p hin
  rcases hplaced with ⟨_, pre, f0, _, hw, ⟨s1, hfo, hloop⟩, hnum⟩ | ⟨ht, _⟩
  · rcases hw with ⟨hkm, _⟩ | ⟨_, hpre, _, hid⟩
    · rw [hpk] at hkm; cases hkm
    · refine ⟨⟨f0, _, hid⟩, ?_⟩
      intro f id hf
      have h1 := partId_mono_le s p id f (max f f0) hf (le_max_left _ _)
      rw [hid (max f f0) (le_max_right _ _)] at h1
      simp only [Option.some.injEq] at h1
      refine ⟨_, h1.symm, ?_⟩
      rw [partIdToPtr_eq_walk s self list message rest msgNumber _ hc hlk hld hidx]
      simp only [splitChars_joinDots pre hpre hnum, hloop, dynamicCast_some, hfo.kind, hpk,
        if_true]
  · rw [ht] at hntlm
    cases hntlm

theorem partIdToPtr_of_partId_witness :
    MimeTree Example.nested ∧ TopLevelMultiPartAlone Example.nested ∧
    (Example.nested.heap 2).children = 3 :: [] ∧
    (Example.nested.heap 3).kind = Kind.MsgList ∧
    (Example.nested.heap 3).fetchStatus = FetchingState.DONE ∧
    childAt (Example.nested.heap 3).children (2 - 1) = some 5 ∧
    5 < Example.nested.next ∧
    (Example.nested.heap 5).kind = Kind.Message ∧
    InMessage Example.nested 5 15 ∧
    TreeItemPart.isTopLevelMultiPart Example.nested 15 = false ∧
    TreeItemPart.partId Example.nested 4 15 = some (some "2.2") ∧
    (∃ msgId, some "2.2" = some msgId ∧
      (TreeItemMailbox.partIdToPtr Example.nested 2 2 msgId).2 = Except.ok 15) :=
  ⟨by unfold MimeTree; decide, by unfold TopLevelMultiPartAlone; decide, by decide, by decide,
    by decide, by decide, by decide, by decide,
    InMessage.inside 13 15 (InMessage.inside 12 13 (InMessage.inside 10 12
      (InMessage.direct 10 (by decide)) (by decide)) (by decide)) (by decide),
    by decide, by decide,
    (partIdToPtr_of_partId Example.nested 2 3 5 [] 2 15 (by unfold MimeTree; decide)
      (by unfold TopLevelMultiPartAlone; decide) (by decide) (by decide) (by decide)
      (by decide) (by decide) (by decide)
      (InMessage.inside 13 15 (InMessage.inside 12 13 (InMessage.inside 10 12
        (InMessage.direct 10 (by decide)) (by decide)) (by decide)) (by decide))
      (by decide)).2 4 (some "2.2") (by decide)⟩

/-! ## The depth-first search of cidToPart -/

theorem preorder_eq (s : State) (d : Nat) (root : Ptr) (h : shallow s d root = true) :
    (s.heap root).children.flatMap (fun c => c :: preorder s (d - 1) c) = preorder s d root := by
  cases d with
  | zero =>
    have hnil : (s.heap root).children = [] := by simpa [shallow] using h
    rw [hnil]
    rfl
  | succ d => rfl

theorem childAt_natCast (l : List Ptr) (i : Nat) (h : i < l.length) :
    childAt l (i : Int) = l.get? i := by
  unfold childAt
  rw [if_pos (by omega)]
  rfl

/-- On a part, and on a message that a fetch leaves as it is, `childrenCount` and `child`
change nothing. -/
theorem childrenCount_quiet (s : State) (root : Ptr)
    (hq : (s.heap root).kind = Kind.Part ∨
      ((s.heap root).kind = Kind.Message ∧ fetch s root = s)) :
    childrenCount s root = (s, (s.heap root).children.length) := by
  rcases hq with hk | ⟨hk, hf⟩
  · simp [childrenCount, hk, TreeItemPart.childrenCount]
  · simp [childrenCount, hk, TreeItem.childrenCount, hf]

theorem child_quiet (s : State) (root : Ptr) (offset : Int)
    (hq : (s.heap root).kind = Kind.Part ∨
      ((s.heap root).kind = Kind.Message ∧ fetch s root = s)) :
    child s root offset = (s, Except.ok (childAt (s.heap root).children offset)) := by
  rcases hq with hk | ⟨hk, hf⟩
  · exact child_of_part s root offset hk
  · rw [child_of_message s root offset hk, hf]

/-- In a MIME tree of depth at most d, on a root that fetching leaves as it is, the loop of
`cidToPart` from the index i on returns, with enough fuel, the first node with the wanted
body field id in the depth-first pre-order of the subtrees of the children from i on, and
leaves the state as it is. -/
theorem cidToPartFrom_spec (cid : QByteArray) (s : State) (hmt : MimeTree s) :
    ∀ (d : Nat) (root : Nat), root < s.next →
      ((s.heap root).kind = Kind.Part ∨
        ((s.heap root).kind = Kind.Message ∧ fetch s root = s)) →
      shallow s d root = true →
      ∀ (suffix : List Ptr) (i : Nat), (s.heap root).children.drop i = suffix →
        ∃ F, ∀ fuel, F ≤ fuel →
          cidToPartFrom cid fuel s root i =
            some (s, Except.ok ((suffix.flatMap (fun c => c :: preorder s (d - 1) c)).find?
              (fun q => decide ((s.heap q).bodyFldId.data = cid)))) := by
  intro d
  induction d with
  | zero =>
    intro root hlt hq hsh suffix i hdrop
    have hnil : (s.heap root).children = [] := by simpa [shallow] using hsh
    refine ⟨1, fun fuel hf => ?_⟩
    obtain ⟨fuel2, rfl⟩ : ∃ f, fuel = f + 1 := ⟨fuel - 1, by omega⟩
    rw [hnil] at hdrop
    simp only [List.drop_nil] at hdrop
    subst hdrop
    rw [cidToPartFrom]
    simp [childrenCount_quiet s root hq, hnil]
  | succ d ih =>
    intro root hlt hq hsh suffix
    have hkind : (s.heap root).kind = Kind.Message ∨ (s.heap root).kind = Kind.Part := by
      rcases hq with h | h
      · exact Or.inr h
      · exact Or.inl h.1
    obtain ⟨_, hlen, hch⟩ := hmt root hlt hkind
    induction suffix with
    | nil =>
      intro i hdrop
      have hi : (s.heap root).children.length ≤ i := List.drop_eq_nil_iff.mp hdrop
      refine ⟨1, fun fuel hf => ?_⟩
      obtain ⟨fuel2, rfl⟩ : ∃ f, fuel = f + 1 := ⟨fuel - 1, by omega⟩
      rw [cidToPartFrom]
      simp only [childrenCount_quiet s root hq]
      rw [if_neg (by omega)]
      rfl
    | cons c rest ihs =>
      intro i hdrop
      have hi : i < (s.heap root).children.length := by
        rcases Nat.lt_or_ge i (s.heap root).children.length with h | h
        · exact h
        · rw [List.drop_eq_nil_iff.mpr h] at hdrop; cases hdrop
      have hget : (s.heap root).children.get? i = some c := by
        have := @List.getElem?_drop _ (s.heap root).children i 0
        rw [hdrop] at this
        rw [List.get?_eq_getElem?]
        simpa using this.symm
      have hrest : (s.heap root).children.drop (i + 1) = rest := by
        have := List.drop_drop 1 i (s.heap root).children
        rw [hdrop] at this
        simpa [Nat.add_comm] using this.symm
      have hmem : c ∈ (s.heap root).children := List.get?_mem hget
      obtain ⟨hcl, hck, _⟩ := hch c hmem
      have hshc : shallow s d c = true := by
        simp only [shallow, List.all_eq_true] at hsh
        exact hsh c hmem
      obtain ⟨Fc, hFc⟩ := ih c hcl (Or.inl hck) hshc (s.heap c).children 0 (by simp)
      obtain ⟨Fr, hFr⟩ := ihs (i + 1) hrest
      refine ⟨max Fc Fr + 1, fun fuel hf => ?_⟩
      obtain ⟨fuel2, rfl⟩ : ∃ f, fuel = f + 1 := ⟨fuel - 1, by omega⟩
      have h1 := hFc fuel2 (by omega)
      have h2 := hFr fuel2 (by omega)
      rw [preorder_eq s d c hshc] at h1
      rw [cidToPartFrom]
      simp only [childrenCount_quiet s root hq, if_pos hi, child_quiet s root _ hq,
        uintToInt_of_small i (by omega), childAt_natCast _ i hi, hget, dynamicCast_some, hck,
        if_true, Nat.add_sub_cancel, List.flatMap_cons, List.find?_cons, List.cons_append]
      by_cases hb : (s.heap c).bodyFldId.data = cid
      · simp [hb]
      · have hmod : (i + 1) % 4294967296 = i + 1 := Nat.mod_eq_of_lt (by omega)
        simp only [hb, if_false, decide_False, h1, hmod, List.find?_append]
        cases hfind : List.find? (fun q => decide ((s.heap q).bodyFldId.data = cid))
            (preorder s d c) with
        | some q => simp
        | none =>
          simp only [Option.or]
          rw [h2]
          simp

theorem FetchOnly.bodyFldId {s t : State} (h : FetchOnly s t) (q : Ptr) :
    (t.heap q).bodyFldId = (s.heap q).bodyFldId := by
  rcases h.2 q with a | ⟨_, a⟩ <;> rw [a]

theorem shallow_fetchOnly {s t : State} (hf : FetchOnly s t) (d : Nat) :
    ∀ root, shallow t d root = shallow s d root := by
  induction d with
  | zero => intro root; simp only [shallow, hf.children]
  | succ d ih => intro root; simp only [shallow, hf.children, ih]

theorem preorder_fetchOnly {s t : State} (hf : FetchOnly s t) (d : Nat) :
    ∀ root, preorder t d root = preorder s d root := by
  induction d with
  | zero => intro root; rfl
  | succ d ih => intro root; simp only [preorder, hf.children, ih]

/-- On a message the search is the search in the state in which the message was fetched. -/
theorem cidToPartFrom_of_message (cid : QByteArray) (fuel : Nat) (s : State) (message : Ptr)
    (i : Nat) (hk : (s.heap message).kind = Kind.Message) :
    cidToPartFrom cid fuel s message i = cidToPartFrom cid fuel (fetch s message) message i := by
  have hfo := fetch_fetchOnly s message
  have hk1 : ((fetch s message).heap message).kind = Kind.Message := by rw [hfo.kind]; exact hk
  cases fuel with
  | zero => rfl
  | succ fuel =>
    rw [cidToPartFrom, cidToPartFrom]
    simp only [childrenCount, hk, hk1, TreeItem.childrenCount, fetch_fetch, fetch_children]

theorem InMessage.of_child {s : State} {root c : Ptr} (hc : c ∈ (s.heap root).children)
    {q : Ptr} (h : InMessage s c q) : InMessage s root q := by
  induction h with
  | direct p hp => exact InMessage.inside c p (InMessage.direct c hc) hp
  | inside a b _ hb ih => exact InMessage.inside a b ih hb

/-- What the pre-order lists is in the tree. -/
theorem inMessage_of_mem_preorder (s : State) (d : Nat) :
    ∀ (root q : Ptr), q ∈ preorder s d root → InMessage s root q := by
  induction d with
  | zero => intro root q h; cases h
  | succ d ih =>
    intro root q h
    simp only [preorder, List.mem_flatMap, List.mem_cons] at h
    obtain ⟨c, hc, h | h⟩ := h
    · rw [h]; exact InMessage.direct c hc
    · exact InMessage.of_child hc (ih c q h)

theorem mem_preorder_of_child (s : State) (d : Nat) (root p : Ptr)
    (hsh : shallow s d root = true) (hp : p ∈ (s.heap root).children) :
    p ∈ preorder s d root := by
  cases d with
  | zero =>
    have hnil : (s.heap root).children = [] := by simpa [shallow] using hsh
    rw [hnil] at hp
    cases hp
  | succ d =>
    simp only [preorder, List.mem_flatMap, List.mem_cons]
    exact ⟨p, hp, Or.inl rfl⟩

theorem mem_preorder_of_below (s : State) (d : Nat) :
    ∀ (root q p : Ptr), shallow s d root = true → q ∈ preorder s d root →
      p ∈ (s.heap q).children → p ∈ preorder s d root := by
  induction d with
  | zero => intro root q p _ h; cases h
  | succ d ih =>
    intro root q p hsh hq hp
    simp only [preorder, List.mem_flatMap, List.mem_cons] at hq ⊢
    obtain ⟨c, hc, h | h⟩ := hq
    · have hshc : shallow s d c = true := by
        simp only [shallow, List.all_eq_true] at hsh
        exact hsh c hc
      rw [h] at hp
      exact ⟨c, hc, Or.inr (mem_preorder_of_child s d c p hshc hp)⟩
    · have hshc : shallow s d c = true := by
        simp only [shallow, List.all_eq_true] at hsh
        exact hsh c hc
      exact ⟨c, hc, Or.inr (ih c q p hshc h hp)⟩

/-- In a tree of depth at most d the pre-order lists every part of the tree. -/
theorem mem_preorder_of_inMessage (s : State) (d : Nat) (root : Ptr)
    (hsh : shallow s d root = true) :
    ∀ p, InMessage s root p → p ∈ preorder s d root := by
  intro p h
  induction h with
  | direct p hp => exact mem_preorder_of_child s d root p hsh hp
  | inside q p _ hp ih => exact mem_preorder_of_below s d root q p hsh ih hp

/-- In a MIME tree of depth at most d, `cidToPart` on a message returns, with enough fuel,
the first node with the wanted body field id in the depth-first pre-order of the tree of the
message, in the state in which the message was fetched. -/
theorem cidToPart_first_in_preorder (cid : QByteArray) (s : State) (message : Nat) (d : Nat)
    (hmt : MimeTree s) (hsh : shallow s d message = true) (hlt : message < s.next)
    (hk : (s.heap message).kind = Kind.Message) :
    ∃ F, ∀ fuel, F ≤ fuel →
      MsgPartNetAccessManager.cidToPart cid fuel s message =
        some (fetch s message, Except.ok ((preorder s d message).find?
          (fun q => decide ((s.heap q).bodyFldId.data = cid)))) := by
  have hfo := fetch_fetchOnly s message
  obtain ⟨F, hF⟩ := cidToPartFrom_spec cid (fetch s message) (hmt.fetches_keep_tree hfo) d
    message (by rw [hfo.1]; exact hlt)
    (Or.inr ⟨by rw [hfo.kind]; exact hk, fetch_fetch s message⟩)
    (by rw [shallow_fetchOnly hfo]; exact hsh) ((fetch s message).heap message).children 0 rfl
  refine ⟨F, fun fuel hf => ?_⟩
  unfold MsgPartNetAccessManager.cidToPart
  rw [cidToPartFrom_of_message cid fuel s message 0 hk, hF fuel hf,
    preorder_eq _ d message (by rw [shallow_fetchOnly hfo]; exact hsh), preorder_fetchOnly hfo]
  simp only [hfo.bodyFldId]

/-- C15, counterexample: in the state `duplicated` the parts 9 and 10 of message 1 both
carry the Content-ID `<a@x>`; `cidToPart` applied to the body field id of part 10 and to the
message returns part 9. -/
theorem cidToPart_of_repeated_id :
    InMessage Example.duplicated 4 10 ∧
    (Example.duplicated.heap 10).bodyFldId = "<a@x>" ∧
    (Example.duplicated.heap 9).bodyFldId = "<a@x>" ∧
    (∀ fuel, 4 ≤ fuel →
      (MsgPartNetAccessManager.cidToPart (Example.duplicated.heap 10).bodyFldId.data fuel
        Example.duplicated 4).map (fun r => r.2) = some (Except.ok (some 9))) := by
  refine ⟨InMessage.inside 7 10 (InMessage.direct 7 (by decide)) (by decide), by decide,
    by decide, ?_⟩
  intro fuel hfuel
  obtain ⟨f, rfl⟩ : ∃ f, fuel = f + 4 := ⟨fuel - 4, by omega⟩
  rfl

/-- C15, amended: in a MIME tree of depth at most d, for every part p of the tree of a
message (the nodes that the depth-first pre-order lists) whose body field id no other part
of that tree carries, `cidToPart` applied to the body field id of p and to the message
returns p, with enough fuel; the message has been fetched and nothing else has changed. -/
theorem cidToPart_of_unique_id (s : State) (message p : Nat) (d : Nat)
    (hmt : MimeTree s) (hsh : shallow s d message = true) (hlt : message < s.next)
    (hk : (s.heap message).kind = Kind.Message)
    (hin : p ∈ preorder s d message)
    (huniq : ∀ q, q ∈ preorder s d message →
      (s.heap q).bodyFldId = (s.heap p).bodyFldId → q = p) :
    ∃ F, ∀ fuel, F ≤ fuel →
      MsgPartNetAccessManager.cidToPart (s.heap p).bodyFldId.data fuel s message =
        some (fetch s message, Except.ok (some p)) := by
  obtain ⟨F, hF⟩ := cidToPart_first_in_preorder (s.heap p).bodyFldId.data s message d hmt hsh
    hlt hk
  refine ⟨F, fun fuel hf => ?_⟩
  rw [hF fuel hf]
  cases hfind : List.find? (fun q => decide ((s.heap q).bodyFldId.data = (s.heap p).bodyFldId.data))
      (preorder s d message) with
  | none =>
    have := List.find?_eq_none.mp hfind p hin
    simp at this
  | some q =>
    have h1 := List.find?_some hfind
    simp only [decide_eq_true_eq] at h1
    rw [huniq q (List.mem_of_find?_eq_some hfind) (String.ext h1)]

theorem cidToPart_of_unique_id_witness :
    MimeTree Example.inlined ∧ shallow Example.inlined 2 4 = true ∧
    4 < Example.inlined.next ∧ (Example.inlined.heap 4).kind = Kind.Message ∧
    preorder Example.inlined 2 4 = [7, 8, 9, 10] ∧
    (Example.inlined.heap 10).bodyFldId = "<b@x>" ∧
    (∀ q, q ∈ preorder Example.inlined 2 4 →
      (Example.inlined.heap q).bodyFldId = (Example.inlined.heap 10).bodyFldId → q = 10) ∧
    (MsgPartNetAccessManager.cidToPart "<b@x>".data 4 Example.inlined 4).map (fun r => r.2)
      = some (Except.ok (some 10)) ∧
    ∃ F, ∀ fuel, F ≤ fuel →
      MsgPartNetAccessManager.cidToPart (Example.inlined.heap 10).bodyFldId.data fuel
        Example.inlined 4 = some (fetch Example.inlined 4, Except.ok (some 10)) :=
  ⟨by unfold MimeTree; decide, by decide, by decide, by decide, by decide, by decide,
    by decide, by decide,
    cidToPart_of_unique_id Example.inlined 4 10 2 (by unfold MimeTree; decide) (by decide)
      (by decide) (by decide) (by decide) (by decide)⟩

/-! ## What createRequest can serve -/

theorem InMessage.fetches_keep_parts {s t : State} (hf : FetchOnly s t) (message p : Ptr) :
    InMessage t message p ↔ InMessage s message p := by
  constructor
  · intro h
    induction h with
    | direct p hp => exact InMessage.direct p (by rw [← hf.children]; exact hp)
    | inside q p _ hp ih => exact InMessage.inside q p ih (by rw [← hf.children]; exact hp)
  · intro h
    induction h with
    | direct p hp => exact InMessage.direct p (by rw [hf.children]; exact hp)
    | inside q p _ hp ih => exact InMessage.inside q p ih (by rw [hf.children]; exact hp)

theorem childrenCount_fetchOnly (s : State) (self : Ptr) :
    FetchOnly s (childrenCount s self).1 := by
  unfold childrenCount TreeItemPart.childrenCount TreeItem.childrenCount
  split
  · exact FetchOnly.refl s
  · exact fetch_fetchOnly s self

/-- The loop of `pathToPart` does nothing but fetches, and from the message or a part of its
tree it arrives at the message, at a part of its tree or at a special column of these. -/
theorem pathToPartLoop_sound (special : State → Ptr → SpecialColumn → Option Ptr)
    (s0 : State) (message : Ptr) (items : List (List Char)) :
    ∀ (s : State) (target : Option Ptr) (ok : Bool), FetchOnly s0 s →
      (∀ t, target = some t → t = message ∨ InMessage s0 message t) →
      FetchOnly s0 (pathToPartLoop special items s target ok).1 ∧
      ∀ target2 ok2 p, (pathToPartLoop special items s target ok).2 = Except.ok (target2, ok2) →
        target2 = some p → OfMessage special s0 message p := by
  induction items with
  | nil =>
    intro s target ok hfo hinv
    refine ⟨hfo, ?_⟩
    intro target2 ok2 p h hp
    simp only [pathToPartLoop, Except.ok.injEq, Prod.mk.injEq] at h
    rw [← h.1] at hp
    rcases hinv p hp with h1 | h1
    · exact Or.inl h1
    · exact Or.inr (Or.inl h1)
  | cons it rest ih =>
    intro s target ok hfo hinv
    cases target with
    | none =>
      rw [pathToPartLoop]
      cases toUInt it with
      | none =>
        simp only
        cases specialColumnOf it with
        | none =>
          refine ⟨hfo, ?_⟩
          intro target2 ok2 p h hp
          simp only [Except.ok.injEq, Prod.mk.injEq] at h
          rw [← h.1] at hp
          cases hp
        | some col => exact ⟨hfo, fun _ _ _ h => by cases h⟩
      | some offset => exact ⟨hfo, fun _ _ _ h => by cases h⟩
    | some t =>
      rw [pathToPartLoop]
      have hstay : OfMessage special s0 message t := by
        rcases hinv t rfl with h1 | h1
        · exact Or.inl h1
        · exact Or.inr (Or.inl h1)
      cases toUInt it with
      | none =>
        simp only
        cases specialColumnOf it with
        | none =>
          refine ⟨hfo, ?_⟩
          intro target2 ok2 p h hp
          simp only [Except.ok.injEq, Prod.mk.injEq] at h
          rw [← h.1] at hp
          simp only [Option.some.injEq] at hp
          rw [← hp]
          exact hstay
        | some col =>
          refine ⟨hfo, ?_⟩
          intro target2 ok2 p h hp
          simp only [Except.ok.injEq, Prod.mk.injEq] at h
          rw [← h.1] at hp
          exact Or.inr (Or.inr ⟨s, t, col, hinv t rfl, hp⟩)
      | some offset =>
        simp only
        have hfo1 := hfo.trans (childrenCount_fetchOnly s t)
        split
        · refine ⟨hfo1, ?_⟩
          intro target2 ok2 p h hp
          simp only [Except.ok.injEq, Prod.mk.injEq] at h
          rw [← h.1] at hp
          simp only [Option.some.injEq] at hp
          rw [← hp]
          exact hstay
        · have hfo2 := hfo1.trans (child_fetchOnly (childrenCount s t).1 t (uintToInt offset))
          have hmem := child_mem (childrenCount s t).1 t (uintToInt offset)
          generalize child (childrenCount s t).1 t (uintToInt offset) = r at hfo2 hmem
          obtain ⟨s2, r2⟩ := r
          cases r2 with
          | error e => exact ⟨hfo2, fun _ _ _ h => by cases h⟩
          | ok next =>
            simp only
            apply ih s2 next true hfo2
            intro c hc
            subst hc
            have hcm := hmem c rfl
            rw [hfo1.children] at hcm
            right
            rcases hinv t rfl with h1 | h1
            · rw [h1] at hcm; exact InMessage.direct c hcm
            · exact InMessage.inside t c h1 hcm

/-- What `pathToPart` returns is a part, and it is the message, a part of its tree or a
special column of these. -/
theorem pathToPart_sound (special : State → Ptr → SpecialColumn → Option Ptr)
    (self : MsgPartNetAccessManager) (s : State) (path : String) (message : Ptr)
    (hm : self.message = some message) :
    FetchOnly s (MsgPartNetAccessManager.pathToPart special self s path).1 ∧
    ∀ p, (MsgPartNetAccessManager.pathToPart special self s path).2 = Except.ok (some p) →
      ((MsgPartNetAccessManager.pathToPart special self s path).1.heap p).kind = Kind.Part ∧
      OfMessage special s message p := by
  unfold MsgPartNetAccessManager.pathToPart
  simp only
  have h := pathToPartLoop_sound special s message (splitSkipEmptyParts '/' path.data) s
    self.message (!(splitSkipEmptyParts '/' path.data).isEmpty) (FetchOnly.refl s)
    (fun t ht => by rw [hm] at ht; simp only [Option.some.injEq] at ht; exact Or.inl ht.symm)
  generalize pathToPartLoop special (splitSkipEmptyParts '/' path.data) s self.message
    (!(splitSkipEmptyParts '/' path.data).isEmpty) = r at h
  obtain ⟨s1, r2⟩ := r
  cases r2 with
  | error e => exact ⟨h.1, fun p hp => by cases hp⟩
  | ok v =>
    obtain ⟨target, ok⟩ := v
    simp only
    cases target with
    | none =>
      simp only [dynamicCast]
      split
      · exact ⟨h.1, fun p hp => by cases hp⟩
      · exact ⟨h.1, fun p hp => by cases hp⟩
    | some t =>
      rw [dynamicCast_some]
      by_cases hk : (s1.heap t).kind = Kind.Part
      · rw [if_pos hk]
        refine ⟨h.1, ?_⟩
        intro p hp
        simp only [Except.ok.injEq, Option.some.injEq] at hp
        subst hp
        exact ⟨hk, h.2 (some t) ok t rfl rfl⟩
      · rw [if_neg hk]
        simp only
        split
        · exact ⟨h.1, fun p hp => by cases hp⟩
        · exact ⟨h.1, fun p hp => by cases hp⟩

/-- The search of `cidToPart` does nothing but fetches, and what it finds is a part below the
root with the wanted body field id. -/
theorem cidToPartFrom_sound (cid : QByteArray) (fuel : Nat) :
    ∀ (s : State) (root : Ptr) (i : Nat) (r : State × Except Exception (Option Ptr)),
      cidToPartFrom cid fuel s root i = some r →
      FetchOnly s r.1 ∧
      ∀ found, r.2 = Except.ok (some found) →
        InMessage s root found ∧ (r.1.heap found).kind = Kind.Part ∧
          (r.1.heap found).bodyFldId.data = cid := by
  induction fuel with
  | zero => intro s root i r h; cases h
  | succ fuel ih =>
    intro s root i r h
    rw [cidToPartFrom] at h
    have hfo1 := childrenCount_fetchOnly s root
    split at h
    · have hfo2 := child_fetchOnly (childrenCount s root).1 root (uintToInt i)
      have hmem := child_mem (childrenCount s root).1 root (uintToInt i)
      generalize child (childrenCount s root).1 root (uintToInt i) = rc at h hfo2 hmem
      obtain ⟨s2, r2⟩ := rc
      have hfo12 := hfo1.trans hfo2
      cases r2 with
      | error e =>
        simp only [Option.some.injEq] at h
        subst h
        exact ⟨hfo12, fun _ hf => by cases hf⟩
      | ok ch =>
        simp only at h
        cases ch with
        | none =>
          simp only [dynamicCast, Option.some.injEq] at h
          subst h
          exact ⟨hfo12, fun _ hf => by cases hf⟩
        | some c =>
          have hcm : c ∈ (s.heap root).children := by
            have := hmem c rfl
            rw [hfo1.children] at this
            exact this
          rw [dynamicCast_some] at h
          by_cases hk : (s2.heap c).kind = Kind.Part
          · rw [if_pos hk] at h
            simp only at h
            by_cases hb : (s2.heap c).bodyFldId.data = cid
            · rw [if_pos hb] at h
              simp only [Option.some.injEq] at h
              subst h
              refine ⟨hfo12, ?_⟩
              intro found hf
              simp only [Except.ok.injEq, Option.some.injEq] at hf
              subst hf
              exact ⟨InMessage.direct c hcm, hk, hb⟩
            · rw [if_neg hb] at h
              cases hrec : cidToPartFrom cid fuel s2 c 0 with
              | none => rw [hrec] at h; cases h
              | some rr =>
                rw [hrec] at h
                obtain ⟨hfo3, hfound⟩ := ih s2 c 0 rr hrec
                obtain ⟨s3, r3⟩ := rr
                cases r3 with
                | error e =>
                  simp only [Option.some.injEq] at h
                  subst h
                  exact ⟨hfo12.trans hfo3, fun _ hf => by cases hf⟩
                | ok res =>
                  cases res with
                  | some q =>
                    simp only [Option.some.injEq] at h
                    subst h
                    refine ⟨hfo12.trans hfo3, ?_⟩
                    intro found hf
                    simp only [Except.ok.injEq, Option.some.injEq] at hf
                    subst hf
                    obtain ⟨h1, h2, h3⟩ := hfound q rfl
                    exact ⟨InMessage.of_child hcm ((InMessage.fetches_keep_parts hfo12 c q).mp h1),
                      h2, h3⟩
                  | none =>
                    simp only at h
                    obtain ⟨hfo4, hfound4⟩ := ih s3 root _ r h
                    refine ⟨(hfo12.trans hfo3).trans hfo4, ?_⟩
                    intro found hf
                    obtain ⟨h1, h2, h3⟩ := hfound4 found hf
                    exact ⟨(InMessage.fetches_keep_parts (hfo12.trans hfo3) root found).mp h1, h2, h3⟩
          · rw [if_neg hk] at h
            simp only [Option.some.injEq] at h
            subst h
            exact ⟨hfo12, fun _ hf => by cases hf⟩
    · simp only [Option.some.injEq] at h
      subst h
      exact ⟨hfo1, fun _ hf => by cases hf⟩

/-! ## The policy of createRequest -/

/-- Every outcome of `createRequest`: the tree has only been fetched from, the manager keeps
its model, its message and its flag, and the reply is a failure, a forbidden reply, the
transport's reply for this very request (only with externals enabled and the scheme http or
ftp), or a part reply (only for the schemes trojita-imap and cid) for a part that belongs to
the current message. -/
theorem createRequest_outcome (special : State → Ptr → SpecialColumn → Option Ptr)
    (fuel : Nat) (self : MsgPartNetAccessManager) (s : State) (req : QUrl)
    (r : State × MsgPartNetAccessManager × Except Exception QNetworkReply)
    (hr : MsgPartNetAccessManager.createRequest special fuel self s req = some r) :
    FetchOnly s r.1 ∧ r.2.1.model = self.model ∧ r.2.1.message = self.message ∧
    r.2.1._externalsEnabled = self._externalsEnabled ∧
    ((∃ e, r.2.2 = Except.error e) ∨ r.2.2 = Except.ok QNetworkReply.forbidden ∨
      (r.2.2 = Except.ok (QNetworkReply.transport req) ∧ self._externalsEnabled = true ∧
        (req.scheme = "http" ∨ req.scheme = "ftp")) ∨
      (∃ p message, r.2.2 = Except.ok (QNetworkReply.msgPart p) ∧
        (req.scheme = "trojita-imap" ∨ req.scheme = "cid") ∧
        (r.1.heap p).kind = Kind.Part ∧ self.message = some message ∧
        OfMessage special s message p)) := by
  unfold MsgPartNetAccessManager.createRequest at hr
  by_cases hm : self.model = true
  swap
  · simp only [hm, Bool.not_false, if_true, Option.some.injEq] at hr
    subst hr
    exact ⟨FetchOnly.refl s, rfl, rfl, rfl, Or.inl ⟨_, rfl⟩⟩
  simp only [hm, Bool.not_true, Bool.false_eq_true, if_false] at hr
  cases hmsg : self.message with
  | none =>
    simp only [hmsg, Option.some.injEq] at hr
    subst hr
    exact ⟨FetchOnly.refl s, rfl, hmsg, rfl, Or.inl ⟨_, rfl⟩⟩
  | some message =>
    simp only [hmsg] at hr
    have hps := pathToPart_sound special self s req.path message hmsg
    generalize MsgPartNetAccessManager.pathToPart special self s req.path = rp at hr hps
    obtain ⟨s1, r2⟩ := rp
    cases r2 with
    | error e =>
      simp only [Option.some.injEq] at hr
      subst hr
      exact ⟨hps.1, rfl, hmsg, rfl, Or.inl ⟨_, rfl⟩⟩
    | ok part =>
      cases part with
      | none =>
        simp only [toIndex, Option.some.injEq] at hr
        subst hr
        exact ⟨hps.1, rfl, hmsg, rfl, Or.inl ⟨_, rfl⟩⟩
      | some p =>
        simp only [toIndex, Option.isSome_some, if_true] at hr
        by_cases h1 : req.scheme = "trojita-imap" ∧ req.host = "msg"
        · rw [if_pos h1] at hr
          simp only [Option.some.injEq] at hr
          subst hr
          exact ⟨hps.1, rfl, hmsg, rfl, Or.inr (Or.inr (Or.inr
            ⟨p, message, rfl, Or.inl h1.1, (hps.2 p rfl).1, rfl, (hps.2 p rfl).2⟩))⟩
        · rw [if_neg h1] at hr
          by_cases h2 : req.scheme = "cid"
          · rw [if_pos h2] at hr
            unfold MsgPartNetAccessManager.cidToPart at hr
            cases hcid : cidToPartFrom (bracketed req.path) fuel s1 message 0 with
            | none => rw [hcid] at hr; cases hr
            | some rc =>
              rw [hcid] at hr
              obtain ⟨hfo2, hfound⟩ := cidToPartFrom_sound _ fuel s1 message 0 rc hcid
              obtain ⟨s2, r3⟩ := rc
              cases r3 with
              | error e =>
                simp only [Option.some.injEq] at hr
                subst hr
                exact ⟨hps.1.trans hfo2, rfl, hmsg, rfl, Or.inl ⟨_, rfl⟩⟩
              | ok res =>
                cases res with
                | none =>
                  simp only [Option.some.injEq] at hr
                  subst hr
                  exact ⟨hps.1.trans hfo2, rfl, hmsg, rfl, Or.inr (Or.inl rfl)⟩
                | some target =>
                  simp only [Option.some.injEq] at hr
                  subst hr
                  obtain ⟨h3, h4, _⟩ := hfound target rfl
                  exact ⟨hps.1.trans hfo2, rfl, hmsg, rfl, Or.inr (Or.inr (Or.inr
                    ⟨target, message, rfl, Or.inr h2, h4, rfl,
                      Or.inr (Or.inl ((InMessage.fetches_keep_parts hps.1 message target).mp h3))⟩))⟩
          · rw [if_neg h2] at hr
            by_cases h3 : req.scheme = "http" ∨ req.scheme = "ftp"
            · rw [if_pos h3] at hr
              by_cases he : self._externalsEnabled = true
              · rw [if_pos he] at hr
                simp only [Option.some.injEq] at hr
                subst hr
                exact ⟨hps.1, rfl, hmsg, rfl, Or.inr (Or.inr (Or.inl ⟨rfl, he, h3⟩))⟩
              · rw [if_neg he] at hr
                simp only [Option.some.injEq] at hr
                subst hr
                exact ⟨hps.1, hm.symm, rfl, rfl, Or.inr (Or.inl rfl)⟩
            · rw [if_neg h3] at hr
              simp only [Option.some.injEq] at hr
              subst hr
              exact ⟨hps.1, rfl, hmsg, rfl, Or.inr (Or.inl rfl)⟩

/-- While externals are disabled no request of a sequence is answered by the transport. -/
theorem createRequests_disabled (special : State → Ptr → SpecialColumn → Option Ptr)
    (fuel : Nat) (reqs : List QUrl) :
    ∀ (self : MsgPartNetAccessManager) (s : State)
      (out : State × MsgPartNetAccessManager × List (Except Exception QNetworkReply)),
      self._externalsEnabled = false →
      createRequests special fuel reqs self s = some out →
      out.2.1._externalsEnabled = false ∧
      ∀ reply, reply ∈ out.2.2 → ∀ u, reply ≠ Except.ok (QNetworkReply.transport u) := by
  induction reqs with
  | nil =>
    intro self s out he h
    simp only [createRequests, Option.some.injEq] at h
    subst h
    exact ⟨he, fun reply hmem => by cases hmem⟩
  | cons req rest ih =>
    intro self s out he h
    rw [createRequests] at h
    cases h1 : MsgPartNetAccessManager.createRequest special fuel self s req with
    | none => rw [h1] at h; cases h
    | some r =>
      rw [h1] at h
      obtain ⟨_, _, _, hflag, hcases⟩ := createRequest_outcome special fuel self s req r h1
      obtain ⟨s1, self1, reply1⟩ := r
      simp only at h hflag hcases
      cases h2 : createRequests special fuel rest self1 s1 with
      | none => rw [h2] at h; cases h
      | some out2 =>
        rw [h2] at h
        obtain ⟨hflag2, hrest⟩ := ih self1 s1 out2 (by rw [hflag]; exact he) h2
        obtain ⟨s2, self2, replies⟩ := out2
        simp only [Option.some.injEq] at h
        subst h
        refine ⟨hflag2, ?_⟩
        intro reply hmem u hu
        rcases List.mem_cons.mp hmem with h3 | h3
        · subst h3
          rw [hu] at hcases
          rcases hcases with ⟨e, h4⟩ | h4 | ⟨_, h4, _⟩ | ⟨p, m, h4, _⟩
          · cases h4
          · cases h4
          · rw [he] at h4; cases h4
          · cases h4
        · exact hrest reply h3 u hu

/-! ## Requests of the message view -/

/-- C16: in the state `inlined` message 1 has the parts 9 and 10 with the body field ids
`<a@x>` and `<b@x>`, and the view shows that message.  The id of `cid:b@x` is bracketed to
`<b@x>` and `cidToPart` finds part 10 for it, and nothing for `<missing@x>`; but
`createRequest` first resolves the path `b@x` of the URL with `pathToPart`, which returns the
null pointer, and calls `toIndex` through it: both requests fail with `NullPointer` before
the scheme is looked at. -/
theorem createRequest_cid_fails_before_lookup :
    (Example.inlined.heap 9).bodyFldId = "<a@x>" ∧
    (Example.inlined.heap 10).bodyFldId = "<b@x>" ∧
    bracketed "b@x" = "<b@x>".data ∧
    (MsgPartNetAccessManager.cidToPart (bracketed "b@x") 4 Example.inlined 4).map
      (fun r => r.2) = some (Except.ok (some 10)) ∧
    (MsgPartNetAccessManager.cidToPart (bracketed "missing@x") 6 Example.inlined 4).map
      (fun r => r.2) = some (Except.ok none) ∧
    (MsgPartNetAccessManager.pathToPart Example.noSpecial Example.viewer Example.inlined
      "b@x").2 = Except.ok none ∧
    toIndex none = Except.error Exception.NullPointer ∧
    (Example.viewer.createRequest Example.noSpecial 4 Example.inlined
      { scheme := "cid", host := "", path := "b@x" }).map (fun r => r.2)
      = some (Example.viewer, Except.error Exception.NullPointer) ∧
    (Example.viewer.createRequest Example.noSpecial 6 Example.inlined
      { scheme := "cid", host := "", path := "missing@x" }).map (fun r => r.2)
      = some (Example.viewer, Except.error Exception.NullPointer) := by
  refine ⟨by decide, by decide, by decide, by decide, by decide, by decide, by decide,
    by decide, by decide⟩

/-- C17: in the state `structured` message 1 has the multipart 7 as its child 0, and part 7
has two children.  For the path `/0/5` the item 5 is out of range for part 7, but
`pathToPart` returns part 7, the node reached so far, and `createRequest` serves it.  For
the empty path and for `/7`, out of range for the message, `pathToPart` returns the null
pointer, and `createRequest` calls `toIndex` through it and fails with `NullPointer` instead
of returning a forbidden reply. -/
theorem pathToPart_out_of_range_serves_parent :
    (Example.structured.heap 4).children = [7] ∧
    (Example.structured.heap 7).children = [8, 9] ∧
    (MsgPartNetAccessManager.pathToPart Example.noSpecial Example.viewer Example.structured
      "/0/5").2 = Except.ok (some 7) ∧
    (Example.viewer.createRequest Example.noSpecial 0 Example.structured
      { scheme := "trojita-imap", host := "msg", path := "/0/5" }).map (fun r => r.2)
      = some (Example.viewer, Except.ok (QNetworkReply.msgPart 7)) ∧
    (MsgPartNetAccessManager.pathToPart Example.noSpecial Example.viewer Example.structured
      "").2 = Except.ok none ∧
    (Example.viewer.createRequest Example.noSpecial 0 Example.structured
      { scheme := "trojita-imap", host := "msg", path := "" }).map (fun r => r.2)
      = some (Example.viewer, Except.error Exception.NullPointer) ∧
    (MsgPartNetAccessManager.pathToPart Example.noSpecial Example.viewer Example.structured
      "/7").2 = Except.ok none ∧
    (Example.viewer.createRequest Example.noSpecial 0 Example.structured
      { scheme := "trojita-imap", host := "msg", path := "/7" }).map (fun r => r.2)
      = some (Example.viewer, Except.error Exception.NullPointer) := by
  refine ⟨by decide, by decide, by decide, by decide, by decide, by decide, by decide,
    by decide⟩

/-- C18, counterexample: the view shows message 1 of the state `structured`, and the path
`/0` addresses its multipart.  With externals enabled a request for `https://example.org/0`
gets a forbidden reply, not the transport's, while the same request with the scheme http is
handed to the transport; with externals disabled the https request gets a forbidden reply
and no `requestingExternal` signal is emitted. -/
theorem createRequest_https_forbidden :
    ((Example.viewer.setExternalsEnabled true).createRequest Example.noSpecial 0
      Example.structured { scheme := "https", host := "example.org", path := "/0" }).map
      (fun r => r.2)
      = some (Example.viewer.setExternalsEnabled true, Except.ok QNetworkReply.forbidden) ∧
    ((Example.viewer.setExternalsEnabled true).createRequest Example.noSpecial 0
      Example.structured { scheme := "http", host := "example.org", path := "/0" }).map
      (fun r => r.2)
      = some (Example.viewer.setExternalsEnabled true,
          Except.ok (QNetworkReply.transport
            { scheme := "http", host := "example.org", path := "/0" })) ∧
    (Example.viewer.createRequest Example.noSpecial 0
      Example.structured { scheme := "https", host := "example.org", path := "/0" }).map
      (fun r => (r.2.1.requestingExternal, r.2.2))
      = some ([], Except.ok QNetworkReply.forbidden) := by
  refine ⟨by decide, by decide, by decide⟩

/-- C18, amended: when the manager has its model and message and the path of the URL
addresses a part (so that the model index computed at the start of `createRequest` exists),
a request with the scheme http or ftp is handed to the underlying transport when externals
are enabled, and otherwise `requestingExternal( url )` is emitted and the reply is forbidden;
a request with the scheme https gets a forbidden reply, and no signal, either way. -/
theorem createRequest_external (special : State → Ptr → SpecialColumn → Option Ptr)
    (fuel : Nat) (self : MsgPartNetAccessManager) (s : State) (req : QUrl)
    (message part : Ptr)
    (hm : self.model = true) (hmsg : self.message = some message)
    (hpart : (MsgPartNetAccessManager.pathToPart special self s req.path).2
      = Except.ok (some part)) :
    ((req.scheme = "http" ∨ req.scheme = "ftp") → self._externalsEnabled = true →
      MsgPartNetAccessManager.createRequest special fuel self s req =
        some ((MsgPartNetAccessManager.pathToPart special self s req.path).1, self,
          Except.ok (QNetworkReply.transport req))) ∧
    ((req.scheme = "http" ∨ req.scheme = "ftp") → self._externalsEnabled = false →
      MsgPartNetAccessManager.createRequest special fuel self s req =
        some ((MsgPartNetAccessManager.pathToPart special self s req.path).1,
          { self with requestingExternal := self.requestingExternal ++ [req] },
          Except.ok QNetworkReply.forbidden)) ∧
    (req.scheme = "https" →
      MsgPartNetAccessManager.createRequest special fuel self s req =
        some ((MsgPartNetAccessManager.pathToPart special self s req.path).1, self,
          Except.ok QNetworkReply.forbidden)) := by
  unfold MsgPartNetAccessManager.createRequest
  generalize MsgPartNetAccessManager.pathToPart special self s req.path = rp at hpart
  obtain ⟨s1, r2⟩ := rp
  simp only at hpart
  subst hpart
  simp only [hm, hmsg, Bool.not_true, Bool.false_eq_true, if_false, toIndex,
    Option.isSome_some, if_true]
  refine ⟨?_, ?_, ?_⟩
  · intro hs he
    have h1 : ¬ (req.scheme = "trojita-imap" ∧ req.host = "msg") := by
      rintro ⟨h0, _⟩
      rcases hs with h | h <;> rw [h] at h0 <;> revert h0 <;> decide
    have h2 : ¬ req.scheme = "cid" := by
      rcases hs with h | h <;> rw [h] <;> decide
    rw [if_neg h1, if_neg h2, if_pos hs, if_pos he]
  · intro hs he
    have h1 : ¬ (req.scheme = "trojita-imap" ∧ req.host = "msg") := by
      rintro ⟨h0, _⟩
      rcases hs with h | h <;> rw [h] at h0 <;> revert h0 <;> decide
    have h2 : ¬ req.scheme = "cid" := by
      rcases hs with h | h <;> rw [h] <;> decide
    rw [if_neg h1, if_neg h2, if_pos hs, if_neg (by rw [he]; decide)]
  · intro hs
    have h1 : ¬ (req.scheme = "trojita-imap" ∧ req.host = "msg") := by
      rintro ⟨h0, _⟩
      rw [hs] at h0
      revert h0
      decide
    have h2 : ¬ req.scheme = "cid" := by rw [hs]; decide
    have h3 : ¬ (req.scheme = "http" ∨ req.scheme = "ftp") := by rw [hs]; decide
    rw [if_neg h1, if_neg h2, if_neg h3]

theorem createRequest_external_witness :
    Example.viewer.model = true ∧ Example.viewer.message = some 4 ∧
    (MsgPartNetAccessManager.pathToPart Example.noSpecial Example.viewer Example.structured
      "/0").2 = Except.ok (some 7) ∧
    Example.viewer._externalsEnabled = false ∧
    MsgPartNetAccessManager.createRequest Example.noSpecial 0 Example.viewer
        Example.structured { scheme := "ftp", host := "example.org", path := "/0" } =
      some ((MsgPartNetAccessManager.pathToPart Example.noSpecial Example.viewer
          Example.structured "/0").1,
        { Example.viewer with requestingExternal := Example.viewer.requestingExternal ++
            [{ scheme := "ftp", host := "example.org", path := "/0" }] },
        Except.ok QNetworkReply.forbidden) :=
  ⟨by decide, by decide, by decide, by decide,
    (createRequest_external Example.noSpecial 0 Example.viewer Example.structured
      { scheme := "ftp", host := "example.org", path := "/0" } 4 7 (by decide) (by decide)
      (by decide)).2.1 (Or.inr (by decide)) (by decide)⟩

/-- C19: whatever the tree, the manager and the URL, when `createRequest` returns r: (a) the
reply is the transport's only for this very request, with externals enabled and the scheme
http or ftp; (b) with externals disabled, or for a scheme other than http and ftp (file for
one), a reply is either forbidden or a part reply for a part that belongs to the current
message; (c) the call leaves the flag as it is, so that (d) after a call with externals
disabled no request of any later sequence is answered by the transport; and (e) the flag is
off after construction and after `setExternalsEnabled( false )`, and `setModelMessage` does
not touch it. -/
theorem createRequest_proxies_only_permitted
    (special : State → Ptr → SpecialColumn → Option Ptr) (fuel : Nat)
    (self : MsgPartNetAccessManager) (s : State) (req : QUrl)
    (r : State × MsgPartNetAccessManager × Except Exception QNetworkReply)
    (hr : MsgPartNetAccessManager.createRequest special fuel self s req = some r) :
    (∀ u, r.2.2 = Except.ok (QNetworkReply.transport u) →
      u = req ∧ self._externalsEnabled = true ∧ (req.scheme = "http" ∨ req.scheme = "ftp")) ∧
    ((self._externalsEnabled = false ∨ (req.scheme ≠ "http" ∧ req.scheme ≠ "ftp")) →
      ∀ reply, r.2.2 = Except.ok reply →
        reply = QNetworkReply.forbidden ∨
        ∃ p message, reply = QNetworkReply.msgPart p ∧ (r.1.heap p).kind = Kind.Part ∧
          self.message = some message ∧ OfMessage special s message p) ∧
    r.2.1._externalsEnabled = self._externalsEnabled ∧
    (self._externalsEnabled = false →
      ∀ reqs out, createRequests special fuel reqs r.2.1 r.1 = some out →
        ∀ reply, reply ∈ out.2.2 → ∀ u, reply ≠ Except.ok (QNetworkReply.transport u)) ∧
    MsgPartNetAccessManager.create._externalsEnabled = false ∧
    (∀ m : MsgPartNetAccessManager, (m.setExternalsEnabled false)._externalsEnabled = false) ∧
    (∀ (m : MsgPartNetAccessManager) (model : Bool) (message : Option Ptr),
      (m.setModelMessage model message)._externalsEnabled = m._externalsEnabled) := by
  obtain ⟨_, _, _, hflag, hcases⟩ := createRequest_outcome special fuel self s req r hr
  refine ⟨?_, ?_, hflag, ?_, rfl, fun _ => rfl, fun _ _ _ => rfl⟩
  · intro u hu
    rw [hu] at hcases
    rcases hcases with ⟨e, h⟩ | h | ⟨h, he, hs⟩ | ⟨p, m, h, _⟩
    · cases h
    · cases h
    · simp only [Except.ok.injEq, QNetworkReply.transport.injEq] at h
      exact ⟨h, he, hs⟩
    · cases h
  · intro hoff reply hreply
    rw [hreply] at hcases
    rcases hcases with ⟨e, h⟩ | h | ⟨h, he, hs⟩ | ⟨p, m, h, _, hk, hm, hof⟩
    · cases h
    · simp only [Except.ok.injEq] at h
      exact Or.inl h
    · rcases hoff with h1 | ⟨h1, h2⟩
      · rw [h1] at he; cases he
      · rcases hs with h3 | h3
        · exact absurd h3 h1
        · exact absurd h3 h2
    · simp only [Except.ok.injEq] at h
      exact Or.inr ⟨p, m, h, hk, hm, hof⟩
  · intro hoff reqs out hout
    exact (createRequests_disabled special fuel reqs r.2.1 r.1 out (by rw [hflag]; exact hoff)
      hout).2

theorem createRequest_proxies_only_permitted_witness :
    MsgPartNetAccessManager.createRequest Example.noSpecial 0 Example.viewer
        Example.structured { scheme := "file", host := "", path := "/0/1" } =
      some ((MsgPartNetAccessManager.pathToPart Example.noSpecial Example.viewer
          Example.structured "/0/1").1, Example.viewer, Except.ok QNetworkReply.forbidden) ∧
    Example.viewer._externalsEnabled = false ∧
    ∀ reqs out, createRequests Example.noSpecial 0 reqs Example.viewer
        (MsgPartNetAccessManager.pathToPart Example.noSpecial Example.viewer
          Example.structured "/0/1").1 = some out →
      ∀ reply, reply ∈ out.2.2 → ∀ u, reply ≠ Except.ok (QNetworkReply.transport u) :=
  ⟨rfl, by decide,
    (createRequest_proxies_only_permitted Example.noSpecial 0 Example.viewer
      Example.structured { scheme := "file", host := "", path := "/0/1" }
      ((MsgPartNetAccessManager.pathToPart Example.noSpecial Example.viewer
          Example.structured "/0/1").1, Example.viewer, Except.ok QNetworkReply.forbidden)
      rfl).2.2.2.1 (by decide)⟩

/-! ## A `\Noselect` mailbox from a LIST response -/

/-- C21: the state `folders` holds the mailbox 2 built from a LIST response with the flag
`\Noselect`, stored as `\NOSELECT`.  Its message list 3 has no messages, but its status
after construction is `NONE`, not `DONE`: `fetch`, `rowCount`, `childrenCount`, `child` and
`totalMessageCount` on the list each dispatch a request for the messages of the mailbox and
leave the list `LOADING`.  Only after `setChildren` on the mailbox (the state
`foldersListed`) is the list `DONE`, and then none of them dispatches anything. -/
theorem noselect_list_is_fetched :
    (Example.folders.heap 2).metadata.flags = ["\\NOSELECT"] ∧
    (Example.folders.heap 2).children = [3] ∧
    (Example.folders.heap 3).kind = Kind.MsgList ∧
    (Example.folders.heap 3).children = [] ∧
    (Example.folders.heap 3).fetchStatus = FetchingState.NONE ∧
    Example.folders.requests = [] ∧
    (fetch Example.folders 3).requests = [Request.askForMessagesInMailbox 3] ∧
    ((fetch Example.folders 3).heap 3).fetchStatus = FetchingState.LOADING ∧
    (rowCount Example.folders 3).1.requests = [Request.askForMessagesInMailbox 3] ∧
    (childrenCount Example.folders 3).1.requests = [Request.askForMessagesInMailbox 3] ∧
    (child Example.folders 3 0).1.requests = [Request.askForMessagesInMailbox 3] ∧
    (TreeItemMsgList.totalMessageCount Example.folders 3).1.requests
      = [Request.askForMessagesInMailbox 3] ∧
    (TreeItemMsgList.totalMessageCount Example.folders 3).2 = -1 ∧
    (TreeItemMailbox.totalMessageCount Example.folders 2).1.requests
      = [Request.askForMessagesInMailbox 3] ∧
    (Example.foldersListed.heap 3).fetchStatus = FetchingState.DONE ∧
    (fetch Example.foldersListed 3).requests = [] ∧
    (rowCount Example.foldersListed 3).1.requests = [] ∧
    (rowCount Example.foldersListed 3).2 = 0 ∧
    (TreeItemMsgList.totalMessageCount Example.foldersListed 3).1.requests = [] ∧
    (TreeItemMsgList.totalMessageCount Example.foldersListed 3).2 = 0 := by
  and_intros <;> decide

/-! ## The status after setChildren -/

/-- C22, counterexample: part 8 of the state `structured` has status `NONE`, and after
`setChildren` on it its status is still `NONE`, not `DONE`. -/
theorem part_setChildren_keeps_status :
    (Example.structured.heap 8).kind = Kind.Part ∧
    (Example.structured.heap 8).fetchStatus = FetchingState.NONE ∧
    (setChildren Example.structured 8 []).2 = Except.ok [] ∧
    ((setChildren Example.structured 8 []).1.heap 8).fetchStatus = FetchingState.NONE := by
  refine ⟨by decide, by decide, by decide, by decide⟩

/-- C22, amended: after `setChildren` the status of a message list and of a message is
`DONE`, and so is the status of a mailbox (whose child 0 is its message list, as the method
asserts); the status of a part is what it was before the call, with the new children in
place. -/
theorem setChildren_status (s : State) (self : Ptr) (items : List Ptr) :
    ((s.heap self).kind = Kind.MsgList ∨ (s.heap self).kind = Kind.Message →
      ((setChildren s self items).1.heap self).fetchStatus = FetchingState.DONE) ∧
    ((s.heap self).kind = Kind.Mailbox →
      ∀ msgList rest, (s.heap self).children = msgList :: rest →
        (s.heap msgList).kind = Kind.MsgList →
        (setChildren s self items).2 = Except.ok rest ∧
        ((setChildren s self items).1.heap self).fetchStatus = FetchingState.DONE) ∧
    ((s.heap self).kind = Kind.Part →
      ((setChildren s self items).1.heap self).fetchStatus = (s.heap self).fetchStatus ∧
      ((setChildren s self items).1.heap self).children = items) := by
  refine ⟨?_, ?_, ?_⟩
  · intro hk
    rcases hk with hk | hk <;> simp [setChildren, hk, TreeItem.setChildren]
  · intro hk msgList rest hc hm
    have hne : msgList ≠ self := by
      intro h; rw [h, hk] at hm; cases hm
    simp only [setChildren, hk, TreeItemMailbox.setChildren, hc, dynamicCast, hm, if_true,
      TreeItem.setChildren]
    by_cases hf : "\\NOSELECT" ∈ (s.heap self).metadata.flags
    · simp [hne, hf, hc, Ne.symm hne]
    · simp [hne, hf, hc]
  · intro hk
    simp [setChildren, hk, TreeItemPart.setChildren, TreeItem.setChildren]

theorem setChildren_status_witness :
    ((Example.synced.heap 4).kind = Kind.Message ∧
      (Example.synced.heap 4).fetchStatus = FetchingState.NONE ∧
      ((setChildren Example.synced 4 []).1.heap 4).fetchStatus = FetchingState.DONE) ∧
    ((Example.unlisted.heap 2).kind = Kind.Mailbox ∧
      (Example.unlisted.heap 2).children = 3 :: [] ∧
      (Example.unlisted.heap 3).kind = Kind.MsgList ∧
      (Example.unlisted.heap 2).fetchStatus = FetchingState.NONE ∧
      ((setChildren Example.unlisted 2 []).1.heap 2).fetchStatus = FetchingState.DONE) ∧
    ((Example.structured.heap 8).kind = Kind.Part ∧
      ((setChildren Example.structured 8 [9]).1.heap 8).fetchStatus
        = (Example.structured.heap 8).fetchStatus) :=
  ⟨⟨by decide, by decide,
      (setChildren_status Example.synced 4 []).1 (Or.inr (by decide))⟩,
    ⟨by decide, by decide, by decide, by decide,
      ((setChildren_status Example.unlisted 2 []).2.1 (by decide) 3 [] (by decide)
        (by decide)).2⟩,
    ⟨by decide, ((setChildren_status Example.structured 8 [9]).2.2 (by decide)).1⟩⟩

/-! ## rescanForChildMailboxes -/

/-- C24, counterexample: mailbox 2 of the state `hinted` is `DONE`, and it is still `DONE`
after `rescanForChildMailboxes`, which has forgotten the cached list and asked for the
children of the mailbox. -/
theorem rescan_keeps_done :
    (Example.hinted.heap 2).kind = Kind.Mailbox ∧
    (Example.hinted.heap 2).fetchStatus = FetchingState.DONE ∧
    ((TreeItemMailbox.rescanForChildMailboxes Example.hinted 2).heap 2).fetchStatus
      = FetchingState.DONE ∧
    (TreeItemMailbox.rescanForChildMailboxes Example.hinted 2).requests
      = [Request.forgetChildMailboxes "Lists", Request.askForChildrenOfMailbox 2] := by
  refine ⟨by decide, by decide, by decide, by decide⟩

/-- C24, amended: `rescanForChildMailboxes` forgets the cached child-mailbox list of the
mailbox and asks for its children itself; it never sets the status to `NONE`: a mailbox
that was `DONE` is still `DONE` and one that was `LOADING` is still `LOADING`, with exactly
these two requests dispatched, and a mailbox that was `NONE` is `LOADING`, the `fetch` at
the end having asked for the children once more.  No other object is touched. -/
theorem rescan_requests_without_reset (s : State) (self : Ptr) :
    ((s.heap self).fetchStatus ≠ FetchingState.NONE →
      (TreeItemMailbox.rescanForChildMailboxes s self).heap = s.heap ∧
      (TreeItemMailbox.rescanForChildMailboxes s self).requests =
        s.requests ++ [Request.forgetChildMailboxes (s.heap self).metadata.mailbox,
          Request.askForChildrenOfMailbox self]) ∧
    ((s.heap self).fetchStatus = FetchingState.NONE →
      ((TreeItemMailbox.rescanForChildMailboxes s self).heap self).fetchStatus
        = FetchingState.LOADING ∧
      (TreeItemMailbox.rescanForChildMailboxes s self).requests =
        s.requests ++ [Request.forgetChildMailboxes (s.heap self).metadata.mailbox,
          Request.askForChildrenOfMailbox self, Request.askForChildrenOfMailbox self]) ∧
    ((TreeItemMailbox.rescanForChildMailboxes s self).heap self).fetchStatus
      ≠ FetchingState.NONE ∧
    (∀ q, q ≠ self → (TreeItemMailbox.rescanForChildMailboxes s self).heap q = s.heap q) := by
  unfold TreeItemMailbox.rescanForChildMailboxes TreeItemMailbox.fetch
  cases hs : (s.heap self).fetchStatus <;>
    simp +contextual [TreeItem.fetched, TreeItem.loading, hs]

theorem rescan_requests_without_reset_witness :
    (Example.hinted.heap 2).fetchStatus ≠ FetchingState.NONE ∧
    (TreeItemMailbox.rescanForChildMailboxes Example.hinted 2).heap = Example.hinted.heap ∧
    (TreeItemMailbox.rescanForChildMailboxes Example.hinted 2).requests =
      Example.hinted.requests ++
        [Request.forgetChildMailboxes (Example.hinted.heap 2).metadata.mailbox,
          Request.askForChildrenOfMailbox 2] :=
  ⟨by decide, ((rescan_requests_without_reset Example.hinted 2).1 (by decide)).1,
    ((rescan_requests_without_reset Example.hinted 2).1 (by decide)).2⟩

/-! ## hasChildMailboxes -/

/-- C25, counterexample: mailbox 2 of the state `hinted` carries the flag `\HASCHILDREN` (and
neither `\NOINFERIORS` nor `\HASNOCHILDREN`), but it is `DONE` and its only child is the
message list: `hasChildMailboxes` returns false. -/
theorem hasChildMailboxes_of_done_mailbox :
    (Example.hinted.heap 2).kind = Kind.Mailbox ∧
    (Example.hinted.heap 2).metadata.flags = ["\\HASCHILDREN"] ∧
    (Example.hinted.heap 2).fetchStatus = FetchingState.DONE ∧
    (Example.hinted.heap 2).children = [3] ∧
    (TreeItemMailbox.hasChildMailboxes Example.hinted 2).2 = false ∧
    (TreeItemMailbox.hasChildMailboxes Example.unlisted 2).2 = true := by
  refine ⟨by decide, by decide, by decide, by decide, by decide, by decide⟩

/-- C25, amended: for a mailbox that is `DONE`, `hasChildMailboxes` returns whether it has
more than one child, whatever its flags, and dispatches nothing.  For a mailbox that is not
`DONE` it returns false when the flags contain `\NOINFERIORS` or `\HASNOCHILDREN`, true when
they contain `\HASCHILDREN` and neither of the former, changing nothing in both cases, and
otherwise it fetches the mailbox and returns whether the mailbox has more than one child
now. -/
theorem hasChildMailboxes_by_status_and_flags (s : State) (self : Ptr) :
    ((s.heap self).fetchStatus = FetchingState.DONE →
      TreeItemMailbox.hasChildMailboxes s self
        = (s, decide ((s.heap self).children.length > 1))) ∧
    ((s.heap self).fetchStatus ≠ FetchingState.DONE →
      ("\\NOINFERIORS" ∈ (s.heap self).metadata.flags ∨
          "\\HASNOCHILDREN" ∈ (s.heap self).metadata.flags →
        TreeItemMailbox.hasChildMailboxes s self = (s, false)) ∧
      ("\\NOINFERIORS" ∉ (s.heap self).metadata.flags →
        "\\HASNOCHILDREN" ∉ (s.heap self).metadata.flags →
        "\\HASCHILDREN" ∈ (s.heap self).metadata.flags →
        TreeItemMailbox.hasChildMailboxes s self = (s, true)) ∧
      ("\\NOINFERIORS" ∉ (s.heap self).metadata.flags →
        "\\HASNOCHILDREN" ∉ (s.heap self).metadata.flags →
        "\\HASCHILDREN" ∉ (s.heap self).metadata.flags →
        TreeItemMailbox.hasChildMailboxes s self
          = (TreeItemMailbox.fetch s self,
              decide ((s.heap self).children.length > 1)) ∧
        ((s.heap self).fetchStatus = FetchingState.NONE →
          (TreeItemMailbox.fetch s self).requests
            = s.requests ++ [Request.askForChildrenOfMailbox self]))) := by
  refine ⟨?_, ?_⟩
  · intro hd
    simp [TreeItemMailbox.hasChildMailboxes, TreeItem.fetched, hd]
  · intro hd
    refine ⟨?_, ?_, ?_⟩
    · intro hf
      simp [TreeItemMailbox.hasChildMailboxes, TreeItem.fetched, hd, hf]
    · intro h1 h2 h3
      simp [TreeItemMailbox.hasChildMailboxes, TreeItem.fetched, hd, h1, h2, h3]
    · intro h1 h2 h3
      refine ⟨?_, ?_⟩
      · simp only [TreeItemMailbox.hasChildMailboxes, TreeItem.fetched, hd, decide_False,
          Bool.false_eq_true, if_false, h1, h2, h3, or_self]
        congr 1
        unfold TreeItemMailbox.fetch
        simp only [TreeItem.fetched, hd, decide_False, Bool.false_eq_true, if_false]
        split <;> simp
      · intro hn
        simp [TreeItemMailbox.fetch, TreeItem.fetched, TreeItem.loading, hn]

theorem hasChildMailboxes_by_status_and_flags_witness :
    ((Example.hinted.heap 2).fetchStatus = FetchingState.DONE ∧
      TreeItemMailbox.hasChildMailboxes Example.hinted 2
        = (Example.hinted, decide ((Example.hinted.heap 2).children.length > 1))) ∧
    ((Example.unlisted.heap 2).fetchStatus ≠ FetchingState.DONE ∧
      "\\NOINFERIORS" ∉ (Example.unlisted.heap 2).metadata.flags ∧
      "\\HASNOCHILDREN" ∉ (Example.unlisted.heap 2).metadata.flags ∧
      "\\HASCHILDREN" ∈ (Example.unlisted.heap 2).metadata.flags ∧
      TreeItemMailbox.hasChildMailboxes Example.unlisted 2 = (Example.unlisted, true)) ∧
    ((Example.synced.heap 2).fetchStatus ≠ FetchingState.DONE ∧
      "\\NOINFERIORS" ∉ (Example.synced.heap 2).metadata.flags ∧
      "\\HASNOCHILDREN" ∉ (Example.synced.heap 2).metadata.flags ∧
      "\\HASCHILDREN" ∉ (Example.synced.heap 2).metadata.flags ∧
      TreeItemMailbox.hasChildMailboxes Example.synced 2
        = (TreeItemMailbox.fetch Example.synced 2,
            decide ((Example.synced.heap 2).children.length > 1))) :=
  ⟨⟨by decide, (hasChildMailboxes_by_status_and_flags Example.hinted 2).1 (by decide)⟩,
    ⟨by decide, by decide, by decide, by decide,
      ((hasChildMailboxes_by_status_and_flags Example.unlisted 2).2 (by decide)).2.1
        (by decide) (by decide) (by decide)⟩,
    ⟨by decide, by decide, by decide, by decide,
      (((hasChildMailboxes_by_status_and_flags Example.synced 2).2 (by decide)).2.2
        (by decide) (by decide) (by decide)).1⟩⟩

/-! ## childrenCount -/

/-- C26, counterexample: part 8 of the state `structured` has status `NONE`;
`childrenCount` on it dispatches nothing and leaves the status `NONE`. -/
theorem part_childrenCount_does_not_fetch :
    (Example.structured.heap 8).kind = Kind.Part ∧
    (Example.structured.heap 8).fetchStatus = FetchingState.NONE ∧
    ((childrenCount Example.structured 8).1.heap 8).fetchStatus = FetchingState.NONE ∧
    (childrenCount Example.structured 8).1.requests = Example.structured.requests ∧
    (childrenCount Example.structured 8).2 = 0 := by
  refine ⟨by decide, by decide, by decide, by decide, by decide⟩

/-- C26, amended: `childrenCount` on a mailbox, a message list or a message whose status is
`NONE` triggers a fetch (the status becomes `LOADING` and one request, of the kind of the
node, is dispatched) and returns the number of children the node holds, which the fetch has
not changed; on a part it triggers nothing, whatever the status, and returns the number of
children the part holds. -/
theorem childrenCount_fetches_unless_part (s : State) (self : Ptr) :
    ((s.heap self).kind ≠ Kind.Part → (s.heap self).fetchStatus = FetchingState.NONE →
      ((childrenCount s self).1.heap self).fetchStatus = FetchingState.LOADING ∧
      (childrenCount s self).1.requests = s.requests ++ [requestOf (s.heap self).kind self] ∧
      (childrenCount s self).2 = (s.heap self).children.length ∧
      ((childrenCount s self).1.heap self).children = (s.heap self).children) ∧
    ((s.heap self).kind = Kind.Part →
      childrenCount s self = (s, (s.heap self).children.length)) := by
  refine ⟨?_, ?_⟩
  · intro hk hn
    have hcc : childrenCount s self = (fetch s self, ((fetch s self).heap self).children.length) := by
      unfold childrenCount TreeItem.childrenCount
      cases hkind : (s.heap self).kind <;> first | rfl | exact absurd hkind hk
    rw [hcc, fetch_of_none s self hn]
    simp
  · intro hk
    simp [childrenCount, hk, TreeItemPart.childrenCount]

theorem childrenCount_fetches_unless_part_witness :
    ((Example.synced.heap 4).kind ≠ Kind.Part ∧
      (Example.synced.heap 4).fetchStatus = FetchingState.NONE ∧
      ((childrenCount Example.synced 4).1.heap 4).fetchStatus = FetchingState.LOADING ∧
      (childrenCount Example.synced 4).1.requests
        = Example.synced.requests ++ [requestOf (Example.synced.heap 4).kind 4] ∧
      requestOf (Example.synced.heap 4).kind 4 = Request.askForMsgMetadata 4) ∧
    ((Example.structured.heap 8).kind = Kind.Part ∧
      childrenCount Example.structured 8
        = (Example.structured, (Example.structured.heap 8).children.length)) :=
  ⟨⟨by decide, by decide,
      ((childrenCount_fetches_unless_part Example.synced 4).1 (by decide) (by decide)).1,
      ((childrenCount_fetches_unless_part Example.synced 4).1 (by decide) (by decide)).2.1,
      by decide⟩,
    ⟨by decide, (childrenCount_fetches_unless_part Example.structured 8).2 (by decide)⟩⟩

/-! ## The status never moves backwards -/

theorem FetchingState.rank_le_two (a : FetchingState) : a.rank ≤ 2 := by
  cases a <;> decide

theorem StatusNotBackwards.same (s : State) : StatusNotBackwards s s :=
  ⟨le_refl _, fun _ _ => le_refl _⟩

theorem StatusNotBackwards.chain {s t u : State} (h1 : StatusNotBackwards s t)
    (h2 : StatusNotBackwards t u) : StatusNotBackwards s u :=
  ⟨le_trans h1.1 h2.1, fun q hq => le_trans (h1.2 q hq) (h2.2 q (lt_of_lt_of_le hq h1.1))⟩

theorem StatusNotBackwards.of_fetches {s t : State} (h : FetchOnly s t) :
    StatusNotBackwards s t := by
  refine ⟨by rw [h.1], fun q _ => ?_⟩
  rcases h.2 q with a | ⟨a1, a2⟩
  · rw [a]
  · simp [a2, a1, FetchingState.rank]

/-- A write that does not move the status of the object backwards. -/
theorem StatusNotBackwards.of_modify (s : State) (p : Ptr) (f : TreeItem → TreeItem)
    (hf : (s.heap p).fetchStatus.rank ≤ (f (s.heap p)).fetchStatus.rank) :
    StatusNotBackwards s (s.modify p f) := by
  refine ⟨le_refl _, fun q _ => ?_⟩
  simp only [State.modify_heap]
  by_cases hq : q = p
  · rw [if_pos hq, hq]; exact hf
  · rw [if_neg hq]

theorem StatusNotBackwards.of_setChildren (s : State) (self : Ptr) (items : List Ptr) :
    StatusNotBackwards s (setChildren s self items).1 := by
  have hbase : StatusNotBackwards s (TreeItem.setChildren s self items).1 :=
    StatusNotBackwards.of_modify s self
      (fun t => { t with children := items, fetchStatus := FetchingState.DONE })
      (FetchingState.rank_le_two _)
  unfold setChildren
  cases hk : (s.heap self).kind with
  | Mailbox =>
    simp only
    unfold TreeItemMailbox.setChildren
    cases hc : (s.heap self).children with
    | nil => exact StatusNotBackwards.same s
    | cons c rest =>
      simp only [dynamicCast_some]
      by_cases hm : (s.heap c).kind = Kind.MsgList
      · simp only [if_pos hm]
        have h1 : StatusNotBackwards s
            (s.modify self (fun t => { t with children := t.children.tail })) :=
          StatusNotBackwards.of_modify s self (fun t => { t with children := t.children.tail })
            (le_refl _)
        have h2 : StatusNotBackwards
            (s.modify self (fun t => { t with children := t.children.tail }))
            (TreeItem.setChildren (s.modify self
              (fun t => { t with children := t.children.tail })) self items).1 :=
          StatusNotBackwards.of_modify _ self
            (fun t => { t with children := items, fetchStatus := FetchingState.DONE })
            (FetchingState.rank_le_two _)
        have h3 : StatusNotBackwards
            (TreeItem.setChildren (s.modify self
              (fun t => { t with children := t.children.tail })) self items).1
            ((TreeItem.setChildren (s.modify self
              (fun t => { t with children := t.children.tail })) self items).1.modify self
              (fun t => { t with children := c :: t.children })) :=
          StatusNotBackwards.of_modify _ self (fun t => { t with children := c :: t.children })
            (le_refl _)
        split
        · exact ((h1.chain h2).chain h3).chain (StatusNotBackwards.of_modify _ c
            (fun t => { t with fetchStatus := FetchingState.DONE })
            (FetchingState.rank_le_two _))
        · exact (h1.chain h2).chain h3
      · simp only [if_neg hm]
        exact StatusNotBackwards.same s
  | MsgList => exact hbase
  | Message => exact hbase
  | Part =>
    simp only [TreeItemPart.setChildren, TreeItem.setChildren]
    refine ⟨le_refl _, fun q _ => ?_⟩
    simp only [State.setStatus_heap, State.modify_heap]
    by_cases h2 : q = self
    · simp [h2]
    · simp [h2]

theorem StatusNotBackwards.of_item (s : State) (self message : Ptr)
    (response : FetchResponse) (key : String) (value : AbstractData) (cp : Option Ptr) :
    StatusNotBackwards s (handleFetchItem s self message response key value cp).1 := by
  have hw := StatusNotBackwards.of_fetches (partIdToPtr_fetchOnly s self
    (uintToInt response.number) (mid key 5 (key.length - 6)))
  apply handleFetchItem_cases (fun r => StatusNotBackwards s r.1)
  · intro _; exact StatusNotBackwards.same s
  · intro _ _; exact StatusNotBackwards.same s
  · intro _ e _
    exact StatusNotBackwards.of_modify s message
      (fun t => { t with envelope := e, fetchStatus := FetchingState.DONE })
      (FetchingState.rank_le_two _)
  · intro _ _ b _ _
    obtain ⟨h1, h2, _⟩ := createTreeItems_frame b s message
    have hc : StatusNotBackwards s (createTreeItems b s message).1 :=
      ⟨h1, fun q hq => by rw [h2 q hq]⟩
    exact hc.chain (StatusNotBackwards.of_modify _ message
      (fun t => { t with children := (createTreeItems b s message).2,
                         fetchStatus := FetchingState.DONE })
      (FetchingState.rank_le_two _))
  · intro _ n _
    exact StatusNotBackwards.of_modify s message (fun t => { t with size := n }) (le_refl _)
  · intro _ _ _; exact hw
  · intro _ _ part d _ _
    exact hw.chain (StatusNotBackwards.of_modify _ part
      (fun t =>
        { t with
          data := decodeBody ((TreeItemMailbox.partIdToPtr s self
            (uintToInt response.number) (mid key 5 (key.length - 6))).1.heap part).encoding d,
          fetchStatus := FetchingState.DONE })
      (FetchingState.rank_le_two _))

theorem StatusNotBackwards.of_handleFetchResponse (s : State) (self : Ptr)
    (response : FetchResponse) :
    StatusNotBackwards s (TreeItemMailbox.handleFetchResponse s self response).1 := by
  unfold TreeItemMailbox.handleFetchResponse
  cases (s.heap self).children with
  | nil => exact StatusNotBackwards.same s
  | cons c rest =>
    simp only [dynamicCast_some]
    by_cases hm : (s.heap c).kind = Kind.MsgList
    · simp only [if_pos hm]
      split
      · exact StatusNotBackwards.same s
      · split
        · exact StatusNotBackwards.same s
        · have h1 : StatusNotBackwards s
              (TreeItem.child s c (uintToInt (uintPred response.number))).1 :=
            StatusNotBackwards.of_fetches (TreeItem.baseChild_fetchOnly _ _ _)
          split
          · exact h1
          · exact handleFetchItems_invariant (StatusNotBackwards s) _ _ _
              (fun t key value cp ht => ht.chain (StatusNotBackwards.of_item t _ _ _ key value cp))
              _ _ _ h1
    · simp only [if_neg hm]
      exact StatusNotBackwards.same s

theorem rowCount_fetchOnly (s : State) (self : Ptr) : FetchOnly s (rowCount s self).1 := by
  unfold rowCount
  split
  · exact fetch_fetchOnly s self
  · exact childrenCount_fetchOnly s self
  · exact fetch_fetchOnly s self
  · exact FetchOnly.refl s

theorem hasChildMailboxes_fetchOnly (s : State) (self : Ptr)
    (hk : (s.heap self).kind = Kind.Mailbox) :
    FetchOnly s (TreeItemMailbox.hasChildMailboxes s self).1 := by
  have hf : TreeItemMailbox.fetch s self = fetch s self := by simp [fetch, hk]
  unfold TreeItemMailbox.hasChildMailboxes
  simp only
  split
  · exact FetchOnly.refl s
  · split
    · exact FetchOnly.refl s
    · split
      · exact FetchOnly.refl s
      · rw [hf]; exact fetch_fetchOnly s self

/-- Every run of the operations of a fetch cycle leaves no status before where it was. -/
theorem FetchCycle.notBackwards {s t : State} (h : FetchCycle s t) :
    StatusNotBackwards s t := by
  induction h with
  | done s => exact StatusNotBackwards.same s
  | fetch s self t _ ih => exact (StatusNotBackwards.of_fetches (fetch_fetchOnly s self)).chain ih
  | child s self offset t _ ih =>
    exact (StatusNotBackwards.of_fetches (child_fetchOnly s self offset)).chain ih
  | childrenCount s self t _ ih =>
    exact (StatusNotBackwards.of_fetches (childrenCount_fetchOnly s self)).chain ih
  | rowCount s self t _ ih =>
    exact (StatusNotBackwards.of_fetches (rowCount_fetchOnly s self)).chain ih
  | hasChildMailboxes s self t hk _ ih =>
    exact (StatusNotBackwards.of_fetches (hasChildMailboxes_fetchOnly s self hk)).chain ih
  | setChildren s self items t _ ih =>
    exact (StatusNotBackwards.of_setChildren s self items).chain ih
  | handleFetchResponse s self response t _ _ ih =>
    exact (StatusNotBackwards.of_handleFetchResponse s self response).chain ih

/-- C23: over every run of `fetch`, `child`, `childrenCount`, `rowCount`,
`hasChildMailboxes`, `setChildren` and `handleFetchResponse`, in any order and with any
arguments, nothing is deallocated and no node's status moves backwards in the cycle `NONE`,
`LOADING`, `DONE`: a node that was `DONE` is `DONE`, and a node that was `LOADING` is not
`NONE`. -/
theorem status_never_backwards (s t : State) (h : FetchCycle s t) :
    s.next ≤ t.next ∧
    ∀ q : Nat, q < s.next →
      (s.heap q).fetchStatus.rank ≤ (t.heap q).fetchStatus.rank ∧
      ((s.heap q).fetchStatus = FetchingState.DONE →
        (t.heap q).fetchStatus = FetchingState.DONE) ∧
      ((s.heap q).fetchStatus = FetchingState.LOADING →
        (t.heap q).fetchStatus ≠ FetchingState.NONE) := by
  have hn := FetchCycle.notBackwards h
  refine ⟨hn.1, fun q hq => ⟨hn.2 q hq, ?_, ?_⟩⟩
  · intro hd
    have := hn.2 q hq
    rw [hd] at this
    cases ht : (t.heap q).fetchStatus
    · rw [ht] at this; revert this; decide
    · rw [ht] at this; revert this; decide
    · rfl
  · intro hl hnone
    have := hn.2 q hq
    rw [hl, hnone] at this
    revert this
    decide

theorem status_never_backwards_witness :
    FetchCycle Example.synced
      (setChildren (TreeItemMailbox.handleFetchResponse (fetch Example.synced 5) 2
        { number := 1,
          data := [("BODYSTRUCTURE", AbstractData.bodyStructure Example.mixed)] }).1
        8 []).1 ∧
    (Example.synced.heap 3).fetchStatus = FetchingState.DONE ∧
    ((setChildren (TreeItemMailbox.handleFetchResponse (fetch Example.synced 5) 2
        { number := 1,
          data := [("BODYSTRUCTURE", AbstractData.bodyStructure Example.mixed)] }).1
        8 []).1.heap 3).fetchStatus = FetchingState.DONE :=
  ⟨FetchCycle.fetch _ 5 _ (FetchCycle.handleFetchResponse _ 2 _ _ (by decide)
      (FetchCycle.setChildren _ 8 [] _ (FetchCycle.done _))),
    by decide,
    ((status_never_backwards Example.synced _
      (FetchCycle.fetch _ 5 _ (FetchCycle.handleFetchResponse _ 2 _ _ (by decide)
        (FetchCycle.setChildren _ 8 [] _ (FetchCycle.done _))))).2 3 (by decide)).2.1
      (by decide)⟩

/-! ## The tasks -/

@[simp] theorem Model.call_calls (m : Model) (c : Call) : (m.call c).calls = m.calls ++ [c] :=
  rfl

@[simp] theorem Model.call_parsers (m : Model) (c : Call) : (m.call c)._parsers = m._parsers :=
  rfl

@[simp] theorem Model.setCommand_calls (m : Model) (parser : Ptr) (tag : CommandHandle)
    (task : Model.Task) : (m.setCommand parser tag task).calls = m.calls :=
  rfl

theorem Model.setCommand_commandMap (m : Model) (parser : Ptr) (tag : CommandHandle)
    (task : Model.Task) :
    ((m.setCommand parser tag task)._parsers parser).commandMap tag = some task := by
  simp [Model.setCommand]

@[simp] theorem Model.appendActiveTask_calls (m : Model) (parser task : Ptr) :
    (m.appendActiveTask parser task).calls = m.calls :=
  rfl

/-- A response that carries neither tag of the task is not claimed and changes nothing. -/
theorem CreateMailboxTask.handleStateHelper_of_other_tag (h : ImapTaskH) (m : Model)
    (self : CreateMailboxTask) (ptr : Ptr) (resp : Responses.State) (tag : CommandHandle)
    (h1 : resp.tag ≠ self.tagCreate) (h2 : resp.tag ≠ self.tagList) :
    CreateMailboxTask.handleStateHelper h m self ptr resp tag = (m, self, false) := by
  simp [CreateMailboxTask.handleStateHelper, h1, h2]

/-- C27: let the response carry the CREATE tag of the task and let the command be a valid
one.  When the response is OK, the handler announces the mailbox as created, issues
`LIST "" name`, keeps the new tag as its LIST tag, claims the response and does not complete;
afterwards a response that carries neither tag changes nothing, and the response that carries
the LIST tag completes the task.  When the response is not OK (NO or BAD), the handler emits
`mailboxCreationFailed( name, text )`, completes, claims the response and issues no LIST. -/
theorem createMailbox_reply_to_create (h : ImapTaskH) (m m1 : Model)
    (self : CreateMailboxTask) (ptr : Ptr) (resp : Responses.State) (tag : CommandHandle)
    (command : Model.Task)
    (htag : resp.tag = self.tagCreate)
    (hvalid : h.IMAP_TASK_ENSURE_VALID_COMMAND m ptr self.tagCreate Model.Task.Kind.CREATE =
      Except.ok (m1, command))
    (hquiet : ∀ (x : Model) (t : CommandHandle),
      (h.IMAP_TASK_CLEANUP_COMMAND x ptr t).calls = x.calls) :
    (resp.kind = Responses.Kind.OK →
      (CreateMailboxTask.handleStateHelper h m self ptr resp tag).1.calls =
        m1.calls ++ [Call.mailboxCreationSucceded self.mailbox,
          Call.list self.parser "" self.mailbox, Call.activityHappening true] ∧
      (CreateMailboxTask.handleStateHelper h m self ptr resp tag).2 =
        ({ self with tagList := tag }, true) ∧
      (∀ (n : Model) (later : Responses.State) (next : CommandHandle),
        later.tag ≠ self.tagCreate → later.tag ≠ tag →
        CreateMailboxTask.handleStateHelper h n { self with tagList := tag } ptr later next =
          (n, { self with tagList := tag }, false)) ∧
      (∀ (n n1 : Model) (later : Responses.State) (next : CommandHandle) (listed : Model.Task),
        later.tag ≠ self.tagCreate → later.tag = tag →
        h.IMAP_TASK_ENSURE_VALID_COMMAND n ptr tag Model.Task.Kind.LIST_AFTER_CREATE =
          Except.ok (n1, listed) →
        (CreateMailboxTask.handleStateHelper h n { self with tagList := tag } ptr later
          next).1.calls =
          n1.calls ++
            (if later.kind = Responses.Kind.OK then
              [Call._finalizeIncrementalList ptr self.mailbox] else []) ++
            [Call._completed self.this] ∧
        (CreateMailboxTask.handleStateHelper h n { self with tagList := tag } ptr later
          next).2 = ({ self with tagList := tag }, true))) ∧
    (resp.kind ≠ Responses.Kind.OK →
      (CreateMailboxTask.handleStateHelper h m self ptr resp tag).1.calls =
        m1.calls ++ [Call.mailboxCreationFailed self.mailbox resp.message,
          Call._completed self.this] ∧
      (CreateMailboxTask.handleStateHelper h m self ptr resp tag).2 = (self, true)) := by
  refine ⟨fun hk => ⟨?_, ?_, ?_, ?_⟩, fun hk => ⟨?_, ?_⟩⟩
  · simp [CreateMailboxTask.handleStateHelper, htag, hvalid, hk, hquiet]
  · simp [CreateMailboxTask.handleStateHelper, htag, hvalid, hk]
  · intro n later next h1 h2
    exact CreateMailboxTask.handleStateHelper_of_other_tag h n _ ptr later next h1 h2
  · intro n n1 later next listed h1 h2 hv
    have h3 : tag ≠ self.tagCreate := h2 ▸ h1
    by_cases hl : later.kind = Responses.Kind.OK
    · simp [CreateMailboxTask.handleStateHelper, h2, h3, hv, hl, hquiet]
    · simp [CreateMailboxTask.handleStateHelper, h2, h3, hv, hl, hquiet]
  · simp [CreateMailboxTask.handleStateHelper, htag, hvalid, hk, hquiet]
  · simp [CreateMailboxTask.handleStateHelper, htag, hvalid, hk]

theorem createMailbox_reply_to_create_witness :
    (CreateMailboxTask.handleStateHelper Example.imapTaskH Example.created.1 Example.created.2 1
        { tag := "y1", kind := Responses.Kind.OK, message := "created" } "y2").1.calls =
      [Call.create 1 "work", Call.activityHappening true,
        Call.mailboxCreationSucceded "work", Call.list 1 "" "work",
        Call.activityHappening true] ∧
    (CreateMailboxTask.handleStateHelper Example.imapTaskH Example.listing.1 Example.listing.2 1
        { tag := "y2", kind := Responses.Kind.OK, message := "listed" } "y9").1.calls =
      [Call.create 1 "work", Call.activityHappening true,
        Call.mailboxCreationSucceded "work", Call.list 1 "" "work",
        Call.activityHappening true, Call._finalizeIncrementalList 1 "work",
        Call._completed 20] ∧
    (CreateMailboxTask.handleStateHelper Example.imapTaskH Example.created.1 Example.created.2 1
        { tag := "y1", kind := Responses.Kind.NO, message := "exists" } "y2").1.calls =
      [Call.create 1 "work", Call.activityHappening true,
        Call.mailboxCreationFailed "work" "exists", Call._completed 20] :=
  ⟨((createMailbox_reply_to_create Example.imapTaskH Example.created.1 Example.created.1
      Example.created.2 1 { tag := "y1", kind := Responses.Kind.OK, message := "created" } "y2"
      { kind := Model.Task.Kind.CREATE } rfl rfl (fun _ _ => rfl)).1 rfl).1,
    (((createMailbox_reply_to_create Example.imapTaskH Example.created.1 Example.created.1
      Example.created.2 1 { tag := "y1", kind := Responses.Kind.OK, message := "created" } "y2"
      { kind := Model.Task.Kind.CREATE } rfl rfl (fun _ _ => rfl)).1 rfl).2.2.2
      Example.listing.1 Example.listing.1
      { tag := "y2", kind := Responses.Kind.OK, message := "listed" } "y9"
      { kind := Model.Task.Kind.LIST_AFTER_CREATE } (by decide) rfl rfl).1,
    ((createMailbox_reply_to_create Example.imapTaskH Example.created.1 Example.created.1
      Example.created.2 1 { tag := "y1", kind := Responses.Kind.NO, message := "exists" } "y2"
      { kind := Model.Task.Kind.CREATE } rfl rfl (fun _ _ => rfl)).2 (by decide)).1⟩

/-- The handler of the append task, with the test for an empty tag as an equation. -/
theorem AppendTask.handleStateHelper_eq (m : Model) (self : AppendTask)
    (resp : Responses.State) :
    AppendTask.handleStateHelper m self resp =
      if resp.tag = "" then (m, self, false)
      else if resp.tag = self.tag then
        if resp.kind = Responses.Kind.OK then (m.call (Call._completed self.this), self, true)
        else (m.call (Call._failed self.this resp.message), self, true)
      else (m, self, false) := by
  simp only [AppendTask.handleStateHelper, String.isEmpty_iff]

/-- C28: the handler of the append task claims a response exactly when the tag of the
response is not empty and is the tag of the APPEND command; it then completes the task when
the response is OK and fails it with the message of the response otherwise; any other
response is not claimed and leaves the model and the task as they were. -/
theorem append_claims_exactly_own_tag (m : Model) (self : AppendTask)
    (resp : Responses.State) :
    ((AppendTask.handleStateHelper m self resp).2.2 = true ↔
      (resp.tag ≠ "" ∧ resp.tag = self.tag)) ∧
    (resp.tag ≠ "" → resp.tag = self.tag → resp.kind = Responses.Kind.OK →
      AppendTask.handleStateHelper m self resp =
        (m.call (Call._completed self.this), self, true)) ∧
    (resp.tag ≠ "" → resp.tag = self.tag → resp.kind ≠ Responses.Kind.OK →
      AppendTask.handleStateHelper m self resp =
        (m.call (Call._failed self.this resp.message), self, true)) ∧
    (¬ (resp.tag ≠ "" ∧ resp.tag = self.tag) →
      AppendTask.handleStateHelper m self resp = (m, self, false)) := by
  rw [AppendTask.handleStateHelper_eq]
  by_cases he : resp.tag = ""
  · simp [he]
  · by_cases ht : resp.tag = self.tag
    · have he2 : ¬ self.tag = "" := ht ▸ he
      by_cases hk : resp.kind = Responses.Kind.OK
      · simp [he, ← ht, hk]
      · simp [he, ← ht, hk]
    · simp [he, ht]

theorem append_claims_exactly_own_tag_witness :
    (AppendTask.handleStateHelper Example.appended.1 Example.appended.2
        { tag := "y3", kind := Responses.Kind.OK, message := "done" }).2.2 = true ∧
    (AppendTask.handleStateHelper Example.appended.1 Example.appended.2
        { tag := "y3", kind := Responses.Kind.OK, message := "done" }).1.calls =
      [Call.append 1 "work" "Subject: hi".toList ["\\Seen"] 0, Call._completed 21] ∧
    (AppendTask.handleStateHelper Example.appended.1 Example.appended.2
        { tag := "y3", kind := Responses.Kind.NO, message := "over quota" }).1.calls =
      [Call.append 1 "work" "Subject: hi".toList ["\\Seen"] 0,
        Call._failed 21 "over quota"] ∧
    (AppendTask.handleStateHelper Example.appended.1 Example.appended.2
        { tag := "", kind := Responses.Kind.OK, message := "done" }).2.2 = false :=
  ⟨(append_claims_exactly_own_tag Example.appended.1 Example.appended.2
      { tag := "y3", kind := Responses.Kind.OK, message := "done" }).1.2
      ⟨by decide, rfl⟩,
    congrArg (fun r => r.1.calls)
      ((append_claims_exactly_own_tag Example.appended.1 Example.appended.2
        { tag := "y3", kind := Responses.Kind.OK, message := "done" }).2.1
        (by decide) rfl rfl),
    congrArg (fun r => r.1.calls)
      ((append_claims_exactly_own_tag Example.appended.1 Example.appended.2
        { tag := "y3", kind := Responses.Kind.NO, message := "over quota" }).2.2.1
        (by decide) rfl (by decide)),
    congrArg (fun r => r.2.2)
      ((append_claims_exactly_own_tag Example.appended.1 Example.appended.2
        { tag := "", kind := Responses.Kind.OK, message := "done" }).2.2.2
        (by decide))⟩

/-- C29: the handler of the create task claims a response only when its tag is the CREATE
tag or the LIST tag of the task; a response that does not carry the CREATE tag while no LIST
has been sent (the LIST tag is still empty) and whose tag is not empty is not claimed and
changes nothing.  A response with an empty tag is compared with the tags of the task like
any other, and it is `IMAP_TASK_ENSURE_VALID_COMMAND` that turns it down: when the macro
leaves the handler with `false` and without a change for every tag that has no entry in the
tag map, and the map has no entry under the empty tag, then a response with an empty tag is
not claimed and changes nothing, and every response that is claimed carries a tag that is
not empty. -/
theorem createMailbox_claims_only_issued_tags (h : ImapTaskH) (m : Model)
    (self : CreateMailboxTask) (ptr : Ptr) (resp : Responses.State) (tag : CommandHandle) :
    ((CreateMailboxTask.handleStateHelper h m self ptr resp tag).2.2 = true →
      (resp.tag = self.tagCreate ∨ resp.tag = self.tagList)) ∧
    (self.tagList = "" → resp.tag ≠ self.tagCreate → resp.tag ≠ "" →
      CreateMailboxTask.handleStateHelper h m self ptr resp tag = (m, self, false)) ∧
    ((∀ (t : CommandHandle) (k : Model.Task.Kind), (m._parsers ptr).commandMap t = none →
        h.IMAP_TASK_ENSURE_VALID_COMMAND m ptr t k = Except.error (m, false)) →
      (m._parsers ptr).commandMap "" = none →
      (resp.tag = "" →
        CreateMailboxTask.handleStateHelper h m self ptr resp tag = (m, self, false)) ∧
      (self.tagList = "" → resp.tag ≠ self.tagCreate →
        CreateMailboxTask.handleStateHelper h m self ptr resp tag = (m, self, false)) ∧
      ((CreateMailboxTask.handleStateHelper h m self ptr resp tag).2.2 = true →
        resp.tag ≠ "" ∧ (resp.tag = self.tagCreate ∨ resp.tag = self.tagList))) := by
  have hother := CreateMailboxTask.handleStateHelper_of_other_tag h m self ptr resp tag
  have hfirst : (CreateMailboxTask.handleStateHelper h m self ptr resp tag).2.2 = true →
      (resp.tag = self.tagCreate ∨ resp.tag = self.tagList) := by
    intro hr
    by_contra hc
    push_neg at hc
    rw [hother hc.1 hc.2] at hr
    exact Bool.noConfusion hr
  have hempty : (∀ (t : CommandHandle) (k : Model.Task.Kind),
        (m._parsers ptr).commandMap t = none →
        h.IMAP_TASK_ENSURE_VALID_COMMAND m ptr t k = Except.error (m, false)) →
      (m._parsers ptr).commandMap "" = none → resp.tag = "" →
      CreateMailboxTask.handleStateHelper h m self ptr resp tag = (m, self, false) := by
    intro hreject hno he
    by_cases h1 : resp.tag = self.tagCreate
    · have hc : self.tagCreate = "" := by rw [← h1]; exact he
      simp [CreateMailboxTask.handleStateHelper, h1, hc, hreject "" _ hno]
    · by_cases h2 : resp.tag = self.tagList
      · have hl : self.tagList = "" := by rw [← h2]; exact he
        have hc : ¬ self.tagList = self.tagCreate := h2 ▸ h1
        rw [hl] at hc
        simp [CreateMailboxTask.handleStateHelper, h2, hl, hc, hreject "" _ hno]
      · exact hother h1 h2
  refine ⟨hfirst, ?_, ?_⟩
  · intro hl h1 h3
    exact hother h1 (by rw [hl]; exact h3)
  · intro hreject hno
    refine ⟨hempty hreject hno, ?_, ?_⟩
    · intro hl h1
      by_cases he : resp.tag = ""
      · exact hempty hreject hno he
      · exact hother h1 (by rw [hl]; exact he)
    · intro hr
      refine ⟨?_, hfirst hr⟩
      intro he
      rw [hempty hreject hno he] at hr
      exact Bool.noConfusion hr

theorem createMailbox_claims_only_issued_tags_witness :
    CreateMailboxTask.handleStateHelper Example.imapTaskH Example.created.1 Example.created.2 1
        { tag := "", kind := Responses.Kind.OK, message := "ready" } "y2" =
      (Example.created.1, Example.created.2, false) ∧
    CreateMailboxTask.handleStateHelper Example.imapTaskH Example.created.1 Example.created.2 1
        { tag := "y7", kind := Responses.Kind.OK, message := "done" } "y2" =
      (Example.created.1, Example.created.2, false) :=
  ⟨((createMailbox_claims_only_issued_tags Example.imapTaskH Example.created.1
      Example.created.2 1 { tag := "", kind := Responses.Kind.OK, message := "ready" }
      "y2").2.2
      (fun t k ht => by simp [Example.imapTaskH, ht]) rfl).1 rfl,
    (createMailbox_claims_only_issued_tags Example.imapTaskH Example.created.1
      Example.created.2 1 { tag := "y7", kind := Responses.Kind.OK, message := "done" }
      "y2").2.1 rfl (by decide) (by decide)⟩

/-- The clean-up of the example macros leaves the entries of the other tags alone. -/
theorem Example.imapTaskH_cleanup_other (x : Model) (ptr p : Ptr) (t u : CommandHandle)
    (hne : u ≠ t) :
    ((Example.imapTaskH.IMAP_TASK_CLEANUP_COMMAND x ptr t)._parsers p).commandMap u =
      (x._parsers p).commandMap u := by
  by_cases hp : p = ptr <;> simp [Example.imapTaskH, hp, hne]

/-- C30, counterexample: `AppendTask::perform` has issued `y3 APPEND`; the task keeps the tag
and is active on the connection, and the tag map of the connection has no entry for it. -/
theorem append_tag_not_in_commandMap :
    (AppendTask.perform Example.imapTaskH {} Example.appending "y3").2.2 = Except.ok () ∧
    (AppendTask.perform Example.imapTaskH {} Example.appending "y3").1.calls =
      [Call.append 1 "work" "Subject: hi".toList ["\\Seen"] 0] ∧
    (AppendTask.perform Example.imapTaskH {} Example.appending "y3").2.1.tag = "y3" ∧
    ((AppendTask.perform Example.imapTaskH {} Example.appending "y3").1._parsers
      1).activeTasks = [21] ∧
    ((AppendTask.perform Example.imapTaskH {} Example.appending "y3").1._parsers
      1).commandMap "y3" = none := by
  decide

/-- C30, amended: after `CreateMailboxTask::perform` the CREATE tag maps to the kind CREATE
in the tag map of the connection; after an OK reply to a valid CREATE the new LIST tag maps
to the kind LIST_AFTER_CREATE, provided the tag differs from the CREATE tag and the clean-up
of the CREATE command leaves the entry of that tag alone; `AppendTask::perform` keeps the
APPEND tag in the task itself and leaves the tag map as the steps before the command left
it, whatever the tag is. -/
theorem tags_recorded_by_create_kept_by_append (h : ImapTaskH) :
    (∀ (m : Model) (self : CreateMailboxTask) (tag : CommandHandle),
      (CreateMailboxTask.perform m self tag).2.tagCreate = tag ∧
      (((CreateMailboxTask.perform m self tag).1._parsers
        (CreateMailboxTask.perform m self tag).2.parser).commandMap tag).map
          (fun c => c.kind) = some Model.Task.Kind.CREATE) ∧
    (∀ (m m1 : Model) (self : CreateMailboxTask) (ptr : Ptr) (resp : Responses.State)
      (tag : CommandHandle) (command : Model.Task),
      resp.tag = self.tagCreate → resp.kind = Responses.Kind.OK →
      h.IMAP_TASK_ENSURE_VALID_COMMAND m ptr self.tagCreate Model.Task.Kind.CREATE =
        Except.ok (m1, command) →
      tag ≠ self.tagCreate →
      (∀ (x : Model) (p : Ptr),
        ((h.IMAP_TASK_CLEANUP_COMMAND x ptr self.tagCreate)._parsers p).commandMap tag =
          (x._parsers p).commandMap tag) →
      (CreateMailboxTask.handleStateHelper h m self ptr resp tag).2.1.tagList = tag ∧
      (((CreateMailboxTask.handleStateHelper h m self ptr resp tag).1._parsers
        self.parser).commandMap tag).map (fun c => c.kind) =
          some Model.Task.Kind.LIST_AFTER_CREATE) ∧
    (∀ (m m1 : Model) (self self1 : AppendTask) (tag : CommandHandle),
      self.conn.parser ≠ 0 →
      h.IMAP_TASK_CHECK_ABORT_DIE (h.markAsActiveTask m self.conn.parser self.this)
        { self with parser := self.conn.parser } = Except.ok (m1, self1) →
      AppendTask.perform h m self tag =
        (m1.call (Call.append self1.parser self1.targetMailbox self1.rawMessageData
          self1.flags self1.timestamp), { self1 with tag := tag }, Except.ok ()) ∧
      (AppendTask.perform h m self tag).1._parsers = m1._parsers) ∧
    (∀ (m : Model) (self : AppendTask) (tag other : CommandHandle),
      (AppendTask.perform h m self tag).1 = (AppendTask.perform h m self other).1) := by
  refine ⟨?_, ?_, ?_, ?_⟩
  · intro m self tag
    simp [CreateMailboxTask.perform, Model.setCommand]
  · intro m m1 self ptr resp tag command htag hk hvalid hne hkeep
    simp [CreateMailboxTask.handleStateHelper, htag, hk, hvalid, hkeep, Model.setCommand]
  · intro m m1 self self1 tag hp hc
    simp [AppendTask.perform, hp, hc]
  · intro m self tag other
    unfold AppendTask.perform
    by_cases hp : self.conn.parser = 0
    · simp [hp]
    · simp only [hp, if_false]
      cases h.IMAP_TASK_CHECK_ABORT_DIE (h.markAsActiveTask m self.conn.parser self.this)
        { self with parser := self.conn.parser } with
      | error r => rfl
      | ok r => rfl

theorem tags_recorded_by_create_kept_by_append_witness :
    ((Example.created.1._parsers 1).commandMap "y1").map (fun c => c.kind) =
      some Model.Task.Kind.CREATE ∧
    ((Example.listing.1._parsers 1).commandMap "y2").map (fun c => c.kind) =
      some Model.Task.Kind.LIST_AFTER_CREATE ∧
    (AppendTask.perform Example.imapTaskH {} Example.appending "y3").2.1.tag = "y3" :=
  ⟨((tags_recorded_by_create_kept_by_append Example.imapTaskH).1 {} Example.creating
      "y1").2,
    ((tags_recorded_by_create_kept_by_append Example.imapTaskH).2.1 Example.created.1
      Example.created.1 Example.created.2 1
      { tag := "y1", kind := Responses.Kind.OK, message := "created" } "y2"
      { kind := Model.Task.Kind.CREATE } rfl rfl rfl (by decide)
      (fun x p => Example.imapTaskH_cleanup_other x 1 p "y1" "y2" (by decide))).2,
    congrArg (fun r => r.2.1.tag)
      ((tags_recorded_by_create_kept_by_append Example.imapTaskH).2.2.1 {}
        (({} : Model).appendActiveTask 1 21) Example.appending
        { Example.appending with parser := 1 } "y3" (by decide) rfl).1⟩

/-! ## The message list at construction -/

/-- What the three ways to construct a mailbox leave at the two fresh addresses: the mailbox
with its parent and the list as its only child, and the list, without children, whose status
is `DONE` when the mailbox has no parent and `NONE` when it has one. -/
theorem msgList_at_construction (c : State × Ptr) (s : State) (parent : Option Ptr)
    (h : c = TreeItemMailbox.create s parent ∨
      (∃ response, c = TreeItemMailbox.createFromList s parent response) ∨
      (∃ metadata, c = TreeItemMailbox.fromMetadata s parent metadata)) :
    c.2 = s.next ∧ (c.1.heap s.next).kind = Kind.Mailbox ∧
    (c.1.heap s.next).parent = parent ∧
    (c.1.heap s.next).children = [s.next + 1] ∧
    (c.1.heap (s.next + 1)).kind = Kind.MsgList ∧
    (c.1.heap (s.next + 1)).parent = some s.next ∧
    (c.1.heap (s.next + 1)).children = [] ∧
    (c.1.heap (s.next + 1)).fetchStatus =
      (if parent = none then FetchingState.DONE else FetchingState.NONE) ∧
    c.1.requests = s.requests := by
  rcases h with h | ⟨response, h⟩ | ⟨metadata, h⟩
  · subst h
    cases parent <;>
      simp [TreeItemMailbox.create, TreeItemMsgList.create, TreeItem.init]
  · subst h
    cases parent <;>
      simp [TreeItemMailbox.createFromList, TreeItemMsgList.create, TreeItem.init]
  · subst h
    cases parent <;>
      simp [TreeItemMailbox.fromMetadata, TreeItemMailbox.create, TreeItemMsgList.create,
        TreeItem.init]

/-- C33, counterexample: the root mailbox 0 has no parent; the mailbox 2 constructed with the
root as its parent gets the message list 3, and the status of that list is `NONE`, while the
list 1 of the root itself is `DONE`. -/
theorem list_below_root_is_none :
    ((TreeItemMailbox.create State.empty none).1.heap 0).parent = none ∧
    (TreeItemMailbox.create (TreeItemMailbox.create State.empty none).1 (some 0)).2 = 2 ∧
    ((TreeItemMailbox.create (TreeItemMailbox.create State.empty none).1 (some 0)).1.heap
      2).parent = some 0 ∧
    ((TreeItemMailbox.create (TreeItemMailbox.create State.empty none).1 (some 0)).1.heap
      2).children = [3] ∧
    ((TreeItemMailbox.create (TreeItemMailbox.create State.empty none).1 (some 0)).1.heap
      3).kind = Kind.MsgList ∧
    ((TreeItemMailbox.create (TreeItemMailbox.create State.empty none).1 (some 0)).1.heap
      3).fetchStatus = FetchingState.NONE ∧
    ((TreeItemMailbox.create (TreeItemMailbox.create State.empty none).1 (some 0)).1.heap
      1).fetchStatus = FetchingState.DONE := by
  and_intros <;> decide

/-- C33, amended: the message list that a mailbox gets at construction (by either constructor
or by `fromMetadata`) has no messages; its status is `DONE` when the mailbox itself is the
parentless root, and `NONE` when the mailbox has a parent, the root or any other node. -/
theorem msgList_done_iff_mailbox_parentless (s : State) (parent : Option Ptr)
    (response : ListResponse) (metadata : MailboxMetadata) (c : State × Ptr)
    (h : c = TreeItemMailbox.create s parent ∨
      c = TreeItemMailbox.createFromList s parent response ∨
      c = TreeItemMailbox.fromMetadata s parent metadata) :
    ∃ msgList, (c.1.heap c.2).children = [msgList] ∧
      (c.1.heap msgList).kind = Kind.MsgList ∧
      (c.1.heap msgList).children = [] ∧
      (parent = none → (c.1.heap msgList).fetchStatus = FetchingState.DONE) ∧
      (parent ≠ none → (c.1.heap msgList).fetchStatus = FetchingState.NONE) := by
  have hc := msgList_at_construction c s parent (by
    rcases h with h | h | h
    · exact Or.inl h
    · exact Or.inr (Or.inl ⟨response, h⟩)
    · exact Or.inr (Or.inr ⟨metadata, h⟩))
  obtain ⟨h1, _, _, h4, h5, _, h7, h8, _⟩ := hc
  refine ⟨s.next + 1, by rw [h1]; exact h4, h5, h7, ?_, ?_⟩
  · intro hp; rw [h8, if_pos hp]
  · intro hp; rw [h8, if_neg hp]

theorem msgList_done_iff_mailbox_parentless_witness :
    (∃ msgList, ((TreeItemMailbox.create State.empty none).1.heap
        (TreeItemMailbox.create State.empty none).2).children = [msgList] ∧
      ((TreeItemMailbox.create State.empty none).1.heap msgList).kind = Kind.MsgList ∧
      ((TreeItemMailbox.create State.empty none).1.heap msgList).children = [] ∧
      ((none : Option Ptr) = none →
        ((TreeItemMailbox.create State.empty none).1.heap msgList).fetchStatus
          = FetchingState.DONE) ∧
      ((none : Option Ptr) ≠ none →
        ((TreeItemMailbox.create State.empty none).1.heap msgList).fetchStatus
          = FetchingState.NONE)) ∧
    ((TreeItemMailbox.create State.empty none).1.heap 1).fetchStatus = FetchingState.DONE :=
  ⟨msgList_done_iff_mailbox_parentless State.empty none
      { mailbox := "", separator := "", flags := [] }
      { mailbox := "", separator := "", flags := [] } _ (Or.inl rfl),
    by decide⟩

/-- C34: a mailbox constructed from a LIST response as a child of the node `root` has exactly
one child, a fresh message list without messages whose status is `NONE`; the construction
dispatches nothing. -/
theorem listed_mailbox_has_unfetched_list (s : State) (root : Ptr) (response : ListResponse) :
    ((TreeItemMailbox.createFromList s (some root) response).1.heap
      (TreeItemMailbox.createFromList s (some root) response).2).kind = Kind.Mailbox ∧
    ((TreeItemMailbox.createFromList s (some root) response).1.heap
      (TreeItemMailbox.createFromList s (some root) response).2).parent = some root ∧
    ((TreeItemMailbox.createFromList s (some root) response).1.heap
      (TreeItemMailbox.createFromList s (some root) response).2).children = [s.next + 1] ∧
    s.next + 1 < (TreeItemMailbox.createFromList s (some root) response).1.next ∧
    ((TreeItemMailbox.createFromList s (some root) response).1.heap (s.next + 1)).kind
      = Kind.MsgList ∧
    ((TreeItemMailbox.createFromList s (some root) response).1.heap (s.next + 1)).parent
      = some (TreeItemMailbox.createFromList s (some root) response).2 ∧
    ((TreeItemMailbox.createFromList s (some root) response).1.heap (s.next + 1)).children
      = [] ∧
    ((TreeItemMailbox.createFromList s (some root) response).1.heap (s.next + 1)).fetchStatus
      = FetchingState.NONE ∧
    (TreeItemMailbox.createFromList s (some root) response).1.requests = s.requests := by
  simp [TreeItemMailbox.createFromList, TreeItemMsgList.create, TreeItem.init]

/-! ## child and row -/

/-- Inside the bounds `childAt` is the element at the offset, outside it is no node. -/
theorem childAt_in_bounds (l : List Ptr) (offset : Int) :
    (0 ≤ offset ∧ offset < (l.length : Int) →
      ∃ c, l.get? offset.toNat = some c ∧ childAt l offset = some c) ∧
    (¬ (0 ≤ offset ∧ offset < (l.length : Int)) → childAt l offset = none) := by
  refine ⟨fun h => ?_, fun h => ?_⟩
  · have hlt : offset.toNat < l.length := by omega
    refine ⟨l.get ⟨offset.toNat, hlt⟩, List.get?_eq_get hlt, ?_⟩
    unfold childAt
    rw [if_pos h]
    exact List.get?_eq_get hlt
  · unfold childAt
    rw [if_neg h]

/-- C35: `child( offset )` on a node other than a mailbox, and on a mailbox with an offset
other than 0, returns the child stored at the offset when the offset is at least 0 and less
than the number of children, and no node otherwise; it never fails and leaves every child
list as it is.  On a mailbox that has its message list as child 0, `child( 0 )` returns the
message list and changes nothing: no status, no request. -/
theorem child_is_bounds_checked (s : State) (self : Ptr) (offset : Int) :
    ((s.heap self).kind ≠ Kind.Mailbox ∨ offset ≠ 0 →
      (0 ≤ offset ∧ offset < ((s.heap self).children.length : Int) →
        ∃ c, (s.heap self).children.get? offset.toNat = some c ∧
          (child s self offset).2 = Except.ok (some c)) ∧
      (¬ (0 ≤ offset ∧ offset < ((s.heap self).children.length : Int)) →
        (child s self offset).2 = Except.ok none) ∧
      (∀ q, ((child s self offset).1.heap q).children = (s.heap q).children)) ∧
    ((s.heap self).kind = Kind.Mailbox →
      ∀ msgList rest, (s.heap self).children = msgList :: rest →
        child s self 0 = (s, Except.ok (some msgList))) := by
  refine ⟨fun h => ?_, fun hk msgList rest hc => ?_⟩
  · have hres : (child s self offset).2 = Except.ok (childAt (s.heap self).children offset) ∧
        ∀ q, ((child s self offset).1.heap q).children = (s.heap q).children := by
      cases hk : (s.heap self).kind with
      | Mailbox =>
        have ho : offset ≠ 0 := by
          rcases h with h | h
          · exact absurd hk h
          · exact h
        simp [child, hk, TreeItemMailbox.child, ho, TreeItem.child, fetch_children]
      | MsgList => simp [child, hk, TreeItem.child, fetch_children]
      | Message => simp [child, hk, TreeItem.child, fetch_children]
      | Part => simp [child, hk, TreeItemPart.child]
    obtain ⟨h1, h2⟩ := childAt_in_bounds (s.heap self).children offset
    refine ⟨fun hb => ?_, fun hb => ?_, hres.2⟩
    · obtain ⟨c, hc1, hc2⟩ := h1 hb
      exact ⟨c, hc1, by rw [hres.1, hc2]⟩
    · rw [hres.1, h2 hb]
  · simp [child, hk, TreeItemMailbox.child, hc]

theorem child_is_bounds_checked_witness :
    ((Example.structured.heap 7).kind ≠ Kind.Mailbox ∨ (1 : Int) ≠ 0) ∧
    (∃ c, (Example.structured.heap 7).children.get? (1 : Int).toNat = some c ∧
      (child Example.structured 7 1).2 = Except.ok (some c)) ∧
    (child Example.structured 7 1).2 = Except.ok (some 9) ∧
    (child Example.structured 7 2).2 = Except.ok none ∧
    (child Example.structured 7 (-1)).2 = Except.ok none ∧
    (Example.synced.heap 2).kind = Kind.Mailbox ∧
    (Example.synced.heap 2).children = 3 :: [] ∧
    child Example.synced 2 0 = (Example.synced, Except.ok (some 3)) :=
  ⟨Or.inl (by decide),
    ((child_is_bounds_checked Example.structured 7 1).1 (Or.inl (by decide))).1
      (by decide),
    by decide,
    ((child_is_bounds_checked Example.structured 7 2).1 (Or.inl (by decide))).2.1
      (by decide),
    ((child_is_bounds_checked Example.structured 7 (-1)).1 (Or.inl (by decide))).2.1
      (by decide),
    by decide, by decide,
    (child_is_bounds_checked Example.synced 2 0).2 (by decide) 3 [] (by decide)⟩

/-- C36: `row()` of a node without a parent is 0; and when the children of a node p are
pairwise distinct, the child at a valid index i of p, whose parent pointer is p, reports
`row()` = i. -/
theorem row_is_position (s : State) :
    (∀ self : Ptr, (s.heap self).parent = none → TreeItem.row s self = 0) ∧
    (∀ (p c : Ptr) (i : Nat), (s.heap p).children.Nodup →
      (s.heap p).children.get? i = some c → (s.heap c).parent = some p →
      TreeItem.row s c = (i : Int)) := by
  refine ⟨fun self h => ?_, fun p c i hnd hi hp => ?_⟩
  · simp [TreeItem.row, h]
  · simp only [TreeItem.row, hp]
    exact indexOf_of_first c _ i hi (first_of_nodup _ hnd i c hi)

theorem row_is_position_witness :
    (Example.structured.heap 0).parent = none ∧ TreeItem.row Example.structured 0 = 0 ∧
    (Example.structured.heap 7).children.Nodup ∧
    (Example.structured.heap 7).children.get? 1 = some 9 ∧
    (Example.structured.heap 9).parent = some 7 ∧
    TreeItem.row Example.structured 9 = ((1 : Nat) : Int) :=
  ⟨by decide, (row_is_position Example.structured).1 0 (by decide), by decide, by decide,
    by decide,
    (row_is_position Example.structured).2 7 9 1 (by decide) (by decide) (by decide)⟩

/-! ## The status of a part at construction -/

/-- The status that the constructor of a part leaves: `DONE` for a top-level multipart,
`NONE` otherwise; the new part is at the frontier with its type in lower case. -/
theorem TreeItemPart.create_status (s : State) (parent : Option Ptr) (mimeType : String) :
    (TreeItemPart.create s parent mimeType).2 = s.next ∧
    (TreeItemPart.create s parent mimeType).1.next = s.next + 1 ∧
    ((TreeItemPart.create s parent mimeType).1.heap s.next).kind = Kind.Part ∧
    ((TreeItemPart.create s parent mimeType).1.heap s.next).parent = parent ∧
    ((TreeItemPart.create s parent mimeType).1.heap s.next).mimeType = toLower mimeType ∧
    ((TreeItemPart.create s parent mimeType).1.heap s.next).fetchStatus =
      (if isTopLevelMultiPartOf s
          { TreeItem.init Kind.Part parent with mimeType := toLower mimeType } = true
        then FetchingState.DONE else FetchingState.NONE) ∧
    (∀ q, q ≠ s.next → (TreeItemPart.create s parent mimeType).1.heap q = s.heap q) := by
  unfold TreeItemPart.create
  by_cases h : isTopLevelMultiPartOf s
      { TreeItem.init Kind.Part parent with mimeType := toLower mimeType } = true
  · simp only [h, if_true]
    exact ⟨rfl, rfl, by simp [TreeItem.init], by simp [TreeItem.init], by simp, by simp,
      fun q hq => by simp [hq]⟩
  · simp only [h, if_false]
    exact ⟨rfl, rfl, by simp [TreeItem.init], by simp [TreeItem.init], by simp,
      by simp [TreeItem.init], fun q hq => by simp [hq]⟩

/-- The test `isTopLevelMultiPart` of the constructor, spelled out. -/
theorem isTopLevelMultiPartOf_init (s : State) (parent : Option Ptr) (lower : String) :
    isTopLevelMultiPartOf s { TreeItem.init Kind.Part parent with mimeType := lower } = true ↔
      (startsWith lower "multipart/" = true ∧
        ∃ q, parent = some q ∧
          ((s.heap q).kind = Kind.Message ∨
            ((s.heap q).kind = Kind.Part ∧
              startsWith (s.heap q).mimeType "message/" = true))) := by
  cases parent with
  | none => simp [isTopLevelMultiPartOf, dynamicCast, TreeItem.init]
  | some q =>
    cases hk : (s.heap q).kind <;>
      simp [isTopLevelMultiPartOf, dynamicCast, TreeItem.init, hk]

/-- C32: the constructor of a part stores the MIME type in lower case and leaves the status
`DONE` exactly when the part is a top-level multipart: its lower-cased type begins with
`multipart/` and its parent is a message, or a part whose stored type begins with
`message/` (for a parent built by the same constructor: whose lower-cased type does).
Otherwise the status is `NONE`.  A part born `DONE` is `DONE` after every run of the
operations of the tree, `setChildren` on it included, and `fetch` on it changes nothing: no
request for its body is dispatched. -/
theorem part_born_done_iff_topLevelMultiPart (s : State) (parent : Option Ptr)
    (mimeType : String) :
    (((TreeItemPart.create s parent mimeType).1.heap
        (TreeItemPart.create s parent mimeType).2).fetchStatus = FetchingState.DONE ↔
      (startsWith (toLower mimeType) "multipart/" = true ∧
        ∃ q, parent = some q ∧
          ((s.heap q).kind = Kind.Message ∨
            ((s.heap q).kind = Kind.Part ∧
              startsWith (s.heap q).mimeType "message/" = true)))) ∧
    (((TreeItemPart.create s parent mimeType).1.heap
        (TreeItemPart.create s parent mimeType).2).fetchStatus ≠ FetchingState.DONE →
      ((TreeItemPart.create s parent mimeType).1.heap
        (TreeItemPart.create s parent mimeType).2).fetchStatus = FetchingState.NONE) ∧
    ((∀ q, parent = some q → q < s.next) →
      (TreeItemPart.isTopLevelMultiPart (TreeItemPart.create s parent mimeType).1
          (TreeItemPart.create s parent mimeType).2 = true ↔
        ((TreeItemPart.create s parent mimeType).1.heap
          (TreeItemPart.create s parent mimeType).2).fetchStatus = FetchingState.DONE)) ∧
    (∀ (grandparent : Option Ptr) (parentType : String),
      ((TreeItemPart.create (TreeItemPart.create s grandparent parentType).1
          (some (TreeItemPart.create s grandparent parentType).2) mimeType).1.heap
        (TreeItemPart.create (TreeItemPart.create s grandparent parentType).1
          (some (TreeItemPart.create s grandparent parentType).2) mimeType).2).fetchStatus
          = FetchingState.DONE ↔
        (startsWith (toLower mimeType) "multipart/" = true ∧
          startsWith (toLower parentType) "message/" = true)) ∧
    (((TreeItemPart.create s parent mimeType).1.heap
        (TreeItemPart.create s parent mimeType).2).fetchStatus = FetchingState.DONE →
      ∀ t, FetchCycle (TreeItemPart.create s parent mimeType).1 t →
        (t.heap (TreeItemPart.create s parent mimeType).2).fetchStatus = FetchingState.DONE ∧
        fetch t (TreeItemPart.create s parent mimeType).2 = t ∧
        (∀ items,
          ((setChildren t (TreeItemPart.create s parent mimeType).2 items).1.heap
            (TreeItemPart.create s parent mimeType).2).fetchStatus = FetchingState.DONE ∧
          fetch (setChildren t (TreeItemPart.create s parent mimeType).2 items).1
            (TreeItemPart.create s parent mimeType).2 =
            (setChildren t (TreeItemPart.create s parent mimeType).2 items).1)) := by
  obtain ⟨h1, h2, h3, h4, h5, h6, h7⟩ := TreeItemPart.create_status s parent mimeType
  have hiff := isTopLevelMultiPartOf_init s parent (toLower mimeType)
  rw [h1]
  have hdone_of_rank : ∀ (a b : State) (p : Nat), StatusNotBackwards a b → p < a.next →
      (a.heap p).fetchStatus = FetchingState.DONE →
      (b.heap p).fetchStatus = FetchingState.DONE := by
    intro a b p hnb hp hd
    have := hnb.2 p hp
    rw [hd] at this
    cases hb : (b.heap p).fetchStatus
    · rw [hb] at this; revert this; decide
    · rw [hb] at this; revert this; decide
    · rfl
  refine ⟨?_, ?_, ?_, ?_, ?_⟩
  · rw [h6, ← hiff]
    split <;> simp_all
  · rw [h6]
    split <;> simp
  · intro hlt
    rw [h6]
    have hsame : TreeItemPart.isTopLevelMultiPart (TreeItemPart.create s parent mimeType).1
        s.next = isTopLevelMultiPartOf s
          { TreeItem.init Kind.Part parent with mimeType := toLower mimeType } := by
      cases parent with
      | none =>
        simp [TreeItemPart.isTopLevelMultiPart, isTopLevelMultiPartOf, dynamicCast, h4, h5,
          TreeItem.init]
      | some q =>
        have hq : q ≠ s.next := Nat.ne_of_lt (hlt q rfl)
        cases hk : (s.heap q).kind <;>
          simp [TreeItemPart.isTopLevelMultiPart, isTopLevelMultiPartOf, dynamicCast, h4, h5,
            TreeItem.init, h7 q hq, hk]
    rw [hsame]
    split <;> simp_all
  · intro grandparent parentType
    obtain ⟨g1, g2, g3, _, g5, _, _⟩ := TreeItemPart.create_status s grandparent parentType
    obtain ⟨k1, _, _, _, _, k6, _⟩ := TreeItemPart.create_status
      (TreeItemPart.create s grandparent parentType).1
      (some (TreeItemPart.create s grandparent parentType).2) mimeType
    rw [k1, k6]
    have hi := isTopLevelMultiPartOf_init (TreeItemPart.create s grandparent parentType).1
      (some (TreeItemPart.create s grandparent parentType).2) (toLower mimeType)
    rw [g1] at hi ⊢
    have hd : (if isTopLevelMultiPartOf (TreeItemPart.create s grandparent parentType).1
          { TreeItem.init Kind.Part (some s.next) with mimeType := toLower mimeType } = true
        then FetchingState.DONE else FetchingState.NONE) = FetchingState.DONE ↔
        isTopLevelMultiPartOf (TreeItemPart.create s grandparent parentType).1
          { TreeItem.init Kind.Part (some s.next) with mimeType := toLower mimeType }
          = true := by
      split <;> simp_all
    rw [hd, hi]
    simp [g3, g5]
  · intro hd t hcycle
    have hp : s.next < (TreeItemPart.create s parent mimeType).1.next := by rw [h2]; omega
    have ht : (t.heap s.next).fetchStatus = FetchingState.DONE :=
      hdone_of_rank _ t s.next (FetchCycle.notBackwards hcycle) hp hd
    have hpt : s.next < t.next := lt_of_lt_of_le hp (FetchCycle.notBackwards hcycle).1
    refine ⟨ht, fetch_of_not_none t s.next (by rw [ht]; decide), fun items => ?_⟩
    have hs : ((setChildren t s.next items).1.heap s.next).fetchStatus = FetchingState.DONE :=
      hdone_of_rank t _ s.next (StatusNotBackwards.of_setChildren t s.next items) hpt ht
    exact ⟨hs, fetch_of_not_none _ s.next (by rw [hs]; decide)⟩

theorem part_born_done_iff_topLevelMultiPart_witness :
    (∀ q, some 4 = some q → q < Example.synced.next) ∧
    ((TreeItemPart.create Example.synced (some 4) "Multipart/Mixed").1.heap 7).fetchStatus
      = FetchingState.DONE ∧
    TreeItemPart.isTopLevelMultiPart
      (TreeItemPart.create Example.synced (some 4) "Multipart/Mixed").1
      (TreeItemPart.create Example.synced (some 4) "Multipart/Mixed").2 = true ∧
    ((TreeItemPart.create Example.synced (some 4) "text/plain").1.heap
      (TreeItemPart.create Example.synced (some 4) "text/plain").2).fetchStatus
      = FetchingState.NONE ∧
    fetch (setChildren (TreeItemPart.create Example.synced (some 4) "Multipart/Mixed").1
        (TreeItemPart.create Example.synced (some 4) "Multipart/Mixed").2 []).1
        (TreeItemPart.create Example.synced (some 4) "Multipart/Mixed").2 =
      (setChildren (TreeItemPart.create Example.synced (some 4) "Multipart/Mixed").1
        (TreeItemPart.create Example.synced (some 4) "Multipart/Mixed").2 []).1 :=
  ⟨by intro q h; cases h; decide,
    by decide,
    ((part_born_done_iff_topLevelMultiPart Example.synced (some 4) "Multipart/Mixed").2.2.1
      (by intro q h; cases h; decide)).2 (by decide),
    (part_born_done_iff_topLevelMultiPart Example.synced (some 4) "text/plain").2.1
      (by decide),
    ((((part_born_done_iff_topLevelMultiPart Example.synced (some 4)
      "Multipart/Mixed").2.2.2.2 (by decide)) _ (FetchCycle.done _)).2.2 []).2⟩

/-! ## The path of a part and the way back -/

/-- The numeral of a natural number is a non-empty run of digits. -/
theorem number_all_digits (n : Nat) :
    (number (n : Int)).data ≠ [] ∧ (number (n : Int)).data.all Char.isDigit = true := by
  rw [number_data, Nat.toDigits]
  obtain ⟨front, h1, h2, h3, _⟩ := toDigitsCore_spec (n + 1) n [] (by omega)
  rw [List.append_nil] at h1
  rw [h1]
  exact ⟨h2, h3⟩

theorem number_no_slash (n : Nat) : '/' ∉ (number (n : Int)).data := by
  intro hmem
  have := List.all_eq_true.mp (number_all_digits n).2 '/' hmem
  revert this
  decide

theorem splitChars_of_absent (sep : Char) (seg : List Char) (h : sep ∉ seg) :
    splitChars sep seg = [seg] := by
  induction seg with
  | nil => rfl
  | cons c cs ih =>
    have hc : c ≠ sep := fun e => h (by rw [e]; exact List.mem_cons_self _ _)
    have := ih (fun e => h (List.mem_cons_of_mem _ e))
    rw [splitChars, if_neg hc, this]

theorem splitChars_append_at (sep : Char) (seg rest : List Char) (h : sep ∉ seg) :
    splitChars sep (seg ++ sep :: rest) = seg :: splitChars sep rest := by
  induction seg with
  | nil => simp [splitChars]
  | cons c cs ih =>
    have hc : c ≠ sep := fun e => h (by rw [e]; exact List.mem_cons_self _ _)
    have := ih (fun e => h (List.mem_cons_of_mem _ e))
    rw [List.cons_append, splitChars, if_neg hc, this]

theorem splitChars_seg_pathOfRows (rows : List Nat) : ∀ seg : List Char, '/' ∉ seg →
    splitChars '/' (seg ++ pathOfRows rows) =
      seg :: rows.map (fun (i : Nat) => (number (i : Int)).data) := by
  induction rows with
  | nil =>
    intro seg h
    simp only [pathOfRows, List.append_nil, List.map_nil]
    exact splitChars_of_absent '/' seg h
  | cons i rows ih =>
    intro seg h
    rw [pathOfRows, splitChars_append_at '/' seg _ h, ih _ (number_no_slash i)]
    rfl

/-- Splitting the path at the slashes, empty items dropped, gives the numerals back. -/
theorem splitSkipEmptyParts_pathOfRows (rows : List Nat) :
    splitSkipEmptyParts '/' (pathOfRows rows) =
      rows.map (fun (i : Nat) => (number (i : Int)).data) := by
  unfold splitSkipEmptyParts
  have h := splitChars_seg_pathOfRows rows [] (by simp)
  rw [List.nil_append] at h
  rw [h]
  simp only [List.filter_cons, List.isEmpty_nil, Bool.not_true, Bool.false_eq_true, if_false]
  rw [List.filter_eq_self]
  intro seg hseg
  simp only [List.mem_map] at hseg
  obtain ⟨i, _, rfl⟩ := hseg
  have := (number_all_digits i).1
  cases hd : (number (i : Int)).data with
  | nil => exact absurd hd this
  | cons c cs => rfl

/-- One step of the loop of `pathToPart` over a numeral: on a message or a part, the numeral
of k moves the target to the child at position k (counted from 0). -/
theorem pathToPartLoop_step (special : State → Ptr → SpecialColumn → Option Ptr)
    (t : State) (node : Ptr) (k : Nat) (rest : List (List Char)) (ok : Bool) (c : Ptr)
    (hkind : (t.heap node).kind = Kind.Message ∨ (t.heap node).kind = Kind.Part)
    (hlen : (t.heap node).children.length < 2147483648)
    (hc : (t.heap node).children.get? k = some c) :
    pathToPartLoop special ((number (k : Int)).data :: rest) t (some node) ok =
      pathToPartLoop special rest (childrenCount t node).1 (some c) true := by
  have hk : k < (t.heap node).children.length := (List.get?_eq_some.mp hc).1
  have hcount : childrenCount t node =
      ((childrenCount t node).1, (t.heap node).children.length) := by
    rcases hkind with h | h
    · simp [childrenCount, h, TreeItem.childrenCount, fetch_children]
    · simp [childrenCount, h, TreeItemPart.childrenCount]
  have hchild : child (childrenCount t node).1 node (uintToInt k) =
      ((childrenCount t node).1, Except.ok (some c)) := by
    have hat : childAt (t.heap node).children (uintToInt k) = some c := by
      rw [uintToInt_of_small k (by omega), childAt_natCast _ _ hk]
      exact hc
    rcases hkind with h | h
    · have h1 : (childrenCount t node).1 = fetch t node := by
        simp [childrenCount, h, TreeItem.childrenCount]
      have hk1 : ((fetch t node).heap node).kind = Kind.Message := by
        rw [(fetch_fetchOnly t node).kind]; exact h
      rw [h1, child_of_message _ _ _ hk1, fetch_fetch, fetch_children, hat]
    · have h1 : (childrenCount t node).1 = t := by
        simp [childrenCount, h, TreeItemPart.childrenCount]
      rw [h1, child_of_part _ _ _ h, hat]
  rw [pathToPartLoop, (toUInt_number k (by omega)).1]
  simp only
  rw [hcount]
  simp only
  rw [if_neg (by omega), hchild]

/-- In a MIME tree the child at position i of a message or part is an allocated part whose
parent pointer leads back and whose row is i. -/
theorem mimeTree_child_at {s : State} (hmt : MimeTree s) (q : Nat) (i : Nat) (p : Ptr)
    (hq : q < s.next)
    (hkq : (s.heap q).kind = Kind.Message ∨ (s.heap q).kind = Kind.Part)
    (hi : (s.heap q).children.get? i = some p) :
    p < s.next ∧ (s.heap p).kind = Kind.Part ∧ (s.heap p).parent = some q ∧
      TreeItem.row s p = (i : Int) ∧ i < 2147483648 := by
  obtain ⟨hnd, hlen, hch⟩ := hmt q hq hkq
  obtain ⟨h1, h2, h3⟩ := hch p (List.get?_mem hi)
  refine ⟨h1, h2, h3, ?_, ?_⟩
  · simp only [TreeItem.row, h3]
    exact indexOf_of_first p _ i hi (first_of_nodup _ hnd i p hi)
  · have := (List.get?_eq_some.mp hi).1
    omega

/-- In a MIME tree, what the positions lead to is an allocated part. -/
theorem RowsTo.typed {s : State} (hmt : MimeTree s) {message : Nat} (hlt : message < s.next)
    (hk : (s.heap message).kind = Kind.Message) {p : Ptr} {rows : List Nat}
    (h : RowsTo s message p rows) :
    p < s.next ∧ (s.heap p).kind = Kind.Part := by
  induction h with
  | direct p i hi =>
    obtain ⟨h1, h2, _⟩ := mimeTree_child_at hmt message i p hlt (Or.inl hk) hi
    exact ⟨h1, h2⟩
  | inside q p rows i _ hi ih =>
    obtain ⟨h1, h2, _⟩ := mimeTree_child_at hmt q i p ih.1 (Or.inr ih.2) hi
    exact ⟨h1, h2⟩

/-- Every part of the tree of a message is reached by some positions. -/
theorem RowsTo.of_inMessage {s : State} {message p : Ptr} (h : InMessage s message p) :
    ∃ rows, RowsTo s message p rows := by
  induction h with
  | direct p hp =>
    obtain ⟨i, hi⟩ := List.get?_of_mem hp
    exact ⟨[i], RowsTo.direct p i hi⟩
  | inside q p _ hp ih =>
    obtain ⟨rows, hr⟩ := ih
    obtain ⟨i, hi⟩ := List.get?_of_mem hp
    exact ⟨rows ++ [i], RowsTo.inside q p rows i hr hi⟩

theorem pathOfRows_snoc (rows : List Nat) (i : Nat) :
    pathOfRows (rows ++ [i]) = pathOfRows rows ++ '/' :: (number (i : Int)).data := by
  induction rows with
  | nil => simp [pathOfRows]
  | cons j rows ih => simp [pathOfRows, ih]

theorem pathOfRows_append (rows : List Nat) (i : Nat) :
    String.mk (pathOfRows (rows ++ [i])) =
      String.mk (pathOfRows rows) ++ "/" ++ number (i : Int) := by
  apply String.ext
  simp only [String.data_append, pathOfRows_snoc]
  simp

/-- In a MIME tree, with enough fuel, `TreeItemPart::pathToPart` of a part spells the
positions that lead from the message to it. -/
theorem pathToPart_of_rows {s : State} (hmt : MimeTree s) {message : Nat}
    (hlt : message < s.next) (hk : (s.heap message).kind = Kind.Message) {p : Ptr}
    {rows : List Nat} (h : RowsTo s message p rows) :
    ∀ fuel, rows.length ≤ fuel →
      TreeItemPart.pathToPart s fuel p = some (Except.ok (String.mk (pathOfRows rows))) := by
  induction h with
  | direct p i hi =>
    intro fuel hf
    obtain ⟨f, rfl⟩ : ∃ f, fuel = f + 1 := ⟨fuel - 1, by simp at hf; omega⟩
    obtain ⟨_, _, hpar, hrow, _⟩ := mimeTree_child_at hmt message i p hlt (Or.inl hk) hi
    rw [TreeItemPart.pathToPart]
    simp only [hpar, dynamicCast_some, hk, hrow]
    simp only [reduceCtorEq, if_false, if_true]
    congr 2
    apply String.ext
    simp [pathOfRows]
  | inside q p rows i hq hi ih =>
    intro fuel hf
    obtain ⟨f, rfl⟩ : ∃ f, fuel = f + 1 := ⟨fuel - 1, by simp at hf; omega⟩
    obtain ⟨hq1, hq2⟩ := RowsTo.typed hmt hlt hk hq
    obtain ⟨_, _, hpar, hrow, _⟩ := mimeTree_child_at hmt q i p hq1 (Or.inr hq2) hi
    rw [TreeItemPart.pathToPart]
    simp only [hpar, dynamicCast_some, hq2, if_true]
    rw [ih f (by simp at hf; omega)]
    simp only [hrow]
    rw [pathOfRows_append]

/-- In a MIME tree the loop of `pathToPart`, started at the message, walks over the numerals
of the positions to the part they lead to; the message has been fetched on the way. -/
theorem pathToPartLoop_of_rows (special : State → Ptr → SpecialColumn → Option Ptr)
    {s : State} (hmt : MimeTree s) {message : Nat} (hlt : message < s.next)
    (hk : (s.heap message).kind = Kind.Message) {p : Ptr} {rows : List Nat}
    (h : RowsTo s message p rows) :
    ∀ (rest : List (List Char)) (ok : Bool),
      pathToPartLoop special (rows.map (fun (i : Nat) => (number (i : Int)).data) ++ rest) s
        (some message) ok =
      pathToPartLoop special rest (fetch s message) (some p) true := by
  have hfo := fetch_fetchOnly s message
  induction h with
  | direct p i hi =>
    intro rest ok
    obtain ⟨_, hlen, _⟩ := hmt message hlt (Or.inl hk)
    simp only [List.map_cons, List.map_nil, List.cons_append, List.nil_append]
    have h1 : (childrenCount s message).1 = fetch s message := by
      simp [childrenCount, hk, TreeItem.childrenCount]
    rw [pathToPartLoop_step special s message i rest ok p (Or.inl hk) hlen hi, h1]
  | inside q p rows i hq hi ih =>
    intro rest ok
    obtain ⟨hq1, hq2⟩ := RowsTo.typed hmt hlt hk hq
    obtain ⟨_, hlen, _⟩ := hmt q hq1 (Or.inr hq2)
    simp only [List.map_append, List.map_cons, List.map_nil, List.append_assoc,
      List.cons_append, List.nil_append]
    rw [ih ((number (i : Int)).data :: rest) ok]
    have hkq : ((fetch s message).heap q).kind = Kind.Part := by rw [hfo.kind]; exact hq2
    have h1 : (childrenCount (fetch s message) q).1 = fetch s message := by
      simp [childrenCount, hkq, TreeItemPart.childrenCount]
    rw [pathToPartLoop_step special (fetch s message) q i rest true p (Or.inr hkq)
      (by rw [hfo.children]; exact hlen) (by rw [hfo.children]; exact hi), h1]

/-- In a MIME tree the view's `pathToPart`, applied to the path that spells the positions of
a part of the current message, returns that part. -/
theorem pathToPart_of_rows_back (special : State → Ptr → SpecialColumn → Option Ptr)
    (self : MsgPartNetAccessManager) {s : State} (hmt : MimeTree s) {message : Nat}
    (hlt : message < s.next) (hk : (s.heap message).kind = Kind.Message)
    (hself : self.message = some message) {p : Ptr} {rows : List Nat}
    (h : RowsTo s message p rows) :
    MsgPartNetAccessManager.pathToPart special self s (String.mk (pathOfRows rows)) =
      (fetch s message, Except.ok (some p)) := by
  have hp := RowsTo.typed hmt hlt hk h
  have hloop := pathToPartLoop_of_rows special hmt hlt hk h []
    (!(rows.map (fun (i : Nat) => (number (i : Int)).data)).isEmpty)
  rw [List.append_nil] at hloop
  unfold MsgPartNetAccessManager.pathToPart
  simp only [splitSkipEmptyParts_pathOfRows, hself, hloop, pathToPartLoop]
  have hkp : ((fetch s message).heap p).kind = Kind.Part := by
    rw [(fetch_fetchOnly s message).kind]; exact hp.2
  simp [dynamicCast_some, hkp]

/-- C31, counterexample: in the state `structured` message 4 has the single child 7, whose
children are 8 and 9.  The path of part 9, the second child of the first child, is `/0/1`,
and `/0/1` resolves to part 9; the path `/1/2`, which names part 9 when the segments are
counted from 1, resolves to no part. -/
theorem path_segments_count_from_zero :
    (Example.structured.heap 4).children = [7] ∧
    (Example.structured.heap 7).children = [8, 9] ∧
    TreeItemPart.pathToPart Example.structured 2 9 = some (Except.ok "/0/1") ∧
    (MsgPartNetAccessManager.pathToPart Example.noSpecial Example.viewer Example.structured
      "/0/1").2 = Except.ok (some 9) ∧
    (MsgPartNetAccessManager.pathToPart Example.noSpecial Example.viewer Example.structured
      "/1/2").2 = Except.ok none := by
  and_intros <;> decide

/-- C31, amended: the integer segments of the path are indices counted from 0.  For the
child c at index k of a node (children pairwise distinct, the parent pointer of c leading
back), `TreeItemPart::pathToPart` of c is `/k` below a message and the path of the parent
followed by `/k` below a part; and the loop of the view's `pathToPart`, standing at a message
or a part, moves over the segment k to the child at index k. -/
theorem path_segments_are_indices_from_zero
    (special : State → Ptr → SpecialColumn → Option Ptr) (s : State) (node c : Ptr) (k : Nat)
    (hnd : (s.heap node).children.Nodup)
    (hlen : (s.heap node).children.length < 2147483648)
    (hc : (s.heap node).children.get? k = some c)
    (hpar : (s.heap c).parent = some node) :
    ((s.heap node).kind = Kind.Message →
      ∀ fuel, TreeItemPart.pathToPart s (fuel + 1) c =
        some (Except.ok ("/" ++ number (k : Int)))) ∧
    ((s.heap node).kind = Kind.Part →
      ∀ fuel path, TreeItemPart.pathToPart s fuel node = some (Except.ok path) →
        TreeItemPart.pathToPart s (fuel + 1) c =
          some (Except.ok (path ++ "/" ++ number (k : Int)))) ∧
    ((s.heap node).kind = Kind.Message ∨ (s.heap node).kind = Kind.Part →
      ∀ (rest : List (List Char)) (ok : Bool),
        pathToPartLoop special ((number (k : Int)).data :: rest) s (some node) ok =
          pathToPartLoop special rest (childrenCount s node).1 (some c) true) := by
  have hrow : TreeItem.row s c = (k : Int) := by
    simp only [TreeItem.row, hpar]
    exact indexOf_of_first c _ k hc (first_of_nodup _ hnd k c hc)
  refine ⟨fun hk fuel => ?_, fun hk fuel path hp => ?_, fun hk rest ok => ?_⟩
  · rw [TreeItemPart.pathToPart]
    simp only [hpar, dynamicCast_some, hk, hrow]
    simp only [reduceCtorEq, if_false, if_true]
  · rw [TreeItemPart.pathToPart]
    simp only [hpar, dynamicCast_some, hk, if_true, hp, hrow]
  · exact pathToPartLoop_step special s node k rest ok c hk hlen hc

theorem path_segments_are_indices_from_zero_witness :
    (Example.structured.heap 7).children.Nodup ∧
    (Example.structured.heap 7).children.get? 1 = some 9 ∧
    (Example.structured.heap 9).parent = some 7 ∧
    (Example.structured.heap 7).kind = Kind.Part ∧
    TreeItemPart.pathToPart Example.structured 1 7 = some (Except.ok "/0") ∧
    TreeItemPart.pathToPart Example.structured (1 + 1) 9 =
      some (Except.ok ("/0" ++ "/" ++ number ((1 : Nat) : Int))) ∧
    pathToPartLoop Example.noSpecial ((number ((1 : Nat) : Int)).data :: [])
        Example.structured (some 7) false =
      pathToPartLoop Example.noSpecial [] (childrenCount Example.structured 7).1 (some 9)
        true :=
  ⟨by decide, by decide, by decide, by decide, by decide,
    (path_segments_are_indices_from_zero Example.noSpecial Example.structured 7 9 1
      (by decide) (by decide) (by decide) (by decide)).2.1 (by decide) 1 "/0" (by decide),
    (path_segments_are_indices_from_zero Example.noSpecial Example.structured 7 9 1
      (by decide) (by decide) (by decide) (by decide)).2.2 (Or.inr (by decide)) [] false⟩

/-- C38: in a MIME tree (the children of every message and part are pairwise distinct parts
whose parent pointers lead back), for every part p of the tree of a message,
`TreeItemPart::pathToPart` of p returns a path, with enough fuel, and the view's
`pathToPart`, with that message as the current message, applied to this path returns p; on
the way the message has been fetched and nothing else has changed. -/
theorem pathToPart_round_trip (special : State → Ptr → SpecialColumn → Option Ptr)
    (self : MsgPartNetAccessManager) (s : State) (message p : Nat)
    (hmt : MimeTree s) (hlt : message < s.next)
    (hk : (s.heap message).kind = Kind.Message)
    (hself : self.message = some message) (hin : InMessage s message p) :
    ∃ (F : Nat) (path : String),
      (∀ fuel, F ≤ fuel → TreeItemPart.pathToPart s fuel p = some (Except.ok path)) ∧
      MsgPartNetAccessManager.pathToPart special self s path =
        (fetch s message, Except.ok (some p)) := by
  obtain ⟨rows, hr⟩ := RowsTo.of_inMessage hin
  exact ⟨rows.length, String.mk (pathOfRows rows), pathToPart_of_rows hmt hlt hk hr,
    pathToPart_of_rows_back special self hmt hlt hk hself hr⟩

theorem pathToPart_round_trip_witness :
    MimeTree Example.structured ∧ 4 < Example.structured.next ∧
    (Example.structured.heap 4).kind = Kind.Message ∧
    Example.viewer.message = some 4 ∧ InMessage Example.structured 4 9 ∧
    TreeItemPart.pathToPart Example.structured 2 9 = some (Except.ok "/0/1") ∧
    (MsgPartNetAccessManager.pathToPart Example.noSpecial Example.viewer Example.structured
      "/0/1").2 = Except.ok (some 9) ∧
    ∃ (F : Nat) (path : String),
      (∀ fuel, F ≤ fuel →
        TreeItemPart.pathToPart Example.structured fuel 9 = some (Except.ok path)) ∧
      MsgPartNetAccessManager.pathToPart Example.noSpecial Example.viewer
        Example.structured path = (fetch Example.structured 4, Except.ok (some 9)) :=
  ⟨by unfold MimeTree; decide, by decide, by decide, by decide,
    InMessage.inside 7 9 (InMessage.direct 7 (by decide)) (by decide), by decide, by decide,
    pathToPart_round_trip Example.noSpecial Example.viewer Example.structured 4 9
      (by unfold MimeTree; decide) (by decide) (by decide) (by decide)
      (InMessage.inside 7 9 (InMessage.direct 7 (by decide)) (by decide))⟩

/-! ## The search of cidToPart on a finite tree -/

theorem shallow_succ (s : State) (d : Nat) :
    ∀ p, shallow s d p = true → shallow s (d + 1) p = true := by
  induction d with
  | zero =>
    intro p h
    have hnil : (s.heap p).children = [] := by simpa [shallow] using h
    simp [shallow, hnil]
  | succ d ih =>
    intro p h
    have h1 : (s.heap p).children.all (fun c => shallow s d c) = true := h
    show (s.heap p).children.all (fun c => shallow s (d + 1) c) = true
    rw [List.all_eq_true] at h1 ⊢
    exact fun c hc => ih c (h1 c hc)

theorem shallow_mono (s : State) (p : Ptr) (d e : Nat) (hde : d ≤ e)
    (h : shallow s d p = true) : shallow s e p = true := by
  induction hde with
  | refl => exact h
  | step _ ih => exact shallow_succ s _ p ih

/-- A tree of bounded depth is finite. -/
theorem FiniteBelow.of_shallow (s : State) (d : Nat) :
    ∀ p, shallow s d p = true → FiniteBelow s p := by
  induction d with
  | zero =>
    intro p h
    have hnil : (s.heap p).children = [] := by simpa [shallow] using h
    exact FiniteBelow.node p (fun c hc => by rw [hnil] at hc; cases hc)
  | succ d ih =>
    intro p h
    simp only [shallow, List.all_eq_true] at h
    exact FiniteBelow.node p (fun c hc => ih c (h c hc))

/-- A finite tree has a depth. -/
theorem FiniteBelow.depth {s : State} {p : Ptr} (h : FiniteBelow s p) :
    ∃ d, shallow s d p = true := by
  induction h with
  | node p _ ih =>
    have bound : ∀ l : List Ptr, (∀ c, c ∈ l → ∃ d, shallow s d c = true) →
        ∃ D, ∀ c, c ∈ l → shallow s D c = true := by
      intro l
      induction l with
      | nil => intro _; exact ⟨0, fun c hc => by cases hc⟩
      | cons x xs ihl =>
        intro hx
        obtain ⟨D, hD⟩ := ihl (fun c hc => hx c (List.mem_cons_of_mem _ hc))
        obtain ⟨dx, hdx⟩ := hx x (List.mem_cons_self _ _)
        refine ⟨max D dx, fun c hc => ?_⟩
        rcases List.mem_cons.mp hc with rfl | hc
        · exact shallow_mono s c dx _ (le_max_right _ _) hdx
        · exact shallow_mono s c D _ (le_max_left _ _) (hD c hc)
    obtain ⟨D, hD⟩ := bound (s.heap p).children ih
    refine ⟨D + 1, ?_⟩
    simp only [shallow, List.all_eq_true]
    exact hD

/-- C37: on a finite MIME tree below `root`, a message or a part, `cidToPart` terminates:
with enough fuel it returns a result, and the result is the first node, in the depth-first
pre-order of the tree below `root`, whose body field id is `cid`; the pre-order lists
exactly the parts of that tree, so no part is returned exactly when no part of the tree has
that id.  Nothing has changed but that a message `root` has been fetched. -/
theorem cidToPart_finds_first_or_nothing (cid : QByteArray) (s : State) (root : Nat)
    (hmt : MimeTree s) (hlt : root < s.next)
    (hk : (s.heap root).kind = Kind.Message ∨ (s.heap root).kind = Kind.Part)
    (hfin : FiniteBelow s root) :
    ∃ (d F : Nat),
      (∀ q, q ∈ preorder s d root ↔ InMessage s root q) ∧
      (∀ fuel, F ≤ fuel →
        MsgPartNetAccessManager.cidToPart cid fuel s root =
          some ((childrenCount s root).1, Except.ok ((preorder s d root).find?
            (fun q => decide ((s.heap q).bodyFldId.data = cid))))) ∧
      ((preorder s d root).find? (fun q => decide ((s.heap q).bodyFldId.data = cid)) = none ↔
        ∀ q, InMessage s root q → (s.heap q).bodyFldId.data ≠ cid) ∧
      (∀ p, (preorder s d root).find?
          (fun q => decide ((s.heap q).bodyFldId.data = cid)) = some p →
        InMessage s root p ∧ (s.heap p).bodyFldId.data = cid ∧
        ∃ before after, preorder s d root = before ++ p :: after ∧
          ∀ q, q ∈ before → (s.heap q).bodyFldId.data ≠ cid) := by
  obtain ⟨d, hsh⟩ := hfin.depth
  have hmem : ∀ q, q ∈ preorder s d root ↔ InMessage s root q :=
    fun q => ⟨inMessage_of_mem_preorder s d root q, mem_preorder_of_inMessage s d root hsh q⟩
  have hrun : ∃ F, ∀ fuel, F ≤ fuel →
      MsgPartNetAccessManager.cidToPart cid fuel s root =
        some ((childrenCount s root).1, Except.ok ((preorder s d root).find?
          (fun q => decide ((s.heap q).bodyFldId.data = cid)))) := by
    rcases hk with hk | hk
    · obtain ⟨F, hF⟩ := cidToPart_first_in_preorder cid s root d hmt hsh hlt hk
      refine ⟨F, fun fuel hf => ?_⟩
      rw [hF fuel hf]
      simp [childrenCount, hk, TreeItem.childrenCount]
    · obtain ⟨F, hF⟩ := cidToPartFrom_spec cid s hmt d root hlt (Or.inl hk) hsh
        (s.heap root).children 0 rfl
      refine ⟨F, fun fuel hf => ?_⟩
      unfold MsgPartNetAccessManager.cidToPart
      rw [hF fuel hf, preorder_eq s d root hsh]
      simp [childrenCount, hk, TreeItemPart.childrenCount]
  obtain ⟨F, hF⟩ := hrun
  refine ⟨d, F, hmem, hF, ?_, ?_⟩
  · rw [List.find?_eq_none]
    constructor
    · intro h q hq
      have := h q ((hmem q).2 hq)
      simpa using this
    · intro h q hq
      simpa using h q ((hmem q).1 hq)
  · intro p hp
    obtain ⟨h1, before, after, h2, h3⟩ := List.find?_eq_some.mp hp
    refine ⟨(hmem p).1 (List.mem_of_find?_eq_some hp), by simpa using h1, before, after, h2,
      fun q hq => ?_⟩
    simpa using h3 q hq

theorem cidToPart_finds_first_or_nothing_witness :
    MimeTree Example.duplicated ∧ 4 < Example.duplicated.next ∧
    (Example.duplicated.heap 4).kind = Kind.Message ∧
    shallow Example.duplicated 2 4 = true ∧
    preorder Example.duplicated 2 4 = [7, 8, 9, 10] ∧
    (MsgPartNetAccessManager.cidToPart "<a@x>".data 4 Example.duplicated 4).map
      (fun r => r.2) = some (Except.ok (some 9)) ∧
    (MsgPartNetAccessManager.cidToPart "<c@x>".data 9 Example.duplicated 4).map
      (fun r => r.2) = some (Except.ok none) ∧
    ∃ (d F : Nat),
      (∀ q, q ∈ preorder Example.duplicated d 4 ↔ InMessage Example.duplicated 4 q) ∧
      (∀ fuel, F ≤ fuel →
        MsgPartNetAccessManager.cidToPart "<a@x>".data fuel Example.duplicated 4 =
          some ((childrenCount Example.duplicated 4).1,
            Except.ok ((preorder Example.duplicated d 4).find?
              (fun q => decide ((Example.duplicated.heap q).bodyFldId.data = "<a@x>".data))))) ∧
      ((preorder Example.duplicated d 4).find?
          (fun q => decide ((Example.duplicated.heap q).bodyFldId.data = "<a@x>".data)) = none ↔
        ∀ q, InMessage Example.duplicated 4 q →
          (Example.duplicated.heap q).bodyFldId.data ≠ "<a@x>".data) ∧
      (∀ p, (preorder Example.duplicated d 4).find?
          (fun q => decide ((Example.duplicated.heap q).bodyFldId.data = "<a@x>".data))
            = some p →
        InMessage Example.duplicated 4 p ∧
        (Example.duplicated.heap p).bodyFldId.data = "<a@x>".data ∧
        ∃ before after, preorder Example.duplicated d 4 = before ++ p :: after ∧
          ∀ q, q ∈ before → (Example.duplicated.heap q).bodyFldId.data ≠ "<a@x>".data) :=
  ⟨by unfold MimeTree; decide, by decide, by decide, by decide, by decide, by decide,
    by decide,
    cidToPart_finds_first_or_nothing "<a@x>".data Example.duplicated 4
      (by unfold MimeTree; decide) (by decide) (Or.inl (by decide))
      (FiniteBelow.of_shallow Example.duplicated 2 4 (by decide))⟩

/-! ## Externals and the message shown -/

theorem renderings_append (a b : List ViewCall) :
    renderings (a ++ b) = renderings a ++ renderings b := by
  induction a with
  | nil => rfl
  | cons c cs ih =>
    cases c <;> simp [renderings, ih]

@[simp] theorem MessageView.calls_after_call (v : MessageView) (c : ViewCall) :
    (v.call c).calls = v.calls ++ [c] := rfl

@[simp] theorem MessageView.netAccess_after_call (v : MessageView) (c : ViewCall) :
    (v.call c).netAccess = v.netAccess := rfl

@[simp] theorem MessageView.message_after_call (v : MessageView) (c : ViewCall) :
    (v.call c).message = v.message := rfl

@[simp] theorem MessageView.viewer_after_call (v : MessageView) (c : ViewCall) :
    (v.call c).viewer = v.viewer := rfl

theorem ViewEffect.none (v : MessageView) : ViewEffect v v :=
  ⟨[], by simp, by simp, by simp, fun h => h⟩

theorem ViewEffect.quiet {v w : MessageView} (hr : renderings w.calls = renderings v.calls)
    (hn : w.netAccess = v.netAccess) : ViewEffect v w :=
  ⟨[], by simp [hr], by simp, by simp, fun h => by rw [hn] at h; exact h⟩

theorem ViewEffect.andThen {u v w : MessageView} (h1 : ViewEffect u v) (h2 : ViewEffect v w) :
    ViewEffect u w := by
  obtain ⟨m1, a1, b1, c1, d1⟩ := h1
  obtain ⟨m2, a2, b2, c2, d2⟩ := h2
  refine ⟨m1 ++ m2, by rw [a2, a1, List.append_assoc], ?_, ?_, fun h => d1 (d2 h)⟩
  · intro n hn
    rcases List.mem_append.mp hn with h | h
    · exact b1 n h
    · exact b2 n h
  · intro hne
    by_cases h2e : m2 = []
    · have h1e : m1 ≠ [] := by
        intro h; apply hne; rw [h, h2e]; rfl
      have hv := c1 h1e
      cases hw : w.netAccess._externalsEnabled with
      | false => rfl
      | true => rw [d2 hw] at hv; cases hv
    · exact c2 h2e

/-- `setEmpty` renders nothing, leaves the manager alone, and leaves the view without a
message and with the empty viewer. -/
theorem MessageView.setEmpty_quiet (v : MessageView) :
    renderings v.setEmpty.calls = renderings v.calls ∧ v.setEmpty.netAccess = v.netAccess ∧
    v.setEmpty.message = none ∧ v.setEmpty.viewer = Viewer.emptyView := by
  unfold MessageView.setEmpty
  by_cases hm : v.message.isSome = true <;> by_cases hv : v.viewer = Viewer.emptyView <;>
    simp [hm, hv, renderings_append, renderings]

theorem MessageView.replaceMessage_quiet (v : MessageView) (messageIndex : QModelIndex) :
    renderings (v.replaceMessage messageIndex).calls = renderings v.calls ∧
    (v.replaceMessage messageIndex).netAccess = v.netAccess ∧
    (v.replaceMessage messageIndex).message = messageIndex := by
  unfold MessageView.replaceMessage
  by_cases hm : v.message.isSome = true <;> by_cases hv : v.viewer = Viewer.emptyView <;>
    simp [hm, hv, renderings_append, renderings]

/-- The rendering is made by the manager with externals disabled and the current message set,
and that is the state of the manager afterwards. -/
theorem MessageView.renderParts_spec (env : ViewEnv) (v : MessageView)
    (rootPartIndex : QModelIndex) :
    renderings (v.renderParts env rootPartIndex).calls =
      renderings v.calls ++ [(v.renderParts env rootPartIndex).netAccess] ∧
    (v.renderParts env rootPartIndex).netAccess._externalsEnabled = false ∧
    (v.renderParts env rootPartIndex).netAccess.message = v.message ∧
    (v.renderParts env rootPartIndex).message = v.message ∧
    (v.renderParts env rootPartIndex).viewer = Viewer.widget rootPartIndex := by
  simp [MessageView.renderParts, renderings_append, renderings,
    MsgPartNetAccessManager.setExternalsEnabled, MsgPartNetAccessManager.setModelMessage]

theorem MessageView.showParts_quiet (v : MessageView) (messageIndex : QModelIndex) :
    renderings (v.showParts messageIndex).calls = renderings v.calls ∧
    (v.showParts messageIndex).netAccess = v.netAccess ∧
    (v.showParts messageIndex).message = v.message ∧
    (v.showParts messageIndex).viewer = v.viewer := by
  simp [MessageView.showParts, renderings_append, renderings]

theorem MessageView.startMarkAsReadTimer_quiet (env : ViewEnv) (v : MessageView) :
    renderings (v.startMarkAsReadTimer env).calls = renderings v.calls ∧
    (v.startMarkAsReadTimer env).netAccess = v.netAccess ∧
    (v.startMarkAsReadTimer env).message = v.message ∧
    (v.startMarkAsReadTimer env).viewer = v.viewer := by
  unfold MessageView.startMarkAsReadTimer
  split <;> simp [renderings_append, renderings]

/-- What `setMessage` does with respect to renderings and externals: either it renders
nothing and leaves the manager as it was, or it makes exactly one rendering, by the manager
with externals disabled and the new message set, which is the state of the manager
afterwards. -/
theorem MessageView.setMessage_spec (env : ViewEnv) (v : MessageView) (index : QModelIndex) :
    (renderings (MessageView.setMessage env v index).1.calls = renderings v.calls ∧
      (MessageView.setMessage env v index).1.netAccess = v.netAccess) ∨
    (renderings (MessageView.setMessage env v index).1.calls =
        renderings v.calls ++ [(MessageView.setMessage env v index).1.netAccess] ∧
      (MessageView.setMessage env v index).1.netAccess._externalsEnabled = false ∧
      (MessageView.setMessage env v index).1.netAccess.message = env.deproxifiedIndex index ∧
      (MessageView.setMessage env v index).1.message = env.deproxifiedIndex index ∧
      v.message ≠ env.deproxifiedIndex index ∧
      env.isFetched (env.deproxifiedIndex index) = true) := by
  by_cases h1 : index.isNone = true
  · simp [MessageView.setMessage, h1]
  by_cases h2 : (env.deproxifiedIndex index).isNone = true
  · simp [MessageView.setMessage, h1, h2]
  by_cases h3 : env.isFetched (env.deproxifiedIndex index) = true
  · by_cases h4 : v.message = env.deproxifiedIndex index
    · left
      have hsm : (MessageView.setMessage env v index).1 =
          MessageView.startMarkAsReadTimer env
            ((v.call (ViewCall.data (env.deproxifiedIndex index) "RolePartData")).call
              (ViewCall.widget "headerSection->show()")) := by
        simp [MessageView.setMessage, h1, h2, h3, h4]
      have ht := MessageView.startMarkAsReadTimer_quiet env
        ((v.call (ViewCall.data (env.deproxifiedIndex index) "RolePartData")).call
          (ViewCall.widget "headerSection->show()"))
      rw [hsm]
      exact ⟨by rw [ht.1]; simp [renderings_append, renderings], by rw [ht.2.1]; simp⟩
    · right
      have hsm : (MessageView.setMessage env v index).1 =
          MessageView.startMarkAsReadTimer env
            (((((v.call (ViewCall.data (env.deproxifiedIndex index) "RolePartData")).call
              (ViewCall.widget "headerSection->show()")).replaceMessage
                (env.deproxifiedIndex index)).renderParts env
                  (env.rootPart (env.deproxifiedIndex index))).showParts
                    (env.deproxifiedIndex index)) := by
        simp [MessageView.setMessage, h1, h2, h3, h4]
      rw [hsm]
      generalize hu : ((v.call (ViewCall.data (env.deproxifiedIndex index) "RolePartData")).call
        (ViewCall.widget "headerSection->show()")) = u
      have hu1 : renderings u.calls = renderings v.calls := by
        rw [← hu]; simp [renderings_append, renderings]
      have hr := MessageView.replaceMessage_quiet u (env.deproxifiedIndex index)
      have hp := MessageView.renderParts_spec env
        (u.replaceMessage (env.deproxifiedIndex index))
        (env.rootPart (env.deproxifiedIndex index))
      have hs := MessageView.showParts_quiet
        ((u.replaceMessage (env.deproxifiedIndex index)).renderParts env
          (env.rootPart (env.deproxifiedIndex index))) (env.deproxifiedIndex index)
      have ht := MessageView.startMarkAsReadTimer_quiet env
        (((u.replaceMessage (env.deproxifiedIndex index)).renderParts env
          (env.rootPart (env.deproxifiedIndex index))).showParts (env.deproxifiedIndex index))
      refine ⟨?_, ?_, ?_, ?_, h4, h3⟩
      · rw [ht.1, hs.1, hp.1, hr.1, hu1, ht.2.1, hs.2.1]
      · rw [ht.2.1, hs.2.1]; exact hp.2.1
      · rw [ht.2.1, hs.2.1, hp.2.2.1, hr.2.2]
      · rw [ht.2.2.1, hs.2.2.1, hp.2.2.2.1, hr.2.2]
  · left
    have hsm : (MessageView.setMessage env v index).1 =
        { ((v.call (ViewCall.data (env.deproxifiedIndex index) "RolePartData")).setEmpty.call
            (ViewCall.connectDataChanged (env.deproxifiedIndex index))) with
          message := env.deproxifiedIndex index } := by
      simp [MessageView.setMessage, h1, h2, h3]
    have he := MessageView.setEmpty_quiet
      (v.call (ViewCall.data (env.deproxifiedIndex index) "RolePartData"))
    rw [hsm]
    refine ⟨?_, he.2.1⟩
    simp only [MessageView.calls_after_call]
    rw [renderings_append, he.1]
    simp [renderings_append, renderings]

theorem ViewEffect.of_spec {v w : MessageView}
    (h : (renderings w.calls = renderings v.calls ∧ w.netAccess = v.netAccess) ∨
      (renderings w.calls = renderings v.calls ++ [w.netAccess] ∧
        w.netAccess._externalsEnabled = false)) : ViewEffect v w := by
  rcases h with ⟨h1, h2⟩ | ⟨h1, h2⟩
  · exact ViewEffect.quiet h1 h2
  · refine ⟨[w.netAccess], h1, ?_, fun _ => h2, fun h => ?_⟩
    · intro n hn
      rw [List.mem_singleton.mp hn]; exact h2
    · rw [h2] at h; cases h

theorem MessageView.setMessage_effect (env : ViewEnv) (v : MessageView)
    (index : QModelIndex) : ViewEffect v (MessageView.setMessage env v index).1 := by
  rcases MessageView.setMessage_spec env v index with h | h
  · exact ViewEffect.of_spec (Or.inl h)
  · exact ViewEffect.of_spec (Or.inr ⟨h.1, h.2.1⟩)

theorem MessageView.handleDataChanged_effect (env : ViewEnv) (v : MessageView)
    (topLeft bottomRight : QModelIndex) :
    ViewEffect v (MessageView.handleDataChanged env v topLeft bottomRight).1 := by
  unfold MessageView.handleDataChanged
  split
  · exact ViewEffect.none v
  split
  · split
    · have he := MessageView.setEmpty_quiet v
      have h1 : ViewEffect v v.setEmpty := ViewEffect.quiet he.1 he.2.1
      have h2 := MessageView.setMessage_effect env v.setEmpty topLeft
      generalize MessageView.setMessage env v.setEmpty topLeft = r at h2
      obtain ⟨w, res⟩ := r
      cases res with
      | error e => exact h1.andThen h2
      | ok u =>
        exact (h1.andThen h2).andThen
          (ViewEffect.quiet (by simp [renderings_append, renderings]) rfl)
    · exact ViewEffect.quiet (by simp [renderings_append, renderings]) rfl
  · exact ViewEffect.none v

/-- Every call but `externalsEnabled` has the effect `ViewEffect`. -/
theorem MessageView.step_effect (env : ViewEnv) (op : ViewOp) (v : MessageView)
    (hop : op ≠ ViewOp.externalsEnabled) : ViewEffect v (MessageView.step env op v).1 := by
  cases op with
  | setEmpty =>
    have he := MessageView.setEmpty_quiet v
    exact ViewEffect.quiet he.1 he.2.1
  | setMessage index => exact MessageView.setMessage_effect env v index
  | handleDataChanged topLeft bottomRight =>
    exact MessageView.handleDataChanged_effect env v topLeft bottomRight
  | externalsRequested url =>
    exact ViewEffect.quiet (by simp [MessageView.step, MessageView.externalsRequested,
      renderings_append, renderings]) rfl
  | externalsEnabled => exact absurd rfl hop

/-- `externalsEnabled` renders nothing anew. -/
theorem MessageView.externalsEnabled_renderings (env : ViewEnv) (v : MessageView) :
    renderings (MessageView.externalsEnabled env v).calls = renderings v.calls := by
  by_cases h : env.abstractPartWidget v.viewer = true <;>
    simp [MessageView.externalsEnabled, h, renderings_append, renderings]

/-- The renderings that any call adds were made with externals disabled. -/
theorem MessageView.step_renderings (env : ViewEnv) (op : ViewOp) (v : MessageView) :
    ∃ made, renderings (MessageView.step env op v).1.calls = renderings v.calls ++ made ∧
      ∀ n, n ∈ made → n._externalsEnabled = false := by
  by_cases hop : op = ViewOp.externalsEnabled
  · subst hop
    exact ⟨[], by simp [MessageView.step, MessageView.externalsEnabled_renderings], by simp⟩
  · obtain ⟨made, h1, h2, _⟩ := MessageView.step_effect env op v hop
    exact ⟨made, h1, h2⟩

theorem MessageView.run_renderings (ops : List (ViewEnv × ViewOp)) :
    ∀ v : MessageView, ∃ made,
      renderings (MessageView.run ops v).1.calls = renderings v.calls ++ made ∧
      ∀ n, n ∈ made → n._externalsEnabled = false := by
  induction ops with
  | nil => intro v; exact ⟨[], by simp [MessageView.run], by simp⟩
  | cons x rest ih =>
    intro v
    obtain ⟨env, op⟩ := x
    obtain ⟨m1, a1, b1⟩ := MessageView.step_renderings env op v
    rw [MessageView.run]
    generalize MessageView.step env op v = r at a1
    obtain ⟨w, res⟩ := r
    cases res with
    | error e => exact ⟨m1, a1, b1⟩
    | ok u =>
      obtain ⟨m2, a2, b2⟩ := ih w
      refine ⟨m1 ++ m2, ?_, ?_⟩
      · simp only at a1 ⊢
        rw [a2, a1, List.append_assoc]
      · intro n hn
        rcases List.mem_append.mp hn with h | h
        · exact b1 n h
        · exact b2 n h

theorem MessageView.run_effect (ops : List (ViewEnv × ViewOp)) :
    ∀ v : MessageView, (∀ x, x ∈ ops → x.2 ≠ ViewOp.externalsEnabled) →
      ViewEffect v (MessageView.run ops v).1 := by
  induction ops with
  | nil => intro v _; exact ViewEffect.none v
  | cons x rest ih =>
    intro v hx
    obtain ⟨env, op⟩ := x
    have h1 := MessageView.step_effect env op v (hx (env, op) (List.mem_cons_self _ _))
    rw [MessageView.run]
    generalize MessageView.step env op v = r at h1
    obtain ⟨w, res⟩ := r
    cases res with
    | error e => exact h1
    | ok u => exact h1.andThen (ih w (fun y hy => hx y (List.mem_cons_of_mem _ hy)))

theorem MessageView.run_append (pre post : List (ViewEnv × ViewOp)) :
    ∀ v : MessageView, (MessageView.run pre v).2 = Except.ok () →
      MessageView.run (pre ++ post) v = MessageView.run post (MessageView.run pre v).1 := by
  induction pre with
  | nil => intro v _; rfl
  | cons x rest ih =>
    intro v hok
    obtain ⟨env, op⟩ := x
    rw [List.cons_append, MessageView.run]
    rw [MessageView.run] at hok ⊢
    generalize MessageView.step env op v = r at hok ⊢
    obtain ⟨w, res⟩ := r
    cases res with
    | error e => cases hok
    | ok u => exact ih w hok

/-- C39: over every sequence of calls of `setEmpty`, `setMessage`, `handleDataChanged`,
`externalsRequested` and `externalsEnabled`, whatever the surroundings are at each call:
every rendering of the parts of a message (`factory->walk`) made on the way was made by the
manager with externals disabled; `setMessage` either renders nothing and leaves the manager
as it was, or renders a fetched message different from the current one, through the manager
set to that message with externals disabled; without a call of `externalsEnabled` externals
are enabled at the end only if they were at the start; and after a call that has rendered,
externals are disabled until the next `externalsEnabled`.  A new view has them disabled. -/
theorem externals_never_carry_over (ops : List (ViewEnv × ViewOp)) (v : MessageView) :
    (∃ made, renderings (MessageView.run ops v).1.calls = renderings v.calls ++ made ∧
      ∀ n, n ∈ made → n._externalsEnabled = false) ∧
    (∀ (env : ViewEnv) (index : QModelIndex),
      (renderings (MessageView.setMessage env v index).1.calls = renderings v.calls ∧
        (MessageView.setMessage env v index).1.netAccess = v.netAccess) ∨
      (renderings (MessageView.setMessage env v index).1.calls =
          renderings v.calls ++ [(MessageView.setMessage env v index).1.netAccess] ∧
        (MessageView.setMessage env v index).1.netAccess._externalsEnabled = false ∧
        (MessageView.setMessage env v index).1.netAccess.message =
          env.deproxifiedIndex index ∧
        (MessageView.setMessage env v index).1.message = env.deproxifiedIndex index ∧
        v.message ≠ env.deproxifiedIndex index ∧
        env.isFetched (env.deproxifiedIndex index) = true)) ∧
    ((∀ x, x ∈ ops → x.2 ≠ ViewOp.externalsEnabled) →
      (MessageView.run ops v).1.netAccess._externalsEnabled = true →
      v.netAccess._externalsEnabled = true) ∧
    (∀ (pre post : List (ViewEnv × ViewOp)) (env : ViewEnv) (op : ViewOp),
      ops = pre ++ (env, op) :: post →
      (MessageView.run pre v).2 = Except.ok () →
      renderings (MessageView.step env op (MessageView.run pre v).1).1.calls ≠
        renderings (MessageView.run pre v).1.calls →
      (∀ x, x ∈ post → x.2 ≠ ViewOp.externalsEnabled) →
      (MessageView.run ops v).1.netAccess._externalsEnabled = false) ∧
    MessageView.create.netAccess._externalsEnabled = false := by
  refine ⟨MessageView.run_renderings ops v,
    fun env index => MessageView.setMessage_spec env v index, ?_, ?_, rfl⟩
  · intro hops
    exact (MessageView.run_effect ops v hops).choose_spec.2.2.2
  · intro pre post env op hsplit hok hrender hpost
    subst hsplit
    rw [MessageView.run_append pre _ v hok, MessageView.run]
    by_cases hop : op = ViewOp.externalsEnabled
    · subst hop
      exact absurd (MessageView.externalsEnabled_renderings env _) hrender
    · obtain ⟨made, h1, _, h3, _⟩ :=
        MessageView.step_effect env op (MessageView.run pre v).1 hop
      have hne : made ≠ [] := by
        intro hnil
        apply hrender
        rw [h1, hnil, List.append_nil]
      have hflag := h3 hne
      generalize MessageView.step env op (MessageView.run pre v).1 = r at hflag
      obtain ⟨w, res⟩ := r
      cases res with
      | error e => exact hflag
      | ok u =>
        have heff := MessageView.run_effect post w hpost
        obtain ⟨_, _, _, _, h4⟩ := heff
        cases hfin : (MessageView.run post w).1.netAccess._externalsEnabled with
        | false => rfl
        | true =>
          have := h4 hfin
          simp only at hflag
          rw [hflag] at this
          cases this

theorem externals_never_carry_over_witness :
    (renderings (MessageView.run Example.browsing MessageView.create).1.calls).map
      (fun n => (n.message, n._externalsEnabled)) = [(some 4, false), (some 5, false)] ∧
    (MessageView.run (Example.browsing.take 3) MessageView.create).1.netAccess._externalsEnabled
      = true ∧
    (MessageView.run (Example.browsing.take 4) MessageView.create).1.viewer
      = Viewer.emptyView ∧
    (MessageView.run (Example.browsing.take 4) MessageView.create).1.netAccess._externalsEnabled
      = true ∧
    (MessageView.run Example.browsing MessageView.create).1.viewer
      = Viewer.widget (some 105) ∧
    (MessageView.run Example.browsing MessageView.create).1.message = some 5 ∧
    (MessageView.run Example.browsing MessageView.create).1.netAccess._externalsEnabled
      = false :=
  ⟨by decide, by decide, by decide, by decide, by decide, by decide,
    (externals_never_carry_over Example.browsing MessageView.create).2.2.2.1
      (Example.browsing.take 4) [] (Example.viewEnv [4, 5])
      (ViewOp.handleDataChanged (some 5) (some 5)) rfl (by decide) (by decide)
      (by intro x hx; cases hx)⟩

end Mailbox
end Imap
